import Mathlib

/-!
# The qi evaluator (`executor::init`, `executor::run`)

A shallow embedding of `src/executor.cpp`.  The executor walks a program tree
(`ast_node`) and threads three control flags (`has_return`, `has_continue`,
`has_break`) through a recursive visitor.  Objects are reached through
pointers in the C++ code, so the embedding keeps an explicit heap (a list of
objects; a pointer is an index into it, `new` appends).

The collaborators whose code is not part of `executor.cpp` are handled in two
ways.  The value model (`object`), the token tables and
`interpreter::declare_obj` are parameters, gathered in `Env`.  The scope
environment (`memory`) and the fatal-error routine (`err`) are modelled from
the specification.  Recursion (loops, calls) is bounded by a fuel argument;
`Res.out_of_fuel` is the only outcome that depends on it.
-/

namespace Qi

/-! ## Program trees -/

/-- Modelled from the spec: the token categories (`token.h` is not part of
the sources at hand); the spec lists group, control keyword, builtin
operator, symbol, numeric literal and string literal. -/
inductive token_type
  | t_group | t_control | t_builtin | t_symbol | t_num | t_str
  deriving DecidableEq, Repr

/-- A token: its text `val`, its category `type`, the declared operand count
`ops` and the source line. -/
structure token where
  val : String
  type : token_type
  ops : Nat
  line : Nat
  deriving DecidableEq, Repr

/-- A tree node: a token and its ordered children. -/
inductive ast_node where
  | mk (val : token) (children : List ast_node)

/-- The token of a node (`u->val`). -/
def ast_node.val : ast_node → token
  | .mk v _ => v

/-- The children of a node (`u->children`). -/
def ast_node.children : ast_node → List ast_node
  | .mk _ cs => cs

/-! ## Runtime values -/

/-- Modelled from the spec: the runtime type tags (`object.h` is not part of
the sources at hand); the spec lists none, boolean, number, string, array and
function. -/
inductive o_type
  | o_none | o_bool | o_num | o_str | o_arr | o_fn
  deriving DecidableEq, Repr

/-- A declared parameter of a function value (`f_params[i].type`,
`f_params[i].symbol`). -/
structure f_param where
  type : o_type
  symbol : String
  deriving DecidableEq, Repr

/-- The `store` variant of an object.  `d` holds a `double`, kept as the
rational it stands for (every finite `double` is one); what an operation does
to it, rounding included, is up to the value model.  `q` holds the element
pointers of a collection; `mono` is an empty store. -/
inductive store_t
  | mono
  | b (v : Bool)
  | d (v : Rat)
  | s (v : String)
  | q (v : List Nat)
  deriving DecidableEq

/-- A runtime object: type tag, store, and for function values the parameter
list, the body tree and the declared return type. -/
structure object where
  type : o_type
  store : store_t
  f_params : List f_param
  f_body : Option ast_node
  f_return : o_type

/-! ## Scope environment -/

/-- Modelled from the spec: a scope frame of `memory` (`memory.h` is not part
of the sources at hand), a mapping from names to owned values, kept as an
association list in which the first entry of a name is the live one. -/
abbrev Frame := List (String × Nat)

/-- Modelled from the spec: `memory::has`; lookup walks the frames from the
innermost (the head) outwards, the innermost frame shadowing the outer ones. -/
def memory.has (m : List Frame) (name : String) : Bool :=
  m.any (fun f => (f.lookup name).isSome)

/-- Modelled from the spec: `memory::get`, the value bound to a name in the
innermost frame that has it. -/
def memory.get (m : List Frame) (name : String) : Option Nat :=
  m.findSome? (fun f => f.lookup name)

/-- Modelled from the spec: `memory::add`, insertion into the current
(innermost) frame; an older entry of the same name in that frame is
replaced. -/
def memory.add (m : List Frame) (name : String) (a : Nat) : List Frame :=
  match m with
  | [] => [[(name, a)]]
  | f :: fs => ((name, a) :: f.filter (fun e => e.1 != name)) :: fs

/-- Modelled from the spec: `memory::remove`, removal of a name from the
current (innermost) frame. -/
def memory.remove (m : List Frame) (name : String) : List Frame :=
  match m with
  | [] => []
  | f :: fs => f.filter (fun e => e.1 != name) :: fs

/-- Modelled from the spec: `memory::push`, a new empty innermost frame. -/
def memory.push (m : List Frame) : List Frame := [] :: m

/-- Modelled from the spec: `memory::pop`, dropping the innermost frame. -/
def memory.pop (m : List Frame) : List Frame := m.tail

/-! ## Machine state and outcomes -/

/-- The ways an evaluation stops abnormally. -/
inductive Failure
  /-- Modelled from the spec: `err(msg)` / `err(msg, line)` of `util.h`
  reports the message (and line) and aborts evaluation. -/
  | err (msg : String) (line : Option Nat)
  /-- `std::get` on a variant holding another alternative. -/
  | bad_variant_access
  /-- `std::stod` found no number to convert. -/
  | invalid_argument
  /-- An out-of-range vector access or an invalid pointer. -/
  | undefined_behaviour
  deriving DecidableEq

/-- The state the executor works on: the object heap, the scope stack, the
pending input lines, the text written so far, and the fields of the running
`executor` (three flags and the return slot). -/
structure State where
  heap : List object
  mem : List Frame
  input : List String
  output : List String
  has_return : Bool
  has_continue : Bool
  has_break : Bool
  return_val : Option Nat

/-- The guard of `run`: some flag is set. -/
def State.flagged (s : State) : Bool :=
  s.has_return || s.has_continue || s.has_break

/-- Outcome of an evaluation: a value with the state reached, a failure with
the state at the point of failure, or exhaustion of the fuel. -/
inductive Res (α : Type) where
  | ok (a : α) (s : State)
  | fail (e : Failure) (s : State)
  | out_of_fuel

/-- State-passing computations. -/
def M (α : Type) : Type := State → Res α

/-- Sequencing: a failure or fuel exhaustion of the first part ends the
computation. -/
def M.bind {α β : Type} (x : M α) (f : α → M β) : M β := fun s =>
  match x s with
  | .ok a s1 => f a s1
  | .fail e s1 => .fail e s1
  | .out_of_fuel => .out_of_fuel

instance : Monad M where
  pure a := fun s => .ok a s
  bind := M.bind

/-- Abort with a failure. -/
def M.fail {α : Type} (e : Failure) : M α := fun s => .fail e s

/-- Call `err(msg, line)`. -/
def M.err {α : Type} (msg : String) (line : Option Nat) : M α :=
  M.fail (.err msg line)

/-- Read the state. -/
def M.get : M State := fun s => .ok s s

/-- Transform the state. -/
def M.modify (f : State → State) : M Unit := fun s => .ok () (f s)

/-- Lift a heap-level fallible result. -/
def M.ofExcept {α : Type} : Except Failure α → M α
  | .ok a => pure a
  | .error e => M.fail e

/-! ## Parameters: the collaborators outside `executor.cpp` -/

/-- The parts of the repository the executor calls but whose code is not in
`executor.cpp`: the token tables, `interpreter::declare_obj`, the value model
and the standard-library number parser. -/
structure Env where
  /-- Membership in `token::vars`. -/
  vars : String → Bool
  /-- Membership in `token::control`. -/
  control : String → Bool
  /-- Membership in `token::methods`. -/
  methods : String → Bool
  /-- The integer value of a `token_type` enumerator. -/
  type_code : token_type → Nat
  /-- `interpreter::declare_obj({type token, name token})`: it works on the
  heap and the scope stack. -/
  declare_obj : token → token → List object → List Frame →
    Except Failure (List object × List Frame)
  /-- The object a constructor call `object(type)` builds. -/
  construct : o_type → object
  /-- `object::set(value)` on the object at a pointer. -/
  set : store_t → List object → Nat → Except Failure (List object)
  /-- `object::is_int()`. -/
  is_int : List object → Nat → Except Failure Bool
  /-- `object::str()`. -/
  str : List object → Nat → Except Failure String
  /-- A method of `object`, by its C++ name, applied to a receiver and
  argument pointers; it yields the new heap and the returned pointer. -/
  method : String → List object → Nat → List Nat →
    Except Failure (List object × Nat)
  /-- `object::rand()`. -/
  rand : List object → Except Failure (List object × Nat)
  /-- `std::stod(text, &offset)`: the value and the number of characters
  consumed, or nothing when no conversion can be made. -/
  stod : String → Option (Rat × Nat)

/-! ## Elementary operations -/

/-- The double-quote character, used in error messages. -/
def dq : String := String.singleton (Char.ofNat 34)

/-- The line terminator written by `std::endl`. -/
def endl : String := String.singleton (Char.ofNat 10)

/-- Dereference a pointer; a pointer outside the heap is undefined
behaviour. -/
def deref (a : Nat) : M object := fun s =>
  match s.heap[a]? with
  | some o => .ok o s
  | none => .fail .undefined_behaviour s

/-- Allocate an object at the end of the heap and return its pointer. -/
def alloc (o : object) : M Nat := fun s =>
  .ok s.heap.length { s with heap := s.heap ++ [o] }

/-- The expression `new object(t)`; `new object()` is `new_object env .o_none`. -/
def new_object (env : Env) (t : o_type) : M Nat := alloc (env.construct t)

/-- The expression `std::get<bool>(a->store)`. -/
def get_bool (a : Nat) : M Bool := fun s =>
  match deref a s with
  | .ok o s1 =>
    match o.store with
    | .b v => .ok v s1
    | _ => .fail .bad_variant_access s1
  | .fail e s1 => .fail e s1
  | .out_of_fuel => .out_of_fuel

/-- The expression `std::get<double>(a->store)`. -/
def get_double (a : Nat) : M Rat := fun s =>
  match deref a s with
  | .ok o s1 =>
    match o.store with
    | .d v => .ok v s1
    | _ => .fail .bad_variant_access s1
  | .fail e s1 => .fail e s1
  | .out_of_fuel => .out_of_fuel

/-- Call a method of the value model on a receiver. -/
def call (env : Env) (name : String) (recv : Nat) (args : List Nat) : M Nat := fun s =>
  match env.method name s.heap recv args with
  | .ok (h, a) => .ok a { s with heap := h }
  | .error e => .fail e s

/-- The call `a->set(v)`. -/
def set_store (env : Env) (v : store_t) (a : Nat) : M Unit := fun s =>
  match env.set v s.heap a with
  | .ok h => .ok () { s with heap := h }
  | .error e => .fail e s

/-- The call `a->is_int()`. -/
def is_int (env : Env) (a : Nat) : M Bool := fun s =>
  match env.is_int s.heap a with
  | .ok b => .ok b s
  | .error e => .fail e s

/-- The call `a->str()`. -/
def str (env : Env) (a : Nat) : M String := fun s =>
  match env.str s.heap a with
  | .ok b => .ok b s
  | .error e => .fail e s

/-- Write text to the standard output. -/
def write (t : String) : M Unit :=
  M.modify (fun s => { s with output := s.output ++ [t] })

/-- The call `std::getline(std::cin, in)`: the next pending line, or the empty
string at the end of the input. -/
def getline : M String := fun s =>
  match s.input with
  | [] => .ok "" s
  | l :: ls => .ok l { s with input := ls }

/-- The element access `u->children[i]`; an index outside the vector is
undefined behaviour. -/
def child (u : ast_node) (i : Nat) : M ast_node := fun s =>
  match u.children[i]? with
  | some c => .ok c s
  | none => .fail .undefined_behaviour s

/-- The element access `sub[i]`. -/
def sub_at (sub : List Nat) (i : Nat) : M Nat := fun s =>
  match sub[i]? with
  | some a => .ok a s
  | none => .fail .undefined_behaviour s

/-- The call `sub.back()`. -/
def sub_back (sub : List Nat) : M Nat := fun s =>
  match sub.getLast? with
  | some a => .ok a s
  | none => .fail .undefined_behaviour s

/-- The statement `if (has_continue) has_continue = false;`. -/
def clear_continue (s : State) : State :=
  if s.has_continue then { s with has_continue := false } else s

/-- The assignment `has_break = false;`. -/
def clear_break (s : State) : State := { s with has_break := false }

/-! ## `executor::init` -/

/-- The first three statements of `init`: the flags are reset. -/
def reset (s : State) : State :=
  { s with has_return := false, has_continue := false, has_break := false }

/-- The body of `executor::init` for an executor over `tree` with enclosing
function `parent`, given the evaluator `rec` for the tree. -/
def init_with (rec : ast_node → M Nat) (tree : ast_node) (parent : Nat) : M Nat := do
  M.modify reset
  let res ← rec tree
  let s ← M.get
  let p ← deref parent
  if s.has_return && p.f_return == .o_none then
    M.err "none function returned non-none object" none
  else if !s.has_return && p.f_return != .o_none then
    M.err "non-none function returned none" none
  else
    match s.has_return, s.return_val with
    | true, none => M.fail .undefined_behaviour
    | true, some rv => do
      let r ← deref rv
      if r.type != p.f_return then
        M.err "function return type does not match returned object type" none
      else if s.has_continue then M.err "continue called outside loop" none
      else if s.has_break then M.err "break called outside loop" none
      else pure rv
    | false, _ =>
      if s.has_continue then M.err "continue called outside loop" none
      else if s.has_break then M.err "break called outside loop" none
      else pure res

/-! ## `executor::run` -/

/-- The loop `for (ast_node &v : children) sub.push_back(run(&v));`. -/
def run_children (rec : ast_node → M Nat) : List ast_node → M (List Nat)
  | [] => pure []
  | c :: cs => do
    let a ← rec c
    let rest ← run_children rec cs
    pure (a :: rest)

/-- The negation of the test `i == 0 || (children[i - 1].val.val != "if" &&
children[i - 1].val.val != "elsif")`, for the preceding sibling `prev`
(`none` when `i == 0`). -/
def follows_if (prev : Option ast_node) : Bool :=
  match prev with
  | none => false
  | some p => p.val.val == "if" || p.val.val == "elsif"

/-- The group branch: the loop over the children from index `i` on, `prev`
being child `i - 1` and `sub` the results recorded so far. -/
def run_group (rec : ast_node → M Nat) :
    Option ast_node → List Nat → List ast_node → M Unit
  | _, _, [] => pure ()
  | prev, sub, c :: cs => do
    let s ← M.get
    if s.flagged then run_group rec (some c) sub cs
    else if c.val.val = "elsif" then
      if !follows_if prev then M.err "elsif must follow if or elsif" (some c.val.line)
      else do
        let last ← sub_back sub
        if (← get_bool last) then run_group rec (some c) (sub ++ [last]) cs
        else do
          let r ← rec c
          run_group rec (some c) (sub ++ [r]) cs
    else if c.val.val = "else" then
      if !follows_if prev then M.err "else must follow if or elsif" (some c.val.line)
      else do
        let last ← sub_back sub
        if (← get_bool last) then run_group rec (some c) sub cs
        else do
          let r ← rec c
          run_group rec (some c) (sub ++ [r]) cs
    else do
      let r ← rec c
      run_group rec (some c) (sub ++ [r]) cs

/-- The `if` / `elsif` branch. -/
def run_if (env : Env) (rec : ast_node → M Nat) (u : ast_node) : M Nat := do
  let ret ← new_object env .o_bool
  let c ← child u 0
  let v ← rec c
  let tb ← call env "to_bool" v []
  if (← get_bool tb) then do
    let b ← child u 1
    let _ ← rec b
    set_store env (.b true) ret
    pure ret
  else do
    set_store env (.b false) ret
    pure ret

/-- The `while` loop; `k` bounds the number of iterations. -/
def while_loop (env : Env) (rec : ast_node → M Nat) (u : ast_node) : Nat → M Unit
  | 0 => fun _ => .out_of_fuel
  | k + 1 => do
    let c ← child u 0
    let v ← rec c
    let tb ← call env "to_bool" v []
    if (← get_bool tb) then do
      let b ← child u 1
      let _ ← rec b
      M.modify clear_continue
      let s ← M.get
      if s.has_break then M.modify clear_break
      else while_loop env rec u k
    else pure ()

/-- The loop over the arguments of `range(...)`: each is evaluated and must
pass `is_int`. -/
def run_range_args (env : Env) (rec : ast_node → M Nat) : List ast_node → M (List Nat)
  | [] => pure []
  | v :: vs => do
    let a ← rec v
    if !(← is_int env a) then M.err "range arg must be integers" (some v.val.line)
    else do
      let rest ← run_range_args env rec vs
      pure (a :: rest)

/-- The loop `for (it->equal(start); it->less_than(end); it->add_equal(every))`
from its test on; `k` bounds the number of iterations. -/
def for_loop (env : Env) (rec : ast_node → M Nat) (u : ast_node)
    (it end_ every : Nat) : Nat → M Unit
  | 0 => fun _ => .out_of_fuel
  | k + 1 => do
    let lt ← call env "less_than" it [end_]
    if (← get_bool lt) then do
      let b ← child u 1
      let _ ← rec b
      M.modify clear_continue
      let s ← M.get
      if s.has_break then M.modify clear_break
      else do
        let _ ← call env "add_equal" it [every]
        for_loop env rec u it end_ every k
    else pure ()

/-- The `switch (range.children.size())` that sets `start`, `end` and
`every` from the evaluated arguments. -/
def set_bounds (env : Env) (range : ast_node) (sub : List Nat)
    (start end_ every : Nat) : M Unit :=
  match range.children.length with
  | 1 => do
    set_store env (.d (← get_double (← sub_at sub 0))) end_
  | 2 => do
    set_store env (.d (← get_double (← sub_at sub 0))) start
    set_store env (.d (← get_double (← sub_at sub 1))) end_
  | 3 => do
    set_store env (.d (← get_double (← sub_at sub 0))) start
    set_store env (.d (← get_double (← sub_at sub 1))) end_
    set_store env (.d (← get_double (← sub_at sub 2))) every
  | _ => M.err "range must have 1-3 arguments" (some range.val.line)

/-- The `for` branch. -/
def run_for (env : Env) (rec : ast_node → M Nat) (k : Nat) (u : ast_node) : M Unit := do
  if u.children.length ≠ 2 then M.err "invalid for loop structure" (some u.val.line)
  else do
  let of_node ← child u 0
  if of_node.val.val ≠ "of" then
    M.err "must have of in for loop expression" (some of_node.val.line)
  else if of_node.children.length ≠ 2 then
    M.err "of must have 2 children" (some of_node.val.line)
  else do
  let lhs ← child of_node 0
  if lhs.val.type ≠ .t_symbol then
    M.err "left hand operand must be a symbol" (some lhs.val.line)
  else if memory.has (← M.get).mem lhs.val.val then
    M.err "for loop variable already defined" (some lhs.val.line)
  else do
  let it ← new_object env .o_num
  let start ← new_object env .o_num
  let end_ ← new_object env .o_num
  let every ← new_object env .o_num
  M.modify (fun s => { s with mem := memory.add s.mem lhs.val.val it })
  set_store env (.d 0) start
  set_store env (.d 0) end_
  set_store env (.d 1) every
  let range ← child of_node 1
  if range.val.val ≠ "range" then
    M.err "right hand operand must be range(...)" (some of_node.val.line)
  else do
  let sub ← run_range_args env rec range.children
  if range.children.length < 1 ∨ range.children.length > 3 then
    M.err "range must have 1-3 arguments" (some range.val.line)
  else do
  set_bounds env range sub start end_ every
  let _ ← call env "equal" it [start]
  for_loop env rec u it end_ every k
  M.modify (fun s => { s with mem := memory.remove s.mem lhs.val.val })

/-- The member-call operator `.`: the target is evaluated first, then the
call is dispatched on the method name. -/
def run_dot (env : Env) (rec : ast_node → M Nat) (u : ast_node) : M Nat := do
  let target ← rec (← child u 0)
  let m ← child u 1
  let method := m.val.val
  if method = "push" then
    if m.children.length ≠ 1 then M.err "push requires 1 argument" (some m.val.line)
    else do
      let arg ← rec (← child m 0)
      call env "push" target [arg]
  else if method = "pop" then call env "pop" target []
  else if method = "len" then call env "len" target []
  else if method = "empty" then call env "empty" target []
  else if method = "find" then
    if m.children.length ≠ 1 then M.err "find requires 1 argument" (some m.val.line)
    else do
      let arg ← rec (← child m 0)
      call env "find" target [arg]
  else if method = "reverse" then call env "reverse" target []
  else if method = "fill" then
    if m.children.length ≠ 3 then M.err "fill requires 3 arguments" (some m.val.line)
    else do
      let arg1 ← rec (← child m 0)
      let arg2 ← rec (← child m 1)
      let arg3 ← rec (← child m 2)
      call env "fill" target [arg1, arg2, arg3]
  else if method = "at" then
    if m.children.length ≠ 1 then M.err "at requires 1 argument" (some m.val.line)
    else do
      let arg ← rec (← child m 0)
      call env "at" target [arg]
  else if method = "next" then call env "next" target []
  else if method = "last" then call env "last" target []
  else if method = "sub" then
    match m.children.length with
    | 0 => call env "sub" target []
    | 1 => do
      let arg ← rec (← child m 0)
      call env "sub" target [arg]
    | 2 => do
      let arg1 ← rec (← child m 0)
      let arg2 ← rec (← child m 1)
      call env "sub" target [arg1, arg2]
    | 3 => do
      let arg1 ← rec (← child m 0)
      let arg2 ← rec (← child m 1)
      let arg3 ← rec (← child m 2)
      call env "sub" target [arg1, arg2, arg3]
    | _ => M.err "sub requires 0 to 3 arguments" none
  else if method = "clear" then call env "clear" target []
  else if method = "sort" then call env "sort" target []
  else M.err ("unknown method " ++ dq ++ method ++ dq) (some u.val.line)

/-- The input operator `in`. -/
def run_in (env : Env) (rec : ast_node → M Nat) (u : ast_node) : M Nat := do
  let var ← rec (← child u 0)
  let line ← getline
  let o ← deref var
  match o.type with
  | .o_num =>
    match env.stod line with
    | none => M.fail .invalid_argument
    | some (self, offset) =>
      if offset ≠ line.utf8ByteSize then M.err "invalid number in input" (some u.val.line)
      else do
        set_store env (.d self) var
        new_object env .o_none
  | .o_str => do
    set_store env (.s line) var
    new_object env .o_none
  | _ => M.err "unsupported input type" (some u.val.line)

/-- The binary operators of the ladder, each with the name of the `object`
method the code calls for it, in the order of the source. -/
def ladder : List (String × String) :=
  [("=", "equal"), ("+", "add"), ("-", "subtract"), ("*", "multiply"),
   ("**", "power"), ("/", "divide"), ("//", "truncate_divide"), ("%", "modulo"),
   ("^", "b_xor"), ("|", "b_or"), ("&", "b_and"), (">>", "b_right_shift"),
   ("<<", "b_left_shift"), (">", "greater_than"), ("<", "less_than"),
   ("==", "equals"), ("!=", "not_equals"), (">=", "greater_than_equal_to"),
   ("<=", "less_than_equal_to"), ("+=", "add_equal"), ("-=", "subtract_equal"),
   ("*=", "multiply_equal"), ("**=", "power_equal"), ("/=", "divide_equal"),
   ("//=", "truncate_divide_equal"), ("%=", "modulo_equal"), ("^=", "b_xor_equal"),
   ("|=", "b_or_equal"), ("&=", "b_and_equal"), (">>=", "b_right_shift_equal"),
   ("<<=", "b_right_shift_equal"), ("and", "_and"), ("or", "_or")]

/-- The operator ladder, entered after all children have been evaluated into
`sub`. -/
def run_ladder (env : Env) (u : ast_node) (sub : List Nat) : M Nat :=
  if u.val.val = "out" then do
    write (← str env (← sub_at sub 0))
    new_object env .o_none
  else if u.val.val = "outl" then do
    write (← str env (← sub_at sub 0))
    write endl
    new_object env .o_none
  else
    match ladder.lookup u.val.val with
    | some name => do
      let a ← sub_at sub 0
      let b ← sub_at sub 1
      call env name a [b]
    | none =>
      if u.val.val = "not" then do
        call env "_not" (← sub_at sub 0) []
      else if u.val.val = "return" then do
        let v ← sub_at sub 0
        let o ← deref v
        let slot ← new_object env o.type
        M.modify (fun s => { s with return_val := some slot })
        let _ ← call env "equal" slot [v]
        M.modify (fun s => { s with has_return := true })
        pure v
      else
        M.err ("operator " ++ dq ++ u.val.val ++ dq ++ " not implemented") (some u.val.line)

/-- The builtin-operator branch. -/
def run_builtin (env : Env) (rec : ast_node → M Nat) (u : ast_node) : M Nat := do
  if u.val.ops ≠ u.children.length then do
    write (toString u.children.length)
    write endl
    M.err ("incorrect number of children for operation " ++ dq ++ u.val.val ++ dq)
      (some u.val.line)
  else if u.val.val = "." then run_dot env rec u
  else if u.val.val = "in" then run_in env rec u
  else if u.val.val = "continue" then do
    M.modify (fun s => { s with has_continue := true })
    new_object env .o_none
  else if u.val.val = "break" then do
    M.modify (fun s => { s with has_break := true })
    new_object env .o_none
  else do
    let sub ← run_children rec u.children
    run_ladder env u sub

/-- The loop that binds the parameters of a called function in the new
frame, from index `i` on; `obj` is the function object and `k` bounds the
number of iterations. -/
def bind_params (env : Env) (u : ast_node) (obj : Nat) (sub : List Nat) :
    Nat → Nat → M Unit
  | 0, _ => fun _ => .out_of_fuel
  | k + 1, i => do
    let f ← deref obj
    match f.f_params[i]? with
    | none => pure ()
    | some fp => do
      let param ← new_object env .o_none
      let _ ← call env "equal" param [← sub_at sub i]
      if (← deref param).type ≠ fp.type then
        M.err "parameter types don't match" (some (← child u i).val.line)
      else do
        M.modify (fun s => { s with mem := memory.add s.mem fp.symbol param })
        bind_params env u obj sub k (i + 1)

/-- The symbol branch: a variable, a call of a user function, or a builtin
free function. -/
def run_symbol (env : Env) (rec : ast_node → M Nat) (k : Nat) (u : ast_node) : M Nat := do
  let s ← M.get
  if memory.has s.mem u.val.val then
    match memory.get s.mem u.val.val with
    | none => M.fail .undefined_behaviour
    | some obj => do
      let f ← deref obj
      if f.type ≠ .o_fn then pure obj
      else if f.f_params.length ≠ u.children.length then
        M.err ("incorrect number of children for function " ++ dq ++ u.val.val ++ dq)
          (some (env.type_code u.val.type))
      else do
        let sub ← run_children rec u.children
        M.modify (fun s => { s with mem := memory.push s.mem })
        bind_params env u obj sub k 0
        let callee ← deref obj
        match callee.f_body with
        | none => M.fail .undefined_behaviour
        | some body => do
          let caller ← M.get
          M.modify (fun s => { s with return_val := none })
          let ret ← init_with rec body obj
          M.modify (fun s => { s with
            has_return := caller.has_return, has_continue := caller.has_continue,
            has_break := caller.has_break, return_val := caller.return_val,
            mem := memory.pop s.mem })
          pure ret
  else if env.methods u.val.val then
    if u.val.val = "floor" then
      if u.children.length ≠ 1 then M.err "floor requires 1 argument" (some u.val.line)
      else do call env "floor" (← rec (← child u 0)) []
    else if u.val.val = "ceil" then
      if u.children.length ≠ 1 then M.err "ceil requires 1 argument" (some u.val.line)
      else do call env "ceil" (← rec (← child u 0)) []
    else if u.val.val = "round" then
      if u.children.length ≠ 2 then M.err "round requires 2 arguments" (some u.val.line)
      else do
        let x ← rec (← child u 0)
        let y ← rec (← child u 1)
        call env "round" x [y]
    else if u.val.val = "rand" then
      if u.children.length ≠ 0 then M.err "rand takes no arguments" (some u.val.line)
      else fun s =>
        match env.rand s.heap with
        | .ok (h, a) => .ok a { s with heap := h }
        | .error e => .fail e s
    else new_object env .o_none
  else M.err ("symbol " ++ dq ++ u.val.val ++ dq ++ " is undefined") (some u.val.line)

/-- The numeric-literal branch. -/
def run_num (env : Env) (u : ast_node) : M Nat := do
  let tmp ← new_object env .o_num
  match env.stod u.val.val with
  | none => M.fail .invalid_argument
  | some (self, offset) =>
    if offset ≠ u.val.val.utf8ByteSize then M.err "invalid number" (some u.val.line)
    else do
      set_store env (.d self) tmp
      pure tmp

/-- The string-literal branch. -/
def run_str (env : Env) (u : ast_node) : M Nat := do
  let tmp ← new_object env .o_str
  set_store env (.s u.val.val) tmp
  pure tmp

/-- The body of `executor::run` on node `u`: `rec` evaluates a subtree and
`k` bounds the iterations of the loops of this call. -/
def step (env : Env) (rec : ast_node → M Nat) (k : Nat) (u : ast_node) : M Nat := do
  let s ← M.get
  if s.flagged then new_object env .o_none
  else if env.vars u.val.val then do
    let c ← child u 0
    let s ← M.get
    match env.declare_obj u.val c.val s.heap s.mem with
    | .error e => M.fail e
    | .ok (h, m) => do
      M.modify (fun s => { s with heap := h, mem := m })
      new_object env .o_none
  else if u.val.type = .t_group then do
    run_group rec none [] u.children
    new_object env .o_none
  else if env.control u.val.val then
    if u.val.val = "if" ∨ u.val.val = "elsif" then run_if env rec u
    else if u.val.val = "else" then do
      let _ ← rec (← child u 0)
      new_object env .o_none
    else if u.val.val = "while" then do
      while_loop env rec u k
      new_object env .o_none
    else if u.val.val = "for" then do
      run_for env rec k u
      new_object env .o_none
    else M.err "unsupported control structure" (some u.val.line)
  else if u.val.type = .t_builtin then run_builtin env rec u
  else if u.val.type = .t_symbol then run_symbol env rec k u
  else if u.val.type = .t_num then run_num env u
  else if u.val.type = .t_str then run_str env u
  else new_object env .o_none

/-- The function `executor::run` with fuel `n`: every nested call of `run`
spends one unit. -/
def run (env : Env) : Nat → ast_node → M Nat
  | 0 => fun _ _ => .out_of_fuel
  | n + 1 => step env (run env n) n

/-- The function `executor::init` with fuel `n`, for an executor over `tree`
with enclosing function object `parent`. -/
def init (env : Env) (n : Nat) (tree : ast_node) (parent : Nat) : M Nat :=
  init_with (run env n) tree parent

/-! ## A sample environment

A concrete choice of the parameters, used to run the evaluator on sample
programs.  The theorems below hold for every `Env`; this one only supplies
inputs at which they are exercised. -/

namespace Sample

/-- Sample parameter: the object built by `object(type)`, with an empty store
of the kind the type calls for. -/
def construct (t : o_type) : object :=
  { type := t
    store := match t with
      | .o_bool => .b false
      | .o_num => .d 0
      | .o_str => .s ""
      | .o_arr => .q []
      | _ => .mono
    f_params := []
    f_body := none
    f_return := .o_none }

/-- Sample parameter: `set` overwrites the store of the object. -/
def set (v : store_t) (h : List object) (a : Nat) : Except Failure (List object) :=
  match h[a]? with
  | some o => .ok (h.set a { o with store := v })
  | none => .error .undefined_behaviour

/-- Sample parameter: `is_int` holds of numbers with denominator one. -/
def is_int (h : List object) (a : Nat) : Except Failure Bool :=
  match h[a]? with
  | some o =>
    match o.store with
    | .d v => .ok (v.den == 1)
    | _ => .ok false
  | none => .error .undefined_behaviour

/-- Sample parameter: the text of an object. -/
def str (h : List object) (a : Nat) : Except Failure String :=
  match h[a]? with
  | some o =>
    match o.store with
    | .mono => .ok "none"
    | .b v => .ok (if v then "true" else "false")
    | .d v => .ok (toString v.num)
    | .s v => .ok v
    | .q _ => .ok "[...]"
  | none => .error .undefined_behaviour

/-- Sample parameter: boolean coercion of a store. -/
def truthy : store_t → Bool
  | .mono => false
  | .b v => v
  | .d v => v.num != 0
  | .s v => v != ""
  | .q v => !v.isEmpty

/-- Sample parameter: a binary operation on two numbers yielding a number. -/
def arith (f : Rat → Rat → Rat) (x y : object) : Except Failure object :=
  match x.store, y.store with
  | .d a, .d b => .ok { construct .o_num with store := .d (f a b) }
  | _, _ => .error (.err "unsupported operand types" none)

/-- Sample parameter: a comparison of two numbers yielding a boolean. -/
def compare (f : Rat → Rat → Bool) (x y : object) : Except Failure object :=
  match x.store, y.store with
  | .d a, .d b => .ok { construct .o_bool with store := .b (f a b) }
  | _, _ => .error (.err "unsupported operand types" none)

/-- Sample parameter: the methods of `object` the sample programs use.
`equal` copies the store of an argument of the same type into the receiver (a
receiver of type none becomes a copy of an argument of another type, any other
mismatch is an error);
`to_bool`, the arithmetic and the comparison methods return a new object; the
compound assignments update the receiver. -/
def method (name : String) (h : List object) (recv : Nat) (args : List Nat) :
    Except Failure (List object × Nat) :=
  match h[recv]? with
  | none => .error .undefined_behaviour
  | some x =>
    if name = "to_bool" then
      .ok (h ++ [{ construct .o_bool with store := .b (truthy x.store) }], h.length)
    else
      match args with
      | [b] =>
        match h[b]? with
        | none => .error .undefined_behaviour
        | some y =>
          if name = "equal" then
            if x.type = y.type then .ok (h.set recv { x with store := y.store }, recv)
            else if x.type = .o_none then .ok (h.set recv y, recv)
            else .error (.err "cannot assign objects of different types" none)
          else if name = "add" then
            (arith (· + ·) x y).map (fun r => (h ++ [r], h.length))
          else if name = "subtract" then
            (arith (· - ·) x y).map (fun r => (h ++ [r], h.length))
          else if name = "less_than" then
            (compare (fun a b => decide (a < b)) x y).map (fun r => (h ++ [r], h.length))
          else if name = "equals" then
            (compare (fun a b => decide (a = b)) x y).map (fun r => (h ++ [r], h.length))
          else if name = "add_equal" then
            (arith (· + ·) x y).map (fun r => (h.set recv { x with store := r.store }, recv))
          else .error (.err "unsupported method" none)
      | _ => .error (.err "unsupported method" none)

/-- Sample parameter: the digits at the head of a text, as a number, with
their count and the rest of the text. -/
def digits : List Char → Nat → Nat → Nat × Nat × List Char
  | [], acc, n => (acc, n, [])
  | c :: cs, acc, n =>
    if c.isDigit then digits cs (acc * 10 + (c.toNat - 48)) (n + 1)
    else (acc, n, c :: cs)

/-- Sample parameter: `std::stod` on plain decimal notation (optional minus
sign, digits, optional fraction). -/
def stod (t : String) : Option (Rat × Nat) :=
  let (neg, cs) := match t.toList with
    | '-' :: cs => (true, cs)
    | cs => (false, cs)
  let (ip, n, rest) := digits cs 0 0
  if n = 0 then none
  else
    let (fp, fl, used) := match rest with
      | '.' :: fs =>
        let (fp, fl, _) := digits fs 0 0
        (fp, fl, 1 + fl)
      | _ => (0, 0, 0)
    let v : Rat := mkRat (ip * 10 ^ fl + fp) (10 ^ fl)
    some (if neg then -v else v, (if neg then 1 else 0) + n + used)

/-- Sample parameter: `declare_obj` binds the name to a new object of the type
the keyword stands for (`num`, `str` or `bool`). -/
def declare_obj (kw name : token) (h : List object) (m : List Frame) :
    Except Failure (List object × List Frame) :=
  let t := if kw.val = "num" then o_type.o_num
    else if kw.val = "str" then o_type.o_str else o_type.o_bool
  .ok (h ++ [construct t], memory.add m name.val h.length)

/-- The sample environment. -/
def env : Env :=
  { vars := fun t => t = "num" || t = "str" || t = "bool"
    control := fun t => t = "if" || t = "elsif" || t = "else" || t = "while" || t = "for"
    methods := fun t => t = "floor" || t = "ceil" || t = "round" || t = "rand"
    type_code := fun t => match t with
      | .t_group => 0 | .t_control => 1 | .t_builtin => 2
      | .t_symbol => 3 | .t_num => 4 | .t_str => 5
    declare_obj := declare_obj
    construct := construct
    set := set
    is_int := is_int
    str := str
    method := method
    rand := fun _ => .error (.err "unsupported method" none)
    stod := stod }

/-- A function object with the given declared return type, no parameters and
no body: the enclosing function of a top-level activation. -/
def fn_obj (ret : o_type) : object :=
  { type := .o_fn, store := .mono, f_params := [], f_body := none, f_return := ret }

/-- A starting state whose heap holds one function object, at pointer 0. -/
def start (ret : o_type) (input : List String) : State :=
  { heap := [fn_obj ret], mem := [[]], input := input, output := [],
    has_return := false, has_continue := false, has_break := false,
    return_val := none }

/-- A leaf or inner node from its parts. -/
def node (text : String) (type : token_type) (ops : Nat) (cs : List ast_node) : ast_node :=
  .mk { val := text, type := type, ops := ops, line := 1 } cs

/-- A numeric literal. -/
def num (text : String) : ast_node := node text .t_num 0 []

/-- A string literal. -/
def lit (text : String) : ast_node := node text .t_str 0 []

/-- A symbol without arguments. -/
def sym (text : String) : ast_node := node text .t_symbol 0 []

/-- A group. -/
def group (cs : List ast_node) : ast_node := node "" .t_group 0 cs

/-- A builtin operator applied to operands. -/
def op (text : String) (cs : List ast_node) : ast_node := node text .t_builtin cs.length cs

/-- A control keyword with its children. -/
def ctl (text : String) (cs : List ast_node) : ast_node := node text .t_control 0 cs

end Sample

/-- The type tag of the object a successful outcome points to. -/
def Res.type_of : Res Nat → Option o_type
  | .ok a s => (s.heap[a]?).map (·.type)
  | _ => none

/-- The store of the object a successful outcome points to. -/
def Res.store_of : Res Nat → Option store_t
  | .ok a s => (s.heap[a]?).map (·.store)
  | _ => none

/-- The failure of an outcome, if it is one. -/
def Res.failure {α : Type} : Res α → Option Failure
  | .fail e _ => some e
  | _ => none

/-- The state of an outcome, or `d` when the fuel ran out. -/
def Res.state {α : Type} : Res α → State → State
  | .ok _ s, _ => s
  | .fail _ s, _ => s
  | .out_of_fuel, d => d

/-- The pointer a successful outcome returns. -/
def Res.value : Res Nat → Nat
  | .ok a _ => a
  | _ => 0

/-- Whether an outcome is a success. -/
def Res.is_ok {α : Type} : Res α → Bool
  | .ok _ _ => true
  | _ => false

/-- The value of a successful outcome. -/
def Res.result {α : Type} : Res α → Option α
  | .ok a _ => some a
  | _ => none

/-- The text written by the time an outcome was reached. -/
def Res.output {α : Type} : Res α → List String
  | .ok _ s => s.output
  | .fail _ s => s.output
  | .out_of_fuel => []

/-! ## Sample programs -/

namespace Sample

/-- The program `return 5`. -/
def prog_return : ast_node := group [op "return" [num "5"]]

/-- The outcome of running `prog_return` as the body of a function declared
to return a number. -/
def run_return : Res Nat := run env 4 prog_return (reset (start .o_num []))

/-- The program `continue`, outside any loop. -/
def prog_continue : ast_node := group [op "continue" []]

/-- The outcome of running `prog_continue` as the body of a function declared
to return nothing. -/
def run_continue : Res Nat := run env 4 prog_continue (reset (start .o_none []))

/-- The program `5`: a group whose only child is a numeric literal. -/
def prog_literal : ast_node := group [num "5"]

/-- The program `if 0 { "a" }`: an `if` whose condition is false. -/
def prog_if_false : ast_node := group [ctl "if" [num "0", group [lit "a"]]]

/-- The node `return 5`. -/
def node_return : ast_node := op "return" [num "5"]

/-- The outcome of evaluating the operand `5` of `node_return`. -/
def run_operand : Res Nat := run env 1 (num "5") (start .o_num [])

/-- A state in which `f` is bound to a function of one number parameter and
`x` to a number. -/
def state_bound : State :=
  { heap := [fn_obj .o_none,
      { type := .o_fn, store := .mono, f_params := [{ type := .o_num, symbol := "a" }],
        f_body := some (group []), f_return := .o_none },
      construct .o_num]
    mem := [[("f", 1), ("x", 2)]], input := [], output := [],
    has_return := false, has_continue := false, has_break := false, return_val := none }

/-- The node `for x of range(args) body`. -/
def for_range (x : String) (args : List ast_node) (body : ast_node) : ast_node :=
  ctl "for" [node "of" .t_builtin 2 [sym x, node "range" .t_symbol 0 args], body]

/-- The statement `outl text`. -/
def outl (text : String) : ast_node := op "outl" [lit text]

/-- The node `while 0 { outl "body" }`. -/
def while_false : ast_node := ctl "while" [num "0", group [outl "body"]]

/-- The node `while 1 { outl "body"; break; outl "after" }`. -/
def while_break : ast_node :=
  ctl "while" [num "1", group [outl "body", op "break" [], outl "after"]]

/-- The outcome of evaluating the condition `0` of `while_false`. -/
def cond_false : Res Nat := run env 1 (num "0") (start .o_none [])

/-- The outcome of coercing that condition to a boolean. -/
def test_false : Res Nat :=
  call env "to_bool" cond_false.value [] (cond_false.state (start .o_none []))

/-- The outcome of evaluating the condition `1` of `while_break`. -/
def cond_true : Res Nat := run env 3 (num "1") (start .o_none [])

/-- The outcome of coercing that condition to a boolean. -/
def test_true : Res Nat :=
  call env "to_bool" cond_true.value [] (cond_true.state (start .o_none []))

/-- The outcome of the first run of the body of `while_break`. -/
def body_break : Res Nat :=
  run env 3 (group [outl "body", op "break" [], outl "after"])
    (test_true.state (start .o_none []))

end Sample

/-- Every successful outcome of `x`, from any state, ends in a state
satisfying `P`. -/
def M.ends {α : Type} (x : M α) (P : State → Prop) : Prop :=
  ∀ s a s2, x s = .ok a s2 → P s2

namespace Sample

/-- The node `for i of range(1) { }`. -/
def for_once : ast_node := for_range "i" [num "1"] (group [])

/-- The outcome of evaluating `for_once`. -/
def run_for_once : Res Nat := run env 3 for_once (start .o_none [])

end Sample

/-! ## Conditional chains, in the words of the specification -/

/-- From the spec's words: a branch of a chain evaluates its condition,
coerces it to a boolean and, when it is true, runs its body; the result tells
whether the body ran.  (The boolean object the branch records is built first
and set last, as `run_if` does.) -/
def branch (env : Env) (rec : ast_node → M Nat) (b : ast_node) : M Bool := do
  let ret ← new_object env .o_bool
  let v ← rec (← child b 0)
  let tb ← call env "to_bool" v []
  if (← get_bool tb) then do
    let _ ← rec (← child b 1)
    set_store env (.b true) ret
    pure true
  else do
    set_store env (.b false) ret
    pure false

/-- From the spec's words: of an if/elsif.../else chain exactly the first
branch whose condition is true executes its body.  The branches (the `if` and
`elsif` nodes) are tried in order; once a branch has run its body nothing
more of the chain is evaluated; when no condition is true the body of the
`else` node runs, if there is one. -/
def first_true (env : Env) (rec : ast_node → M Nat) :
    List ast_node → Option ast_node → M Unit
  | [], none => pure ()
  | [], some e => do
    let _ ← rec (← child e 0)
    let _ ← new_object env .o_none
    pure ()
  | b :: bs, els => do
    if (← branch env rec b) then pure ()
    else first_true env rec bs els

/-- Evaluating `u` from a state without a live flag leaves no flag live. -/
def no_signal (rec : ast_node → M Nat) (u : ast_node) : Prop :=
  ∀ s a s2, s.flagged = false → rec u s = .ok a s2 → s2.flagged = false

/-- The outcomes of `run_if` and of `branch` on one node agree: they fail or
run out of fuel alike, and when they succeed they end in the same state, in
which no flag is live and the object `run_if` returns holds the boolean
`branch` returns. -/
def Res.agree (r1 : Res Nat) (r2 : Res Bool) : Prop :=
  match r1, r2 with
  | .ok r s1, .ok v s2 => s1 = s2 ∧ get_bool r s1 = .ok v s1 ∧ s1.flagged = false
  | .fail e1 s1, .fail e2 s2 => e1 = e2 ∧ s1 = s2
  | .out_of_fuel, .out_of_fuel => True
  | _, _ => False

/-- A computation that leaves the flags as they are whenever it succeeds. -/
def M.quiet {α : Type} (x : M α) : Prop :=
  ∀ s a s2, x s = .ok a s2 → s2.flagged = s.flagged

namespace Sample

/-- The chain `if 0 { } elsif 1 { } else { }`. -/
def chain_if : ast_node := ctl "if" [num "0", group []]

/-- The second branch of the chain. -/
def chain_elsif : ast_node := ctl "elsif" [num "1", group []]

/-- The last branch of the chain. -/
def chain_else : ast_node := ctl "else" [group []]

/-- The program `if 0 { outl "a" } elsif 1 { outl "b" } else { outl "c" }`. -/
def prog_chain : ast_node :=
  group [ctl "if" [num "0", group [outl "a"]], ctl "elsif" [num "1", group [outl "b"]],
    ctl "else" [group [outl "c"]]]

end Sample

/-! ## `for ... of range(...)`, in the words of the specification -/

/-- From the spec's words: the arity of `range` selects (end) | (start, end)
| (start, end, step), with defaults start = 0 and step = 1. -/
def range_bounds : List Int → Option (Int × Int × Int)
  | [e] => some (0, e, 1)
  | [a, e] => some (a, e, 1)
  | [a, e, st] => some (a, e, st)
  | _ => none

/-- From the spec's words: the values start, start + step, start + 2 * step,
... that are strictly less than end, in increasing order (for a step of at
least one). -/
def range_values (start end_ step : Int) : List Int :=
  (List.range (if start < end_ then ((end_ - start - 1) / step + 1).toNat else 0)).map
    (fun (i : Nat) => start + (i : Int) * step)

/-- The loop of `for_loop` with a record added: the store held by the loop
variable at the start of each run of the body, in order.  Dropping the record
gives `for_loop` back (`for_loop_visits_erase`). -/
def for_loop_visits (env : Env) (rec : ast_node → M Nat) (u : ast_node)
    (it end_ every : Nat) : Nat → M (List (Option store_t))
  | 0 => fun _ => .out_of_fuel
  | k + 1 => do
    let lt ← call env "less_than" it [end_]
    if (← get_bool lt) then do
      let seen := ((← M.get).heap[it]?).map (·.store)
      let b ← child u 1
      let _ ← rec b
      M.modify clear_continue
      let s ← M.get
      if s.has_break then do
        M.modify clear_break
        pure [seen]
      else do
        let _ ← call env "add_equal" it [every]
        let rest ← for_loop_visits env rec u it end_ every k
        pure (seen :: rest)
    else pure []

/-- The object at a pointer is of type `t` and holds the number `v`. -/
def has_num (h : List object) (p : Nat) (t : o_type) (v : Rat) : Prop :=
  ∃ o, h[p]? = some o ∧ o.type = t ∧ o.store = .d v

/-- The state in which the `for` branch evaluates the arguments of `range`:
four number objects have been built (the loop variable, start, end and
step), the loop variable is bound, and start, end and step hold 0, 0 and 1. -/
def for_entry (env : Env) (x : String) (s : State) : State :=
  { s with
    heap := s.heap ++ [env.construct .o_num,
      { env.construct .o_num with store := .d 0 },
      { env.construct .o_num with store := .d 0 },
      { env.construct .o_num with store := .d 1 }]
    mem := memory.add s.mem x s.heap.length }

/-- The magnitude up to which `double` arithmetic on whole numbers is exact:
2^53.  Every whole number of at most this magnitude is a `double`, and the sum
of two of them is computed without rounding when it is within the bound too;
beyond it a `double` sum is rounded (2^53 + 1 is not a `double`). -/
def exact_bound : Int := 9007199254740992

/-- The laws of the value model the `for` loop relies on: the constructor
builds an object of the requested type; `set` overwrites the store; `equal`
copies the store between objects of one type; `less_than` on two whole numbers
within `exact_bound` builds a boolean object holding the comparison;
`add_equal` on two whole numbers within `exact_bound` whose sum is within it
too adds the second to the first in place.  Nothing is asked of a sum beyond
the bound, where the addition of doubles rounds. -/
structure NumModel (env : Env) : Prop where
  construct_type : ∀ t, (env.construct t).type = t
  set_num : ∀ (v : Rat) (h : List object) (p : Nat) (o : object), h[p]? = some o →
    env.set (.d v) h p = .ok (h.set p { o with store := .d v })
  equal_copy : ∀ (h : List object) (a b : Nat) (x y : object), h[a]? = some x →
    h[b]? = some y → x.type = y.type →
    env.method "equal" h a [b] = .ok (h.set a { x with store := y.store }, a)
  less_than_num : ∀ (h : List object) (p q : Nat) (x y : object) (a b : Int),
    h[p]? = some x → h[q]? = some y → x.store = .d (a : Rat) → y.store = .d (b : Rat) →
    -exact_bound ≤ a → a ≤ exact_bound → -exact_bound ≤ b → b ≤ exact_bound →
    ∃ o, env.method "less_than" h p [q] = .ok (h ++ [o], h.length) ∧
      o.store = .b (decide (a < b))
  add_equal_num : ∀ (h : List object) (p q : Nat) (x y : object) (a b : Int),
    h[p]? = some x → h[q]? = some y → x.store = .d (a : Rat) → y.store = .d (b : Rat) →
    -exact_bound ≤ a → a ≤ exact_bound → -exact_bound ≤ b → b ≤ exact_bound →
    -exact_bound ≤ a + b → a + b ≤ exact_bound →
    env.method "add_equal" h p [q] =
      .ok (h.set p { x with store := .d ((a + b : Int) : Rat) }, p)

namespace Sample

/-- The body `x += i`. -/
def sum_body : ast_node := group [op "+=" [sym "x", sym "i"]]

/-- The node `for i of range(3) { x += i }`. -/
def for_sum : ast_node := for_range "i" [num "3"] sum_body

/-- The outcome of evaluating the argument of `range(3)` in `for_sum`, from
the state `state_bound`, in which `x` is a number. -/
def args_sum : Res (List Nat) :=
  run_range_args env (run env 1) [num "3"] (for_entry env "i" state_bound)

end Sample

/-! ## A second sample value model: shifts and lengths -/

namespace Sample

/-- Sample parameter: a shift of a whole number by a whole number of places;
`left` selects the direction. -/
def shift (left : Bool) (x y : object) : Except Failure store_t :=
  match x.store, y.store with
  | .d a, .d b =>
    if left then .ok (.d ((a.num * 2 ^ b.num.toNat : Int) : Rat))
    else .ok (.d ((a.num / 2 ^ b.num.toNat : Int) : Rat))
  | _, _ => .error (.err "unsupported operand types" none)

/-- Sample parameter: the methods of `method` and, in addition, the two shift
assignments, which update the receiver, and `len`, which returns a new number
object holding the length of a text or of an array. -/
def method_more (name : String) (h : List object) (recv : Nat) (args : List Nat) :
    Except Failure (List object × Nat) :=
  if name = "b_left_shift_equal" ∨ name = "b_right_shift_equal" then
    match h[recv]?, args with
    | some x, [b] =>
      match h[b]? with
      | some y =>
        (shift (decide (name = "b_left_shift_equal")) x y).map
          (fun v => (h.set recv { x with store := v }, recv))
      | none => .error .undefined_behaviour
    | _, _ => .error .undefined_behaviour
  else if name = "len" then
    match h[recv]? with
    | some x =>
      match x.store with
      | .s v => .ok (h ++ [{ construct .o_num with store := .d v.length }], h.length)
      | .q v => .ok (h ++ [{ construct .o_num with store := .d v.length }], h.length)
      | _ => .error (.err "unsupported operand types" none)
    | none => .error .undefined_behaviour
  else method name h recv args

/-- The sample environment with the larger value model. -/
def env_more : Env := { env with method := method_more }

/-- A state in which `x` is bound to a number object holding 4. -/
def state_four : State :=
  { heap := [fn_obj .o_none, { construct .o_num with store := .d 4 }]
    mem := [[("x", 1)]], input := [], output := [],
    has_return := false, has_continue := false, has_break := false, return_val := none }

/-- The node `x <<= 1`. -/
def shift_assign : ast_node := op "<<=" [sym "x", num "1"]

/-- The outcome of evaluating the first operand of `shift_assign`. -/
def run_target : Res Nat := run env_more 1 (sym "x") state_four

/-- The outcome of evaluating the second operand of `shift_assign`. -/
def run_places : Res Nat := run env_more 1 (num "1") (run_target.state state_four)

end Sample

namespace Sample

/-- The node `"abc".len(1)`: a call of `len` with one argument. -/
def dot_len : ast_node := op "." [lit "abc", node "len" .t_symbol 0 [num "1"]]

/-- The node `"abc".push()`: a call of `push` without an argument. -/
def dot_push : ast_node := op "." [lit "abc", node "push" .t_symbol 0 []]

/-- The outcome of evaluating the target `"abc"` of the two calls. -/
def run_abc : Res Nat := run env_more 1 (lit "abc") (start .o_none [])

end Sample

/-! ## The group loop, one child at a time -/

/-- One turn of the loop of the group branch, on child `c` with preceding
sibling `prev` and the results `sub` recorded so far; the value is the list
of results recorded after the turn.  The loop is this turn followed by the
loop over the remaining children (`run_group_cons`). -/
def group_head (rec : ast_node → M Nat) (prev : Option ast_node) (sub : List Nat)
    (c : ast_node) : M (List Nat) := do
  let s ← M.get
  if s.flagged then pure sub
  else if c.val.val = "elsif" then
    if !follows_if prev then M.err "elsif must follow if or elsif" (some c.val.line)
    else do
      let last ← sub_back sub
      if (← get_bool last) then pure (sub ++ [last])
      else do
        let r ← rec c
        pure (sub ++ [r])
  else if c.val.val = "else" then
    if !follows_if prev then M.err "else must follow if or elsif" (some c.val.line)
    else do
      let last ← sub_back sub
      if (← get_bool last) then pure sub
      else do
        let r ← rec c
        pure (sub ++ [r])
  else do
    let r ← rec c
    pure (sub ++ [r])

/-- The turns of the loop of the group branch over the children `cs`; the
value is the last child met (`prev` when there is none) and the results
recorded.  The loop over `cs ++ rest` is these turns followed by the loop
over `rest` (`run_group_append`). -/
def group_turns (rec : ast_node → M Nat) :
    Option ast_node → List Nat → List ast_node → M (Option ast_node × List Nat)
  | prev, sub, [] => pure (prev, sub)
  | prev, sub, c :: cs => do
    let sub2 ← group_head rec prev sub c
    group_turns rec (some c) sub2 cs

/-- From the spec's words: the children of a group execute strictly in
order; once any control signal becomes live, the remaining siblings are
skipped. -/
def in_order (rec : ast_node → M Nat) : List ast_node → M Unit
  | [] => pure ()
  | c :: cs => do
    let _ ← rec c
    if (← M.get).flagged then pure ()
    else in_order rec cs

namespace Sample

/-- The program `outl "a"; continue; outl "b"`. -/
def prog_skip : ast_node := group [outl "a", op "continue" [], outl "b"]

/-- The program `continue; else { }`: an `else` that follows no `if`, reached
while the continue flag is set. -/
def prog_stray_else : ast_node := group [op "continue" [], ctl "else" [group []]]

/-- The program `else { }`: an `else` as first child. -/
def prog_first_else : ast_node := group [ctl "else" [group []]]

end Sample

/-- The condition under which the loop of the group branch reads
`sub.back()` safely: when the preceding sibling is an `if` or an `elsif` and
no flag is live, the list of results is not empty and its last element is an
object holding a boolean. -/
def recorded (prev : Option ast_node) (sub : List Nat) (s : State) : Prop :=
  follows_if prev = true → s.flagged = false →
    ∃ last v, sub.getLast? = some last ∧ get_bool last s = .ok v s

/-- Evaluated while no flag is set, node `c` yields an object holding a
boolean whenever it yields anything. -/
def yields_bool (rec : ast_node → M Nat) (c : ast_node) : Prop :=
  ∀ s r s2, s.flagged = false → rec c s = .ok r s2 → ∃ v, get_bool r s2 = .ok v s2

/-- The value of a successful outcome, or `d`. -/
def Res.value_or {α : Type} : Res α → α → α
  | .ok a _, _ => a
  | _, d => d

namespace Sample

/-- The outcome of the turn of the group loop over the `if` of `prog_chain`. -/
def chain_turn : Res (List Nat) :=
  group_head (run env 3) none [] (ctl "if" [num "0", group [outl "a"]]) (start .o_none [])

end Sample

/-- The store of the object at pointer `p` in the state of an outcome. -/
def Res.store_at {α : Type} : Res α → Nat → Option store_t
  | .ok _ s, p => (s.heap[p]?).map (·.store)
  | .fail _ s, p => (s.heap[p]?).map (·.store)
  | .out_of_fuel, _ => none

namespace Sample

/-- The node `in x`. -/
def in_x : ast_node := op "in" [sym "x"]

/-- The state `state_bound`, in which `x` is bound to a number object holding
0 at pointer 2, with the given lines pending on the input. -/
def state_input (lines : List String) : State := { state_bound with input := lines }

end Sample

/-! ## Invariants of the scope stack and of the flags -/

/-- Every successful outcome of `x` from a state satisfying `P` ends in a
state satisfying `P`. -/
def M.keeps {α : Type} (P : State → Prop) (x : M α) : Prop :=
  ∀ s a s2, P s → x s = .ok a s2 → P s2

/-- Every successful outcome of `x` leaves the scope stack and the three
flags as they were. -/
def M.steady {α : Type} (x : M α) : Prop :=
  ∀ s a s2, x s = .ok a s2 →
    s2.mem = s.mem ∧ s2.has_return = s.has_return ∧ s2.has_continue = s.has_continue ∧
      s2.has_break = s.has_break

/-- The scope stack has `L` frames. -/
def frames (L : Nat) (s : State) : Prop := s.mem.length = L

/-- The continue flag and the break flag are not both set. -/
def one_loop_signal (s : State) : Prop := ¬(s.has_continue = true ∧ s.has_break = true)

/-- What the evaluator needs of a property `P` of states to keep it: `P` looks
at the scope stack and the flags only; it survives the setting of the continue
or of the break flag in a state without a live flag, the setting of the
return flag, the clearing of the continue and of the break flag, the binding
and the removal of a name in the innermost frame, and a declaration. -/
structure Invariant (env : Env) (P : State → Prop) : Prop where
  stable : ∀ s s2 : State, s2.mem = s.mem → s2.has_return = s.has_return →
    s2.has_continue = s.has_continue → s2.has_break = s.has_break → P s → P s2
  set_continue : ∀ s : State, P s → s.flagged = false → P { s with has_continue := true }
  set_break : ∀ s : State, P s → s.flagged = false → P { s with has_break := true }
  set_return : ∀ s : State, P s → P { s with has_return := true }
  clear_continue : ∀ s : State, P s → P (clear_continue s)
  clear_break : ∀ s : State, P s → P (clear_break s)
  add : ∀ (s : State) (x : String) (a : Nat), P s → P { s with mem := memory.add s.mem x a }
  remove : ∀ (s : State) (x : String), P s → P { s with mem := memory.remove s.mem x }
  declare : ∀ (s : State) (t1 t2 : token) (h : List object) (m : List Frame), P s →
    env.declare_obj t1 t2 s.heap s.mem = .ok (h, m) → P { s with heap := h, mem := m }

namespace Sample

/-- The node `return continue`: a `return` whose operand is a `continue`. -/
def return_continue : ast_node := op "return" [op "continue" []]

end Sample

namespace Sample

/-- The node `f(5)`: a call of the function `f` of `state_bound`. -/
def call_f : ast_node := node "f" .t_symbol 0 [num "5"]

/-- The outcome of evaluating `call_f`. -/
def run_call : Res Nat := run env 4 call_f state_bound

end Sample

/-- The part of the symbol branch that follows the evaluation of the
arguments of a call: the new frame, the binding of the parameters, the
activation over the body of the function, and the return to the caller
(`run_symbol_call`). -/
def call_body (env : Env) (rec : ast_node → M Nat) (k : Nat) (u : ast_node) (obj : Nat)
    (sub : List Nat) : M Nat := do
  M.modify (fun s => { s with mem := memory.push s.mem })
  bind_params env u obj sub k 0
  let callee ← deref obj
  match callee.f_body with
  | none => M.fail .undefined_behaviour
  | some body => do
    let caller ← M.get
    M.modify (fun s => { s with return_val := none })
    let ret ← init_with rec body obj
    M.modify (fun s => { s with
      has_return := caller.has_return, has_continue := caller.has_continue,
      has_break := caller.has_break, return_val := caller.return_val,
      mem := memory.pop s.mem })
    pure ret

/-! ## Loops and their signals -/

/-- Neither the continue nor the break flag is set. -/
def no_loop_signal (s : State) : Prop := s.has_continue = false ∧ s.has_break = false

/-- Every successful outcome of `x` from a state satisfying `P` ends in a
state satisfying `Q`. -/
def M.leads {α : Type} (P : State → Prop) (x : M α) (Q : State → Prop) : Prop :=
  ∀ s a s2, P s → x s = .ok a s2 → Q s2

namespace Sample

/-- The outcome of evaluating `while_break`. -/
def run_while_break : Res Nat := run env 5 while_break (start .o_none [])

end Sample

/-! ## Calls of user functions -/

/-- From the spec's words: each parameter name is bound in the new frame, in
order, to a fresh object; the fresh objects sit at consecutive pointers from
`p` on. -/
def bind_frame : List f_param → Nat → List Frame → List Frame
  | [], _, m => m
  | fp :: ps, p, m => bind_frame ps (p + 1) (memory.add m fp.symbol p)

/-- Object `x` is a copy of object `y`: it has the type and the store of
`y`. -/
def copy_of (x y : object) : Prop := x.type = y.type ∧ x.store = y.store

/-- The return of a call to its caller, whose state at the call was `caller`:
the flags and the return slot of the caller are back, and the frame of the
call is popped. -/
def return_to (caller : State) (ret : Nat) : M Nat := do
  M.modify (fun s => { s with
    has_return := caller.has_return, has_continue := caller.has_continue,
    has_break := caller.has_break, return_val := caller.return_val,
    mem := memory.pop s.mem })
  pure ret

namespace Sample

/-- A state like `state_bound` in which `x` is bound to a string: the call
`f(x)` passes a string where `f` declares a number. -/
def state_text : State :=
  { heap := [fn_obj .o_none,
      { type := .o_fn, store := .mono, f_params := [{ type := .o_num, symbol := "a" }],
        f_body := some (group []), f_return := .o_none },
      { construct .o_str with store := .s "a" }]
    mem := [[("f", 1), ("x", 2)]], input := [], output := [],
    has_return := false, has_continue := false, has_break := false, return_val := none }

/-- The node `f(x)`. -/
def call_fx : ast_node := node "f" .t_symbol 0 [sym "x"]

end Sample

namespace Sample

/-- The outcome of evaluating the arguments of `call_f`. -/
def args_f : Res (List Nat) := run_children (run env 3) call_f.children state_bound

end Sample

/-! ## A `for` loop whose body returns -/

/-- What `run` does on any node while a flag is live: it builds a vacant
object and nothing else (`run_flagged`). -/
def idle (env : Env) (_ : ast_node) : M Nat := new_object env .o_none

/-- The first `j` turns of the loop of `for_loop`.  The value tells whether
the loop goes on after them: it does not once the test has failed or a turn
has ended with the break flag set.  The loop is these turns followed, when it
goes on, by the loop itself (`for_loop_turns`). -/
def for_turns (env : Env) (rec : ast_node → M Nat) (u : ast_node)
    (it end_ every : Nat) : Nat → M Bool
  | 0 => pure true
  | j + 1 => do
    let lt ← call env "less_than" it [end_]
    if (← get_bool lt) then do
      let b ← child u 1
      let _ ← rec b
      M.modify clear_continue
      let s ← M.get
      if s.has_break then do
        M.modify clear_break
        pure false
      else do
        let _ ← call env "add_equal" it [every]
        for_turns env rec u it end_ every j
    else pure false

/-- The part of the `for` branch between the binding of the loop variable and
the loop: the arguments of `range` are evaluated and checked, the bounds are
set from them, and the loop variable is set to the start
(`run_for_parts`). -/
def range_setup (env : Env) (rec : ast_node → M Nat) (range : ast_node)
    (it start end_ every : Nat) : M Unit := do
  let sub ← run_range_args env rec range.children
  if range.children.length < 1 ∨ range.children.length > 3 then
    M.err "range must have 1-3 arguments" (some range.val.line)
  else do
    set_bounds env range sub start end_ every
    let _ ← call env "equal" it [start]
    pure ()

/-- State `s2` differs from state `s` in the heap only. -/
def heap_only (s s2 : State) : Prop :=
  s2.mem = s.mem ∧ s2.input = s.input ∧ s2.output = s.output ∧
    s2.has_return = s.has_return ∧ s2.has_continue = s.has_continue ∧
    s2.has_break = s.has_break ∧ s2.return_val = s.return_val

namespace Sample

/-- The body `if i == 1 { return i }; outl "x"`. -/
def ret_body : ast_node :=
  group [ctl "if" [op "==" [sym "i", num "1"], group [op "return" [sym "i"]]], outl "x"]

/-- The node `for i of range(3) { if i == 1 { return i }; outl "x" }`. -/
def for_ret : ast_node := for_range "i" [num "3"] ret_body

/-- The outcome of the setup of the bounds of `for_ret`. -/
def ret_setup : Res Unit :=
  range_setup env (run env 8) (node "range" .t_symbol 0 [num "3"]) 1 2 3 4
    (for_entry env "i" (start .o_num []))

/-- The outcome of the first turn of the loop of `for_ret`. -/
def ret_turns : Res Bool :=
  for_turns env (run env 8) for_ret 1 3 4 1 (ret_setup.state (start .o_num []))

/-- The outcome of the test of the second turn. -/
def ret_test : Res Nat := call env "less_than" 1 [3] (ret_turns.state (start .o_num []))

/-- The outcome of the run of the body in the second turn. -/
def ret_run : Res Nat := run env 8 ret_body (ret_test.state (start .o_num []))

/-- The node `for i of range(3) { return break }`. -/
def for_ret_break : ast_node := for_range "i" [num "3"] (op "return" [op "break" []])

end Sample

/-! ## A third sample value model: sums rounded as doubles -/

namespace Sample

/-- Sample parameter: how many times a number can be halved before it drops
below two, in at most `f` halvings; `halvings n n` is the position of the
leading binary digit of `n`. -/
def halvings : Nat → Nat → Nat
  | 0, _ => 0
  | f + 1, n => if 2 ≤ n then halvings f (n / 2) + 1 else 0

/-- Sample parameter: the whole number nearest to a rational, the even one of
the two when it lies half way between them. -/
def round_even (q : Rat) : Int :=
  if q - q.floor < 1 / 2 then q.floor
  else if 1 / 2 < q - q.floor then q.floor + 1
  else if q.floor % 2 = 0 then q.floor else q.floor + 1

/-- Sample parameter: the `double` nearest to a rational, a tie going to the
even significand: with `ex` the position of the leading binary digit, the
value is rounded to a whole multiple of `2 ^ (ex - 52)`, which leaves 53
significant binary digits.  The exponent range is taken to be unbounded. -/
def to_double (x : Rat) : Rat :=
  if x = 0 then 0
  else
    let c : Int := (halvings x.num.natAbs x.num.natAbs : Int) - (halvings x.den x.den : Int)
    let ex : Int := if (2 : Rat) ^ c ≤ |x| then c else c - 1
    (round_even (x / (2 : Rat) ^ (ex - 52)) : Rat) * (2 : Rat) ^ (ex - 52)

/-- Sample parameter: the object at a pointer with its store, when it is a
number, rounded to a double. -/
def round_at (h : List object) (p : Nat) : List object :=
  match h[p]? with
  | some o =>
    match o.store with
    | .d v => h.set p { o with store := .d (to_double v) }
    | _ => h
  | none => h

/-- Sample parameter: the methods of `method`, with the result of `add`,
`subtract` and `add_equal` rounded to a double, as `+`, `-` and `+=` on
C++ doubles are. -/
def method_double (name : String) (h : List object) (recv : Nat) (args : List Nat) :
    Except Failure (List object × Nat) :=
  if name = "add" ∨ name = "subtract" ∨ name = "add_equal" then
    (method name h recv args).map (fun r => (round_at r.1 r.2, r.2))
  else method name h recv args

/-- A sample environment whose numbers are doubles: the value of a literal
and the results of the additive methods are rounded by `to_double`. -/
def env_double : Env :=
  { env with
    method := method_double
    stod := fun t => (stod t).map (fun r => (to_double r.1, r.2)) }

/-- The node `for i of range(9007199254740992, 9007199254740994) { }`, a
range from 2^53 to 2^53 + 2. -/
def for_big : ast_node :=
  for_range "i" [num "9007199254740992", num "9007199254740994"] (group [])

/-- The outcome of the setup of the bounds of `for_big`. -/
def big_setup : Res Unit :=
  range_setup env_double (run env_double 1)
    (node "range" .t_symbol 0 [num "9007199254740992", num "9007199254740994"]) 1 2 3 4
    (for_entry env_double "i" (start .o_none []))

/-- The outcome of the first three turns of the loop of `for_big`. -/
def big_turns : Res Bool :=
  for_turns env_double (run env_double 1) for_big 1 3 4 3 (big_setup.state (start .o_none []))

end Sample

/-! ## Fuel

An outcome other than `out_of_fuel` does not change when more fuel is
given. -/

/-- Outcome `r2` extends `r1`: they agree unless `r1` ran out of fuel. -/
def Res.le {α : Type} (r1 r2 : Res α) : Prop := r1 = .out_of_fuel ∨ r1 = r2

/-- Pointwise extension of computations. -/
def M.le {α : Type} (x y : M α) : Prop := ∀ s, Res.le (x s) (y s)

theorem M.le_refl {α : Type} (x : M α) : M.le x x := fun _ => Or.inr rfl

theorem M.bind_le {α β : Type} {x y : M α} {f g : α → M β}
    (h1 : M.le x y) (h2 : ∀ a, M.le (f a) (g a)) : M.le (x >>= f) (y >>= g) := by
  intro s
  show Res.le (M.bind x f s) (M.bind y g s)
  unfold M.bind
  rcases h1 s with h | h
  · rw [h]; exact Or.inl rfl
  · rw [← h]
    cases hx : x s with
    | ok a s1 => exact h2 a s1
    | fail e s1 => exact Or.inr rfl
    | out_of_fuel => exact Or.inl rfl

theorem M.ite_le {α : Type} {c : Prop} [Decidable c] {x y x2 y2 : M α}
    (h1 : M.le x x2) (h2 : M.le y y2) :
    M.le (if c then x else y) (if c then x2 else y2) := by
  split
  · exact h1
  · exact h2

theorem run_children_le {r1 r2 : ast_node → M Nat} (h : ∀ u, M.le (r1 u) (r2 u))
    (cs : List ast_node) : M.le (run_children r1 cs) (run_children r2 cs) := by
  induction cs with
  | nil => exact M.le_refl _
  | cons c cs ih =>
    unfold run_children
    exact M.bind_le (h c) (fun _ => M.bind_le ih (fun _ => M.le_refl _))

theorem run_group_le {r1 r2 : ast_node → M Nat} (h : ∀ u, M.le (r1 u) (r2 u))
    (cs : List ast_node) : ∀ prev sub, M.le (run_group r1 prev sub cs) (run_group r2 prev sub cs) := by
  induction cs with
  | nil => intro prev sub; exact M.le_refl _
  | cons c cs ih =>
    intro prev sub
    unfold run_group
    refine M.bind_le (M.le_refl _) (fun s => ?_)
    repeat (first
      | with_reducible exact M.le_refl _
      | exact ih _ _
      | exact h _
      | refine M.ite_le ?_ ?_
      | refine M.bind_le ?_ (fun _ => ?_))

theorem run_if_le (env : Env) {r1 r2 : ast_node → M Nat} (h : ∀ u, M.le (r1 u) (r2 u))
    (u : ast_node) : M.le (run_if env r1 u) (run_if env r2 u) := by
  unfold run_if
  repeat (first
    | with_reducible exact M.le_refl _
    | exact h _
    | refine M.ite_le ?_ ?_
    | refine M.bind_le ?_ (fun _ => ?_))

theorem while_loop_le (env : Env) {r1 r2 : ast_node → M Nat} (h : ∀ u, M.le (r1 u) (r2 u))
    (u : ast_node) : ∀ k1 k2, k1 ≤ k2 → M.le (while_loop env r1 u k1) (while_loop env r2 u k2) := by
  intro k1
  induction k1 with
  | zero => intro k2 _ s; exact Or.inl rfl
  | succ k ih =>
    intro k2 hk
    obtain ⟨j, rfl⟩ : ∃ j, k2 = j + 1 := ⟨k2 - 1, by omega⟩
    unfold while_loop
    repeat (first
      | with_reducible exact M.le_refl _
      | exact ih _ (by omega)
      | exact h _
      | refine M.ite_le ?_ ?_
      | refine M.bind_le ?_ (fun _ => ?_))

theorem run_range_args_le (env : Env) {r1 r2 : ast_node → M Nat}
    (h : ∀ u, M.le (r1 u) (r2 u)) (cs : List ast_node) :
    M.le (run_range_args env r1 cs) (run_range_args env r2 cs) := by
  induction cs with
  | nil => exact M.le_refl _
  | cons c cs ih =>
    unfold run_range_args
    repeat (first
      | with_reducible exact M.le_refl _
      | exact ih
      | exact h _
      | refine M.ite_le ?_ ?_
      | refine M.bind_le ?_ (fun _ => ?_))

theorem for_loop_le (env : Env) {r1 r2 : ast_node → M Nat} (h : ∀ u, M.le (r1 u) (r2 u))
    (u : ast_node) (it end_ every : Nat) :
    ∀ k1 k2, k1 ≤ k2 →
      M.le (for_loop env r1 u it end_ every k1) (for_loop env r2 u it end_ every k2) := by
  intro k1
  induction k1 with
  | zero => intro k2 _ s; exact Or.inl rfl
  | succ k ih =>
    intro k2 hk
    obtain ⟨j, rfl⟩ : ∃ j, k2 = j + 1 := ⟨k2 - 1, by omega⟩
    unfold for_loop
    repeat (first
      | with_reducible exact M.le_refl _
      | exact ih _ (by omega)
      | exact h _
      | refine M.ite_le ?_ ?_
      | refine M.bind_le ?_ (fun _ => ?_))

theorem run_for_le (env : Env) {r1 r2 : ast_node → M Nat} (h : ∀ u, M.le (r1 u) (r2 u))
    (u : ast_node) (k1 k2 : Nat) (hk : k1 ≤ k2) :
    M.le (run_for env r1 k1 u) (run_for env r2 k2 u) := by
  unfold run_for
  repeat (first
    | with_reducible exact M.le_refl _
    | exact for_loop_le env h _ _ _ _ _ _ hk
    | exact run_range_args_le env h _
    | exact h _
    | refine M.ite_le ?_ ?_
    | refine M.bind_le ?_ (fun _ => ?_))

theorem run_dot_le (env : Env) {r1 r2 : ast_node → M Nat} (h : ∀ u, M.le (r1 u) (r2 u))
    (u : ast_node) : M.le (run_dot env r1 u) (run_dot env r2 u) := by
  unfold run_dot
  repeat (first
    | with_reducible exact M.le_refl _
    | exact h _
    | refine M.ite_le ?_ ?_
    | refine M.bind_le ?_ (fun _ => ?_)
    | split)

theorem run_in_le (env : Env) {r1 r2 : ast_node → M Nat} (h : ∀ u, M.le (r1 u) (r2 u))
    (u : ast_node) : M.le (run_in env r1 u) (run_in env r2 u) := by
  unfold run_in
  repeat (first
    | with_reducible exact M.le_refl _
    | exact h _
    | refine M.ite_le ?_ ?_
    | refine M.bind_le ?_ (fun _ => ?_))

theorem run_builtin_le (env : Env) {r1 r2 : ast_node → M Nat} (h : ∀ u, M.le (r1 u) (r2 u))
    (u : ast_node) : M.le (run_builtin env r1 u) (run_builtin env r2 u) := by
  unfold run_builtin
  repeat (first
    | with_reducible exact M.le_refl _
    | exact run_dot_le env h _
    | exact run_in_le env h _
    | exact run_children_le h _
    | refine M.ite_le ?_ ?_
    | refine M.bind_le ?_ (fun _ => ?_))

theorem bind_params_le (env : Env) (u : ast_node) (obj : Nat) (sub : List Nat) :
    ∀ k1 k2 i, k1 ≤ k2 →
      M.le (bind_params env u obj sub k1 i) (bind_params env u obj sub k2 i) := by
  intro k1
  induction k1 with
  | zero => intro k2 _ _ s; exact Or.inl rfl
  | succ k ih =>
    intro k2 i hk
    obtain ⟨j, rfl⟩ : ∃ j, k2 = j + 1 := ⟨k2 - 1, by omega⟩
    unfold bind_params
    refine M.bind_le (M.le_refl _) (fun f => ?_)
    split
    · exact M.le_refl _
    · repeat (first
        | with_reducible exact M.le_refl _
        | exact ih _ _ (by omega)
        | refine M.ite_le ?_ ?_
        | refine M.bind_le ?_ (fun _ => ?_))

theorem init_with_le {r1 r2 : ast_node → M Nat} (h : ∀ u, M.le (r1 u) (r2 u))
    (tree : ast_node) (parent : Nat) :
    M.le (init_with r1 tree parent) (init_with r2 tree parent) := by
  unfold init_with
  repeat (first
    | with_reducible exact M.le_refl _
    | exact h _
    | refine M.bind_le ?_ (fun _ => ?_))

theorem run_symbol_le (env : Env) {r1 r2 : ast_node → M Nat} (h : ∀ u, M.le (r1 u) (r2 u))
    (u : ast_node) (k1 k2 : Nat) (hk : k1 ≤ k2) :
    M.le (run_symbol env r1 k1 u) (run_symbol env r2 k2 u) := by
  unfold run_symbol
  refine M.bind_le (M.le_refl _) (fun s => ?_)
  apply M.ite_le
  · split
    · exact M.le_refl _
    · refine M.bind_le (M.le_refl _) (fun f => ?_)
      refine M.ite_le (M.le_refl _) (M.ite_le (M.le_refl _) ?_)
      refine M.bind_le (run_children_le h _) (fun sub => ?_)
      refine M.bind_le (M.le_refl _) (fun _ => ?_)
      refine M.bind_le (bind_params_le env u _ sub _ _ 0 hk) (fun _ => ?_)
      refine M.bind_le (M.le_refl _) (fun callee => ?_)
      split
      · exact M.le_refl _
      · refine M.bind_le (M.le_refl _) (fun _ => ?_)
        refine M.bind_le (M.le_refl _) (fun _ => ?_)
        exact M.bind_le (init_with_le h _ _) (fun _ => M.le_refl _)
  · repeat (first
      | with_reducible exact M.le_refl _
      | exact h _
      | refine M.ite_le ?_ ?_
      | refine M.bind_le ?_ (fun _ => ?_))

theorem step_le (env : Env) {r1 r2 : ast_node → M Nat} (h : ∀ u, M.le (r1 u) (r2 u))
    (k1 k2 : Nat) (hk : k1 ≤ k2) (u : ast_node) :
    M.le (step env r1 k1 u) (step env r2 k2 u) := by
  unfold step
  repeat (first
    | with_reducible exact M.le_refl _
    | exact run_group_le h _ _ _
    | exact run_if_le env h _
    | exact while_loop_le env h _ _ _ hk
    | exact run_for_le env h _ _ _ hk
    | exact run_builtin_le env h _
    | exact run_symbol_le env h _ _ _ hk
    | exact h _
    | refine M.ite_le ?_ ?_
    | refine M.bind_le ?_ (fun _ => ?_))

/-- More fuel extends the outcome of `run`. -/
theorem run_le (env : Env) : ∀ n m, n ≤ m → ∀ u, M.le (run env n u) (run env m u) := by
  intro n
  induction n with
  | zero => intro m _ u s; exact Or.inl rfl
  | succ n ih =>
    intro m hm u
    obtain ⟨j, rfl⟩ : ∃ j, m = j + 1 := ⟨m - 1, by omega⟩
    exact step_le env (ih j (by omega)) n j (by omega) u

/-- A successful run stays the same with more fuel. -/
theorem run_mono (env : Env) {n m : Nat} (h : n ≤ m) {u : ast_node} {s s1 : State} {a : Nat}
    (hr : run env n u s = .ok a s1) : run env m u s = .ok a s1 := by
  rcases run_le env n m h u s with h1 | h1
  · rw [hr] at h1; cases h1
  · rw [← h1, hr]

/-- A successful `init` stays the same with more fuel. -/
theorem init_mono (env : Env) {n m : Nat} (h : n ≤ m) {tree : ast_node} {parent : Nat}
    {s s1 : State} {a : Nat} (hr : init env n tree parent s = .ok a s1) :
    init env m tree parent s = .ok a s1 := by
  rcases init_with_le (run_le env n m h) tree parent s with h1 | h1
  · rw [show init_with (run env n) tree parent s = init env n tree parent s from rfl, hr] at h1
    cases h1
  · rw [show init env m tree parent s = init_with (run env m) tree parent s from rfl, ← h1]
    exact hr

/-! ## Unfolding lemmas -/

theorem bind_ok {α β : Type} {x : M α} {f : α → M β} {s s1 : State} {a : α}
    (h : x s = .ok a s1) : (x >>= f) s = f a s1 := by
  show M.bind x f s = f a s1
  unfold M.bind
  rw [h]

theorem bind_fail {α β : Type} {x : M α} {f : α → M β} {s s1 : State} {e : Failure}
    (h : x s = .fail e s1) : (x >>= f) s = .fail e s1 := by
  show M.bind x f s = .fail e s1
  unfold M.bind
  rw [h]

theorem bind_out {α β : Type} {x : M α} {f : α → M β} {s : State}
    (h : x s = .out_of_fuel) : (x >>= f) s = .out_of_fuel := by
  show M.bind x f s = .out_of_fuel
  unfold M.bind
  rw [h]

theorem bind_apply {α β : Type} (x : M α) (f : α → M β) (s : State) :
    (x >>= f) s = match x s with
      | .ok a s1 => f a s1
      | .fail e s1 => .fail e s1
      | .out_of_fuel => .out_of_fuel := rfl

theorem pure_apply {α : Type} (a : α) (s : State) : (pure a : M α) s = .ok a s := rfl

theorem get_apply (s : State) : M.get s = .ok s s := rfl

theorem modify_apply (f : State → State) (s : State) : M.modify f s = .ok () (f s) := rfl

theorem err_apply {α : Type} (msg : String) (line : Option Nat) (s : State) :
    (M.err msg line : M α) s = .fail (.err msg line) s := rfl

theorem fail_apply {α : Type} (e : Failure) (s : State) : (M.fail e : M α) s = .fail e s := rfl

theorem deref_ok {a : Nat} {s : State} {o : object} (h : s.heap[a]? = some o) :
    deref a s = .ok o s := by
  unfold deref; rw [h]

/-- A successful outcome is determined by its value and its state. -/
theorem Res.eq_ok (r : Res Nat) (d : State) (h : r.is_ok = true) :
    r = .ok r.value (r.state d) := by
  cases r with
  | ok a s => rfl
  | fail e s => cases h
  | out_of_fuel => cases h

/-- A successful outcome is determined by its result and its state. -/
theorem Res.eq_ok_of_result {α : Type} (r : Res α) (a : α) (d : State)
    (h : r.result = some a) : r = .ok a (r.state d) := by
  cases r with
  | ok b s => injection h with h; rw [h]; rfl
  | fail e s => cases h
  | out_of_fuel => cases h

/-- The outcome of `init` in terms of the outcome of running the body. -/
theorem init_eq (env : Env) (n : Nat) (tree : ast_node) (parent : Nat) (s s1 : State)
    (res : Nat) (p : object) (hrun : run env n tree (reset s) = .ok res s1)
    (hp : s1.heap[parent]? = some p) :
    init env n tree parent s =
      if s1.has_return = true ∧ p.f_return = .o_none then
        .fail (.err "none function returned non-none object" none) s1
      else if s1.has_return = false ∧ p.f_return ≠ .o_none then
        .fail (.err "non-none function returned none" none) s1
      else
        match s1.has_return, s1.return_val with
        | true, none => .fail .undefined_behaviour s1
        | true, some rv =>
          match s1.heap[rv]? with
          | none => .fail .undefined_behaviour s1
          | some r =>
            if r.type ≠ p.f_return then
              .fail (.err "function return type does not match returned object type" none) s1
            else if s1.has_continue = true then
              .fail (.err "continue called outside loop" none) s1
            else if s1.has_break = true then
              .fail (.err "break called outside loop" none) s1
            else .ok rv s1
        | false, _ =>
          if s1.has_continue = true then
            .fail (.err "continue called outside loop" none) s1
          else if s1.has_break = true then
            .fail (.err "break called outside loop" none) s1
          else .ok res s1 := by
  unfold init init_with
  rw [bind_ok (modify_apply reset s), bind_ok hrun, bind_ok (get_apply s1),
    bind_ok (deref_ok hp)]
  cases hret : s1.has_return <;> cases hc : s1.has_continue <;> cases hb : s1.has_break <;>
    by_cases hf : p.f_return = .o_none <;> simp [hf, err_apply, pure_apply]
  all_goals
    cases hrv : s1.return_val with
    | none => simp [fail_apply]
    | some rv =>
      cases hr : s1.heap[rv]? with
      | none => simp [bind_apply, deref, hr]
      | some r =>
        by_cases ht : r.type = p.f_return <;>
          simp [bind_apply, deref, hr, ht, err_apply, pure_apply]

/-! ## The activation contract of `init` -/

/-- C1: when the body run finishes without a fatal error, `init` fails if a
return fired and the declared return type is none, fails if no return fired
and the declared return type is not none, and fails if a return fired and the
type of the captured value differs from the declared return type; when none
of these holds and neither continue nor break is live, `init` succeeds (with
the body's value when no return fired, with the return slot otherwise). -/
theorem init_return_contract (env : Env) (n : Nat) (tree : ast_node) (parent : Nat)
    (s s1 : State) (res : Nat) (p : object)
    (hrun : run env n tree (reset s) = .ok res s1)
    (hp : s1.heap[parent]? = some p) :
    (s1.has_return = true → p.f_return = .o_none →
      init env n tree parent s =
        .fail (.err "none function returned non-none object" none) s1) ∧
    (s1.has_return = false → p.f_return ≠ .o_none →
      init env n tree parent s = .fail (.err "non-none function returned none" none) s1) ∧
    (∀ rv r, s1.has_return = true → s1.return_val = some rv → s1.heap[rv]? = some r →
      r.type ≠ p.f_return →
      init env n tree parent s =
        .fail (.err (if p.f_return = .o_none then "none function returned non-none object"
          else "function return type does not match returned object type") none) s1) ∧
    (s1.has_return = false → p.f_return = .o_none → s1.has_continue = false →
      s1.has_break = false → init env n tree parent s = .ok res s1) ∧
    (∀ rv r, s1.has_return = true → s1.return_val = some rv → s1.heap[rv]? = some r →
      p.f_return ≠ .o_none → r.type = p.f_return → s1.has_continue = false →
      s1.has_break = false → init env n tree parent s = .ok rv s1) := by
  rw [init_eq env n tree parent s s1 res p hrun hp]
  refine ⟨?_, ?_, ?_, ?_, ?_⟩
  · intro h1 h2; simp [h1, h2]
  · intro h1 h2; simp [h1, h2]
  · intro rv r h1 h2 h3 h4
    by_cases hf : p.f_return = .o_none <;> simp [h1, h2, h3, h4, hf]
  · intro h1 h2 h3 h4; simp [h1, h2, h3, h4]
  · intro rv r h1 h2 h3 h4 h5 h6 h7; simp [h1, h2, h3, h4, h5, h6, h7]

/-- Witness of C1: `return 5` in a function declared to return a number makes
`init` succeed with the return slot. -/
theorem init_return_contract_witness :
    init Sample.env 4 Sample.prog_return 0 (Sample.start .o_num []) =
      .ok 2 (Sample.run_return.state (Sample.start .o_num [])) :=
  (init_return_contract Sample.env 4 Sample.prog_return 0 (Sample.start .o_num [])
    (Sample.run_return.state (Sample.start .o_num [])) Sample.run_return.value
    (Sample.fn_obj .o_num) rfl rfl).2.2.2.2
    2 { Sample.construct .o_num with store := .d 5 } rfl rfl rfl (by decide) rfl rfl rfl

/-- C2, as stated, fails: `continue` outside a loop in a function declared to
return a number leaves the continue flag set, and `init` fails with the error
about the missing return, not with the error about the loop. -/
theorem init_continue_other_error :
    ((run Sample.env 4 Sample.prog_continue (reset (Sample.start .o_num []))).state
        (Sample.start .o_num [])).has_continue = true ∧
    (init Sample.env 4 Sample.prog_continue 0 (Sample.start .o_num [])).failure =
      some (.err "non-none function returned none" none) ∧
    (init Sample.env 4 Sample.prog_continue 0 (Sample.start .o_num [])).failure ≠
      some (.err "continue called outside loop" none) := by
  refine ⟨by decide, by decide, by decide⟩

/-- C2, amended: when continue or break is still live after the body run,
`init` fails; the failure is the error about the loop when no return fired and
the declared return type is none, and the error about the missing return when
no return fired and the declared return type is not none. -/
theorem init_loop_signal_escapes (env : Env) (n : Nat) (tree : ast_node) (parent : Nat)
    (s s1 : State) (res : Nat)
    (hrun : run env n tree (reset s) = .ok res s1)
    (hlive : s1.has_continue = true ∨ s1.has_break = true) :
    (∃ e, init env n tree parent s = .fail e s1) ∧
    (∀ p, s1.heap[parent]? = some p → s1.has_return = false → p.f_return = .o_none →
      init env n tree parent s =
        .fail (.err (if s1.has_continue = true then "continue called outside loop"
          else "break called outside loop") none) s1) ∧
    (∀ p, s1.heap[parent]? = some p → s1.has_return = false → p.f_return ≠ .o_none →
      init env n tree parent s = .fail (.err "non-none function returned none" none) s1) := by
  refine ⟨?_, ?_, ?_⟩
  · cases hp : s1.heap[parent]? with
    | none =>
      refine ⟨.undefined_behaviour, ?_⟩
      unfold init init_with
      rw [bind_ok (modify_apply reset s), bind_ok hrun, bind_ok (get_apply s1)]
      apply bind_fail
      unfold deref
      rw [hp]
    | some p =>
      rw [init_eq env n tree parent s s1 res p hrun hp]
      split
      · exact ⟨_, rfl⟩
      · split
        · exact ⟨_, rfl⟩
        · split
          · exact ⟨_, rfl⟩
          · split
            · exact ⟨_, rfl⟩
            · split
              · exact ⟨_, rfl⟩
              · split
                · exact ⟨_, rfl⟩
                · split
                  · exact ⟨_, rfl⟩
                  · rcases hlive with h | h <;> simp_all
          · split
            · exact ⟨_, rfl⟩
            · split
              · exact ⟨_, rfl⟩
              · rcases hlive with h | h <;> simp_all
  · intro p hp h1 h2
    rw [init_eq env n tree parent s s1 res p hrun hp]
    rcases hlive with h | h
    · simp [h1, h2, h]
    · cases hc : s1.has_continue <;> simp [h1, h2, h, hc]
  · intro p hp h1 h2
    rw [init_eq env n tree parent s s1 res p hrun hp]
    simp [h1, h2]

/-- Witness of C2, amended: `continue` outside a loop in a function declared
to return nothing fails with the error about the loop. -/
theorem init_loop_signal_escapes_witness :
    init Sample.env 4 Sample.prog_continue 0 (Sample.start .o_none []) =
      .fail (.err "continue called outside loop" none)
        (Sample.run_continue.state (Sample.start .o_none [])) :=
  (init_loop_signal_escapes Sample.env 4 Sample.prog_continue 0 (Sample.start .o_none [])
    (Sample.run_continue.state (Sample.start .o_none [])) Sample.run_continue.value
    rfl (Or.inl rfl)).2.1 (Sample.fn_obj .o_none) rfl rfl rfl

/-! ## The value `init` hands back -/

theorem new_object_apply (env : Env) (t : o_type) (s : State) :
    new_object env t s = .ok s.heap.length { s with heap := s.heap ++ [env.construct t] } := rfl

theorem run_succ (env : Env) (n : Nat) (u : ast_node) :
    run env (n + 1) u = step env (run env n) n u := rfl

/-- Under a live flag `run` only builds a vacant object. -/
theorem run_flagged (env : Env) (n : Nat) (u : ast_node) (s : State)
    (h : s.flagged = true) : run env (n + 1) u s = new_object env .o_none s := by
  rw [run_succ]
  unfold step
  rw [bind_ok (get_apply s)]
  simp [h]

/-- A computation that ends by building an object returns a pointer to it. -/
theorem then_new_object {α : Type} (env : Env) (t : o_type) (x : M α) (s s1 : State) (a : Nat)
    (h : (x >>= fun _ => new_object env t) s = .ok a s1) :
    s1.heap[a]? = some (env.construct t) ∧ a + 1 = s1.heap.length := by
  rw [bind_apply] at h
  cases hx : x s with
  | ok b s2 =>
    rw [hx] at h
    simp only [new_object_apply] at h
    injection h with h1 h2
    subst h1 h2
    simp
  | fail e s2 => rw [hx] at h; cases h
  | out_of_fuel => rw [hx] at h; cases h

/-- A group yields a vacant object built after its children have run. -/
theorem run_group_node (env : Env) (n : Nat) (u : ast_node) (s s1 : State) (a : Nat)
    (hv : env.vars u.val.val = false) (ht : u.val.type = .t_group)
    (h : run env n u s = .ok a s1) :
    s1.heap[a]? = some (env.construct .o_none) ∧ a + 1 = s1.heap.length := by
  cases n with
  | zero => cases h
  | succ n =>
    by_cases hf : s.flagged = true
    · rw [run_flagged env n u s hf, new_object_apply] at h
      injection h with h1 h2
      subst h1 h2
      simp
    · rw [run_succ] at h
      unfold step at h
      rw [bind_ok (get_apply s)] at h
      simp only [hf, hv, ht, Bool.false_eq_true, if_false, if_true] at h
      exact then_new_object env .o_none _ s s1 a h

/-- A numeric literal yields the object `new object(o_num)` after
`set(value)`. -/
theorem run_num_node (env : Env) (n : Nat) (u : ast_node) (s : State) (v : Rat)
    (h2 : List object)
    (hf : s.flagged = false) (hv : env.vars u.val.val = false)
    (hc : env.control u.val.val = false) (ht : u.val.type = .t_num)
    (hd : env.stod u.val.val = some (v, u.val.val.utf8ByteSize))
    (hs : env.set (.d v) (s.heap ++ [env.construct .o_num]) s.heap.length = .ok h2) :
    run env (n + 1) u s = .ok s.heap.length { s with heap := h2 } := by
  rw [run_succ]
  unfold step
  rw [bind_ok (get_apply s)]
  simp only [hf, hv, hc, ht, Bool.false_eq_true, if_false, if_true, reduceCtorEq]
  unfold run_num
  rw [bind_ok (new_object_apply env .o_num s)]
  simp only [hd, ne_eq, not_true_eq_false, if_false]
  rw [bind_apply]
  simp only [set_store, hs, pure_apply]

/-- A string literal yields the object `new object(o_str)` after
`set(text)`. -/
theorem run_str_node (env : Env) (n : Nat) (u : ast_node) (s : State) (h2 : List object)
    (hf : s.flagged = false) (hv : env.vars u.val.val = false)
    (hc : env.control u.val.val = false) (ht : u.val.type = .t_str)
    (hs : env.set (.s u.val.val) (s.heap ++ [env.construct .o_str]) s.heap.length = .ok h2) :
    run env (n + 1) u s = .ok s.heap.length { s with heap := h2 } := by
  rw [run_succ]
  unfold step
  rw [bind_ok (get_apply s)]
  simp only [hf, hv, hc, ht, Bool.false_eq_true, if_false, if_true, reduceCtorEq]
  unfold run_str
  rw [bind_ok (new_object_apply env .o_str s)]
  rw [bind_apply]
  simp only [set_store, hs, pure_apply]

/-- C3, as stated, fails: the activation over a group whose only child is the
literal `5` yields a vacant object, not the number 5; and the activation over
a group whose only child is an `if` with a false condition yields a vacant
object, not the boolean false. -/
theorem init_group_result_vacant :
    (init Sample.env 4 Sample.prog_literal 0 (Sample.start .o_none [])).type_of =
      some .o_none ∧
    (init Sample.env 4 Sample.prog_literal 0 (Sample.start .o_none [])).store_of ≠
      some (.d 5) ∧
    (init Sample.env 4 Sample.prog_if_false 0 (Sample.start .o_none [])).type_of =
      some .o_none ∧
    (init Sample.env 4 Sample.prog_if_false 0 (Sample.start .o_none [])).store_of ≠
      some (.b false) := by
  refine ⟨by decide, by decide, by decide, by decide⟩

/-- C3, amended: when no return fires and `init` succeeds, its result is the
value `run` yields for the body; for a body that is a group this is a vacant
object built after the children have run, whatever the children are; for a
body that is itself a numeric or string literal it is the object built from
the literal. -/
theorem init_result_without_return (env : Env) (n : Nat) (tree : ast_node) (parent : Nat)
    (s s1 : State) (res : Nat)
    (hrun : run env n tree (reset s) = .ok res s1)
    (hnr : s1.has_return = false) :
    (∀ a s2, init env n tree parent s = .ok a s2 → a = res ∧ s2 = s1) ∧
    (tree.val.type = .t_group → env.vars tree.val.val = false →
      s1.heap[res]? = some (env.construct .o_none) ∧ res + 1 = s1.heap.length) ∧
    (∀ v h2, tree.val.type = .t_num → env.vars tree.val.val = false →
      env.control tree.val.val = false →
      env.stod tree.val.val = some (v, tree.val.val.utf8ByteSize) →
      env.set (.d v) (s.heap ++ [env.construct .o_num]) s.heap.length = .ok h2 →
      res = s.heap.length ∧ s1 = { reset s with heap := h2 }) ∧
    (∀ h2, tree.val.type = .t_str → env.vars tree.val.val = false →
      env.control tree.val.val = false →
      env.set (.s tree.val.val) (s.heap ++ [env.construct .o_str]) s.heap.length = .ok h2 →
      res = s.heap.length ∧ s1 = { reset s with heap := h2 }) := by
  refine ⟨?_, ?_, ?_, ?_⟩
  · intro a s2 hi
    cases hp : s1.heap[parent]? with
    | none =>
      unfold init init_with at hi
      rw [bind_ok (modify_apply reset s), bind_ok hrun, bind_ok (get_apply s1)] at hi
      rw [bind_fail (show deref parent s1 = .fail .undefined_behaviour s1 by
        unfold deref; rw [hp])] at hi
      cases hi
    | some p =>
      rw [init_eq env n tree parent s s1 res p hrun hp] at hi
      simp only [hnr, Bool.false_eq_true, false_and, if_false, true_and] at hi
      split at hi
      · cases hi
      · split at hi
        · cases hi
        · split at hi
          · cases hi
          · injection hi with h1 h2
            exact ⟨h1.symm, h2.symm⟩
  · intro ht hv
    exact run_group_node env n tree (reset s) s1 res hv ht hrun
  · intro v h2 ht hv hc hd hs
    cases n with
    | zero => cases hrun
    | succ n =>
      rw [run_num_node env n tree (reset s) v h2 rfl hv hc ht hd hs] at hrun
      injection hrun with h1 h3
      exact ⟨h1.symm, h3.symm⟩
  · intro h2 ht hv hc hs
    cases n with
    | zero => cases hrun
    | succ n =>
      rw [run_str_node env n tree (reset s) h2 rfl hv hc ht hs] at hrun
      injection hrun with h1 h3
      exact ⟨h1.symm, h3.symm⟩

/-- Witness of C3, amended: the activation over the group holding the literal
`5` yields a vacant object. -/
theorem init_result_without_return_witness :
    ((run Sample.env 4 Sample.prog_literal (reset (Sample.start .o_none []))).state
        (Sample.start .o_none [])).heap[
      (run Sample.env 4 Sample.prog_literal (reset (Sample.start .o_none []))).value]? =
      some (Sample.env.construct .o_none) :=
  ((init_result_without_return Sample.env 4 Sample.prog_literal 0 (Sample.start .o_none [])
    ((run Sample.env 4 Sample.prog_literal (reset (Sample.start .o_none []))).state
      (Sample.start .o_none []))
    (run Sample.env 4 Sample.prog_literal (reset (Sample.start .o_none []))).value
    rfl rfl).2.1 rfl rfl).1

/-! ## The `return` operator -/

theorem ladder_return : ladder.lookup "return" = none := by decide

theorem sub_at_zero (a : Nat) (l : List Nat) (s : State) : sub_at (a :: l) 0 s = .ok a s := by
  simp [sub_at]

theorem run_children_one {rec : ast_node → M Nat} {c : ast_node} {s s1 : State} {v : Nat}
    (h : rec c s = .ok v s1) : run_children rec [c] s = .ok [v] s1 := by
  unfold run_children
  rw [bind_ok h]
  unfold run_children
  rfl

/-- C4: a `return` node with one operand, evaluated while no flag is set,
evaluates the operand to `v`, stores in the return slot a new object with the
type of `v` and a copy of its store, sets the return flag and yields `v`; and
when `init` succeeds after a return fired, its result is the return slot.
The value model is assumed to build objects of the requested type and to copy
the store on `equal` between objects of one type. -/
theorem return_captures_value (env : Env) (n : Nat) (u c : ast_node) (s s1 : State)
    (v : Nat) (o : object)
    (hcons : ∀ t, (env.construct t).type = t)
    (hequal : ∀ (h : List object) (a b : Nat) (x y : object), h[a]? = some x →
      h[b]? = some y → x.type = y.type →
      env.method "equal" h a [b] = .ok (h.set a { x with store := y.store }, a))
    (htext : u.val.val = "return") (hv : env.vars "return" = false)
    (hctl : env.control "return" = false) (ht : u.val.type = .t_builtin)
    (hops : u.val.ops = 1) (hch : u.children = [c]) (hf : s.flagged = false)
    (hrun : run env n c s = .ok v s1) (ho : s1.heap[v]? = some o) :
    (run env (n + 1) u s = .ok v
      { s1 with
        heap := s1.heap ++ [{ env.construct o.type with store := o.store }]
        return_val := some s1.heap.length
        has_return := true }) ∧
    ({ env.construct o.type with store := o.store } : object).type = o.type ∧
    (∀ tree parent s0 s3 res a s4, run env n tree (reset s0) = .ok res s3 →
      s3.has_return = true → init env n tree parent s0 = .ok a s4 →
      s3.return_val = some a ∧ s4 = s3) := by
  refine ⟨?_, hcons o.type, ?_⟩
  · have hlt : v < s1.heap.length := by
      by_contra hge
      rw [List.getElem?_eq_none (by omega)] at ho
      cases ho
    rw [run_succ]
    unfold step
    rw [bind_ok (get_apply s)]
    simp only [hf, htext, hv, hctl, ht, Bool.false_eq_true, if_false, if_true, reduceCtorEq]
    unfold run_builtin
    simp only [htext, hops, hch, List.length_singleton, ne_eq, not_true_eq_false, if_false,
      String.reduceEq]
    rw [bind_ok (run_children_one hrun)]
    unfold run_ladder
    simp only [htext, String.reduceEq, if_false, if_true, ladder_return]
    rw [bind_ok (sub_at_zero v [] s1), bind_ok (deref_ok ho),
      bind_ok (new_object_apply env o.type s1), bind_ok (modify_apply _ _)]
    have hcall : call env "equal" s1.heap.length [v]
        { s1 with heap := s1.heap ++ [env.construct o.type], return_val := some s1.heap.length } =
        .ok s1.heap.length { s1 with
          heap := s1.heap ++ [{ env.construct o.type with store := o.store }],
          return_val := some s1.heap.length } := by
      unfold call
      have h1 : (s1.heap ++ [env.construct o.type])[s1.heap.length]? =
          some (env.construct o.type) := by simp
      have h2 : (s1.heap ++ [env.construct o.type])[v]? = some o := by
        rw [List.getElem?_append_left hlt]; exact ho
      simp only [hequal _ _ _ _ _ h1 h2 (hcons o.type)]
      simp
    rw [bind_ok hcall, bind_ok (modify_apply _ _)]
    rfl
  · intro tree parent s0 s3 res a s4 hr hret hi
    cases hp : s3.heap[parent]? with
    | none =>
      unfold init init_with at hi
      rw [bind_ok (modify_apply reset s0), bind_ok hr, bind_ok (get_apply s3)] at hi
      rw [bind_fail (show deref parent s3 = .fail .undefined_behaviour s3 by
        unfold deref; rw [hp])] at hi
      cases hi
    | some p =>
      rw [init_eq env n tree parent s0 s3 res p hr hp] at hi
      simp only [hret, true_and, Bool.true_eq_false, false_and, if_false] at hi
      split at hi
      · cases hi
      · cases hrv : s3.return_val with
        | none => rw [hrv] at hi; cases hi
        | some rv =>
          rw [hrv] at hi
          simp only at hi
          split at hi
          · cases hi
          · split at hi
            · cases hi
            · split at hi
              · cases hi
              · split at hi
                · cases hi
                · injection hi with h1 h2
                  exact ⟨by rw [h1], h2.symm⟩

theorem Sample.construct_type (t : o_type) : (Sample.env.construct t).type = t := rfl

theorem Sample.equal_law (h : List object) (a b : Nat) (x y : object)
    (hx : h[a]? = some x) (hy : h[b]? = some y) (ht : x.type = y.type) :
    Sample.env.method "equal" h a [b] = .ok (h.set a { x with store := y.store }, a) := by
  show Sample.method "equal" h a [b] = _
  unfold Sample.method
  simp [hx, hy, ht]

/-- Witness of C4: `return 5` evaluates `5`, copies it into a new number
object in the return slot, sets the return flag and yields the operand. -/
theorem return_captures_value_witness :
    run Sample.env 2 Sample.node_return (Sample.start .o_num []) = .ok 1
      { Sample.run_operand.state (Sample.start .o_num []) with
        heap := (Sample.run_operand.state (Sample.start .o_num [])).heap ++
          [{ Sample.construct .o_num with store := .d 5 }]
        return_val := some 2
        has_return := true } :=
  (return_captures_value Sample.env 1 Sample.node_return (Sample.num "5")
    (Sample.start .o_num []) (Sample.run_operand.state (Sample.start .o_num [])) 1
    { Sample.construct .o_num with store := .d 5 }
    Sample.construct_type Sample.equal_law rfl rfl rfl rfl rfl rfl rfl rfl rfl).1

/-! ## Failures that come before any evaluation -/

theorem memory.has_eq_get (m : List Frame) (x : String) :
    memory.has m x = (memory.get m x).isSome := by
  induction m with
  | nil => rfl
  | cons f fs ih =>
    unfold memory.has memory.get at *
    rw [List.any_cons, List.findSome?_cons, ih]
    cases f.lookup x <;> simp

/-- C10: a symbol bound to a function whose parameter count differs from the
node's child count fails with the arity error in the state in which the node
was entered; the outcome is the same for every evaluator of subtrees, so no
argument and no body is evaluated, and no frame is pushed. -/
theorem call_arity_mismatch (env : Env) (rec : ast_node → M Nat) (k n : Nat)
    (u : ast_node) (s : State) (obj : Nat) (f : object)
    (hf : s.flagged = false) (hv : env.vars u.val.val = false)
    (hc : env.control u.val.val = false) (ht : u.val.type = .t_symbol)
    (hget : memory.get s.mem u.val.val = some obj) (hobj : s.heap[obj]? = some f)
    (hfn : f.type = .o_fn) (hne : f.f_params.length ≠ u.children.length) :
    step env rec k u s =
      .fail (.err ("incorrect number of children for function " ++ dq ++ u.val.val ++ dq)
        (some (env.type_code u.val.type))) s ∧
    run env (n + 1) u s =
      .fail (.err ("incorrect number of children for function " ++ dq ++ u.val.val ++ dq)
        (some (env.type_code u.val.type))) s := by
  have key : ∀ (r : ast_node → M Nat) (j : Nat), step env r j u s =
      .fail (.err ("incorrect number of children for function " ++ dq ++ u.val.val ++ dq)
        (some (env.type_code u.val.type))) s := by
    intro r j
    unfold step
    rw [bind_ok (get_apply s)]
    simp only [hf, hv, hc, ht, Bool.false_eq_true, if_false, if_true, reduceCtorEq]
    unfold run_symbol
    rw [bind_ok (get_apply s)]
    have hhas : memory.has s.mem u.val.val = true := by
      rw [memory.has_eq_get, hget]; rfl
    simp only [hhas, if_true, hget]
    rw [bind_ok (deref_ok hobj)]
    simp only [hfn, ne_eq, not_true_eq_false, if_false, hne, not_false_eq_true, if_true, ht]
    rfl
  exact ⟨key rec k, key (run env n) n⟩

/-- C9: a `for` node whose loop variable is already bound fails with the
"for loop variable already defined" error in the state in which the node was
entered; the outcome is the same for every evaluator of subtrees, so neither
the body nor a range argument is evaluated, and no binding is added or
changed. -/
theorem for_variable_already_defined (env : Env) (rec : ast_node → M Nat) (k n : Nat)
    (u of_node lhs rhs body : ast_node) (s : State)
    (hf : s.flagged = false) (htext : u.val.val = "for") (hv : env.vars "for" = false)
    (hg : u.val.type ≠ .t_group) (hc : env.control "for" = true)
    (hch : u.children = [of_node, body]) (hof : of_node.val.val = "of")
    (hoch : of_node.children = [lhs, rhs]) (hsym : lhs.val.type = .t_symbol)
    (hbound : memory.has s.mem lhs.val.val = true) :
    step env rec k u s =
      .fail (.err "for loop variable already defined" (some lhs.val.line)) s ∧
    run env (n + 1) u s =
      .fail (.err "for loop variable already defined" (some lhs.val.line)) s := by
  have key : ∀ (r : ast_node → M Nat) (j : Nat), step env r j u s =
      .fail (.err "for loop variable already defined" (some lhs.val.line)) s := by
    intro r j
    unfold step
    rw [bind_ok (get_apply s)]
    simp only [hf, htext, hv, hc, hg, Bool.false_eq_true, if_false, if_true, String.reduceEq,
      or_self]
    apply bind_fail
    unfold run_for
    simp only [hch, List.length_cons, List.length_nil, ne_eq, not_true_eq_false, if_false]
    rw [bind_ok (show child u 0 s = .ok of_node s by simp [child, hch])]
    simp only [hof, hoch, List.length_cons, List.length_nil, ne_eq, not_true_eq_false, if_false]
    rw [bind_ok (show child of_node 0 s = .ok lhs s by simp [child, hoch])]
    simp only [hsym, ne_eq, not_true_eq_false, if_false]
    rw [bind_ok (get_apply s)]
    simp only [hbound, if_true]
    rfl
  exact ⟨key rec k, key (run env n) n⟩

/-- Witness of C10: calling the one-parameter function `f` without arguments
fails with the arity error and leaves the state as it was. -/
theorem call_arity_mismatch_witness :
    run Sample.env 1 (Sample.sym "f") Sample.state_bound =
      .fail (.err ("incorrect number of children for function " ++ dq ++ "f" ++ dq) (some 3))
        Sample.state_bound :=
  (call_arity_mismatch Sample.env (run Sample.env 0) 0 0 (Sample.sym "f") Sample.state_bound 1
    { type := .o_fn, store := .mono, f_params := [{ type := .o_num, symbol := "a" }],
      f_body := some (Sample.group []), f_return := .o_none }
    rfl rfl rfl rfl rfl rfl rfl (by decide)).2

/-- Witness of C9: `for x of range(3)` with `x` already bound fails before
anything is evaluated. -/
theorem for_variable_already_defined_witness :
    run Sample.env 1 (Sample.for_range "x" [Sample.num "3"] (Sample.group []))
        Sample.state_bound =
      .fail (.err "for loop variable already defined" (some 1)) Sample.state_bound :=
  (for_variable_already_defined Sample.env (run Sample.env 0) 0 0
    (Sample.for_range "x" [Sample.num "3"] (Sample.group []))
    (Sample.node "of" .t_builtin 2 [Sample.sym "x", Sample.node "range" .t_symbol 0 [Sample.num "3"]])
    (Sample.sym "x") (Sample.node "range" .t_symbol 0 [Sample.num "3"]) (Sample.group [])
    Sample.state_bound rfl rfl rfl (by decide) rfl rfl rfl rfl rfl rfl).2

/-! ## `while` -/

theorem child_ok {u c : ast_node} {i : Nat} (h : u.children[i]? = some c) (s : State) :
    child u i s = .ok c s := by
  unfold child; rw [h]

theorem get_bool_ok {a : Nat} {s : State} {o : object} {v : Bool}
    (h : s.heap[a]? = some o) (hv : o.store = .b v) : get_bool a s = .ok v s := by
  unfold get_bool
  rw [deref_ok h]
  simp only [hv]

/-- A `while` node runs the loop and then builds a vacant object. -/
theorem run_while_node (env : Env) (n : Nat) (u : ast_node) (s : State)
    (hf : s.flagged = false) (htext : u.val.val = "while") (hv : env.vars "while" = false)
    (hg : u.val.type ≠ .t_group) (hc : env.control "while" = true) :
    run env (n + 1) u s =
      (while_loop env (run env n) u n >>= fun _ => new_object env .o_none) s := by
  rw [run_succ]
  unfold step
  rw [bind_ok (get_apply s)]
  simp only [hf, htext, hv, hc, hg, Bool.false_eq_true, if_false, if_true, String.reduceEq,
    or_self]

/-- One round of the loop whose condition is false: the loop ends in the
state reached by the test. -/
theorem while_loop_false (env : Env) (rec : ast_node → M Nat) (k : Nat) (u c : ast_node)
    (s s1 s2 : State) (v tb : Nat) (o : object)
    (hc0 : u.children[0]? = some c) (hcond : rec c s = .ok v s1)
    (htb : call env "to_bool" v [] s1 = .ok tb s2)
    (ho : s2.heap[tb]? = some o) (hfalse : o.store = .b false) :
    while_loop env rec u (k + 1) s = .ok () s2 := by
  unfold while_loop
  rw [bind_ok (child_ok hc0 s), bind_ok hcond, bind_ok htb, bind_ok (get_bool_ok ho hfalse)]
  rfl

/-- One round of the loop whose body leaves the break flag set: the loop ends
right after the body, with the flag cleared. -/
theorem while_loop_break (env : Env) (rec : ast_node → M Nat) (k : Nat) (u c b : ast_node)
    (s s1 s2 s3 : State) (v tb r : Nat) (o : object)
    (hc0 : u.children[0]? = some c) (hcond : rec c s = .ok v s1)
    (htb : call env "to_bool" v [] s1 = .ok tb s2)
    (ho : s2.heap[tb]? = some o) (htrue : o.store = .b true)
    (hc1 : u.children[1]? = some b) (hbody : rec b s2 = .ok r s3)
    (hbreak : s3.has_break = true) :
    while_loop env rec u (k + 1) s = .ok () (clear_break (clear_continue s3)) := by
  unfold while_loop
  rw [bind_ok (child_ok hc0 s), bind_ok hcond, bind_ok htb, bind_ok (get_bool_ok ho htrue)]
  simp only [if_true]
  rw [bind_ok (child_ok hc1 s2), bind_ok hbody, bind_ok (modify_apply _ _),
    bind_ok (get_apply _)]
  have : (clear_continue s3).has_break = true := by
    unfold clear_continue; split <;> simp [hbreak]
  simp only [this, if_true]
  rfl

/-- C6: for a `while` node evaluated while no flag is set, if the first
evaluation of the condition coerces to false the node ends in the state
reached by that one test (the body is not run); and in any round in which the
body leaves the break flag set the loop ends right after that body run, with
the flag cleared and no further test.  Both hold with no loop fuel left for
another round. -/
theorem while_false_and_break (env : Env) (n : Nat) (u c : ast_node) (s : State)
    (hf : s.flagged = false) (htext : u.val.val = "while") (hv : env.vars "while" = false)
    (hg : u.val.type ≠ .t_group) (hc : env.control "while" = true)
    (hc0 : u.children[0]? = some c) :
    (∀ v s1 tb s2 o, run env n c s = .ok v s1 → call env "to_bool" v [] s1 = .ok tb s2 →
      s2.heap[tb]? = some o → o.store = .b false →
      while_loop env (run env n) u 1 s = .ok () s2 ∧
      run env (n + 1) u s = new_object env .o_none s2) ∧
    (∀ (rec : ast_node → M Nat) k b s0 v s1 tb s2 o r s3, rec c s0 = .ok v s1 →
      call env "to_bool" v [] s1 = .ok tb s2 → s2.heap[tb]? = some o → o.store = .b true →
      u.children[1]? = some b → rec b s2 = .ok r s3 → s3.has_break = true →
      while_loop env rec u (k + 1) s0 = .ok () (clear_break (clear_continue s3)) ∧
      (clear_break (clear_continue s3)).has_break = false) := by
  refine ⟨?_, ?_⟩
  · intro v s1 tb s2 o hcond htb ho hfalse
    refine ⟨while_loop_false env _ 0 u c s s1 s2 v tb o hc0 hcond htb ho hfalse, ?_⟩
    rw [run_while_node env n u s hf htext hv hg hc]
    cases n with
    | zero => cases hcond
    | succ n =>
      rw [bind_ok (while_loop_false env _ n u c s s1 s2 v tb o hc0 hcond htb ho hfalse)]
  · intro rec k b s0 v s1 tb s2 o r s3 hcond htb ho htrue hc1 hbody hbreak
    exact ⟨while_loop_break env rec k u c b s0 s1 s2 s3 v tb r o hc0 hcond htb ho htrue hc1
      hbody hbreak, rfl⟩

/-- Witness of C6: `while 0 { ... }` ends after the one test, and
`while 1 { outl "body"; break; outl "after" }` ends right after the first run
of its body, with one round of loop fuel. -/
theorem while_false_and_break_witness :
    run Sample.env 2 Sample.while_false (Sample.start .o_none []) =
      new_object Sample.env .o_none (Sample.test_false.state (Sample.start .o_none [])) ∧
    while_loop Sample.env (run Sample.env 3) Sample.while_break 1 (Sample.start .o_none []) =
      .ok () (clear_break (clear_continue (Sample.body_break.state (Sample.start .o_none [])))) :=
  ⟨((while_false_and_break Sample.env 1 Sample.while_false (Sample.num "0")
      (Sample.start .o_none []) rfl rfl rfl (by decide) rfl rfl).1
      Sample.cond_false.value (Sample.cond_false.state (Sample.start .o_none []))
      Sample.test_false.value (Sample.test_false.state (Sample.start .o_none []))
      { Sample.construct .o_bool with store := .b false } rfl rfl rfl rfl).2,
   ((while_false_and_break Sample.env 1 Sample.while_break (Sample.num "1")
      (Sample.start .o_none []) rfl rfl rfl (by decide) rfl rfl).2
      (run Sample.env 3) 0 (Sample.group [Sample.outl "body", Sample.op "break" [],
        Sample.outl "after"]) (Sample.start .o_none [])
      Sample.cond_true.value (Sample.cond_true.state (Sample.start .o_none []))
      Sample.test_true.value (Sample.test_true.state (Sample.start .o_none []))
      { Sample.construct .o_bool with store := .b true }
      Sample.body_break.value (Sample.body_break.state (Sample.start .o_none []))
      rfl rfl rfl rfl rfl rfl rfl).1⟩

/-! ## The frame effect of `for` -/

theorem bind_ok_inv {α β : Type} {x : M α} {f : α → M β} {s s2 : State} {b : β}
    (h : (x >>= f) s = .ok b s2) : ∃ a s1, x s = .ok a s1 ∧ f a s1 = .ok b s2 := by
  rw [bind_apply] at h
  cases hx : x s with
  | ok a s1 => rw [hx] at h; exact ⟨a, s1, rfl, h⟩
  | fail e s1 => rw [hx] at h; cases h
  | out_of_fuel => rw [hx] at h; cases h

theorem M.ends_bind {α β : Type} {x : M α} {f : α → M β} {P : State → Prop}
    (h : ∀ a, M.ends (f a) P) : M.ends (x >>= f) P := by
  intro s b s2 hs
  obtain ⟨a, s1, _, h2⟩ := bind_ok_inv hs
  exact h a s1 b s2 h2

theorem M.ends_child {β : Type} {u c : ast_node} {i : Nat} {f : ast_node → M β}
    {P : State → Prop} (hc : u.children[i]? = some c) (h : M.ends (f c) P) :
    M.ends (child u i >>= f) P := by
  intro s b s2 hs
  rw [bind_ok (child_ok hc s)] at hs
  exact h s b s2 hs

theorem M.ends_ite {α : Type} {c : Prop} [Decidable c] {x y : M α} {P : State → Prop}
    (h1 : M.ends x P) (h2 : M.ends y P) : M.ends (if c then x else y) P := by
  split
  · exact h1
  · exact h2

theorem M.ends_err {α : Type} (msg : String) (line : Option Nat) (P : State → Prop) :
    M.ends (M.err msg line : M α) P := by
  intro s a s2 h
  cases h

theorem lookup_filter_self (x : String) (f : Frame) :
    (f.filter (fun e => e.1 != x)).lookup x = none := by
  induction f with
  | nil => rfl
  | cons e f ih =>
    obtain ⟨k, v⟩ := e
    by_cases h : k = x
    · rw [List.filter_cons_of_neg (by simp [h])]
      exact ih
    · rw [List.filter_cons_of_pos (by simp [h]), List.lookup_cons]
      have h2 : (x == k) = false := by simp [Ne.symm h]
      rw [h2]
      exact ih

theorem lookup_filter_other (x y : String) (hxy : y ≠ x) (f : Frame) :
    (f.filter (fun e => e.1 != x)).lookup y = f.lookup y := by
  induction f with
  | nil => rfl
  | cons e f ih =>
    obtain ⟨k, v⟩ := e
    by_cases h : k = x
    · rw [List.filter_cons_of_neg (by simp [h]), List.lookup_cons]
      have h2 : (y == k) = false := by simp [h, hxy]
      rw [h2]
      exact ih
    · rw [List.filter_cons_of_pos (by simp [h]), List.lookup_cons, List.lookup_cons, ih]

/-- After `memory::remove` the name is not bound in the innermost frame. -/
theorem memory.remove_unbinds (m : List Frame) (x : String) :
    (memory.remove m x).head?.bind (fun f => f.lookup x) = none := by
  cases m with
  | nil => rfl
  | cons f fs => simp [memory.remove, lookup_filter_self]

/-- The function `memory::remove` leaves every other name as it was. -/
theorem memory.remove_other (m : List Frame) (x y : String) (hxy : y ≠ x) :
    memory.get (memory.remove m x) y = memory.get m y := by
  cases m with
  | nil => rfl
  | cons f fs => simp [memory.remove, memory.get, List.findSome?_cons, lookup_filter_other x y hxy]

/-- After `memory::remove` of a name that no outer frame binds, the name is
unbound. -/
theorem memory.remove_has (m : List Frame) (x : String)
    (h : memory.has m.tail x = false) : memory.has (memory.remove m x) x = false := by
  cases m with
  | nil => rfl
  | cons f fs =>
    simp only [List.tail_cons] at h
    simp only [memory.remove, memory.has, List.any_cons, lookup_filter_self] at h ⊢
    simpa using h

/-- A successful `for` branch ends by removing the loop variable from the
state in which the loop ended. -/
theorem run_for_ends (env : Env) (rec : ast_node → M Nat) (k : Nat)
    (u of_node lhs rhs body : ast_node)
    (hch : u.children = [of_node, body]) (hoch : of_node.children = [lhs, rhs]) :
    M.ends (run_for env rec k u) (fun s2 => ∃ s0 s1 it end_ every,
      for_loop env rec u it end_ every k s0 = .ok () s1 ∧
      s2 = { s1 with mem := memory.remove s1.mem lhs.val.val }) := by
  have h0 : u.children[0]? = some of_node := by simp [hch]
  have h1 : of_node.children[0]? = some lhs := by simp [hoch]
  unfold run_for
  refine M.ends_ite (M.ends_err _ _ _) ?_
  refine M.ends_child h0 ?_
  refine M.ends_ite (M.ends_err _ _ _) (M.ends_ite (M.ends_err _ _ _) ?_)
  refine M.ends_child h1 ?_
  refine M.ends_ite (M.ends_err _ _ _) (M.ends_bind (fun _ => ?_))
  refine M.ends_ite (M.ends_err _ _ _) ?_
  refine M.ends_bind (fun it => M.ends_bind (fun start => M.ends_bind (fun end_ =>
    M.ends_bind (fun every => ?_))))
  refine M.ends_bind (fun _ => M.ends_bind (fun _ => M.ends_bind (fun _ =>
    M.ends_bind (fun _ => ?_))))
  refine M.ends_bind (fun range => M.ends_ite (M.ends_err _ _ _) ?_)
  refine M.ends_bind (fun sub => M.ends_ite (M.ends_err _ _ _) ?_)
  refine M.ends_bind (fun _ => M.ends_bind (fun _ => ?_))
  intro s a s2 hs
  obtain ⟨_, s1, hl, hm⟩ := bind_ok_inv hs
  rw [modify_apply] at hm
  injection hm with _ hm
  exact ⟨s, s1, it, end_, every, hl, hm.symm⟩

/-- C8: after a `for` node has been evaluated, the loop variable is not bound
in the current frame, and every other name is bound as in the state in which
the loop ended, whatever ended the loop (the failed test, a break, or a live
return flag, which the removal leaves as it is); the scope environment is the
one modelled from the specification. -/
theorem for_removes_variable (env : Env) (n : Nat) (u of_node lhs rhs body : ast_node)
    (s s2 : State) (a : Nat)
    (hf : s.flagged = false) (htext : u.val.val = "for") (hv : env.vars "for" = false)
    (hg : u.val.type ≠ .t_group) (hc : env.control "for" = true)
    (hch : u.children = [of_node, body]) (hoch : of_node.children = [lhs, rhs])
    (hrun : run env (n + 1) u s = .ok a s2) :
    ∃ s0 s1 it end_ every,
      for_loop env (run env n) u it end_ every n s0 = .ok () s1 ∧
      s2 = { s1 with
        mem := memory.remove s1.mem lhs.val.val
        heap := s1.heap ++ [env.construct .o_none] } ∧
      s2.mem.head?.bind (fun f => f.lookup lhs.val.val) = none ∧
      (∀ y, y ≠ lhs.val.val → memory.get s2.mem y = memory.get s1.mem y) ∧
      (memory.has s1.mem.tail lhs.val.val = false → memory.has s2.mem lhs.val.val = false) ∧
      s2.has_return = s1.has_return := by
  rw [run_succ] at hrun
  unfold step at hrun
  rw [bind_ok (get_apply s)] at hrun
  simp only [hf, htext, hv, hc, hg, Bool.false_eq_true, if_false, if_true, String.reduceEq,
    or_self] at hrun
  obtain ⟨_, s3, h1, h2⟩ := bind_ok_inv hrun
  obtain ⟨s0, s1, it, end_, every, hl, hs3⟩ :=
    run_for_ends env (run env n) n u of_node lhs rhs body hch hoch s _ s3 h1
  rw [new_object_apply] at h2
  injection h2 with _ h2
  subst hs3
  subst h2
  refine ⟨s0, s1, it, end_, every, hl, rfl, ?_, ?_, ?_, rfl⟩
  · exact memory.remove_unbinds s1.mem lhs.val.val
  · intro y hy
    exact memory.remove_other s1.mem lhs.val.val y hy
  · intro h
    exact memory.remove_has s1.mem lhs.val.val h

set_option maxHeartbeats 1000000 in
/-- Witness of C8: after `for i of range(1) { }` the name `i` is unbound. -/
theorem for_removes_variable_witness :
    memory.has (Sample.run_for_once.state (Sample.start .o_none [])).mem "i" = false := by
  obtain ⟨s0, s1, it, end_, every, _, h2, _, _, h5, _⟩ :=
    for_removes_variable Sample.env 2 Sample.for_once
      (Sample.node "of" .t_builtin 2 [Sample.sym "i", Sample.node "range" .t_symbol 0 [Sample.num "1"]])
      (Sample.sym "i") (Sample.node "range" .t_symbol 0 [Sample.num "1"]) (Sample.group [])
      (Sample.start .o_none []) (Sample.run_for_once.state (Sample.start .o_none []))
      Sample.run_for_once.value rfl rfl rfl (by decide) rfl rfl rfl
      (Res.eq_ok Sample.run_for_once _ (by decide!))
  apply h5
  have h6 : (Sample.run_for_once.state (Sample.start .o_none [])).mem.tail = [] := by
    decide!
  have h7 : s1.mem.tail = (Sample.run_for_once.state (Sample.start .o_none [])).mem.tail := by
    rw [h2]
    cases s1.mem <;> rfl
  rw [h7, h6]
  rfl

/-! ## Conditional chains -/

theorem run_group_cons_plain (rec : ast_node → M Nat) (prev : Option ast_node)
    (sub : List Nat) (c : ast_node) (cs : List ast_node) (s : State)
    (hf : s.flagged = false) (h1 : c.val.val ≠ "elsif") (h2 : c.val.val ≠ "else") :
    run_group rec prev sub (c :: cs) s =
      (rec c >>= fun r => run_group rec (some c) (sub ++ [r]) cs) s := by
  rw [run_group, bind_ok (get_apply s)]
  simp only [hf, h1, h2, Bool.false_eq_true, if_false]

theorem sub_back_ok {sub : List Nat} {last : Nat} (h : sub.getLast? = some last) (s : State) :
    sub_back sub s = .ok last s := by
  unfold sub_back; rw [h]

theorem run_group_cons_elsif (rec : ast_node → M Nat) (prev : Option ast_node)
    (sub : List Nat) (c : ast_node) (cs : List ast_node) (s : State) (last : Nat) (v : Bool)
    (hf : s.flagged = false) (h1 : c.val.val = "elsif") (hp : follows_if prev = true)
    (hl : sub.getLast? = some last) (hb : get_bool last s = .ok v s) :
    run_group rec prev sub (c :: cs) s =
      if v = true then run_group rec (some c) (sub ++ [last]) cs s
      else (rec c >>= fun r => run_group rec (some c) (sub ++ [r]) cs) s := by
  rw [run_group, bind_ok (get_apply s)]
  simp only [hf, h1, hp, Bool.false_eq_true, if_false, if_true, Bool.not_true]
  rw [bind_ok (sub_back_ok hl s), bind_ok hb]
  cases v <;> simp

theorem run_group_cons_else (rec : ast_node → M Nat) (prev : Option ast_node)
    (sub : List Nat) (c : ast_node) (cs : List ast_node) (s : State) (last : Nat) (v : Bool)
    (hf : s.flagged = false) (h1 : c.val.val = "else") (hp : follows_if prev = true)
    (hl : sub.getLast? = some last) (hb : get_bool last s = .ok v s) :
    run_group rec prev sub (c :: cs) s =
      if v = true then run_group rec (some c) sub cs s
      else (rec c >>= fun r => run_group rec (some c) (sub ++ [r]) cs) s := by
  rw [run_group, bind_ok (get_apply s)]
  simp only [hf, h1, hp, Bool.false_eq_true, if_false, if_true, Bool.not_true, String.reduceEq]
  rw [bind_ok (sub_back_ok hl s), bind_ok hb]
  cases v <;> simp

theorem call_flagged {env : Env} {name : String} {r a : Nat} {args : List Nat} {s s2 : State}
    (h : call env name r args s = .ok a s2) : s2.flagged = s.flagged := by
  unfold call at h
  split at h
  · injection h with _ h; rw [← h]; rfl
  · cases h

theorem set_store_flagged {env : Env} {v : store_t} {a : Nat} {s s2 : State}
    (h : set_store env v a s = .ok () s2) : s2.flagged = s.flagged := by
  unfold set_store at h
  split at h
  · injection h with _ h; rw [← h]; rfl
  · cases h

theorem set_store_get_bool {env : Env} {v : Bool} {a : Nat} {s s2 : State}
    (hset : ∀ (v : Bool) (h : List object) (a : Nat) (h2 : List object),
      env.set (.b v) h a = .ok h2 → ∃ o, h2[a]? = some o ∧ o.store = .b v)
    (h : set_store env (.b v) a s = .ok () s2) : get_bool a s2 = .ok v s2 := by
  unfold set_store at h
  split at h
  · rename_i h2 heq
    injection h with _ h
    obtain ⟨o, ho, hs⟩ := hset v s.heap a h2 heq
    exact get_bool_ok (by rw [← h]; exact ho) hs
  · cases h

theorem get_bool_state {a : Nat} {s s2 : State} {v : Bool} (h : get_bool a s = .ok v s2) :
    s2 = s := by
  unfold get_bool deref at h
  split at h
  · rename_i o s1 heq
    split at heq
    · injection heq with _ h3
      subst h3
      split at h
      · injection h with _ h; exact h.symm
      · cases h
    · cases heq
  · cases h
  · cases h

theorem get_bool_fail_state {a : Nat} {s s2 : State} {e : Failure}
    (h : get_bool a s = .fail e s2) : s2 = s := by
  unfold get_bool deref at h
  split at h
  · rename_i o s1 heq
    split at heq
    · injection heq with _ h3
      subst h3
      split at h
      · cases h
      · injection h with _ h; exact h.symm
    · cases heq
  · rename_i e1 s1 heq
    split at heq
    · cases heq
    · injection heq with _ h3
      injection h with _ h
      rw [← h, ← h3]
  · cases h

theorem get_bool_not_out (a : Nat) (s : State) : get_bool a s ≠ .out_of_fuel := by
  unfold get_bool deref
  split
  · split <;> simp
  · simp
  · rename_i heq
    split at heq <;> cases heq

/-- The functions `run_if` and `branch` agree on a node whose children raise
no signal, from a state without a live flag, when `set` stores the boolean
it is given. -/
theorem run_if_agrees (env : Env) (rec : ast_node → M Nat) (b : ast_node) (s : State)
    (hset : ∀ (v : Bool) (h : List object) (a : Nat) (h2 : List object),
      env.set (.b v) h a = .ok h2 → ∃ o, h2[a]? = some o ∧ o.store = .b v)
    (hs : s.flagged = false) (hq : ∀ c ∈ b.children, no_signal rec c) :
    (run_if env rec b s).agree (branch env rec b s) := by
  have hA := new_object_apply env .o_bool s
  have hfA : ({ s with heap := s.heap ++ [env.construct .o_bool] } : State).flagged = false := hs
  generalize ({ s with heap := s.heap ++ [env.construct .o_bool] } : State) = sA at hA hfA
  unfold run_if branch
  rw [bind_ok hA, bind_ok hA]
  cases hc0 : b.children[0]? with
  | none =>
    have h1 : child b 0 sA = .fail .undefined_behaviour sA := by simp [child, hc0]
    rw [bind_fail h1, bind_fail h1]
    exact ⟨rfl, rfl⟩
  | some c =>
    rw [bind_ok (child_ok hc0 sA), bind_ok (child_ok hc0 sA)]
    cases hrc : rec c sA with
    | out_of_fuel => rw [bind_out hrc, bind_out hrc]; trivial
    | fail e s1 => rw [bind_fail hrc, bind_fail hrc]; exact ⟨rfl, rfl⟩
    | ok v sB =>
      have hfB : sB.flagged = false := hq c (List.getElem?_mem hc0) sA v sB hfA hrc
      rw [bind_ok hrc, bind_ok hrc]
      cases htb : call env "to_bool" v [] sB with
      | out_of_fuel => rw [bind_out htb, bind_out htb]; trivial
      | fail e s1 => rw [bind_fail htb, bind_fail htb]; exact ⟨rfl, rfl⟩
      | ok tb sC =>
        have hfC : sC.flagged = false := by rw [call_flagged htb]; exact hfB
        rw [bind_ok htb, bind_ok htb]
        cases hgb : get_bool tb sC with
        | out_of_fuel => exact absurd hgb (get_bool_not_out tb sC)
        | fail e s1 => rw [bind_fail hgb, bind_fail hgb]; exact ⟨rfl, rfl⟩
        | ok t s1 =>
          have := get_bool_state hgb
          subst this
          rw [bind_ok hgb, bind_ok hgb]
          cases t with
          | false =>
            simp only [Bool.false_eq_true, if_false]
            cases hst : set_store env (.b false) s.heap.length s1 with
            | out_of_fuel => rw [bind_out hst, bind_out hst]; trivial
            | fail e s2 => rw [bind_fail hst, bind_fail hst]; exact ⟨rfl, rfl⟩
            | ok x sD =>
              rw [bind_ok hst, bind_ok hst]
              exact ⟨rfl, set_store_get_bool hset hst, by rw [set_store_flagged hst]; exact hfC⟩
          | true =>
            simp only [if_true]
            cases hc1 : b.children[1]? with
            | none =>
              have h1 : child b 1 s1 = .fail .undefined_behaviour s1 := by simp [child, hc1]
              rw [bind_fail h1, bind_fail h1]
              exact ⟨rfl, rfl⟩
            | some body =>
              rw [bind_ok (child_ok hc1 s1), bind_ok (child_ok hc1 s1)]
              cases hrb : rec body s1 with
              | out_of_fuel => rw [bind_out hrb, bind_out hrb]; trivial
              | fail e s2 => rw [bind_fail hrb, bind_fail hrb]; exact ⟨rfl, rfl⟩
              | ok w sD =>
                have hfD : sD.flagged = false :=
                  hq body (List.getElem?_mem hc1) s1 w sD hfC hrb
                rw [bind_ok hrb, bind_ok hrb]
                cases hst : set_store env (.b true) s.heap.length sD with
                | out_of_fuel => rw [bind_out hst, bind_out hst]; trivial
                | fail e s2 => rw [bind_fail hst, bind_fail hst]; exact ⟨rfl, rfl⟩
                | ok x sE =>
                  rw [bind_ok hst, bind_ok hst]
                  exact ⟨rfl, set_store_get_bool hset hst,
                    by rw [set_store_flagged hst]; exact hfD⟩

/-- An `if` or `elsif` node is evaluated by `run_if`. -/
theorem run_branch_node (env : Env) (n : Nat) (b : ast_node) (s : State)
    (hf : s.flagged = false) (hv : env.vars b.val.val = false)
    (hg : b.val.type ≠ .t_group) (hc : env.control b.val.val = true)
    (ht : b.val.val = "if" ∨ b.val.val = "elsif") :
    run env (n + 1) b s = run_if env (run env n) b s := by
  rw [run_succ]
  unfold step
  rw [bind_ok (get_apply s)]
  simp only [hf, hv, hc, hg, ht, Bool.false_eq_true, if_false, if_true]

/-- An `else` node evaluates its body and yields a vacant object. -/
theorem run_else_node (env : Env) (n : Nat) (e : ast_node) (s : State)
    (hf : s.flagged = false) (ht : e.val.val = "else") (hv : env.vars "else" = false)
    (hg : e.val.type ≠ .t_group) (hc : env.control "else" = true) :
    run env (n + 1) e s =
      (child e 0 >>= fun c => run env n c >>= fun _ => new_object env .o_none) s := by
  rw [run_succ]
  unfold step
  rw [bind_ok (get_apply s)]
  simp only [hf, ht, hv, hc, hg, Bool.false_eq_true, if_false, if_true, String.reduceEq,
    or_self]

theorem bind_bind_ok {α β γ : Type} {x : M α} {f : α → M β} {g : β → M γ} {s s1 : State}
    {a : α} (h : x s = .ok a s1) : ((x >>= f) >>= g) s = (f a >>= g) s1 := by
  show M.bind (M.bind x f) g s = M.bind (f a) g s1
  unfold M.bind
  rw [h]

theorem bind_bind_fail {α β γ : Type} {x : M α} {f : α → M β} {g : β → M γ} {s s1 : State}
    {e : Failure} (h : x s = .fail e s1) : ((x >>= f) >>= g) s = .fail e s1 := by
  show M.bind (M.bind x f) g s = _
  unfold M.bind
  rw [h]

theorem bind_bind_out {α β γ : Type} {x : M α} {f : α → M β} {g : β → M γ} {s : State}
    (h : x s = .out_of_fuel) : ((x >>= f) >>= g) s = .out_of_fuel := by
  show M.bind (M.bind x f) g s = _
  unfold M.bind
  rw [h]

theorem follows_if_some (p : ast_node) (h : p.val.val = "if" ∨ p.val.val = "elsif") :
    follows_if (some p) = true := by
  unfold follows_if
  rcases h with h | h <;> simp [h]

/-- Once a branch of the chain has fired, the remaining `elsif` and `else`
siblings are passed over without any effect. -/
theorem chain_skip (rec : ast_node → M Nat) (els : Option ast_node) (rest : List ast_node)
    (hels : ∀ e ∈ els, e.val.val = "else") :
    ∀ (bs : List ast_node), (∀ b ∈ bs, b.val.val = "elsif") →
      ∀ (p : ast_node) (sub : List Nat) (s : State) (last : Nat),
        (p.val.val = "if" ∨ p.val.val = "elsif") → s.flagged = false →
        sub.getLast? = some last → get_bool last s = .ok true s →
        ∃ sub2, run_group rec (some p) sub ((bs ++ els.toList) ++ rest) s =
          run_group rec ((p :: (bs ++ els.toList)).getLast?) sub2 rest s := by
  intro bs
  induction bs with
  | nil =>
    intro _ p sub s last hp hf hl hb
    cases els with
    | none => exact ⟨sub, rfl⟩
    | some e =>
      refine ⟨sub, ?_⟩
      have he := hels e rfl
      show run_group rec (some p) sub (e :: rest) s = _
      rw [run_group_cons_else rec (some p) sub e rest s last true hf he
        (follows_if_some p hp) hl hb]
      rfl
  | cons b bs ih =>
    intro hbs p sub s last hp hf hl hb
    have hb1 := hbs b (List.mem_cons_self _ _)
    obtain ⟨sub2, h2⟩ := ih (fun x hx => hbs x (List.mem_cons_of_mem _ hx)) b (sub ++ [last]) s
      last (Or.inr hb1) hf (List.getLast?_concat sub) hb
    refine ⟨sub2, ?_⟩
    show run_group rec (some p) sub (b :: ((bs ++ els.toList) ++ rest)) s = _
    rw [run_group_cons_elsif rec (some p) sub b _ s last true hf hb1
      (follows_if_some p hp) hl hb]
    simp only [if_true]
    rw [h2]
    simp [List.getLast?_cons_cons]

/-- From a branch on, given how the later branches behave after a false
branch: the group and `first_true` agree. -/
theorem chain_after (env : Env) (n : Nat) (els : Option ast_node) (rest : List ast_node)
    (hset : ∀ (v : Bool) (h : List object) (a : Nat) (h2 : List object),
      env.set (.b v) h a = .ok h2 → ∃ o, h2[a]? = some o ∧ o.store = .b v)
    (hels : ∀ e ∈ els, e.val.val = "else")
    (b : ast_node) (bs : List ast_node)
    (hb : b.val.val = "if" ∨ b.val.val = "elsif") (hv : env.vars b.val.val = false)
    (hg : b.val.type ≠ .t_group) (hc : env.control b.val.val = true)
    (hq : ∀ c ∈ b.children, no_signal (run env n) c)
    (hbs : ∀ x ∈ bs, x.val.val = "elsif")
    (ih : ∀ (sub : List Nat) (s : State) (last : Nat), s.flagged = false →
      sub.getLast? = some last → get_bool last s = .ok false s →
      ∃ sub2, run_group (run env (n + 1)) (some b) sub ((bs ++ els.toList) ++ rest) s =
        (first_true env (run env n) bs els >>= fun _ =>
          run_group (run env (n + 1)) ((b :: (bs ++ els.toList)).getLast?) sub2 rest) s)
    (sub : List Nat) (s : State) (hf : s.flagged = false) :
    ∃ sub2, (run env (n + 1) b >>= fun r =>
        run_group (run env (n + 1)) (some b) (sub ++ [r]) ((bs ++ els.toList) ++ rest)) s =
      (first_true env (run env n) (b :: bs) els >>= fun _ =>
        run_group (run env (n + 1)) ((b :: (bs ++ els.toList)).getLast?) sub2 rest) s := by
  have hag := run_if_agrees env (run env n) b s hset hf hq
  have hnode := run_branch_node env n b s hf hv hg hc hb
  unfold first_true
  cases hr : run_if env (run env n) b s with
  | out_of_fuel =>
    rw [hr] at hag
    cases hbr : branch env (run env n) b s with
    | out_of_fuel =>
      refine ⟨[], ?_⟩
      rw [bind_out (hnode.trans hr), bind_bind_out hbr]
    | ok v s1 => rw [hbr] at hag; exact absurd hag (by simp [Res.agree])
    | fail e s1 => rw [hbr] at hag; exact absurd hag (by simp [Res.agree])
  | fail e s1 =>
    rw [hr] at hag
    cases hbr : branch env (run env n) b s with
    | out_of_fuel => rw [hbr] at hag; exact absurd hag (by simp [Res.agree])
    | ok v s2 => rw [hbr] at hag; exact absurd hag (by simp [Res.agree])
    | fail e2 s2 =>
      rw [hbr] at hag
      obtain ⟨h1, h2⟩ := hag
      subst h1 h2
      refine ⟨[], ?_⟩
      rw [bind_fail (hnode.trans hr), bind_bind_fail hbr]
  | ok r s1 =>
    rw [hr] at hag
    cases hbr : branch env (run env n) b s with
    | out_of_fuel => rw [hbr] at hag; exact absurd hag (by simp [Res.agree])
    | fail e s2 => rw [hbr] at hag; exact absurd hag (by simp [Res.agree])
    | ok v s2 =>
      rw [hbr] at hag
      obtain ⟨h1, h2, h3⟩ := hag
      subst h1
      cases v with
      | true =>
        obtain ⟨sub2, hs2⟩ := chain_skip (run env (n + 1)) els rest hels bs hbs b (sub ++ [r])
          s1 r hb h3 (List.getLast?_concat sub) h2
        refine ⟨sub2, ?_⟩
        rw [bind_ok (hnode.trans hr), bind_bind_ok hbr, hs2]
        rfl
      | false =>
        obtain ⟨sub2, hs2⟩ := ih (sub ++ [r]) s1 r h3 (List.getLast?_concat sub) h2
        refine ⟨sub2, ?_⟩
        rw [bind_ok (hnode.trans hr), bind_bind_ok hbr, hs2]
        rfl

/-- After a branch that did not fire, the group and `first_true` agree on the
remaining `elsif` and `else` siblings. -/
theorem chain_scan (env : Env) (n : Nat) (els : Option ast_node) (rest : List ast_node)
    (hset : ∀ (v : Bool) (h : List object) (a : Nat) (h2 : List object),
      env.set (.b v) h a = .ok h2 → ∃ o, h2[a]? = some o ∧ o.store = .b v)
    (hv2 : env.vars "elsif" = false) (hv3 : env.vars "else" = false)
    (hc2 : env.control "elsif" = true) (hc3 : env.control "else" = true)
    (hels : ∀ e ∈ els, e.val.val = "else" ∧ e.val.type ≠ .t_group) :
    ∀ (bs : List ast_node),
      (∀ b ∈ bs, b.val.val = "elsif" ∧ b.val.type ≠ .t_group ∧
        ∀ c ∈ b.children, no_signal (run env n) c) →
      ∀ (p : ast_node) (sub : List Nat) (s : State) (last : Nat),
        (p.val.val = "if" ∨ p.val.val = "elsif") → s.flagged = false →
        sub.getLast? = some last → get_bool last s = .ok false s →
        ∃ sub2, run_group (run env (n + 1)) (some p) sub ((bs ++ els.toList) ++ rest) s =
          (first_true env (run env n) bs els >>= fun _ =>
            run_group (run env (n + 1)) ((p :: (bs ++ els.toList)).getLast?) sub2 rest) s := by
  intro bs
  induction bs with
  | nil =>
    intro _ p sub s last hp hf hl hb
    cases els with
    | none => exact ⟨sub, rfl⟩
    | some e =>
      obtain ⟨he, hge⟩ := hels e rfl
      show ∃ sub2, run_group (run env (n + 1)) (some p) sub (e :: rest) s = _
      rw [run_group_cons_else (run env (n + 1)) (some p) sub e rest s last false hf he
        (follows_if_some p hp) hl hb]
      simp only [Bool.false_eq_true, if_false]
      unfold first_true
      have hnode := run_else_node env n e s hf he hv3 hge hc3
      cases hc0 : e.children[0]? with
      | none =>
        have h1 : child e 0 s = .fail .undefined_behaviour s := by simp [child, hc0]
        refine ⟨[], ?_⟩
        rw [bind_fail (hnode.trans (bind_fail h1)), bind_bind_fail h1]
      | some c =>
        have h1 := child_ok hc0 s
        rw [bind_ok h1] at hnode
        cases hrc : run env n c s with
        | out_of_fuel =>
          refine ⟨[], ?_⟩
          rw [bind_out (hnode.trans (bind_out hrc)), bind_bind_ok h1, bind_bind_out hrc]
        | fail e2 s1 =>
          refine ⟨[], ?_⟩
          rw [bind_fail (hnode.trans (bind_fail hrc)), bind_bind_ok h1, bind_bind_fail hrc]
        | ok w s1 =>
          refine ⟨sub ++ [s1.heap.length], ?_⟩
          rw [bind_ok hrc, new_object_apply] at hnode
          rw [bind_ok hnode, bind_bind_ok h1, bind_bind_ok hrc,
            bind_bind_ok (new_object_apply env .o_none s1)]
          rfl
  | cons b bs ih =>
    intro hbs p sub s last hp hf hl hb
    obtain ⟨hb1, hb2, hb3⟩ := hbs b (List.mem_cons_self _ _)
    have hrest := fun x hx => hbs x (List.mem_cons_of_mem _ hx)
    obtain ⟨sub2, h2⟩ := chain_after env n els rest hset (fun e he => (hels e he).1) b bs
      (Or.inr hb1) (by rw [hb1]; exact hv2) hb2 (by rw [hb1]; exact hc2) hb3
      (fun x hx => (hrest x hx).1)
      (fun sub1 s1 last1 hf1 hl1 hg1 => ih hrest b sub1 s1 last1 (Or.inr hb1) hf1 hl1 hg1)
      sub s hf
    refine ⟨sub2, ?_⟩
    show run_group (run env (n + 1)) (some p) sub (b :: ((bs ++ els.toList) ++ rest)) s = _
    rw [run_group_cons_elsif (run env (n + 1)) (some p) sub b _ s last false hf hb1
      (follows_if_some p hp) hl hb]
    simp only [Bool.false_eq_true, if_false]
    rw [h2]
    simp [List.getLast?_cons_cons]

/-- C5: in a group, a chain `if`, `elsif`..., `else` whose conditions and
bodies raise no signal is evaluated as `first_true` says: the branches are
tried in order, the first one whose condition coerces to true runs its body
and nothing more of the chain is evaluated (no later condition, no other
body); when no condition is true the `else` body runs, if there is one.  The
group then goes on with the siblings after the chain.  The value model is
assumed to store the boolean that `set` is given. -/
theorem chain_runs_first_true (env : Env) (n : Nat) (ifn : ast_node)
    (elsifs : List ast_node) (els : Option ast_node) (rest : List ast_node)
    (hset : ∀ (v : Bool) (h : List object) (a : Nat) (h2 : List object),
      env.set (.b v) h a = .ok h2 → ∃ o, h2[a]? = some o ∧ o.store = .b v)
    (hv1 : env.vars "if" = false) (hv2 : env.vars "elsif" = false)
    (hv3 : env.vars "else" = false) (hc1 : env.control "if" = true)
    (hc2 : env.control "elsif" = true) (hc3 : env.control "else" = true)
    (hif : ifn.val.val = "if" ∧ ifn.val.type ≠ .t_group ∧
      ∀ c ∈ ifn.children, no_signal (run env n) c)
    (helsif : ∀ b ∈ elsifs, b.val.val = "elsif" ∧ b.val.type ≠ .t_group ∧
      ∀ c ∈ b.children, no_signal (run env n) c)
    (hels : ∀ e ∈ els, e.val.val = "else" ∧ e.val.type ≠ .t_group)
    (prev : Option ast_node) (sub : List Nat) (s : State) (hf : s.flagged = false) :
    ∃ sub2, run_group (run env (n + 1)) prev sub (ifn :: ((elsifs ++ els.toList) ++ rest)) s =
      (first_true env (run env n) (ifn :: elsifs) els >>= fun _ =>
        run_group (run env (n + 1)) ((ifn :: (elsifs ++ els.toList)).getLast?) sub2 rest) s := by
  obtain ⟨h1, h2, h3⟩ := hif
  obtain ⟨sub2, hs⟩ := chain_after env n els rest hset (fun e he => (hels e he).1) ifn elsifs
    (Or.inl h1) (by rw [h1]; exact hv1) h2 (by rw [h1]; exact hc1) h3
    (fun x hx => (helsif x hx).1)
    (fun sub1 s1 last1 hf1 hl1 hg1 =>
      chain_scan env n els rest hset hv2 hv3 hc2 hc3 hels elsifs helsif ifn sub1 s1 last1
        (Or.inl h1) hf1 hl1 hg1)
    sub s hf
  refine ⟨sub2, ?_⟩
  rw [run_group_cons_plain (run env (n + 1)) prev sub ifn _ s hf (by rw [h1]; decide)
    (by rw [h1]; decide)]
  exact hs

/-! ## Nodes that raise no signal -/

theorem M.quiet_bind {α β : Type} {x : M α} {f : α → M β} (h1 : M.quiet x)
    (h2 : ∀ a, M.quiet (f a)) : M.quiet (x >>= f) := by
  intro s b s2 h
  obtain ⟨a, s1, ha, hb⟩ := bind_ok_inv h
  rw [h2 a s1 b s2 hb, h1 s a s1 ha]

theorem M.quiet_pure {α : Type} (a : α) : M.quiet (pure a : M α) := by
  intro s b s2 h
  injection h with _ h
  rw [← h]

theorem M.quiet_fail {α : Type} (e : Failure) : M.quiet (M.fail e : M α) := by
  intro s b s2 h
  cases h

theorem M.quiet_err {α : Type} (msg : String) (line : Option Nat) :
    M.quiet (M.err msg line : M α) := M.quiet_fail _

theorem M.quiet_ite {α : Type} {c : Prop} [Decidable c] {x y : M α} (h1 : M.quiet x)
    (h2 : M.quiet y) : M.quiet (if c then x else y) := by
  split
  · exact h1
  · exact h2

theorem M.quiet_get : M.quiet M.get := by
  intro s b s2 h
  injection h with _ h
  rw [← h]

theorem quiet_new_object (env : Env) (t : o_type) : M.quiet (new_object env t) := by
  intro s b s2 h
  rw [new_object_apply] at h
  injection h with _ h
  rw [← h]
  rfl

theorem quiet_call (env : Env) (name : String) (r : Nat) (args : List Nat) :
    M.quiet (call env name r args) := fun _ _ _ h => call_flagged h

theorem quiet_set_store (env : Env) (v : store_t) (a : Nat) : M.quiet (set_store env v a) :=
  fun _ _ _ h => set_store_flagged h

theorem quiet_child (u : ast_node) (i : Nat) : M.quiet (child u i) := by
  intro s b s2 h
  unfold child at h
  split at h
  · injection h with _ h; rw [← h]
  · cases h

/-- A numeric literal raises no signal. -/
theorem quiet_run_num (env : Env) (u : ast_node) : M.quiet (run_num env u) := by
  unfold run_num
  refine M.quiet_bind (quiet_new_object env _) (fun tmp => ?_)
  split
  · exact M.quiet_fail _
  · exact M.quiet_ite (M.quiet_err _ _)
      (M.quiet_bind (quiet_set_store env _ _) (fun _ => M.quiet_pure _))

/-- Evaluating a numeric literal leaves the flags as they are. -/
theorem quiet_num_node (env : Env) (n : Nat) (u : ast_node)
    (hv : env.vars u.val.val = false) (hc : env.control u.val.val = false)
    (ht : u.val.type = .t_num) : M.quiet (run env n u) := by
  cases n with
  | zero => intro s a s2 h; cases h
  | succ n =>
    rw [run_succ]
    unfold step
    refine M.quiet_bind M.quiet_get (fun s => ?_)
    simp only [hv, hc, ht, Bool.false_eq_true, if_false, if_true, reduceCtorEq]
    exact M.quiet_ite (quiet_new_object env _) (quiet_run_num env u)

/-- Evaluating an empty group leaves the flags as they are. -/
theorem quiet_empty_group (env : Env) (n : Nat) (u : ast_node)
    (hv : env.vars u.val.val = false) (ht : u.val.type = .t_group) (hch : u.children = []) :
    M.quiet (run env n u) := by
  cases n with
  | zero => intro s a s2 h; cases h
  | succ n =>
    rw [run_succ]
    unfold step
    refine M.quiet_bind M.quiet_get (fun s => ?_)
    simp only [hv, ht, hch, Bool.false_eq_true, if_false, if_true]
    refine M.quiet_ite (quiet_new_object env _) ?_
    refine M.quiet_bind ?_ (fun _ => quiet_new_object env _)
    unfold run_group
    exact M.quiet_pure _

theorem no_signal_of_quiet {rec : ast_node → M Nat} {u : ast_node} (h : M.quiet (rec u)) :
    no_signal rec u := by
  intro s a s2 hf hr
  rw [h s a s2 hr]
  exact hf

theorem Sample.set_law (v : Bool) (h : List object) (a : Nat) (h2 : List object)
    (hs : Sample.env.set (.b v) h a = .ok h2) : ∃ o, h2[a]? = some o ∧ o.store = .b v := by
  change Sample.set (.b v) h a = .ok h2 at hs
  unfold Sample.set at hs
  cases ho : h[a]? with
  | none => rw [ho] at hs; cases hs
  | some o =>
    rw [ho] at hs
    injection hs with hs
    have hlt : a < h.length := by
      by_contra hge
      rw [List.getElem?_eq_none (by omega)] at ho
      cases ho
    refine ⟨{ o with store := .b v }, ?_, rfl⟩
    rw [← hs]
    simp [hlt]

set_option maxHeartbeats 1000000 in
/-- Witness of C5: the chain `if 0 { } elsif 1 { } else { }`, as the whole
of a group, is evaluated as `first_true` says; and with conditions (false,
true, else) and bodies that write `a`, `b` and `c`, only `b` is written. -/
theorem chain_runs_first_true_witness :
    (∃ sub2, run_group (run Sample.env 2) none []
        (Sample.chain_if :: (([Sample.chain_elsif] ++ (some Sample.chain_else).toList) ++ []))
        (Sample.start .o_none []) =
      (first_true Sample.env (run Sample.env 1) [Sample.chain_if, Sample.chain_elsif]
          (some Sample.chain_else) >>= fun _ =>
        run_group (run Sample.env 2)
          ((Sample.chain_if :: ([Sample.chain_elsif] ++ (some Sample.chain_else).toList)).getLast?)
          sub2 []) (Sample.start .o_none [])) ∧
    (run Sample.env 5 Sample.prog_chain (Sample.start .o_none [])).output = ["b", endl] :=
  ⟨chain_runs_first_true Sample.env 1 Sample.chain_if [Sample.chain_elsif]
    (some Sample.chain_else) [] Sample.set_law rfl rfl rfl rfl rfl rfl
    ⟨rfl, by decide, by
      intro c hc
      simp only [Sample.chain_if, Sample.ctl, Sample.node, ast_node.children, List.mem_cons,
        List.mem_singleton, List.not_mem_nil, or_false] at hc
      rcases hc with h | h
      · subst h; exact no_signal_of_quiet (quiet_num_node _ _ _ rfl rfl rfl)
      · subst h; exact no_signal_of_quiet (quiet_empty_group _ _ _ rfl rfl rfl)⟩
    (by
      intro b hb
      simp only [List.mem_singleton] at hb
      subst hb
      refine ⟨rfl, by decide, ?_⟩
      intro c hc
      simp only [Sample.chain_elsif, Sample.ctl, Sample.node, ast_node.children, List.mem_cons,
        List.mem_singleton, List.not_mem_nil, or_false] at hc
      rcases hc with h | h
      · subst h; exact no_signal_of_quiet (quiet_num_node _ _ _ rfl rfl rfl)
      · subst h; exact no_signal_of_quiet (quiet_empty_group _ _ _ rfl rfl rfl))
    (by
      intro e he
      simp only [Option.mem_def, Option.some.injEq] at he
      subst he
      exact ⟨rfl, by decide⟩)
    none [] (Sample.start .o_none []) rfl, by decide!⟩

/-! ## `for ... of range(...)` -/

theorem range_values_nil (a e st : Int) (h : e ≤ a) : range_values a e st = [] := by
  unfold range_values
  simp [Int.not_lt.mpr h]

theorem range_count_step (a e st : Int) (h : a < e) (hst : 1 ≤ st) :
    ((e - a - 1) / st + 1).toNat =
      (if a + st < e then ((e - (a + st) - 1) / st + 1).toNat else 0) + 1 := by
  have hpos : 0 < st := by omega
  split
  · rename_i h2
    have h3 : e - a - 1 = (e - (a + st) - 1) + 1 * st := by ring
    rw [h3, Int.add_mul_ediv_right _ _ (by omega : st ≠ 0)]
    have h4 : 0 ≤ (e - (a + st) - 1) / st := Int.ediv_nonneg (by omega) (by omega)
    omega
  · rename_i h2
    have h3 : (e - a - 1) / st = 0 := Int.ediv_eq_zero_of_lt (by omega) (by omega)
    rw [h3]
    rfl

theorem range_values_cons (a e st : Int) (h : a < e) (hst : 1 ≤ st) :
    range_values a e st = a :: range_values (a + st) e st := by
  unfold range_values
  simp only [h, if_true]
  rw [range_count_step a e st h hst, List.range_succ_eq_map, List.map_cons, List.map_map]
  congr 1
  · simp
  · apply List.map_congr_left
    intro i _
    simp only [Function.comp]
    push_cast
    ring

/-- Dropping the record of `for_loop_visits` gives `for_loop`. -/
theorem for_loop_visits_erase (env : Env) (rec : ast_node → M Nat) (u : ast_node)
    (it end_ every : Nat) :
    ∀ k s, for_loop env rec u it end_ every k s =
      (for_loop_visits env rec u it end_ every k >>= fun _ => pure ()) s := by
  intro k
  induction k with
  | zero => intro s; rfl
  | succ k ih =>
    intro s
    unfold for_loop for_loop_visits
    cases h1 : call env "less_than" it [end_] s with
    | out_of_fuel => rw [bind_out h1, bind_bind_out h1]
    | fail e s1 => rw [bind_fail h1, bind_bind_fail h1]
    | ok lt s1 =>
      rw [bind_ok h1, bind_bind_ok h1]
      cases h2 : get_bool lt s1 with
      | out_of_fuel => rw [bind_out h2, bind_bind_out h2]
      | fail e s2 => rw [bind_fail h2, bind_bind_fail h2]
      | ok t s2 =>
        rw [bind_ok h2, bind_bind_ok h2]
        cases t with
        | false => rfl
        | true =>
          simp only [if_true]
          rw [bind_bind_ok (get_apply s2)]
          cases h3 : child u 1 s2 with
          | out_of_fuel => rw [bind_out h3, bind_bind_out h3]
          | fail e s3 => rw [bind_fail h3, bind_bind_fail h3]
          | ok b s3 =>
            rw [bind_ok h3, bind_bind_ok h3]
            cases h4 : rec b s3 with
            | out_of_fuel => rw [bind_out h4, bind_bind_out h4]
            | fail e s4 => rw [bind_fail h4, bind_bind_fail h4]
            | ok r s4 =>
              rw [bind_ok h4, bind_bind_ok h4, bind_ok (modify_apply _ _),
                bind_bind_ok (modify_apply _ _), bind_ok (get_apply _),
                bind_bind_ok (get_apply _)]
              cases h5 : (clear_continue s4).has_break with
              | true => rfl
              | false =>
                simp only [Bool.false_eq_true, if_false]
                cases h6 : call env "add_equal" it [every] (clear_continue s4) with
                | out_of_fuel => rw [bind_out h6, bind_bind_out h6]
                | fail e s5 => rw [bind_fail h6, bind_bind_fail h6]
                | ok r2 s5 =>
                  rw [bind_ok h6, bind_bind_ok h6, ih s5]
                  simp only [bind_apply, pure_apply]
                  cases for_loop_visits env rec u it end_ every k s5 <;> rfl

theorem for_loop_visits_le (env : Env) {r1 r2 : ast_node → M Nat}
    (h : ∀ u, M.le (r1 u) (r2 u)) (u : ast_node) (it end_ every : Nat) :
    ∀ k1 k2, k1 ≤ k2 →
      M.le (for_loop_visits env r1 u it end_ every k1)
        (for_loop_visits env r2 u it end_ every k2) := by
  intro k1
  induction k1 with
  | zero => intro k2 _ s; exact Or.inl rfl
  | succ k ih =>
    intro k2 hk
    obtain ⟨j, rfl⟩ : ∃ j, k2 = j + 1 := ⟨k2 - 1, by omega⟩
    unfold for_loop_visits
    repeat (first
      | with_reducible exact M.le_refl _
      | exact ih _ (by omega)
      | exact h _
      | refine M.ite_le ?_ ?_
      | refine M.bind_le ?_ (fun _ => ?_))

theorem flagged_false_iff (s : State) :
    s.flagged = false ↔ s.has_return = false ∧ s.has_continue = false ∧ s.has_break = false := by
  unfold State.flagged
  cases s.has_return <;> cases s.has_continue <;> cases s.has_break <;> simp

theorem clear_continue_of_unflagged (s : State) (h : s.flagged = false) :
    clear_continue s = s := by
  unfold clear_continue
  rw [((flagged_false_iff s).mp h).2.1]
  rfl

/-- The loop rule for `for`: `Inv a` holds when the loop variable holds `a`
and the test is about to be made, `Mid a` when the body has just been run at
`a`.  The test keeps `Inv a`; for the values below the end the body leads
from `Inv a` to `Mid a` and the step from `Mid a` to `Inv (a + st)`.  Then
the loop runs the body once for each value of `range_values`, in order, and
ends with the loop variable at the first value reached that is not below the
end. -/
theorem for_loop_visits_range (env : Env) (u body : ast_node) (it end_ every : Nat)
    (e st : Int) (Inv Mid : Int → State → Prop)
    (hb : u.children[1]? = some body) (hst : 1 ≤ st)
    (hcell : ∀ a s, Inv a s → (s.heap[it]?).map (·.store) = some (.d (a : Rat)))
    (hlt : ∀ a s, Inv a s → ∃ r s1, call env "less_than" it [end_] s = .ok r s1 ∧
      get_bool r s1 = .ok (decide (a < e)) s1 ∧ Inv a s1)
    (hadd : ∀ a s, Mid a s → a < e → ∃ r s1, call env "add_equal" it [every] s = .ok r s1 ∧
      Inv (a + st) s1)
    (hbody : ∀ a s, Inv a s → a < e → s.flagged = false →
      ∃ m r s1, run env m body s = .ok r s1 ∧ s1.flagged = false ∧ Mid a s1) :
    ∀ (j : Nat) (a : Int) (s : State), (e - a).toNat ≤ j → Inv a s → s.flagged = false →
      ∃ N, ∀ n, N ≤ n → ∀ k, j + 1 ≤ k → ∃ s1 a1,
        for_loop_visits env (run env n) u it end_ every k s =
          .ok ((range_values a e st).map (fun (v : Int) => some (store_t.d (v : Rat)))) s1 ∧
        s1.flagged = false ∧ Inv a1 s1 ∧ e ≤ a1 ∧ (a1 = a ∨ a1 < e + st) := by
  have base : ∀ (a : Int) (s : State), e ≤ a → Inv a s → s.flagged = false →
      ∀ (rec : ast_node → M Nat) k, 1 ≤ k → ∃ s1 a1,
        for_loop_visits env rec u it end_ every k s =
          .ok ((range_values a e st).map (fun (v : Int) => some (store_t.d (v : Rat)))) s1 ∧
        s1.flagged = false ∧ Inv a1 s1 ∧ e ≤ a1 ∧ (a1 = a ∨ a1 < e + st) := by
    intro a s hle hI hf rec k hk
    obtain ⟨k, rfl⟩ : ∃ k0, k = k0 + 1 := ⟨k - 1, by omega⟩
    obtain ⟨r, s1, h1, h2, hI1⟩ := hlt a s hI
    have hd : decide (a < e) = false := by simp [Int.not_lt.mpr hle]
    rw [hd] at h2
    refine ⟨s1, a, ?_, by rw [call_flagged h1]; exact hf, hI1, hle, Or.inl rfl⟩
    unfold for_loop_visits
    rw [bind_ok h1, bind_ok h2, range_values_nil a e st hle]
    rfl
  intro j
  induction j with
  | zero =>
    intro a s hj hI hf
    exact ⟨0, fun n _ k hk => base a s (by omega) hI hf (run env n) k hk⟩
  | succ j ih =>
    intro a s hj hI hf
    by_cases hae : a < e
    · obtain ⟨r, s1, h1, h2, hI1⟩ := hlt a s hI
      have hd : decide (a < e) = true := by simp [hae]
      rw [hd] at h2
      have hf1 : s1.flagged = false := by rw [call_flagged h1]; exact hf
      obtain ⟨m, rb, s2, hrun, hf2, hI2⟩ := hbody a s1 hI1 hae hf1
      obtain ⟨r3, s3, h3, hI3⟩ := hadd a s2 hI2 hae
      have hf3 : s3.flagged = false := by rw [call_flagged h3]; exact hf2
      obtain ⟨N, hN⟩ := ih (a + st) s3 (by omega) hI3 hf3
      refine ⟨max m N, fun n hn k hk => ?_⟩
      obtain ⟨k, rfl⟩ : ∃ k0, k = k0 + 1 := ⟨k - 1, by omega⟩
      obtain ⟨s4, a4, h4, hf4, hI4, hle4, hor4⟩ := hN n (by omega) k (by omega)
      refine ⟨s4, a4, ?_, hf4, hI4, hle4, Or.inr (by omega)⟩
      unfold for_loop_visits
      rw [bind_ok h1, bind_ok h2]
      simp only [if_true]
      rw [bind_ok (get_apply s1), bind_ok (child_ok hb s1),
        bind_ok (run_mono env (by omega : m ≤ n) hrun), bind_ok (modify_apply _ _),
        clear_continue_of_unflagged s2 hf2, bind_ok (get_apply s2)]
      simp only [((flagged_false_iff s2).mp hf2).2.2, Bool.false_eq_true, if_false]
      rw [bind_ok h3, bind_ok h4, range_values_cons a e st hae hst, hcell a s1 hI1]
      rfl
    · exact ⟨0, fun n _ k hk => base a s (by omega) hI hf (run env n) k (by omega)⟩

theorem set_store_num {env : Env} (hm : NumModel env) (v : Rat) (p : Nat) (s : State)
    (o : object) (h : s.heap[p]? = some o) :
    set_store env (.d v) p s =
      .ok () { s with heap := s.heap.set p { o with store := .d v } } := by
  unfold set_store
  rw [hm.set_num v s.heap p o h]

theorem get_double_ok {p : Nat} {s : State} {o : object} {v : Rat}
    (h : s.heap[p]? = some o) (hv : o.store = .d v) : get_double p s = .ok v s := by
  unfold get_double
  rw [deref_ok h]
  simp only [hv]

theorem has_num_append {h : List object} {p : Nat} {t : o_type} {v : Rat}
    (hn : has_num h p t v) (l : List object) : has_num (h ++ l) p t v := by
  obtain ⟨o, h1, h2, h3⟩ := hn
  have hlt : p < h.length := by
    by_contra hge
    rw [List.getElem?_eq_none (by omega)] at h1
    cases h1
  exact ⟨o, by rw [List.getElem?_append_left hlt]; exact h1, h2, h3⟩

theorem has_num_set_ne {h : List object} {p q : Nat} {t : o_type} {v : Rat}
    (hn : has_num h p t v) (hq : q ≠ p) (o2 : object) : has_num (h.set q o2) p t v := by
  obtain ⟨o, h1, h2, h3⟩ := hn
  exact ⟨o, by rw [List.getElem?_set_ne hq]; exact h1, h2, h3⟩

theorem has_num_set_self {h : List object} {p : Nat} {x : object} {t : o_type} (v : Rat)
    (hx : h[p]? = some x) (ht : x.type = t) :
    has_num (h.set p { x with store := .d v }) p t v := by
  have hlt : p < h.length := by
    by_contra hge
    rw [List.getElem?_eq_none (by omega)] at hx
    cases hx
  exact ⟨{ x with store := .d v }, by simp [hlt], ht, rfl⟩

theorem run_range_args_length (env : Env) (rec : ast_node → M Nat) :
    ∀ (cs : List ast_node) (s s2 : State) (sub : List Nat),
      run_range_args env rec cs s = .ok sub s2 → sub.length = cs.length := by
  intro cs
  induction cs with
  | nil =>
    intro s s2 sub h
    unfold run_range_args at h
    injection h with h _
    rw [← h]
    rfl
  | cons c cs ih =>
    intro s s2 sub h
    unfold run_range_args at h
    obtain ⟨a, s1, _, h⟩ := bind_ok_inv h
    obtain ⟨b, s3, _, h⟩ := bind_ok_inv h
    split at h
    · cases h
    · obtain ⟨rest, s4, h4, h⟩ := bind_ok_inv h
      injection h with h _
      rw [← h, List.length_cons, List.length_cons, ih s3 s4 rest h4]

theorem set_store_tail {env : Env} (hm : NumModel env) (v : Rat) (s : State)
    (l r : List object) (i : Nat) (o : object) (hheap : s.heap = l ++ r)
    (hi : r[i]? = some o) :
    set_store env (.d v) (l.length + i) s =
      .ok () { s with heap := l ++ r.set i { o with store := .d v } } := by
  have h1 : s.heap[l.length + i]? = some o := by
    rw [hheap, List.getElem?_append_right (by omega)]
    simpa using hi
  rw [set_store_num hm v _ s o h1, hheap, List.set_append_right _ _ (by omega)]
  simp

/-- The `for` branch up to the evaluation of the range arguments: the
validation passes, the four number objects are built and set, and the loop
variable is bound. -/
theorem run_for_setup (env : Env) (hm : NumModel env) (rec : ast_node → M Nat) (k : Nat)
    (u of_node lhs rhs body : ast_node) (s : State)
    (hch : u.children = [of_node, body]) (hof : of_node.val.val = "of")
    (hoch : of_node.children = [lhs, rhs]) (hsym : lhs.val.type = .t_symbol)
    (hrange : rhs.val.val = "range") (hfree : memory.has s.mem lhs.val.val = false) :
    run_for env rec k u s =
      (run_range_args env rec rhs.children >>= fun sub =>
        if rhs.children.length < 1 ∨ rhs.children.length > 3 then
          M.err "range must have 1-3 arguments" (some rhs.val.line)
        else
          set_bounds env rhs sub (s.heap.length + 1) (s.heap.length + 2) (s.heap.length + 3)
            >>= fun _ => call env "equal" s.heap.length [s.heap.length + 1]
            >>= fun _ => for_loop env rec u s.heap.length (s.heap.length + 2)
              (s.heap.length + 3) k
            >>= fun _ => M.modify (fun s => { s with mem := memory.remove s.mem lhs.val.val }))
        (for_entry env lhs.val.val s) := by
  unfold run_for
  simp only [hch, List.length_cons, List.length_nil, ne_eq, not_true_eq_false, if_false]
  rw [bind_ok (show child u 0 s = .ok of_node s by simp [child, hch])]
  simp only [hof, hoch, List.length_cons, List.length_nil, ne_eq, not_true_eq_false, if_false]
  rw [bind_ok (show child of_node 0 s = .ok lhs s by simp [child, hoch])]
  simp only [hsym, ne_eq, not_true_eq_false, if_false]
  rw [bind_ok (get_apply s)]
  simp only [hfree, Bool.false_eq_true, if_false]
  rw [bind_ok (new_object_apply env .o_num s), bind_ok (new_object_apply env .o_num _),
    bind_ok (new_object_apply env .o_num _), bind_ok (new_object_apply env .o_num _),
    bind_ok (modify_apply _ _)]
  simp only [List.length_append, List.length_singleton, List.length_cons, List.length_nil,
    List.append_assoc, List.singleton_append, List.cons_append, List.nil_append,
    Nat.add_assoc, Nat.reduceAdd, zero_add]
  rw [bind_ok (set_store_tail hm 0 _ s.heap _ 1 (env.construct .o_num) rfl rfl)]
  simp only [List.set_cons_succ, List.set_cons_zero]
  rw [bind_ok (set_store_tail hm 0 _ s.heap _ 2 (env.construct .o_num) rfl rfl)]
  simp only [List.set_cons_succ, List.set_cons_zero]
  rw [bind_ok (set_store_tail hm 1 _ s.heap _ 3 (env.construct .o_num) rfl rfl)]
  simp only [List.set_cons_succ, List.set_cons_zero]
  have hst : ∀ (st : State), child of_node 1 st = .ok rhs st := by
    intro st; simp [child, hoch]
  rw [bind_ok (hst _)]
  simp only [hrange, ne_eq, not_true_eq_false, if_false]
  rfl

theorem set_store_has_num {env : Env} (hm : NumModel env) (v : Rat) (q : Nat) (s : State)
    (t : o_type) (w : Rat) (hq : has_num s.heap q t w) :
    ∃ h2, set_store env (.d v) q s = .ok () { s with heap := h2 } ∧ has_num h2 q t v ∧
      (∀ p o, p ≠ q → s.heap[p]? = some o → h2[p]? = some o) := by
  obtain ⟨o, h1, h2, _⟩ := hq
  refine ⟨s.heap.set q { o with store := .d v }, set_store_num hm v q s o h1, ?_, ?_⟩
  · exact has_num_set_self v h1 h2
  · intro p o2 hp ho
    rw [List.getElem?_set_ne (Ne.symm hp)]
    exact ho

theorem sub_at_one (a b : Nat) (l : List Nat) (s : State) :
    sub_at (a :: b :: l) 1 s = .ok b s := by
  simp [sub_at]

theorem sub_at_two (a b c : Nat) (l : List Nat) (s : State) :
    sub_at (a :: b :: c :: l) 2 s = .ok c s := by
  simp [sub_at]

theorem has_num_of_view {h : List object} {p : Nat} {v : Rat}
    (hv : (h[p]?).map (·.store) = some (.d v)) : ∃ o, h[p]? = some o ∧ o.store = .d v := by
  cases ho : h[p]? with
  | none => rw [ho] at hv; cases hv
  | some o =>
    rw [ho] at hv
    simp only [Option.map_some', Option.some.injEq] at hv
    exact ⟨o, rfl, hv⟩

/-- The `switch` on the number of range arguments: start, end and step are
set as `range_bounds` says. -/
theorem set_bounds_range (env : Env) (hm : NumModel env) (rhs : ast_node) (sub : List Nat)
    (L : Nat) (sd : State) (vals : List Int) (a e st : Int)
    (hlen : rhs.children.length = sub.length)
    (hvals : sub.map (fun p => (sd.heap[p]?).map (·.store)) =
      vals.map (fun v => some (.d (v : Rat))))
    (hdist : ∀ p ∈ sub, p < L ∨ L + 4 ≤ p)
    (hbounds : range_bounds vals = some (a, e, st))
    (hit : ∃ o, sd.heap[L]? = some o ∧ o.type = .o_num)
    (hstart : has_num sd.heap (L + 1) .o_num 0) (hend : has_num sd.heap (L + 2) .o_num 0)
    (hevery : has_num sd.heap (L + 3) .o_num 1) :
    ∃ h2, set_bounds env rhs sub (L + 1) (L + 2) (L + 3) sd = .ok () { sd with heap := h2 } ∧
      (∃ o, h2[L]? = some o ∧ o.type = .o_num) ∧ has_num h2 (L + 1) .o_num a ∧
      has_num h2 (L + 2) .o_num e ∧ has_num h2 (L + 3) .o_num st ∧
      (∀ p o, (p < L ∨ L + 4 ≤ p) → sd.heap[p]? = some o → h2[p]? = some o) := by
  have hl : sub.length = vals.length := by
    have := congrArg List.length hvals
    simpa using this
  obtain ⟨oi, hoi, hti⟩ := hit
  match vals, hbounds, hvals, hl with
  | [v1], hbounds, hvals, hl =>
    obtain ⟨p1, rfl⟩ : ∃ p1, sub = [p1] := by
      match sub, hl with
      | [p], _ => exact ⟨p, rfl⟩
    simp only [range_bounds, Option.some.injEq, Prod.mk.injEq] at hbounds
    obtain ⟨rfl, rfl, rfl⟩ := hbounds
    simp only [List.map_cons, List.map_nil, List.cons.injEq, and_true] at hvals
    obtain ⟨o1, ho1, hs1⟩ := has_num_of_view hvals
    obtain ⟨h2, hset, hn, hframe⟩ := set_store_has_num hm (v1 : Rat) (L + 2) sd .o_num 0 hend
    refine ⟨h2, ?_, ⟨oi, hframe L oi (by omega) hoi, hti⟩, ?_, hn, ?_,
      fun p o hp ho => hframe p o (by omega) ho⟩
    · unfold set_bounds
      simp only [hlen, List.length_singleton]
      rw [bind_ok (sub_at_zero p1 [] sd), bind_ok (get_double_ok ho1 hs1)]
      exact hset
    · obtain ⟨o, h1, h3, h4⟩ := hstart
      exact ⟨o, hframe _ o (by omega) h1, h3, by simpa using h4⟩
    · obtain ⟨o, h1, h3, h4⟩ := hevery
      exact ⟨o, hframe _ o (by omega) h1, h3, by simpa using h4⟩
  | [v1, v2], hbounds, hvals, hl =>
    obtain ⟨p1, p2, rfl⟩ : ∃ p1 p2, sub = [p1, p2] := by
      match sub, hl with
      | [p, q], _ => exact ⟨p, q, rfl⟩
    simp only [range_bounds, Option.some.injEq, Prod.mk.injEq] at hbounds
    obtain ⟨rfl, rfl, rfl⟩ := hbounds
    simp only [List.map_cons, List.map_nil, List.cons.injEq, and_true] at hvals
    obtain ⟨o1, ho1, hs1⟩ := has_num_of_view hvals.1
    obtain ⟨o2, ho2, hs2⟩ := has_num_of_view hvals.2
    have hd2 := hdist p2 (by simp)
    obtain ⟨h2, hset, hn, hframe⟩ := set_store_has_num hm (v1 : Rat) (L + 1) sd .o_num 0 hstart
    have hend2 : has_num h2 (L + 2) .o_num 0 := by
      obtain ⟨o, h1, h3, h4⟩ := hend
      exact ⟨o, hframe _ o (by omega) h1, h3, h4⟩
    obtain ⟨h3, hset3, hn3, hframe3⟩ :=
      set_store_has_num hm (v2 : Rat) (L + 2) { sd with heap := h2 } .o_num 0 hend2
    refine ⟨h3, ?_, ⟨oi, hframe3 L oi (by omega) (hframe L oi (by omega) hoi), hti⟩, ?_, hn3, ?_,
      fun p o hp ho => hframe3 p o (by omega) (hframe p o (by omega) ho)⟩
    · unfold set_bounds
      simp only [hlen, List.length_cons, List.length_nil]
      rw [bind_ok (sub_at_zero p1 [p2] sd), bind_ok (get_double_ok ho1 hs1), bind_ok hset,
        bind_ok (sub_at_one p1 p2 [] _),
        bind_ok (get_double_ok (s := { sd with heap := h2 })
          (hframe p2 o2 (by omega) ho2) hs2)]
      exact hset3
    · obtain ⟨o, h1, h4, h5⟩ := hn
      exact ⟨o, hframe3 _ o (by omega) h1, h4, h5⟩
    · obtain ⟨o, h1, h4, h5⟩ := hevery
      exact ⟨o, hframe3 _ o (by omega) (hframe _ o (by omega) h1), h4, by simpa using h5⟩
  | [v1, v2, v3], hbounds, hvals, hl =>
    obtain ⟨p1, p2, p3, rfl⟩ : ∃ p1 p2 p3, sub = [p1, p2, p3] := by
      match sub, hl with
      | [p, q, r], _ => exact ⟨p, q, r, rfl⟩
    simp only [range_bounds, Option.some.injEq, Prod.mk.injEq] at hbounds
    obtain ⟨rfl, rfl, rfl⟩ := hbounds
    simp only [List.map_cons, List.map_nil, List.cons.injEq, and_true] at hvals
    obtain ⟨o1, ho1, hs1⟩ := has_num_of_view hvals.1
    obtain ⟨o2, ho2, hs2⟩ := has_num_of_view hvals.2.1
    obtain ⟨o3, ho3, hs3⟩ := has_num_of_view hvals.2.2
    have hd2 := hdist p2 (by simp)
    have hd3 := hdist p3 (by simp)
    obtain ⟨h2, hset, hn, hframe⟩ := set_store_has_num hm (v1 : Rat) (L + 1) sd .o_num 0 hstart
    have hend2 : has_num h2 (L + 2) .o_num 0 := by
      obtain ⟨o, h1, h3, h4⟩ := hend
      exact ⟨o, hframe _ o (by omega) h1, h3, h4⟩
    obtain ⟨h3, hset3, hn3, hframe3⟩ :=
      set_store_has_num hm (v2 : Rat) (L + 2) { sd with heap := h2 } .o_num 0 hend2
    have hevery3 : has_num h3 (L + 3) .o_num 1 := by
      obtain ⟨o, h1, h4, h5⟩ := hevery
      exact ⟨o, hframe3 _ o (by omega) (hframe _ o (by omega) h1), h4, h5⟩
    obtain ⟨h4, hset4, hn4, hframe4⟩ :=
      set_store_has_num hm (v3 : Rat) (L + 3) { sd with heap := h3 } .o_num 1 hevery3
    refine ⟨h4, ?_, ⟨oi, hframe4 L oi (by omega)
      (hframe3 L oi (by omega) (hframe L oi (by omega) hoi)), hti⟩, ?_, ?_, hn4,
      fun p o hp ho => hframe4 p o (by omega) (hframe3 p o (by omega) (hframe p o (by omega) ho))⟩
    · unfold set_bounds
      simp only [hlen, List.length_cons, List.length_nil]
      rw [bind_ok (sub_at_zero p1 [p2, p3] sd), bind_ok (get_double_ok ho1 hs1), bind_ok hset,
        bind_ok (sub_at_one p1 p2 [p3] _),
        bind_ok (get_double_ok (s := { sd with heap := h2 })
          (hframe p2 o2 (by omega) ho2) hs2),
        bind_ok hset3,
        bind_ok (sub_at_two p1 p2 p3 [] _),
        bind_ok (get_double_ok (s := { sd with heap := h3 })
          (hframe3 p3 o3 (by omega) (hframe p3 o3 (by omega) ho3)) hs3)]
      exact hset4
    · obtain ⟨o, h1, h5, h6⟩ := hn
      exact ⟨o, hframe4 _ o (by omega) (hframe3 _ o (by omega) h1), h5, h6⟩
    · obtain ⟨o, h1, h5, h6⟩ := hn3
      exact ⟨o, hframe4 _ o (by omega) h1, h5, h6⟩

theorem M.le_ok {α : Type} {x y : M α} (h : M.le x y) {s s1 : State} {a : α}
    (hx : x s = .ok a s1) : y s = .ok a s1 := by
  rcases h s with h1 | h1
  · rw [hx] at h1; cases h1
  · rw [← h1, hx]

theorem range_bounds_length {vals : List Int} {b : Int × Int × Int}
    (h : range_bounds vals = some b) : 1 ≤ vals.length ∧ vals.length ≤ 3 := by
  match vals, h with
  | [_], _ => simp
  | [_, _], _ => simp
  | [_, _, _], _ => simp

/-- A `for` node runs its loop and then builds a vacant object. -/
theorem run_for_node (env : Env) (n : Nat) (u : ast_node) (s : State)
    (hf : s.flagged = false) (htext : u.val.val = "for") (hv : env.vars "for" = false)
    (hg : u.val.type ≠ .t_group) (hc : env.control "for" = true) :
    run env (n + 1) u s = (run_for env (run env n) n u >>= fun _ => new_object env .o_none) s := by
  rw [run_succ]
  unfold step
  rw [bind_ok (get_apply s)]
  simp only [hf, htext, hv, hc, hg, Bool.false_eq_true, if_false, if_true, String.reduceEq,
    or_self]

theorem getElem?_append_some {α : Type} {l : List α} {p : Nat} {o : α} (h : l[p]? = some o)
    (l2 : List α) : (l ++ l2)[p]? = some o := by
  have hlt : p < l.length := by
    by_contra hge
    rw [List.getElem?_eq_none (by omega)] at h
    cases h
  rw [List.getElem?_append_left hlt]
  exact h

/-- C7 (as amended): a node `for x of range(...)` with 1, 2 or 3 whole-number
arguments, read by `range_bounds` as (start, end, step) with step at least
one, where start, end, step and end + step are within `exact_bound` (2^53) in
magnitude, and a body that, run with the loop variable at a value from start
up to but not including end, terminates, raises no signal and leaves the
loop variable, the end and the step as they are.  The body may read and
change anything else: `J v` is any property of the state, for the turn at
value `v`, that holds at the start, that the body run at `v` turns into
`J (v + step)`, and that does not depend on the four objects of the loop (at
pointers `s.heap.length` to `s.heap.length + 3`) nor on objects yet to be
built.  Then the node terminates, and its loop runs the body once for each
value of `range_values start end step`, in that order, the loop variable
holding that value at the start of the run, and for no other value; at the
end the loop variable holds the first value reached that is not less than
end, and `J` holds for it.
`for_loop_visits` is the loop of the code with that record added.  The value
model is assumed to satisfy `NumModel`, which asks for exact sums of whole
numbers within `exact_bound` only. -/
theorem for_range_visits (env : Env) (hm : NumModel env)
    (u of_node lhs rhs body : ast_node) (s sd : State) (n0 : Nat) (sub : List Nat)
    (vals : List Int) (a e st : Int) (J : Int → State → Prop)
    (hf : s.flagged = false) (htext : u.val.val = "for") (hv : env.vars "for" = false)
    (hg : u.val.type ≠ .t_group) (hc : env.control "for" = true)
    (hch : u.children = [of_node, body]) (hof : of_node.val.val = "of")
    (hoch : of_node.children = [lhs, rhs]) (hsym : lhs.val.type = .t_symbol)
    (hrange : rhs.val.val = "range") (hfree : memory.has s.mem lhs.val.val = false)
    (hargs : run_range_args env (run env n0) rhs.children (for_entry env lhs.val.val s) =
      .ok sub sd)
    (hfd : sd.flagged = false)
    (hit : ∃ o, sd.heap[s.heap.length]? = some o ∧ o.type = .o_num)
    (hstart : has_num sd.heap (s.heap.length + 1) .o_num 0)
    (hend : has_num sd.heap (s.heap.length + 2) .o_num 0)
    (hevery : has_num sd.heap (s.heap.length + 3) .o_num 1)
    (hvals : sub.map (fun p => (sd.heap[p]?).map (·.store)) =
      vals.map (fun v => some (.d (v : Rat))))
    (hdist : ∀ p ∈ sub, p < s.heap.length ∨ s.heap.length + 4 ≤ p)
    (hbounds : range_bounds vals = some (a, e, st)) (hst : 1 ≤ st)
    (halo : -exact_bound ≤ a) (hahi : a ≤ exact_bound) (helo : -exact_bound ≤ e)
    (hstb : st ≤ exact_bound) (hsum : e + st ≤ exact_bound)
    (hJ : J a sd)
    (hstable : ∀ (v : Int) (t : State) (h2 : List object), J v t →
      (∀ p o, (p < s.heap.length ∨ s.heap.length + 4 ≤ p) → t.heap[p]? = some o →
        h2[p]? = some o) →
      J v { t with heap := h2 })
    (hbody : ∀ (v : Int) (s1 : State), s1.flagged = false → a ≤ v → v < e →
      has_num s1.heap s.heap.length .o_num v → has_num s1.heap (s.heap.length + 2) .o_num e →
      has_num s1.heap (s.heap.length + 3) .o_num st → J v s1 →
      ∃ m r s2, run env m body s1 = .ok r s2 ∧ s2.flagged = false ∧
        has_num s2.heap s.heap.length .o_num v ∧ has_num s2.heap (s.heap.length + 2) .o_num e ∧
        has_num s2.heap (s.heap.length + 3) .o_num st ∧ J (v + st) s2) :
    (∀ (rec : ast_node → M Nat) k t,
      for_loop env rec u s.heap.length (s.heap.length + 2) (s.heap.length + 3) k t =
        (for_loop_visits env rec u s.heap.length (s.heap.length + 2) (s.heap.length + 3) k
          >>= fun _ => pure ()) t) ∧
    ∃ N, ∀ n, N ≤ n → ∃ s0 s1,
      has_num s0.heap s.heap.length .o_num a ∧
      run_for env (run env n) n u s =
        (for_loop env (run env n) u s.heap.length (s.heap.length + 2) (s.heap.length + 3) n
          >>= fun _ => M.modify (fun s => { s with mem := memory.remove s.mem lhs.val.val }))
          s0 ∧
      for_loop_visits env (run env n) u s.heap.length (s.heap.length + 2)
          (s.heap.length + 3) n s0 =
        .ok ((range_values a e st).map (fun (v : Int) => some (store_t.d (v : Rat)))) s1 ∧
      run env (n + 1) u s = .ok s1.heap.length
        { s1 with
          mem := memory.remove s1.mem lhs.val.val
          heap := s1.heap ++ [env.construct .o_none] } ∧
      ∃ a1, e ≤ a1 ∧ (a1 = a ∨ a1 < e + st) ∧ has_num s1.heap s.heap.length .o_num a1 ∧
        J a1 s1 := by
  refine ⟨fun rec k t => for_loop_visits_erase env rec u _ _ _ k t, ?_⟩
  have hlen : rhs.children.length = sub.length :=
    (run_range_args_length env _ _ _ _ _ hargs).symm
  have hl : sub.length = vals.length := by
    have := congrArg List.length hvals
    simpa using this
  obtain ⟨hl1, hl3⟩ := range_bounds_length hbounds
  obtain ⟨h2, hsetb, ⟨oi, hoi, hti⟩, ⟨os, hos, hts, hss⟩, hend2, hevery2, hframe⟩ :=
    set_bounds_range env hm rhs sub s.heap.length sd vals a e st hlen hvals hdist hbounds hit
      hstart hend hevery
  have hequal : call env "equal" s.heap.length [s.heap.length + 1] { sd with heap := h2 } =
      .ok s.heap.length
        { sd with heap := h2.set s.heap.length { oi with store := .d (a : Rat) } } := by
    unfold call
    simp only [hm.equal_copy h2 _ _ oi os hoi hos (by rw [hti, hts]), hss]
  have hb : u.children[1]? = some body := by simp [hch]
  have hInv0 : has_num (h2.set s.heap.length { oi with store := .d (a : Rat) }) s.heap.length
        .o_num a ∧
      has_num (h2.set s.heap.length { oi with store := .d (a : Rat) }) (s.heap.length + 2)
        .o_num e ∧
      has_num (h2.set s.heap.length { oi with store := .d (a : Rat) }) (s.heap.length + 3)
        .o_num st := by
    exact ⟨has_num_set_self _ hoi hti, has_num_set_ne hend2 (by omega) _,
      has_num_set_ne hevery2 (by omega) _⟩
  have hJ0 : J a { sd with heap := h2.set s.heap.length { oi with store := .d (a : Rat) } } := by
    refine hstable a sd _ hJ (fun p o hp ho => ?_)
    rw [List.getElem?_set_ne (by omega)]
    exact hframe p o hp ho
  obtain ⟨N1, hN1⟩ := for_loop_visits_range env u body s.heap.length (s.heap.length + 2)
    (s.heap.length + 3) e st
    (fun v t => has_num t.heap s.heap.length .o_num v ∧
      has_num t.heap (s.heap.length + 2) .o_num e ∧
      has_num t.heap (s.heap.length + 3) .o_num st ∧ J v t ∧ a ≤ v ∧ v ≤ exact_bound)
    (fun v t => has_num t.heap s.heap.length .o_num v ∧
      has_num t.heap (s.heap.length + 2) .o_num e ∧
      has_num t.heap (s.heap.length + 3) .o_num st ∧ J (v + st) t ∧ a ≤ v ∧ v ≤ exact_bound)
    hb hst
    (by
      rintro v t ⟨⟨o, h1, _, h3⟩, _⟩
      rw [h1]
      simp [h3])
    (by
      rintro v t ⟨⟨x, hx1, hx2, hx3⟩, ⟨y, hy1, hy2, hy3⟩, hz, hj, hv1, hv2⟩
      obtain ⟨o, ho1, ho2⟩ := hm.less_than_num t.heap _ _ x y v e hx1 hy1 hx3 hy3
        (by omega) hv2 helo (by omega)
      refine ⟨t.heap.length, { t with heap := t.heap ++ [o] }, ?_, ?_, ?_⟩
      · unfold call
        rw [ho1]
      · apply get_bool_ok (o := o)
        · simp
        · rw [ho2]
      · exact ⟨has_num_append ⟨x, hx1, hx2, hx3⟩ _, has_num_append ⟨y, hy1, hy2, hy3⟩ _,
          has_num_append hz _,
          hstable v t _ hj (fun p o2 _ ho => getElem?_append_some ho _), hv1, hv2⟩)
    (by
      rintro v t ⟨⟨x, hx1, hx2, hx3⟩, hy, ⟨z, hz1, hz2, hz3⟩, hj, hv1, hv2⟩ hve
      refine ⟨s.heap.length,
        { t with heap := (t.heap.set s.heap.length
          ({ x with store := .d ((v + st : Int) : Rat) } : object)) },
        ?_, has_num_set_self _ hx1 hx2, has_num_set_ne hy (by omega) _,
        has_num_set_ne ⟨z, hz1, hz2, hz3⟩ (by omega) _,
        hstable (v + st) t _ hj (fun p o2 hp ho => ?_), by omega, by omega⟩
      · unfold call
        rw [hm.add_equal_num t.heap _ _ x z v st hx1 hz1 hx3 hz3 (by omega) hv2 (by omega) hstb
          (by omega) (by omega)]
      · rw [List.getElem?_set_ne (by omega)]
        exact ho)
    (by
      rintro v t ⟨h1, h3, h4, hj, hv1, hv2⟩ hve hft
      obtain ⟨m, r, t2, hr, hf2, k1, k2, k3, k4⟩ := hbody v t hft hv1 hve h1 h3 h4 hj
      exact ⟨m, r, t2, hr, hf2, k1, k2, k3, k4, hv1, hv2⟩)
    (e - a).toNat a { sd with heap := h2.set s.heap.length { oi with store := .d (a : Rat) } }
    (le_refl _) ⟨hInv0.1, hInv0.2.1, hInv0.2.2, hJ0, le_refl _, hahi⟩ hfd
  refine ⟨max (max N1 n0) ((e - a).toNat + 1), fun n hn => ?_⟩
  obtain ⟨s1, a1, hvis, hf1, ⟨hfin, _, _, hJ1, _⟩, hle1, hor1⟩ := hN1 n (by omega) n (by omega)
  have hargs2 := M.le_ok (run_range_args_le env (run_le env n0 n (by omega)) rhs.children) hargs
  have hrf : run_for env (run env n) n u s =
      (for_loop env (run env n) u s.heap.length (s.heap.length + 2) (s.heap.length + 3) n
        >>= fun _ => M.modify (fun s => { s with mem := memory.remove s.mem lhs.val.val }))
        { sd with heap := h2.set s.heap.length { oi with store := .d (a : Rat) } } := by
    rw [run_for_setup env hm (run env n) n u of_node lhs rhs body s hch hof hoch hsym hrange
      hfree, bind_ok hargs2]
    have hnot : ¬(rhs.children.length < 1 ∨ rhs.children.length > 3) := by omega
    simp only [hnot, if_false]
    rw [bind_ok hsetb, bind_ok hequal]
  have hloop : for_loop env (run env n) u s.heap.length (s.heap.length + 2)
      (s.heap.length + 3) n
      { sd with heap := h2.set s.heap.length { oi with store := .d (a : Rat) } } =
      .ok () s1 := by
    rw [for_loop_visits_erase, bind_ok hvis]
    rfl
  have hrf2 : run_for env (run env n) n u s =
      .ok () { s1 with mem := memory.remove s1.mem lhs.val.val } := by
    rw [hrf, bind_ok hloop]
    rfl
  refine ⟨_, s1, hInv0.1, hrf, hvis, ?_, a1, hle1, hor1, hfin, hJ1⟩
  rw [run_for_node env n u s hf htext hv hg hc, bind_ok hrf2]
  rfl

theorem Sample.num_model : NumModel Sample.env where
  construct_type := Sample.construct_type
  set_num := by
    intro v h p o ho
    show Sample.set (.d v) h p = _
    unfold Sample.set
    rw [ho]
  equal_copy := Sample.equal_law
  less_than_num := by
    intro h p q x y a b hx hy hxs hys _ _ _ _
    refine ⟨{ Sample.construct .o_bool with store := .b (decide (a < b)) }, ?_, rfl⟩
    show Sample.method "less_than" h p [q] = _
    unfold Sample.method
    simp [hx, hy, Sample.compare, hxs, hys, Except.map]
  add_equal_num := by
    intro h p q x y a b hx hy hxs hys _ _ _ _ _ _
    show Sample.method "add_equal" h p [q] = _
    unfold Sample.method
    simp [hx, hy, Sample.arith, hxs, hys, Except.map]

theorem has_num_of_views {h : List object} {p : Nat} {t : o_type} {v : Rat}
    (hv : (h[p]?).map (fun o => (o.type, o.store)) = some (t, .d v)) : has_num h p t v := by
  cases ho : h[p]? with
  | none => rw [ho] at hv; cases hv
  | some o =>
    rw [ho] at hv
    simp only [Option.map_some', Option.some.injEq, Prod.mk.injEq] at hv
    exact ⟨o, ho, hv.1, hv.2⟩

theorem has_type_of_view {h : List object} {p : Nat} {t : o_type}
    (hv : (h[p]?).map (·.type) = some t) : ∃ o, h[p]? = some o ∧ o.type = t := by
  cases ho : h[p]? with
  | none => rw [ho] at hv; cases hv
  | some o =>
    rw [ho] at hv
    simp only [Option.map_some', Option.some.injEq] at hv
    exact ⟨o, rfl, hv⟩

/-- An empty group only builds a vacant object. -/
theorem run_empty_group (env : Env) (n : Nat) (u : ast_node) (s : State)
    (hv : env.vars u.val.val = false) (ht : u.val.type = .t_group) (hch : u.children = []) :
    run env (n + 1) u s = new_object env .o_none s := by
  rw [run_succ]
  unfold step
  rw [bind_ok (get_apply s)]
  simp only [hv, ht, hch, Bool.false_eq_true, if_false, if_true]
  split
  · rfl
  · unfold run_group
    rfl

/-! ## The operator ladder -/

/-- The operators of the ladder are none of the operators handled before or
after it. -/
theorem ladder_keys (t name : String) (h : ladder.lookup t = some name) :
    t ≠ "." ∧ t ≠ "in" ∧ t ≠ "continue" ∧ t ≠ "break" ∧ t ≠ "out" ∧ t ≠ "outl" := by
  refine ⟨?_, ?_, ?_, ?_, ?_, ?_⟩ <;>
  · rintro rfl
    revert h
    first
      | (have e : ladder.lookup "." = none := by decide
         rw [e]; intro h; cases h)
      | (have e : ladder.lookup "in" = none := by decide
         rw [e]; intro h; cases h)
      | (have e : ladder.lookup "continue" = none := by decide
         rw [e]; intro h; cases h)
      | (have e : ladder.lookup "break" = none := by decide
         rw [e]; intro h; cases h)
      | (have e : ladder.lookup "out" = none := by decide
         rw [e]; intro h; cases h)
      | (have e : ladder.lookup "outl" = none := by decide
         rw [e]; intro h; cases h)

theorem run_children_two {rec : ast_node → M Nat} {c1 c2 : ast_node} {s s1 s2 : State}
    {a b : Nat} (h1 : rec c1 s = .ok a s1) (h2 : rec c2 s1 = .ok b s2) :
    run_children rec [c1, c2] s = .ok [a, b] s2 := by
  unfold run_children
  rw [bind_ok h1, bind_ok (run_children_one h2)]
  rfl

/-- A builtin node other than `.`, `in`, `continue` and `break`, with as many
children as its token declares, evaluates its children in order and enters
the ladder with their values. -/
theorem run_builtin_node (env : Env) (n : Nat) (u : ast_node) (s : State)
    (hf : s.flagged = false) (hv : env.vars u.val.val = false)
    (hctl : env.control u.val.val = false) (ht : u.val.type = .t_builtin)
    (hops : u.val.ops = u.children.length) (h1 : u.val.val ≠ ".") (h2 : u.val.val ≠ "in")
    (h3 : u.val.val ≠ "continue") (h4 : u.val.val ≠ "break") :
    run env (n + 1) u s = (run_children (run env n) u.children >>= run_ladder env u) s := by
  rw [run_succ]
  unfold step
  rw [bind_ok (get_apply s)]
  simp only [hf, hv, hctl, ht, Bool.false_eq_true, if_false, if_true, reduceCtorEq]
  unfold run_builtin
  simp only [hops, h1, h2, h3, h4, ne_eq, not_true_eq_false, if_false]

/-- In the ladder a binary operator calls the method the table names, on the
first value with the second as argument. -/
theorem run_ladder_binary (env : Env) (u : ast_node) (name : String) (a b : Nat)
    (s : State) (h : ladder.lookup u.val.val = some name) :
    run_ladder env u [a, b] s = call env name a [b] s := by
  obtain ⟨-, -, -, -, h5, h6⟩ := ladder_keys _ _ h
  unfold run_ladder
  simp only [h5, h6, if_false, h]
  rw [bind_ok (sub_at_zero a [b] s), bind_ok (sub_at_one a b [] s)]

/-- C11: a builtin node written with a binary operator of the ladder, with
its two declared children, evaluated while no flag is set, evaluates the
first child, then the second, and yields the call of the method the ladder
names on the first value with the second as argument.  For the operators
`<<`, `>>` and `>>=` that method is the left shift, the right shift and the
right-shift assignment; for `<<=` it is the right-shift assignment too, not
the left-shift assignment. -/
theorem ladder_dispatch (env : Env) (n : Nat) (u c1 c2 : ast_node) (name : String)
    (s s1 s2 : State) (a b : Nat)
    (hlook : ladder.lookup u.val.val = some name)
    (hv : env.vars u.val.val = false) (hctl : env.control u.val.val = false)
    (ht : u.val.type = .t_builtin) (hops : u.val.ops = 2) (hch : u.children = [c1, c2])
    (hf : s.flagged = false)
    (h1 : run env n c1 s = .ok a s1) (h2 : run env n c2 s1 = .ok b s2) :
    run env (n + 1) u s = call env name a [b] s2 ∧
    (u.val.val = "<<" → name = "b_left_shift") ∧
    (u.val.val = ">>" → name = "b_right_shift") ∧
    (u.val.val = ">>=" → name = "b_right_shift_equal") ∧
    (u.val.val = "<<=" → name = "b_right_shift_equal") := by
  obtain ⟨k1, k2, k3, k4, -, -⟩ := ladder_keys _ _ hlook
  refine ⟨?_, ?_, ?_, ?_, ?_⟩
  · rw [run_builtin_node env n u s hf hv hctl ht (by rw [hops, hch]; rfl) k1 k2 k3 k4, hch,
      bind_ok (run_children_two h1 h2)]
    exact run_ladder_binary env u name a b s2 hlook
  · intro e
    rw [e] at hlook
    exact Option.some.inj (hlook.symm.trans (by decide : ladder.lookup "<<" = some "b_left_shift"))
  · intro e
    rw [e] at hlook
    exact Option.some.inj (hlook.symm.trans (by decide : ladder.lookup ">>" = some "b_right_shift"))
  · intro e
    rw [e] at hlook
    exact Option.some.inj
      (hlook.symm.trans (by decide : ladder.lookup ">>=" = some "b_right_shift_equal"))
  · intro e
    rw [e] at hlook
    exact Option.some.inj
      (hlook.symm.trans (by decide : ladder.lookup "<<=" = some "b_right_shift_equal"))

set_option maxHeartbeats 1000000 in
/-- Witness of C11: in the sample value model `x <<= 1`, with `x` holding 4,
calls the right-shift assignment, after which `x` holds 2 (the left-shift
assignment would leave 8). -/
theorem ladder_dispatch_witness :
    (run Sample.env_more 2 Sample.shift_assign Sample.state_four).store_of =
      some (.d 2) ∧
    (call Sample.env_more "b_left_shift_equal" 1 [2]
      (Sample.run_places.state Sample.state_four)).store_of = some (.d 8) :=
  ⟨(congrArg Res.store_of
      (ladder_dispatch Sample.env_more 1 Sample.shift_assign (Sample.sym "x") (Sample.num "1")
        "b_right_shift_equal" Sample.state_four (Sample.run_target.state Sample.state_four)
        (Sample.run_places.state Sample.state_four) 1 2 (by decide) rfl rfl rfl rfl rfl rfl
        (Res.eq_ok_of_result Sample.run_target 1 Sample.state_four (by decide!))
        (Res.eq_ok_of_result Sample.run_places 2 Sample.state_four (by decide!))).1).trans
      (by decide!),
    by decide!⟩

/-! ## The member-call operator -/

theorem run_children_nil_bind {β : Type} (rec : ast_node → M Nat) (g : List Nat → M β)
    (s : State) : (run_children rec [] >>= g) s = g [] s := by
  unfold run_children
  rfl

theorem run_children_cons_bind {β : Type} (rec : ast_node → M Nat) (c : ast_node)
    (cs : List ast_node) (g : List Nat → M β) (s : State) :
    (run_children rec (c :: cs) >>= g) s =
      (rec c >>= fun a => run_children rec cs >>= fun rest => g (a :: rest)) s := by
  rw [run_children, bind_apply, bind_apply, bind_apply]
  cases rec c s with
  | ok a s1 =>
    simp only
    rw [bind_apply, bind_apply]
    cases run_children rec cs s1 <;> rfl
  | fail e s1 => rfl
  | out_of_fuel => rfl

/-- A `.` node with its two declared children runs the member-call branch. -/
theorem run_dot_node (env : Env) (n : Nat) (u : ast_node) (s : State)
    (hf : s.flagged = false) (htext : u.val.val = ".") (hv : env.vars "." = false)
    (hctl : env.control "." = false) (ht : u.val.type = .t_builtin)
    (hops : u.val.ops = u.children.length) :
    run env (n + 1) u s = run_dot env (run env n) u s := by
  rw [run_succ]
  unfold step
  rw [bind_ok (get_apply s)]
  simp only [hf, htext, hv, hctl, ht, Bool.false_eq_true, if_false, if_true, reduceCtorEq]
  unfold run_builtin
  simp only [htext, hops, ne_eq, not_true_eq_false, if_false, if_true]

/-- The member-call branch after the target has been evaluated. -/
theorem run_dot_target (env : Env) (rec : ast_node → M Nat) (u t m : ast_node)
    (s s1 : State) (target : Nat) (hch : u.children = [t, m])
    (h1 : rec t s = .ok target s1) :
    run_dot env rec u s =
      (if m.val.val = "push" then
        if m.children.length ≠ 1 then M.err "push requires 1 argument" (some m.val.line)
        else do
          let arg ← rec (← child m 0)
          call env "push" target [arg]
      else if m.val.val = "pop" then call env "pop" target []
      else if m.val.val = "len" then call env "len" target []
      else if m.val.val = "empty" then call env "empty" target []
      else if m.val.val = "find" then
        if m.children.length ≠ 1 then M.err "find requires 1 argument" (some m.val.line)
        else do
          let arg ← rec (← child m 0)
          call env "find" target [arg]
      else if m.val.val = "reverse" then call env "reverse" target []
      else if m.val.val = "fill" then
        if m.children.length ≠ 3 then M.err "fill requires 3 arguments" (some m.val.line)
        else do
          let arg1 ← rec (← child m 0)
          let arg2 ← rec (← child m 1)
          let arg3 ← rec (← child m 2)
          call env "fill" target [arg1, arg2, arg3]
      else if m.val.val = "at" then
        if m.children.length ≠ 1 then M.err "at requires 1 argument" (some m.val.line)
        else do
          let arg ← rec (← child m 0)
          call env "at" target [arg]
      else if m.val.val = "next" then call env "next" target []
      else if m.val.val = "last" then call env "last" target []
      else if m.val.val = "sub" then
        match m.children.length with
        | 0 => call env "sub" target []
        | 1 => do
          let arg ← rec (← child m 0)
          call env "sub" target [arg]
        | 2 => do
          let arg1 ← rec (← child m 0)
          let arg2 ← rec (← child m 1)
          call env "sub" target [arg1, arg2]
        | 3 => do
          let arg1 ← rec (← child m 0)
          let arg2 ← rec (← child m 1)
          let arg3 ← rec (← child m 2)
          call env "sub" target [arg1, arg2, arg3]
        | _ => M.err "sub requires 0 to 3 arguments" none
      else if m.val.val = "clear" then call env "clear" target []
      else if m.val.val = "sort" then call env "sort" target []
      else M.err ("unknown method " ++ dq ++ m.val.val ++ dq) (some u.val.line) : M Nat) s1 := by
  unfold run_dot
  rw [bind_ok (child_ok (show u.children[0]? = some t by rw [hch]; rfl) s), bind_ok h1,
    bind_ok (child_ok (show u.children[1]? = some m by rw [hch]; rfl) s1)]

/-- One argument: evaluating the only child and passing its value is
evaluating the list of children and passing the values. -/
theorem dot_args_one (rec : ast_node → M Nat) (m : ast_node) (g : List Nat → M Nat)
    (s : State) (h : m.children.length = 1) :
    (do let arg ← rec (← child m 0); g [arg] : M Nat) s =
      (run_children rec m.children >>= g) s := by
  obtain ⟨c, hc⟩ := List.length_eq_one.mp h
  rw [hc, run_children_cons_bind,
    bind_ok (child_ok (show m.children[0]? = some c by rw [hc]; rfl) s), bind_apply,
    bind_apply]
  cases rec c s with
  | ok a s1 => simp only [run_children_nil_bind]
  | fail e s1 => rfl
  | out_of_fuel => rfl

/-- Two arguments, likewise. -/
theorem dot_args_two (rec : ast_node → M Nat) (m : ast_node) (g : List Nat → M Nat)
    (s : State) (h : m.children.length = 2) :
    (do let a1 ← rec (← child m 0); let a2 ← rec (← child m 1); g [a1, a2] : M Nat) s =
      (run_children rec m.children >>= g) s := by
  obtain ⟨c1, c2, hc⟩ := List.length_eq_two.mp h
  rw [hc, run_children_cons_bind,
    bind_ok (child_ok (show m.children[0]? = some c1 by rw [hc]; rfl) s), bind_apply,
    bind_apply]
  cases rec c1 s with
  | ok a s1 =>
    simp only
    rw [run_children_cons_bind,
      bind_ok (child_ok (show m.children[1]? = some c2 by rw [hc]; rfl) s1), bind_apply,
      bind_apply]
    cases rec c2 s1 with
    | ok b s2 => simp only [run_children_nil_bind]
    | fail e s2 => rfl
    | out_of_fuel => rfl
  | fail e s1 => rfl
  | out_of_fuel => rfl

/-- Three arguments, likewise. -/
theorem dot_args_three (rec : ast_node → M Nat) (m : ast_node) (g : List Nat → M Nat)
    (s : State) (h : m.children.length = 3) :
    (do let a1 ← rec (← child m 0); let a2 ← rec (← child m 1); let a3 ← rec (← child m 2)
        g [a1, a2, a3] : M Nat) s =
      (run_children rec m.children >>= g) s := by
  obtain ⟨c1, c2, c3, hc⟩ := List.length_eq_three.mp h
  rw [hc, run_children_cons_bind,
    bind_ok (child_ok (show m.children[0]? = some c1 by rw [hc]; rfl) s), bind_apply,
    bind_apply]
  cases rec c1 s with
  | ok a s1 =>
    simp only
    rw [run_children_cons_bind,
      bind_ok (child_ok (show m.children[1]? = some c2 by rw [hc]; rfl) s1), bind_apply,
      bind_apply]
    cases rec c2 s1 with
    | ok b s2 =>
      simp only
      rw [run_children_cons_bind,
        bind_ok (child_ok (show m.children[2]? = some c3 by rw [hc]; rfl) s2), bind_apply,
        bind_apply]
      cases rec c3 s2 with
      | ok c s3 => simp only [run_children_nil_bind]
      | fail e s3 => rfl
      | out_of_fuel => rfl
    | fail e s2 => rfl
    | out_of_fuel => rfl
  | fail e s1 => rfl
  | out_of_fuel => rfl

/-- C12 (as amended): a `.` node with a target and a method child, evaluated
while no flag is set, evaluates the target first and then dispatches on the
name of the method child.  `pop`, `len`, `empty`, `reverse`, `next`, `last`,
`clear` and `sort` are called on the target whatever the number of children
of the method child, and those children are not evaluated.  `push`, `find`
and `at` with one child and `fill` with three evaluate the children in order
and are called with their values; with any other number of children they fail
with the method's arity error, in the state reached by the target.  `sub`
with at most three children evaluates them and is called with their values,
and fails with more.  Any other name fails with the unknown-method error. -/
theorem dot_dispatch (env : Env) (n : Nat) (u t m : ast_node) (s s1 : State) (target : Nat)
    (hf : s.flagged = false) (htext : u.val.val = ".") (hv : env.vars "." = false)
    (hctl : env.control "." = false) (ht : u.val.type = .t_builtin) (hops : u.val.ops = 2)
    (hch : u.children = [t, m]) (h1 : run env n t s = .ok target s1) :
    (m.val.val ∈ ["pop", "len", "empty", "reverse", "next", "last", "clear", "sort"] →
      run env (n + 1) u s = call env m.val.val target [] s1) ∧
    (∀ k msg, (m.val.val, k, msg) ∈ [("push", 1, "push requires 1 argument"),
        ("find", 1, "find requires 1 argument"), ("at", 1, "at requires 1 argument"),
        ("fill", 3, "fill requires 3 arguments")] →
      (m.children.length = k → run env (n + 1) u s =
        (run_children (run env n) m.children >>= call env m.val.val target) s1) ∧
      (m.children.length ≠ k →
        run env (n + 1) u s = .fail (.err msg (some m.val.line)) s1)) ∧
    (m.val.val = "sub" →
      (m.children.length ≤ 3 → run env (n + 1) u s =
        (run_children (run env n) m.children >>= call env "sub" target) s1) ∧
      (3 < m.children.length →
        run env (n + 1) u s = .fail (.err "sub requires 0 to 3 arguments" none) s1)) ∧
    (m.val.val ∉ ["push", "pop", "len", "empty", "find", "reverse", "fill", "at", "next",
        "last", "sub", "clear", "sort"] →
      run env (n + 1) u s =
        .fail (.err ("unknown method " ++ dq ++ m.val.val ++ dq) (some u.val.line)) s1) := by
  have key := (run_dot_node env n u s hf htext hv hctl ht (by rw [hops, hch]; rfl)).trans
    (run_dot_target env (run env n) u t m s s1 target hch h1)
  refine ⟨?_, ?_, ?_, ?_⟩
  · intro hm
    simp only [List.mem_cons, List.mem_singleton, List.not_mem_nil, or_false] at hm
    rw [key]
    rcases hm with h | h | h | h | h | h | h | h <;>
      simp only [h, String.reduceEq, if_false, if_true]
  · intro k msg hm
    simp only [List.mem_cons, List.mem_singleton, List.not_mem_nil, or_false,
      Prod.mk.injEq] at hm
    rcases hm with ⟨h, rfl, rfl⟩ | ⟨h, rfl, rfl⟩ | ⟨h, rfl, rfl⟩ | ⟨h, rfl, rfl⟩
    · refine ⟨fun hl => ?_, fun hl => ?_⟩
      · rw [key]
        simp only [h, hl, String.reduceEq, ne_eq, not_true_eq_false, if_false, if_true]
        exact dot_args_one (run env n) m (call env "push" target) s1 hl
      · rw [key]
        simp only [h, hl, String.reduceEq, ne_eq, not_false_eq_true, if_false, if_true]
        rfl
    · refine ⟨fun hl => ?_, fun hl => ?_⟩
      · rw [key]
        simp only [h, hl, String.reduceEq, ne_eq, not_true_eq_false, if_false, if_true]
        exact dot_args_one (run env n) m (call env "find" target) s1 hl
      · rw [key]
        simp only [h, hl, String.reduceEq, ne_eq, not_false_eq_true, if_false, if_true]
        rfl
    · refine ⟨fun hl => ?_, fun hl => ?_⟩
      · rw [key]
        simp only [h, hl, String.reduceEq, ne_eq, not_true_eq_false, if_false, if_true]
        exact dot_args_one (run env n) m (call env "at" target) s1 hl
      · rw [key]
        simp only [h, hl, String.reduceEq, ne_eq, not_false_eq_true, if_false, if_true]
        rfl
    · refine ⟨fun hl => ?_, fun hl => ?_⟩
      · rw [key]
        simp only [h, hl, String.reduceEq, ne_eq, not_true_eq_false, if_false, if_true]
        exact dot_args_three (run env n) m (call env "fill" target) s1 hl
      · rw [key]
        simp only [h, hl, String.reduceEq, ne_eq, not_false_eq_true, if_false, if_true]
        rfl
  · intro h
    refine ⟨fun hl => ?_, fun hl => ?_⟩
    · have h0 : m.children.length = 0 ∨ m.children.length = 1 ∨ m.children.length = 2 ∨
          m.children.length = 3 := by omega
      rw [key]
      rcases h0 with h0 | h0 | h0 | h0
      · simp only [h, h0, String.reduceEq, if_false, if_true]
        rw [List.length_eq_zero.mp h0]
        exact (run_children_nil_bind (run env n) _ s1).symm
      · simp only [h, h0, String.reduceEq, if_false, if_true]
        exact dot_args_one (run env n) m (call env "sub" target) s1 h0
      · simp only [h, h0, String.reduceEq, if_false, if_true]
        exact dot_args_two (run env n) m (call env "sub" target) s1 h0
      · simp only [h, h0, String.reduceEq, if_false, if_true]
        exact dot_args_three (run env n) m (call env "sub" target) s1 h0
    · obtain ⟨k, hk⟩ : ∃ k, m.children.length = k + 4 := ⟨m.children.length - 4, by omega⟩
      rw [key]
      simp only [h, hk, String.reduceEq, if_false, if_true]
      rfl
  · intro hm
    simp only [List.mem_cons, List.mem_singleton, List.not_mem_nil, or_false, not_or] at hm
    obtain ⟨k1, k2, k3, k4, k5, k6, k7, k8, k9, k10, k11, k12, k13⟩ := hm
    rw [key]
    simp only [k1, k2, k3, k4, k5, k6, k7, k8, k9, k10, k11, k12, k13, if_false]
    rfl

set_option maxHeartbeats 1000000 in
/-- Counterexample to C12: `"abc".len(1)` calls `len` although `len` takes no
argument: the evaluation succeeds and yields the length 3. -/
theorem dot_len_ignores_argument :
    (run Sample.env_more 2 Sample.dot_len (Sample.start .o_none [])).is_ok = true ∧
    (run Sample.env_more 2 Sample.dot_len (Sample.start .o_none [])).store_of =
      some (.d 3) := by
  constructor <;> decide!

set_option maxHeartbeats 1000000 in
/-- Witness of C12: `"abc".len(1)` is the call of `len` on the target, and
`"abc".push()` fails with the arity error of `push`. -/
theorem dot_dispatch_witness :
    run Sample.env_more 2 Sample.dot_len (Sample.start .o_none []) =
      call Sample.env_more "len" 1 [] (Sample.run_abc.state (Sample.start .o_none [])) ∧
    run Sample.env_more 2 Sample.dot_push (Sample.start .o_none []) =
      .fail (.err "push requires 1 argument" (some 1))
        (Sample.run_abc.state (Sample.start .o_none [])) :=
  ⟨(dot_dispatch Sample.env_more 1 Sample.dot_len (Sample.lit "abc")
      (Sample.node "len" .t_symbol 0 [Sample.num "1"]) (Sample.start .o_none [])
      (Sample.run_abc.state (Sample.start .o_none [])) 1 rfl rfl rfl rfl rfl rfl rfl
      (Res.eq_ok_of_result Sample.run_abc 1 (Sample.start .o_none []) (by decide!))).1
      (by decide),
    ((dot_dispatch Sample.env_more 1 Sample.dot_push (Sample.lit "abc")
      (Sample.node "push" .t_symbol 0 []) (Sample.start .o_none [])
      (Sample.run_abc.state (Sample.start .o_none [])) 1 rfl rfl rfl rfl rfl rfl rfl
      (Res.eq_ok_of_result Sample.run_abc 1 (Sample.start .o_none []) (by decide!))).2.1
      1 "push requires 1 argument" (by decide)).2 (by decide)⟩

/-! ## The group loop -/

/-- Under a live flag the loop of the group branch passes over all remaining
children without any effect. -/
theorem run_group_flagged (rec : ast_node → M Nat) (cs : List ast_node) :
    ∀ (prev : Option ast_node) (sub : List Nat) (s : State), s.flagged = true →
      run_group rec prev sub cs s = .ok () s := by
  induction cs with
  | nil => intro prev sub s _; rfl
  | cons c cs ih =>
    intro prev sub s h
    rw [run_group, bind_ok (get_apply s)]
    simp only [h, if_true]
    exact ih (some c) sub s h

/-- The loop of the group branch is one turn followed by the loop over the
remaining children. -/
theorem run_group_cons (rec : ast_node → M Nat) (prev : Option ast_node) (sub : List Nat)
    (c : ast_node) (cs : List ast_node) (s : State) :
    run_group rec prev sub (c :: cs) s =
      (group_head rec prev sub c >>= fun sub2 => run_group rec (some c) sub2 cs) s := by
  rw [run_group]
  unfold group_head
  rw [bind_ok (get_apply s), bind_bind_ok (get_apply s)]
  by_cases hf : s.flagged = true
  · simp only [hf, if_true]
    rfl
  · simp only [hf, Bool.false_eq_true, if_false]
    by_cases h1 : c.val.val = "elsif"
    · simp only [h1, if_true]
      by_cases hp : follows_if prev = true
      · simp only [hp, Bool.not_true, Bool.false_eq_true, if_false, bind_apply]
        cases sub_back sub s with
        | ok last s1 =>
          simp only
          cases get_bool last s1 with
          | ok v s2 =>
            simp only
            by_cases hv : v = true
            · simp only [hv, if_true]
            · simp only [hv, Bool.false_eq_true, if_false, bind_apply]
              cases rec c s2 <;> rfl
          | fail e s2 => rfl
          | out_of_fuel => rfl
        | fail e s1 => rfl
        | out_of_fuel => rfl
      · simp only [Bool.not_eq_true] at hp
        simp only [hp, Bool.not_false, if_true]
        rfl
    · simp only [h1, if_false]
      by_cases h2 : c.val.val = "else"
      · simp only [h2, if_true]
        by_cases hp : follows_if prev = true
        · simp only [hp, Bool.not_true, Bool.false_eq_true, if_false, bind_apply]
          cases sub_back sub s with
          | ok last s1 =>
            simp only
            cases get_bool last s1 with
            | ok v s2 =>
              simp only
              by_cases hv : v = true
              · simp only [hv, if_true]
              · simp only [hv, Bool.false_eq_true, if_false, bind_apply]
                cases rec c s2 <;> rfl
            | fail e s2 => rfl
            | out_of_fuel => rfl
          | fail e s1 => rfl
          | out_of_fuel => rfl
        · simp only [Bool.not_eq_true] at hp
          simp only [hp, Bool.not_false, if_true]
          rfl
      · simp only [h2, if_false, bind_apply]
        cases rec c s <;> rfl

/-- The loop over `pre ++ rest` is the turns over `pre` followed by the loop
over `rest`. -/
theorem run_group_append (rec : ast_node → M Nat) (rest : List ast_node)
    (pre : List ast_node) :
    ∀ (prev : Option ast_node) (sub : List Nat) (s : State),
      run_group rec prev sub (pre ++ rest) s =
        (group_turns rec prev sub pre >>= fun r => run_group rec r.1 r.2 rest) s := by
  induction pre with
  | nil => intro prev sub s; rfl
  | cons c cs ih =>
    intro prev sub s
    rw [List.cons_append, run_group_cons, group_turns, bind_apply, bind_apply, bind_apply]
    cases group_head rec prev sub c s with
    | ok sub2 s1 => exact ih (some c) sub2 s1
    | fail e s1 => rfl
    | out_of_fuel => rfl

/-- The sibling the turns over `pre` end on is the last child of `pre`. -/
theorem group_turns_last (rec : ast_node → M Nat) (pre : List ast_node) :
    ∀ (prev : Option ast_node) (sub : List Nat) (s s1 : State)
      (r : Option ast_node × List Nat),
      group_turns rec prev sub pre s = .ok r s1 → r.1 = (pre.getLast?).or prev := by
  induction pre with
  | nil =>
    intro prev sub s s1 r h
    injection h with h _
    rw [← h]
    rfl
  | cons c cs ih =>
    intro prev sub s s1 r h
    rw [group_turns] at h
    obtain ⟨sub2, s2, _, h2⟩ := bind_ok_inv h
    rw [ih (some c) sub2 s2 s1 r h2]
    cases cs with
    | nil => rfl
    | cons d ds =>
      rw [List.getLast?_cons_cons, List.getLast?_eq_getLast (d :: ds) (List.cons_ne_nil d ds)]
      rfl

/-- A group of children none of which is an `elsif` or an `else`, entered
while no flag is set, runs them in order until one leaves a flag live. -/
theorem run_group_plain (rec : ast_node → M Nat) (cs : List ast_node) :
    ∀ (prev : Option ast_node) (sub : List Nat) (s : State), s.flagged = false →
      (∀ c ∈ cs, c.val.val ≠ "elsif" ∧ c.val.val ≠ "else") →
      run_group rec prev sub cs s = in_order rec cs s := by
  induction cs with
  | nil => intro prev sub s _ _; rfl
  | cons c cs ih =>
    intro prev sub s hf hp
    obtain ⟨h1, h2⟩ := hp c (List.mem_cons_self c cs)
    rw [run_group_cons_plain rec prev sub c cs s hf h1 h2, in_order, bind_apply, bind_apply]
    cases rec c s with
    | ok r s1 =>
      simp only
      rw [bind_ok (get_apply s1)]
      by_cases hf1 : s1.flagged = true
      · simp only [hf1, if_true]
        exact run_group_flagged rec cs (some c) (sub ++ [r]) s1 hf1
      · simp only [hf1, Bool.false_eq_true, if_false]
        exact ih (some c) (sub ++ [r]) s1 (by simpa using hf1)
          (fun d hd => hp d (List.mem_cons_of_mem c hd))
    | fail e s1 => rfl
    | out_of_fuel => rfl

/-- A group node runs the loop over its children and then builds a vacant
object. -/
theorem run_group_loop (env : Env) (n : Nat) (u : ast_node) (s : State)
    (hf : s.flagged = false) (hv : env.vars u.val.val = false) (ht : u.val.type = .t_group) :
    run env (n + 1) u s =
      (run_group (run env n) none [] u.children >>= fun _ => new_object env .o_none) s := by
  rw [run_succ]
  unfold step
  rw [bind_ok (get_apply s)]
  simp only [hf, hv, ht, Bool.false_eq_true, if_false, if_true]

/-- C14: a group node evaluated while no flag is set runs its children in
index order: when none of them is an `elsif` or an `else`, each child is
evaluated after the one before it, until one leaves a flag live, and the
node then yields a vacant object; whatever the children are, once the turns
over the first children have left a flag live the node yields its vacant
object without evaluating any later child.  Under a live flag `run` on any
node yields a new vacant object and leaves the scope stack, the input, the
output, the flags and every other object as they are. -/
theorem group_in_order (env : Env) (n : Nat) (u : ast_node) (s : State)
    (hf : s.flagged = false) (hv : env.vars u.val.val = false) (ht : u.val.type = .t_group) :
    ((∀ c ∈ u.children, c.val.val ≠ "elsif" ∧ c.val.val ≠ "else") →
      run env (n + 1) u s =
        (in_order (run env n) u.children >>= fun _ => new_object env .o_none) s) ∧
    (∀ pre post r s1, u.children = pre ++ post →
      group_turns (run env n) none [] pre s = .ok r s1 → s1.flagged = true →
      run env (n + 1) u s = new_object env .o_none s1) ∧
    (∀ (v : ast_node) (s0 : State), s0.flagged = true →
      run env (n + 1) v s0 =
        .ok s0.heap.length { s0 with heap := s0.heap ++ [env.construct .o_none] }) := by
  refine ⟨fun hp => ?_, fun pre post r s1 hch hpre hf1 => ?_, fun v s0 h0 => ?_⟩
  · rw [run_group_loop env n u s hf hv ht, bind_apply, bind_apply,
      run_group_plain (run env n) u.children none [] s hf hp]
  · rw [run_group_loop env n u s hf hv ht, hch, bind_apply,
      run_group_append (run env n) post pre none [] s, bind_ok hpre,
      run_group_flagged (run env n) post r.1 r.2 s1 hf1]
  · rw [run_flagged env n v s0 h0]
    rfl

set_option maxHeartbeats 1000000 in
/-- Witness of C14: `outl "a"; continue; outl "b"` writes `a` and a line end
and nothing more. -/
theorem group_in_order_witness :
    (run Sample.env 4 Sample.prog_skip (Sample.start .o_none [])).output = ["a", endl] :=
  (congrArg Res.output
    ((group_in_order Sample.env 3 Sample.prog_skip (Sample.start .o_none []) rfl rfl rfl).1
      (by decide))).trans (by decide!)

/-- C17 (as amended): in a group evaluated while no flag is set, let an
`elsif` or `else` child come first or right after a sibling that is neither
an `if` nor an `elsif`.  When the turns over the children before it end
without a failure and with no flag live, the evaluation of the group fails
with the grammar error carrying the line of that child, in the state those
turns reached.  When they end with a flag live the child is passed over like
any other, and the group yields its vacant object. -/
theorem stray_branch_error (env : Env) (n : Nat) (u c : ast_node) (pre post : List ast_node)
    (s s1 : State) (r : Option ast_node × List Nat)
    (hf : s.flagged = false) (hv : env.vars u.val.val = false) (ht : u.val.type = .t_group)
    (hch : u.children = pre ++ c :: post)
    (hc : c.val.val = "elsif" ∨ c.val.val = "else")
    (hprev : follows_if pre.getLast? = false)
    (hpre : group_turns (run env n) none [] pre s = .ok r s1) :
    (s1.flagged = false → run env (n + 1) u s =
      .fail (.err (c.val.val ++ " must follow if or elsif") (some c.val.line)) s1) ∧
    (s1.flagged = true → run env (n + 1) u s = new_object env .o_none s1) := by
  have hr : follows_if r.1 = false := by
    rw [group_turns_last (run env n) pre none [] s s1 r hpre, Option.or_none]
    exact hprev
  refine ⟨fun h1 => ?_, fun h1 => ?_⟩
  · rw [run_group_loop env n u s hf hv ht, hch, bind_apply,
      run_group_append (run env n) (c :: post) pre none [] s, bind_ok hpre, run_group,
      bind_ok (get_apply s1)]
    rcases hc with hc | hc
    · simp only [h1, hc, hr, Bool.false_eq_true, if_false, if_true, Bool.not_false]
      rfl
    · simp only [h1, hc, hr, Bool.false_eq_true, if_false, if_true, Bool.not_false,
        String.reduceEq]
      rfl
  · rw [run_group_loop env n u s hf hv ht, hch, bind_apply,
      run_group_append (run env n) (c :: post) pre none [] s, bind_ok hpre,
      run_group_flagged (run env n) (c :: post) r.1 r.2 s1 h1]

set_option maxHeartbeats 1000000 in
/-- Counterexample to C17: in `continue; else { }` the `else` follows a
sibling that is neither an `if` nor an `elsif`, and the group is evaluated
without any failure. -/
theorem stray_else_not_reported :
    (run Sample.env 4 Sample.prog_stray_else (Sample.start .o_none [])).is_ok = true ∧
    (run Sample.env 4 Sample.prog_stray_else (Sample.start .o_none [])).failure = none := by
  constructor <;> decide!

/-- Witness of C17: a group whose first child is an `else` fails with the
grammar error at the line of that child, in the state it was entered in. -/
theorem stray_branch_error_witness :
    run Sample.env 2 Sample.prog_first_else (Sample.start .o_none []) =
      .fail (.err "else must follow if or elsif" (some 1)) (Sample.start .o_none []) :=
  (stray_branch_error Sample.env 1 Sample.prog_first_else
    (Sample.ctl "else" [Sample.group []]) [] [] (Sample.start .o_none [])
    (Sample.start .o_none []) (none, []) rfl rfl rfl rfl (Or.inr rfl) rfl rfl).1 rfl

/-! ## The boolean read by `elsif` and `else` -/

/-- The object an `if` or `elsif` node returns holds a boolean. -/
theorem run_if_records (env : Env) (rec : ast_node → M Nat) (c : ast_node) (s s2 : State)
    (r : Nat)
    (hset : ∀ (v : Bool) (h : List object) (a : Nat) (h2 : List object),
      env.set (.b v) h a = .ok h2 → ∃ o, h2[a]? = some o ∧ o.store = .b v)
    (h : run_if env rec c s = .ok r s2) : ∃ v, get_bool r s2 = .ok v s2 := by
  unfold run_if at h
  obtain ⟨ret, s3, _, h⟩ := bind_ok_inv h
  obtain ⟨cc, s4, _, h⟩ := bind_ok_inv h
  obtain ⟨x, s5, _, h⟩ := bind_ok_inv h
  obtain ⟨tb, s6, _, h⟩ := bind_ok_inv h
  obtain ⟨b, s7, _, h⟩ := bind_ok_inv h
  by_cases hb : b = true
  · simp only [hb, if_true] at h
    obtain ⟨bd, s8, _, h⟩ := bind_ok_inv h
    obtain ⟨y, s9, _, h⟩ := bind_ok_inv h
    obtain ⟨_, s10, hs, h⟩ := bind_ok_inv h
    injection h with h1 h2
    subst h1 h2
    exact ⟨true, set_store_get_bool hset hs⟩
  · simp only [hb, Bool.false_eq_true, if_false] at h
    obtain ⟨_, s10, hs, h⟩ := bind_ok_inv h
    injection h with h1 h2
    subst h1 h2
    exact ⟨false, set_store_get_bool hset hs⟩

/-- A node written `if` or `elsif`, when these are control keywords and the
node is not a group, yields an object holding a boolean. -/
theorem run_yields_bool (env : Env) (n : Nat) (c : ast_node)
    (hset : ∀ (v : Bool) (h : List object) (a : Nat) (h2 : List object),
      env.set (.b v) h a = .ok h2 → ∃ o, h2[a]? = some o ∧ o.store = .b v)
    (hc : c.val.val = "if" ∨ c.val.val = "elsif")
    (hctl : env.control c.val.val = true) (hv : env.vars c.val.val = false)
    (ht : c.val.type ≠ .t_group) : yields_bool (run env n) c := by
  intro s r s2 hf h
  cases n with
  | zero => cases h
  | succ n =>
    rw [run_succ] at h
    unfold step at h
    rw [bind_ok (get_apply s)] at h
    simp only [hf, hv, ht, hctl, hc, Bool.false_eq_true, if_false, if_true] at h
    exact run_if_records env (run env n) c s s2 r hset h

theorem get_bool_state_eq {a : Nat} {v : Bool} {s s1 : State}
    (h : get_bool a s = .ok v s1) : s1 = s := by
  unfold get_bool deref at h
  split at h
  · rename_i o s3 heq
    split at heq
    · injection heq with _ h3
      subst h3
      split at h
      · injection h with _ h; exact h.symm
      · cases h
    · cases heq
  · cases h
  · cases h

theorem sub_back_inv {sub : List Nat} {last : Nat} {s s1 : State}
    (h : sub_back sub s = .ok last s1) : sub.getLast? = some last ∧ s1 = s := by
  unfold sub_back at h
  split at h
  · rename_i a heq
    injection h with h1 h2
    subst h1 h2
    exact ⟨heq, rfl⟩
  · cases h

/-- One turn of the group loop keeps the condition `recorded`, provided the
child yields a boolean object when it is an `if` or an `elsif`. -/
theorem group_head_recorded (rec : ast_node → M Nat) (prev : Option ast_node)
    (sub sub2 : List Nat) (c : ast_node) (s s2 : State)
    (hrec : follows_if (some c) = true → yields_bool rec c)
    (h : group_head rec prev sub c s = .ok sub2 s2) : recorded (some c) sub2 s2 := by
  intro hc hf2
  unfold group_head at h
  rw [bind_ok (get_apply s)] at h
  by_cases hf : s.flagged = true
  · simp only [hf, if_true] at h
    injection h with _ h
    rw [← h, hf] at hf2
    cases hf2
  · simp only [hf, Bool.false_eq_true, if_false] at h
    simp only [Bool.not_eq_true] at hf
    by_cases h1 : c.val.val = "elsif"
    · simp only [h1, if_true] at h
      by_cases hp : follows_if prev = true
      · simp only [hp, Bool.not_true, Bool.false_eq_true, if_false] at h
        obtain ⟨last, s3, hl, k1⟩ := bind_ok_inv h
        obtain ⟨hl1, hl2⟩ := sub_back_inv hl
        rw [hl2] at k1
        obtain ⟨v, s4, hg, k2⟩ := bind_ok_inv k1
        have hs4 := get_bool_state_eq hg
        rw [hs4] at k2 hg
        by_cases hv : v = true
        · simp only [hv, if_true] at k2
          injection k2 with h3 h4
          rw [← h3, ← h4]
          exact ⟨last, v, by simp, hg⟩
        · simp only [hv, Bool.false_eq_true, if_false] at k2
          obtain ⟨x, s5, hx, k3⟩ := bind_ok_inv k2
          injection k3 with h3 h4
          rw [← h3, ← h4]
          obtain ⟨w, hw⟩ := hrec hc _ x _ hf hx
          exact ⟨x, w, by simp, hw⟩
      · simp only [Bool.not_eq_true] at hp
        simp only [hp, Bool.not_false, if_true] at h
        cases h
    · have h2 : c.val.val ≠ "else" := by
        intro h2
        unfold follows_if at hc
        simp [h2] at hc
      simp only [h1, h2, if_false] at h
      obtain ⟨x, s5, hx, k3⟩ := bind_ok_inv h
      injection k3 with h3 h4
      rw [← h3, ← h4]
      obtain ⟨w, hw⟩ := hrec hc _ x _ hf hx
      exact ⟨x, w, by simp, hw⟩

/-- The turns over a list of children keep the condition `recorded`. -/
theorem group_turns_recorded (rec : ast_node → M Nat) (pre : List ast_node) :
    ∀ (prev : Option ast_node) (sub : List Nat) (s s1 : State)
      (r : Option ast_node × List Nat),
      (∀ b ∈ pre, follows_if (some b) = true → yields_bool rec b) →
      recorded prev sub s → group_turns rec prev sub pre s = .ok r s1 →
      recorded r.1 r.2 s1 := by
  induction pre with
  | nil =>
    intro prev sub s s1 r _ h0 h
    injection h with h1 h2
    subst h1 h2
    exact h0
  | cons c cs ih =>
    intro prev sub s s1 r hrec h0 h
    rw [group_turns] at h
    obtain ⟨sub2, s2, hh, h⟩ := bind_ok_inv h
    exact ih (some c) sub2 s2 s1 r (fun b hb => hrec b (List.mem_cons_of_mem c hb))
      (group_head_recorded rec prev sub sub2 c s s2 (hrec c (List.mem_cons_self c cs)) hh) h

theorem Res.eq_ok_or {α : Type} (r : Res α) (a : α) (d : State) (h : r.is_ok = true) :
    r = .ok (r.value_or a) (r.state d) := by
  cases r with
  | ok b s => rfl
  | fail e s => cases h
  | out_of_fuel => cases h

/-- The turn of an `if` or `elsif` child that ends with no flag live has
recorded one more result: the result of evaluating the child, or, for an
`elsif` passed over, the result recorded last before it. -/
theorem group_head_appends (rec : ast_node → M Nat) (prev : Option ast_node)
    (sub sub2 : List Nat) (p : ast_node) (s s2 : State)
    (h : group_head rec prev sub p s = .ok sub2 s2) (hf2 : s2.flagged = false)
    (hp : follows_if (some p) = true) :
    ∃ x, sub2 = sub ++ [x] ∧
      (rec p s = .ok x s2 ∨ (sub.getLast? = some x ∧ s2 = s ∧ get_bool x s = .ok true s)) := by
  unfold group_head at h
  rw [bind_ok (get_apply s)] at h
  by_cases hf : s.flagged = true
  · simp only [hf, if_true] at h
    injection h with _ h
    rw [← h, hf] at hf2
    cases hf2
  · simp only [hf, Bool.false_eq_true, if_false] at h
    by_cases h1 : p.val.val = "elsif"
    · simp only [h1, if_true] at h
      by_cases hq : follows_if prev = true
      · simp only [hq, Bool.not_true, Bool.false_eq_true, if_false] at h
        obtain ⟨last, s3, hl, k1⟩ := bind_ok_inv h
        obtain ⟨hl1, hl2⟩ := sub_back_inv hl
        rw [hl2] at k1
        obtain ⟨v, s4, hg, k2⟩ := bind_ok_inv k1
        have hs4 := get_bool_state_eq hg
        rw [hs4] at k2 hg
        by_cases hv : v = true
        · simp only [hv, if_true] at k2
          injection k2 with h3 h4
          rw [hv] at hg
          exact ⟨last, h3.symm, Or.inr ⟨hl1, h4.symm, hg⟩⟩
        · simp only [hv, Bool.false_eq_true, if_false] at k2
          obtain ⟨x, s5, hx, k3⟩ := bind_ok_inv k2
          injection k3 with h3 h4
          rw [h4] at hx
          exact ⟨x, h3.symm, Or.inl hx⟩
      · simp only [Bool.not_eq_true] at hq
        simp only [hq, Bool.not_false, if_true] at h
        cases h
    · have h2 : p.val.val ≠ "else" := by
        intro h2
        unfold follows_if at hp
        simp [h2] at hp
      simp only [h1, h2, if_false] at h
      obtain ⟨x, s5, hx, k3⟩ := bind_ok_inv h
      injection k3 with h3 h4
      rw [h4] at hx
      exact ⟨x, h3.symm, Or.inl hx⟩

/-- The turns over `pre ++ [p]` are the turns over `pre` followed by the turn
of `p`. -/
theorem group_turns_snoc (rec : ast_node → M Nat) (p : ast_node) (pre : List ast_node) :
    ∀ (prev : Option ast_node) (sub : List Nat) (s : State),
      group_turns rec prev sub (pre ++ [p]) s =
        (group_turns rec prev sub pre >>= fun r =>
          group_head rec r.1 r.2 p >>= fun sub2 => pure (some p, sub2)) s := by
  induction pre with
  | nil =>
    intro prev sub s
    rw [List.nil_append, group_turns, group_turns, bind_ok (pure_apply (prev, sub) s)]
    simp only [bind_apply]
    cases group_head rec prev sub p s <;> rfl
  | cons c cs ih =>
    intro prev sub s
    rw [List.cons_append, group_turns, group_turns, bind_apply, bind_apply, bind_apply]
    cases group_head rec prev sub c s with
    | ok sub2 s1 => exact ih (some c) sub2 s1
    | fail e s1 => rfl
    | out_of_fuel => rfl

/-- C20: in the loop of the group branch, let an `elsif` or `else` child `c`
follow an `if` or `elsif` sibling `p`, and let the turn of `p` end without a
failure and with no flag live, so that `c` passes the check and the boolean
is read.  The list of results is then not empty: the turn of `p` has recorded
one more result, which is the result of evaluating `p` or, for an `elsif`
passed over, the result recorded last before it, a true boolean.  When every
`if` and `elsif` among the children up to `p` is a control keyword (and
neither a type keyword nor a group), that last result holds a boolean and the
read succeeds; the loop goes on as that boolean tells: on true `c` is passed
over (an `elsif` records the same object again), on false `c` is evaluated
and its result recorded. -/
theorem chain_read_succeeds (env : Env) (n : Nat) (p c : ast_node) (pre post : List ast_node)
    (s s0 s1 : State) (r0 : Option ast_node × List Nat) (sub1 : List Nat)
    (hp : p.val.val = "if" ∨ p.val.val = "elsif")
    (hc : c.val.val = "elsif" ∨ c.val.val = "else")
    (hpre : group_turns (run env n) none [] pre s = .ok r0 s0)
    (hturn : group_head (run env n) r0.1 r0.2 p s0 = .ok sub1 s1)
    (hf1 : s1.flagged = false) :
    (∃ x, sub1 = r0.2 ++ [x] ∧ sub_back sub1 s1 = .ok x s1 ∧
      (run env n p s0 = .ok x s1 ∨
        (r0.2.getLast? = some x ∧ s1 = s0 ∧ get_bool x s0 = .ok true s0))) ∧
    ((∀ (v : Bool) (h : List object) (a : Nat) (h2 : List object),
        env.set (.b v) h a = .ok h2 → ∃ o, h2[a]? = some o ∧ o.store = .b v) →
      (∀ b ∈ pre ++ [p], (b.val.val = "if" ∨ b.val.val = "elsif") →
        env.control b.val.val = true ∧ env.vars b.val.val = false ∧ b.val.type ≠ .t_group) →
      ∃ last v, sub_back sub1 s1 = .ok last s1 ∧ get_bool last s1 = .ok v s1 ∧
        run_group (run env n) none [] (pre ++ p :: c :: post) s =
          if v = true then
            run_group (run env n) (some c)
              (if c.val.val = "elsif" then sub1 ++ [last] else sub1) post s1
          else
            (run env n c >>= fun x =>
              run_group (run env n) (some c) (sub1 ++ [x]) post) s1) := by
  have hfp : follows_if (some p) = true := follows_if_some p hp
  refine ⟨?_, fun hset hkw => ?_⟩
  · obtain ⟨x, hx, hor⟩ := group_head_appends (run env n) r0.1 r0.2 sub1 p s0 s1 hturn hf1 hfp
    exact ⟨x, hx, sub_back_ok (by rw [hx]; simp) s1, hor⟩
  · have hall : group_turns (run env n) none [] (pre ++ [p]) s = .ok (some p, sub1) s1 := by
      rw [group_turns_snoc, bind_ok hpre, bind_ok hturn]
      rfl
    have hrec : ∀ b ∈ pre ++ [p], follows_if (some b) = true → yields_bool (run env n) b := by
      intro b hb hfb
      have hbb : b.val.val = "if" ∨ b.val.val = "elsif" := by simpa [follows_if] using hfb
      obtain ⟨k1, k2, k3⟩ := hkw b hb hbb
      exact run_yields_bool env n b hset hbb k1 k2 k3
    have hinv := group_turns_recorded (run env n) (pre ++ [p]) none [] s s1 (some p, sub1) hrec
      (fun h => by cases h) hall
    obtain ⟨last, v, hl, hg⟩ := hinv hfp hf1
    refine ⟨last, v, sub_back_ok hl s1, hg, ?_⟩
    rw [show pre ++ p :: c :: post = (pre ++ [p]) ++ c :: post by simp,
      run_group_append (run env n) (c :: post) (pre ++ [p]) none [] s, bind_ok hall]
    rcases hc with hc | hc
    · rw [run_group_cons_elsif (run env n) (some p) sub1 c post s1 last v hf1 hc hfp hl hg]
      simp only [hc, if_true]
    · rw [run_group_cons_else (run env n) (some p) sub1 c post s1 last v hf1 hc hfp hl hg]
      simp only [hc, String.reduceEq, if_false]

set_option maxHeartbeats 1000000 in
/-- Witness of C20: in `if 0 { outl "a" } elsif 1 { outl "b" } else { outl
"c" }` the `elsif` finds the boolean the `if` recorded. -/
theorem chain_read_succeeds_witness :
    ∃ last v, sub_back (Sample.chain_turn.value_or [])
        (Sample.chain_turn.state (Sample.start .o_none [])) =
        .ok last (Sample.chain_turn.state (Sample.start .o_none [])) ∧
      get_bool last (Sample.chain_turn.state (Sample.start .o_none [])) =
        .ok v (Sample.chain_turn.state (Sample.start .o_none [])) :=
  ((chain_read_succeeds Sample.env 3
    (Sample.ctl "if" [Sample.num "0", Sample.group [Sample.outl "a"]])
    (Sample.ctl "elsif" [Sample.num "1", Sample.group [Sample.outl "b"]])
    [] [Sample.ctl "else" [Sample.group [Sample.outl "c"]]]
    (Sample.start .o_none []) (Sample.start .o_none [])
    (Sample.chain_turn.state (Sample.start .o_none [])) (none, [])
    (Sample.chain_turn.value_or []) (Or.inl rfl) (Or.inl rfl) rfl
    (Res.eq_ok_or Sample.chain_turn [] (Sample.start .o_none []) (by decide!))
    (by decide!)).2 Sample.set_law
    (fun b hb _ => by
      rw [List.nil_append, List.mem_singleton] at hb
      rw [hb]
      decide)).imp (fun _ h => h.imp (fun _ k => ⟨k.1, k.2.1⟩))

/-! ## The input operator -/

theorem getline_apply (s : State) :
    getline s = .ok (s.input.head?.getD "") { s with input := s.input.tail } := by
  unfold getline
  cases h : s.input with
  | nil =>
    simp only [List.head?_nil, Option.getD_none, List.tail_nil]
    rw [← h]
  | cons l ls => rfl

/-- An `in` node with its one declared child runs the input branch. -/
theorem run_in_node (env : Env) (n : Nat) (u : ast_node) (s : State)
    (hf : s.flagged = false) (htext : u.val.val = "in") (hv : env.vars "in" = false)
    (hctl : env.control "in" = false) (ht : u.val.type = .t_builtin)
    (hops : u.val.ops = u.children.length) :
    run env (n + 1) u s = run_in env (run env n) u s := by
  rw [run_succ]
  unfold step
  rw [bind_ok (get_apply s)]
  simp only [hf, htext, hv, hctl, ht, Bool.false_eq_true, if_false, if_true, reduceCtorEq]
  unfold run_builtin
  simp only [htext, hops, ne_eq, not_true_eq_false, if_false, if_true, String.reduceEq]

theorem Sample.set_any (v : store_t) (h : List object) (p : Nat) (o : object)
    (ho : h[p]? = some o) : Sample.env.set v h p = .ok (h.set p { o with store := v }) := by
  show Sample.set v h p = _
  unfold Sample.set
  rw [ho]

/-- C18: an `in` node with one child, evaluated while no flag is set,
evaluates the child, reads one line and looks at the type of the object the
child yielded.  For a number object: when `stod` converts the whole line, the
object is set to the number read and the node yields a new vacant object;
when `stod` stops before the end of the line, the evaluation fails with the
invalid-number error and the heap, hence the variable, is as it was before
the line was read.  For a string object the object is set to the line as
read.  For an object of any other type the evaluation fails. -/
theorem input_sets_variable (env : Env) (n : Nat) (u c : ast_node) (s s1 : State)
    (var : Nat) (o : object)
    (hset : ∀ (v : store_t) (h : List object) (p : Nat) (x : object), h[p]? = some x →
      env.set v h p = .ok (h.set p { x with store := v }))
    (hf : s.flagged = false) (htext : u.val.val = "in") (hv : env.vars "in" = false)
    (hctl : env.control "in" = false) (ht : u.val.type = .t_builtin)
    (hops : u.val.ops = 1) (hch : u.children = [c])
    (h1 : run env n c s = .ok var s1) (ho : s1.heap[var]? = some o) :
    (o.type = .o_num → ∀ v off, env.stod (s1.input.head?.getD "") = some (v, off) →
      (off = (s1.input.head?.getD "").utf8ByteSize →
        run env (n + 1) u s = .ok (s1.heap.set var { o with store := .d v }).length
          { s1 with
            input := s1.input.tail
            heap := s1.heap.set var { o with store := .d v } ++ [env.construct .o_none] }) ∧
      (off ≠ (s1.input.head?.getD "").utf8ByteSize →
        run env (n + 1) u s = .fail (.err "invalid number in input" (some u.val.line))
          { s1 with input := s1.input.tail })) ∧
    (o.type = .o_str →
      run env (n + 1) u s = .ok (s1.heap.set var { o with store := .s (s1.input.head?.getD "") }).length
        { s1 with
          input := s1.input.tail
          heap := s1.heap.set var { o with store := .s (s1.input.head?.getD "") } ++
            [env.construct .o_none] }) ∧
    (o.type ≠ .o_num → o.type ≠ .o_str →
      run env (n + 1) u s = .fail (.err "unsupported input type" (some u.val.line))
        { s1 with input := s1.input.tail }) := by
  have key : run env (n + 1) u s =
      (match o.type with
        | .o_num =>
          match env.stod (s1.input.head?.getD "") with
          | none => M.fail .invalid_argument
          | some (self, offset) =>
            if offset ≠ (s1.input.head?.getD "").utf8ByteSize then
              M.err "invalid number in input" (some u.val.line)
            else do
              set_store env (.d self) var
              new_object env .o_none
        | .o_str => do
          set_store env (.s (s1.input.head?.getD "")) var
          new_object env .o_none
        | _ => M.err "unsupported input type" (some u.val.line) : M Nat)
        { s1 with input := s1.input.tail } := by
    rw [run_in_node env n u s hf htext hv hctl ht (by rw [hops, hch]; rfl)]
    unfold run_in
    rw [bind_ok (child_ok (show u.children[0]? = some c by rw [hch]; rfl) s), bind_ok h1,
      bind_ok (getline_apply s1),
      bind_ok (deref_ok (show ({ s1 with input := s1.input.tail } : State).heap[var]? = some o
        from ho))]
  have hstore : ∀ w : store_t, set_store env w var { s1 with input := s1.input.tail } =
      .ok () { s1 with input := s1.input.tail, heap := s1.heap.set var { o with store := w } } := by
    intro w
    unfold set_store
    simp only [hset w s1.heap var o ho]
  refine ⟨fun hn v off hst => ⟨fun hoff => ?_, fun hoff => ?_⟩, fun hs => ?_, fun hn hs => ?_⟩
  · rw [key]
    simp only [hn, hst, hoff, ne_eq, not_true_eq_false, if_false]
    rw [bind_ok (hstore (.d v)), new_object_apply]
    simp only [hn]
  · rw [key]
    simp only [hn, hst, hoff, ne_eq, not_false_eq_true, if_true]
    rfl
  · rw [key]
    simp only [hs]
    rw [bind_ok (hstore (.s _)), new_object_apply]
    simp only [hs]
  · rw [key]
    cases hty : o.type with
    | o_num => exact absurd hty hn
    | o_str => exact absurd hty hs
    | o_none => rfl
    | o_bool => rfl
    | o_arr => rfl
    | o_fn => rfl

set_option maxHeartbeats 1000000 in
/-- Witness of C18: with `x` a number variable, `in x` on the line `42` sets
`x` to 42 and yields a vacant object; on the line `4x2` it fails with the
invalid-number error and leaves `x` at 0. -/
theorem input_sets_variable_witness :
    (run Sample.env 2 Sample.in_x (Sample.state_input ["42"])).store_at 2 = some (.d 42) ∧
    (run Sample.env 2 Sample.in_x (Sample.state_input ["42"])).type_of = some .o_none ∧
    (run Sample.env 2 Sample.in_x (Sample.state_input ["4x2"])).failure =
      some (.err "invalid number in input" (some 1)) ∧
    (run Sample.env 2 Sample.in_x (Sample.state_input ["4x2"])).store_at 2 = some (.d 0) :=
  ⟨(congrArg (fun r => Res.store_at r 2)
      (((input_sets_variable Sample.env 1 Sample.in_x (Sample.sym "x")
        (Sample.state_input ["42"]) (Sample.state_input ["42"]) 2 (Sample.construct .o_num)
        Sample.set_any rfl rfl rfl rfl rfl rfl rfl rfl rfl).1 rfl 42 2
        (by decide!)).1 rfl)).trans (by decide!),
    (congrArg Res.type_of
      (((input_sets_variable Sample.env 1 Sample.in_x (Sample.sym "x")
        (Sample.state_input ["42"]) (Sample.state_input ["42"]) 2 (Sample.construct .o_num)
        Sample.set_any rfl rfl rfl rfl rfl rfl rfl rfl rfl).1 rfl 42 2
        (by decide!)).1 rfl)).trans (by decide!),
    (congrArg Res.failure
      (((input_sets_variable Sample.env 1 Sample.in_x (Sample.sym "x")
        (Sample.state_input ["4x2"]) (Sample.state_input ["4x2"]) 2 (Sample.construct .o_num)
        Sample.set_any rfl rfl rfl rfl rfl rfl rfl rfl rfl).1 rfl 4 1
        (by decide!)).2 (by decide))).trans rfl,
    (congrArg (fun r => Res.store_at r 2)
      (((input_sets_variable Sample.env 1 Sample.in_x (Sample.sym "x")
        (Sample.state_input ["4x2"]) (Sample.state_input ["4x2"]) 2 (Sample.construct .o_num)
        Sample.set_any rfl rfl rfl rfl rfl rfl rfl rfl rfl).1 rfl 4 1
        (by decide!)).2 (by decide))).trans (by decide!)⟩

/-! ## Properties the evaluator keeps -/

theorem M.keeps_bind {α β : Type} {P : State → Prop} {x : M α} {f : α → M β}
    (h1 : M.keeps P x) (h2 : ∀ a, M.keeps P (f a)) : M.keeps P (x >>= f) := by
  intro s b s2 hP h
  obtain ⟨a, s1, ha, hb⟩ := bind_ok_inv h
  exact h2 a s1 b s2 (h1 s a s1 hP ha) hb

theorem M.keeps_ite {α : Type} {P : State → Prop} {c : Prop} [Decidable c] {x y : M α}
    (h1 : M.keeps P x) (h2 : M.keeps P y) : M.keeps P (if c then x else y) := by
  split
  · exact h1
  · exact h2

theorem M.keeps_pure {α : Type} (P : State → Prop) (a : α) : M.keeps P (pure a : M α) := by
  intro s b s2 hP h
  injection h with _ h
  rw [← h]
  exact hP

theorem M.keeps_fail {α : Type} (P : State → Prop) (e : Failure) :
    M.keeps P (M.fail e : M α) := by
  intro s b s2 _ h
  cases h

theorem M.keeps_err {α : Type} (P : State → Prop) (msg : String) (line : Option Nat) :
    M.keeps P (M.err msg line : M α) := M.keeps_fail P _

theorem M.keeps_get (P : State → Prop) : M.keeps P M.get := by
  intro s b s2 hP h
  injection h with _ h
  rw [← h]
  exact hP

theorem M.keeps_modify {P : State → Prop} {f : State → State} (h : ∀ s, P s → P (f s)) :
    M.keeps P (M.modify f) := by
  intro s b s2 hP hs
  injection hs with _ hs
  rw [← hs]
  exact h s hP

theorem M.keeps_steady {α : Type} {env : Env} {P : State → Prop} {x : M α}
    (hP : Invariant env P) (h : M.steady x) : M.keeps P x := by
  intro s a s2 hs hx
  obtain ⟨k1, k2, k3, k4⟩ := h s a s2 hx
  exact hP.stable s s2 k1 k2 k3 k4 hs

theorem steady_new_object (env : Env) (t : o_type) : M.steady (new_object env t) := by
  intro s a s2 h
  injection h with _ h
  rw [← h]
  exact ⟨rfl, rfl, rfl, rfl⟩

theorem steady_deref (a : Nat) : M.steady (deref a) := by
  intro s o s2 h
  unfold deref at h
  split at h
  · injection h with _ h; rw [← h]; exact ⟨rfl, rfl, rfl, rfl⟩
  · cases h

theorem steady_get_bool (a : Nat) : M.steady (get_bool a) := by
  intro s v s2 h
  rw [get_bool_state_eq h]
  exact ⟨rfl, rfl, rfl, rfl⟩

theorem steady_get_double (a : Nat) : M.steady (get_double a) := by
  intro s v s2 h
  unfold get_double deref at h
  split at h
  · rename_i o s3 heq
    split at heq
    · injection heq with _ h3
      rw [← h3] at h
      split at h
      · injection h with _ h; rw [← h]; exact ⟨rfl, rfl, rfl, rfl⟩
      · cases h
    · cases heq
  · cases h
  · cases h

theorem steady_call (env : Env) (name : String) (r : Nat) (args : List Nat) :
    M.steady (call env name r args) := by
  intro s a s2 h
  unfold call at h
  split at h
  · injection h with _ h; rw [← h]; exact ⟨rfl, rfl, rfl, rfl⟩
  · cases h

theorem steady_set_store (env : Env) (v : store_t) (a : Nat) :
    M.steady (set_store env v a) := by
  intro s b s2 h
  unfold set_store at h
  split at h
  · injection h with _ h; rw [← h]; exact ⟨rfl, rfl, rfl, rfl⟩
  · cases h

theorem steady_is_int (env : Env) (a : Nat) : M.steady (is_int env a) := by
  intro s b s2 h
  unfold is_int at h
  split at h
  · injection h with _ h; rw [← h]; exact ⟨rfl, rfl, rfl, rfl⟩
  · cases h

theorem steady_str (env : Env) (a : Nat) : M.steady (str env a) := by
  intro s b s2 h
  unfold str at h
  split at h
  · injection h with _ h; rw [← h]; exact ⟨rfl, rfl, rfl, rfl⟩
  · cases h

theorem steady_write (t : String) : M.steady (write t) := by
  intro s b s2 h
  injection h with _ h
  rw [← h]
  exact ⟨rfl, rfl, rfl, rfl⟩

theorem steady_getline : M.steady getline := by
  intro s b s2 h
  rw [getline_apply] at h
  injection h with _ h
  rw [← h]
  exact ⟨rfl, rfl, rfl, rfl⟩

theorem steady_child (u : ast_node) (i : Nat) : M.steady (child u i) := by
  intro s b s2 h
  unfold child at h
  split at h
  · injection h with _ h; rw [← h]; exact ⟨rfl, rfl, rfl, rfl⟩
  · cases h

theorem steady_sub_at (sub : List Nat) (i : Nat) : M.steady (sub_at sub i) := by
  intro s b s2 h
  unfold sub_at at h
  split at h
  · injection h with _ h; rw [← h]; exact ⟨rfl, rfl, rfl, rfl⟩
  · cases h

theorem steady_sub_back (sub : List Nat) : M.steady (sub_back sub) := by
  intro s b s2 h
  rw [(sub_back_inv h).2]
  exact ⟨rfl, rfl, rfl, rfl⟩

theorem keeps_run_children {P : State → Prop} {rec : ast_node → M Nat}
    (hrec : ∀ u, M.keeps P (rec u)) (cs : List ast_node) :
    M.keeps P (run_children rec cs) := by
  induction cs with
  | nil => exact M.keeps_pure P _
  | cons c cs ih =>
    unfold run_children
    exact M.keeps_bind (hrec c) (fun _ => M.keeps_bind ih (fun _ => M.keeps_pure P _))

theorem keeps_run_group {env : Env} {P : State → Prop} (hP : Invariant env P)
    {rec : ast_node → M Nat} (hrec : ∀ u, M.keeps P (rec u))
    (cs : List ast_node) :
    ∀ (prev : Option ast_node) (sub : List Nat), M.keeps P (run_group rec prev sub cs) := by
  induction cs with
  | nil => intro prev sub; exact M.keeps_pure P _
  | cons c cs ih =>
    intro prev sub
    rw [run_group]
    repeat (first
    | with_reducible exact M.keeps_pure P _
    | with_reducible exact M.keeps_err P _ _
    | with_reducible exact M.keeps_fail P _
    | with_reducible exact M.keeps_get P
    | with_reducible exact hrec _
    | with_reducible exact M.keeps_steady hP (steady_new_object _ _)
    | with_reducible exact M.keeps_steady hP (steady_deref _)
    | with_reducible exact M.keeps_steady hP (steady_get_bool _)
    | with_reducible exact M.keeps_steady hP (steady_get_double _)
    | with_reducible exact M.keeps_steady hP (steady_call _ _ _ _)
    | with_reducible exact M.keeps_steady hP (steady_set_store _ _ _)
    | with_reducible exact M.keeps_steady hP (steady_is_int _ _)
    | with_reducible exact M.keeps_steady hP (steady_str _ _)
    | with_reducible exact M.keeps_steady hP (steady_write _)
    | with_reducible exact M.keeps_steady hP steady_getline
    | with_reducible exact M.keeps_steady hP (steady_child _ _)
    | with_reducible exact M.keeps_steady hP (steady_sub_at _ _)
    | with_reducible exact M.keeps_steady hP (steady_sub_back _)
    | with_reducible exact M.keeps_modify hP.clear_continue
    | with_reducible exact M.keeps_modify hP.clear_break
    | with_reducible exact M.keeps_modify hP.set_return
    | with_reducible exact M.keeps_modify (fun s h => hP.add s _ _ h)
    | with_reducible exact M.keeps_modify (fun s h => hP.remove s _ h)
    | with_reducible exact M.keeps_modify (fun s h => hP.stable s _ rfl rfl rfl rfl h)
    | refine M.keeps_ite ?_ ?_
    | refine M.keeps_bind ?_ (fun _ => ?_)
    | with_reducible exact ih _ _)

theorem keeps_run_if {env : Env} {P : State → Prop} (hP : Invariant env P)
    {rec : ast_node → M Nat} (hrec : ∀ u, M.keeps P (rec u))
    (u : ast_node) : M.keeps P (run_if env rec u) := by
  unfold run_if
  repeat (first
    | with_reducible exact M.keeps_pure P _
    | with_reducible exact M.keeps_err P _ _
    | with_reducible exact M.keeps_fail P _
    | with_reducible exact M.keeps_get P
    | with_reducible exact hrec _
    | with_reducible exact M.keeps_steady hP (steady_new_object _ _)
    | with_reducible exact M.keeps_steady hP (steady_deref _)
    | with_reducible exact M.keeps_steady hP (steady_get_bool _)
    | with_reducible exact M.keeps_steady hP (steady_get_double _)
    | with_reducible exact M.keeps_steady hP (steady_call _ _ _ _)
    | with_reducible exact M.keeps_steady hP (steady_set_store _ _ _)
    | with_reducible exact M.keeps_steady hP (steady_is_int _ _)
    | with_reducible exact M.keeps_steady hP (steady_str _ _)
    | with_reducible exact M.keeps_steady hP (steady_write _)
    | with_reducible exact M.keeps_steady hP steady_getline
    | with_reducible exact M.keeps_steady hP (steady_child _ _)
    | with_reducible exact M.keeps_steady hP (steady_sub_at _ _)
    | with_reducible exact M.keeps_steady hP (steady_sub_back _)
    | with_reducible exact M.keeps_modify hP.clear_continue
    | with_reducible exact M.keeps_modify hP.clear_break
    | with_reducible exact M.keeps_modify hP.set_return
    | with_reducible exact M.keeps_modify (fun s h => hP.add s _ _ h)
    | with_reducible exact M.keeps_modify (fun s h => hP.remove s _ h)
    | with_reducible exact M.keeps_modify (fun s h => hP.stable s _ rfl rfl rfl rfl h)
    | refine M.keeps_ite ?_ ?_
    | refine M.keeps_bind ?_ (fun _ => ?_))

theorem keeps_while_loop {env : Env} {P : State → Prop} (hP : Invariant env P)
    {rec : ast_node → M Nat} (hrec : ∀ u, M.keeps P (rec u))
    (u : ast_node) (k : Nat) : M.keeps P (while_loop env rec u k) := by
  induction k with
  | zero => intro s a s2 _ h; cases h
  | succ k ih =>
    rw [while_loop]
    repeat (first
    | with_reducible exact M.keeps_pure P _
    | with_reducible exact M.keeps_err P _ _
    | with_reducible exact M.keeps_fail P _
    | with_reducible exact M.keeps_get P
    | with_reducible exact hrec _
    | with_reducible exact M.keeps_steady hP (steady_new_object _ _)
    | with_reducible exact M.keeps_steady hP (steady_deref _)
    | with_reducible exact M.keeps_steady hP (steady_get_bool _)
    | with_reducible exact M.keeps_steady hP (steady_get_double _)
    | with_reducible exact M.keeps_steady hP (steady_call _ _ _ _)
    | with_reducible exact M.keeps_steady hP (steady_set_store _ _ _)
    | with_reducible exact M.keeps_steady hP (steady_is_int _ _)
    | with_reducible exact M.keeps_steady hP (steady_str _ _)
    | with_reducible exact M.keeps_steady hP (steady_write _)
    | with_reducible exact M.keeps_steady hP steady_getline
    | with_reducible exact M.keeps_steady hP (steady_child _ _)
    | with_reducible exact M.keeps_steady hP (steady_sub_at _ _)
    | with_reducible exact M.keeps_steady hP (steady_sub_back _)
    | with_reducible exact M.keeps_modify hP.clear_continue
    | with_reducible exact M.keeps_modify hP.clear_break
    | with_reducible exact M.keeps_modify hP.set_return
    | with_reducible exact M.keeps_modify (fun s h => hP.add s _ _ h)
    | with_reducible exact M.keeps_modify (fun s h => hP.remove s _ h)
    | with_reducible exact M.keeps_modify (fun s h => hP.stable s _ rfl rfl rfl rfl h)
    | refine M.keeps_ite ?_ ?_
    | refine M.keeps_bind ?_ (fun _ => ?_)
    | with_reducible exact ih)

theorem keeps_run_range_args {env : Env} {P : State → Prop} (hP : Invariant env P)
    {rec : ast_node → M Nat} (hrec : ∀ u, M.keeps P (rec u))
    (cs : List ast_node) : M.keeps P (run_range_args env rec cs) := by
  induction cs with
  | nil => exact M.keeps_pure P _
  | cons c cs ih =>
    rw [run_range_args]
    repeat (first
    | with_reducible exact M.keeps_pure P _
    | with_reducible exact M.keeps_err P _ _
    | with_reducible exact M.keeps_fail P _
    | with_reducible exact M.keeps_get P
    | with_reducible exact hrec _
    | with_reducible exact M.keeps_steady hP (steady_new_object _ _)
    | with_reducible exact M.keeps_steady hP (steady_deref _)
    | with_reducible exact M.keeps_steady hP (steady_get_bool _)
    | with_reducible exact M.keeps_steady hP (steady_get_double _)
    | with_reducible exact M.keeps_steady hP (steady_call _ _ _ _)
    | with_reducible exact M.keeps_steady hP (steady_set_store _ _ _)
    | with_reducible exact M.keeps_steady hP (steady_is_int _ _)
    | with_reducible exact M.keeps_steady hP (steady_str _ _)
    | with_reducible exact M.keeps_steady hP (steady_write _)
    | with_reducible exact M.keeps_steady hP steady_getline
    | with_reducible exact M.keeps_steady hP (steady_child _ _)
    | with_reducible exact M.keeps_steady hP (steady_sub_at _ _)
    | with_reducible exact M.keeps_steady hP (steady_sub_back _)
    | with_reducible exact M.keeps_modify hP.clear_continue
    | with_reducible exact M.keeps_modify hP.clear_break
    | with_reducible exact M.keeps_modify hP.set_return
    | with_reducible exact M.keeps_modify (fun s h => hP.add s _ _ h)
    | with_reducible exact M.keeps_modify (fun s h => hP.remove s _ h)
    | with_reducible exact M.keeps_modify (fun s h => hP.stable s _ rfl rfl rfl rfl h)
    | refine M.keeps_ite ?_ ?_
    | refine M.keeps_bind ?_ (fun _ => ?_)
    | with_reducible exact ih)

theorem keeps_for_loop {env : Env} {P : State → Prop} (hP : Invariant env P)
    {rec : ast_node → M Nat} (hrec : ∀ u, M.keeps P (rec u))
    (u : ast_node) (it end_ every k : Nat) : M.keeps P (for_loop env rec u it end_ every k) := by
  induction k with
  | zero => intro s a s2 _ h; cases h
  | succ k ih =>
    rw [for_loop]
    repeat (first
    | with_reducible exact M.keeps_pure P _
    | with_reducible exact M.keeps_err P _ _
    | with_reducible exact M.keeps_fail P _
    | with_reducible exact M.keeps_get P
    | with_reducible exact hrec _
    | with_reducible exact M.keeps_steady hP (steady_new_object _ _)
    | with_reducible exact M.keeps_steady hP (steady_deref _)
    | with_reducible exact M.keeps_steady hP (steady_get_bool _)
    | with_reducible exact M.keeps_steady hP (steady_get_double _)
    | with_reducible exact M.keeps_steady hP (steady_call _ _ _ _)
    | with_reducible exact M.keeps_steady hP (steady_set_store _ _ _)
    | with_reducible exact M.keeps_steady hP (steady_is_int _ _)
    | with_reducible exact M.keeps_steady hP (steady_str _ _)
    | with_reducible exact M.keeps_steady hP (steady_write _)
    | with_reducible exact M.keeps_steady hP steady_getline
    | with_reducible exact M.keeps_steady hP (steady_child _ _)
    | with_reducible exact M.keeps_steady hP (steady_sub_at _ _)
    | with_reducible exact M.keeps_steady hP (steady_sub_back _)
    | with_reducible exact M.keeps_modify hP.clear_continue
    | with_reducible exact M.keeps_modify hP.clear_break
    | with_reducible exact M.keeps_modify hP.set_return
    | with_reducible exact M.keeps_modify (fun s h => hP.add s _ _ h)
    | with_reducible exact M.keeps_modify (fun s h => hP.remove s _ h)
    | with_reducible exact M.keeps_modify (fun s h => hP.stable s _ rfl rfl rfl rfl h)
    | refine M.keeps_ite ?_ ?_
    | refine M.keeps_bind ?_ (fun _ => ?_)
    | with_reducible exact ih)

theorem keeps_set_bounds {env : Env} {P : State → Prop} (hP : Invariant env P)
    (range : ast_node) (sub : List Nat) (a b c : Nat) :
    M.keeps P (set_bounds env range sub a b c) := by
  have hrec : ∀ u : ast_node, M.keeps P (pure 0 : M Nat) := fun _ => M.keeps_pure P _
  unfold set_bounds
  repeat (first
    | with_reducible exact M.keeps_pure P _
    | with_reducible exact M.keeps_err P _ _
    | with_reducible exact M.keeps_fail P _
    | with_reducible exact M.keeps_get P
    | with_reducible exact hrec _
    | with_reducible exact M.keeps_steady hP (steady_new_object _ _)
    | with_reducible exact M.keeps_steady hP (steady_deref _)
    | with_reducible exact M.keeps_steady hP (steady_get_bool _)
    | with_reducible exact M.keeps_steady hP (steady_get_double _)
    | with_reducible exact M.keeps_steady hP (steady_call _ _ _ _)
    | with_reducible exact M.keeps_steady hP (steady_set_store _ _ _)
    | with_reducible exact M.keeps_steady hP (steady_is_int _ _)
    | with_reducible exact M.keeps_steady hP (steady_str _ _)
    | with_reducible exact M.keeps_steady hP (steady_write _)
    | with_reducible exact M.keeps_steady hP steady_getline
    | with_reducible exact M.keeps_steady hP (steady_child _ _)
    | with_reducible exact M.keeps_steady hP (steady_sub_at _ _)
    | with_reducible exact M.keeps_steady hP (steady_sub_back _)
    | with_reducible exact M.keeps_modify hP.clear_continue
    | with_reducible exact M.keeps_modify hP.clear_break
    | with_reducible exact M.keeps_modify hP.set_return
    | with_reducible exact M.keeps_modify (fun s h => hP.add s _ _ h)
    | with_reducible exact M.keeps_modify (fun s h => hP.remove s _ h)
    | with_reducible exact M.keeps_modify (fun s h => hP.stable s _ rfl rfl rfl rfl h)
    | refine M.keeps_ite ?_ ?_
    | refine M.keeps_bind ?_ (fun _ => ?_)
    | split)

theorem keeps_run_for {env : Env} {P : State → Prop} (hP : Invariant env P)
    {rec : ast_node → M Nat} (hrec : ∀ u, M.keeps P (rec u))
    (k : Nat) (u : ast_node) : M.keeps P (run_for env rec k u) := by
  unfold run_for
  repeat (first
    | with_reducible exact M.keeps_pure P _
    | with_reducible exact M.keeps_err P _ _
    | with_reducible exact M.keeps_fail P _
    | with_reducible exact M.keeps_get P
    | with_reducible exact hrec _
    | with_reducible exact M.keeps_steady hP (steady_new_object _ _)
    | with_reducible exact M.keeps_steady hP (steady_deref _)
    | with_reducible exact M.keeps_steady hP (steady_get_bool _)
    | with_reducible exact M.keeps_steady hP (steady_get_double _)
    | with_reducible exact M.keeps_steady hP (steady_call _ _ _ _)
    | with_reducible exact M.keeps_steady hP (steady_set_store _ _ _)
    | with_reducible exact M.keeps_steady hP (steady_is_int _ _)
    | with_reducible exact M.keeps_steady hP (steady_str _ _)
    | with_reducible exact M.keeps_steady hP (steady_write _)
    | with_reducible exact M.keeps_steady hP steady_getline
    | with_reducible exact M.keeps_steady hP (steady_child _ _)
    | with_reducible exact M.keeps_steady hP (steady_sub_at _ _)
    | with_reducible exact M.keeps_steady hP (steady_sub_back _)
    | with_reducible exact M.keeps_modify hP.clear_continue
    | with_reducible exact M.keeps_modify hP.clear_break
    | with_reducible exact M.keeps_modify hP.set_return
    | with_reducible exact M.keeps_modify (fun s h => hP.add s _ _ h)
    | with_reducible exact M.keeps_modify (fun s h => hP.remove s _ h)
    | with_reducible exact M.keeps_modify (fun s h => hP.stable s _ rfl rfl rfl rfl h)
    | refine M.keeps_ite ?_ ?_
    | refine M.keeps_bind ?_ (fun _ => ?_)
    | with_reducible exact keeps_run_range_args hP hrec _
    | with_reducible exact keeps_set_bounds hP _ _ _ _ _
    | with_reducible exact keeps_for_loop hP hrec _ _ _ _ _)

theorem keeps_run_dot {env : Env} {P : State → Prop} (hP : Invariant env P)
    {rec : ast_node → M Nat} (hrec : ∀ u, M.keeps P (rec u))
    (u : ast_node) : M.keeps P (run_dot env rec u) := by
  unfold run_dot
  repeat (first
    | with_reducible exact M.keeps_pure P _
    | with_reducible exact M.keeps_err P _ _
    | with_reducible exact M.keeps_fail P _
    | with_reducible exact M.keeps_get P
    | with_reducible exact hrec _
    | with_reducible exact M.keeps_steady hP (steady_new_object _ _)
    | with_reducible exact M.keeps_steady hP (steady_deref _)
    | with_reducible exact M.keeps_steady hP (steady_get_bool _)
    | with_reducible exact M.keeps_steady hP (steady_get_double _)
    | with_reducible exact M.keeps_steady hP (steady_call _ _ _ _)
    | with_reducible exact M.keeps_steady hP (steady_set_store _ _ _)
    | with_reducible exact M.keeps_steady hP (steady_is_int _ _)
    | with_reducible exact M.keeps_steady hP (steady_str _ _)
    | with_reducible exact M.keeps_steady hP (steady_write _)
    | with_reducible exact M.keeps_steady hP steady_getline
    | with_reducible exact M.keeps_steady hP (steady_child _ _)
    | with_reducible exact M.keeps_steady hP (steady_sub_at _ _)
    | with_reducible exact M.keeps_steady hP (steady_sub_back _)
    | with_reducible exact M.keeps_modify hP.clear_continue
    | with_reducible exact M.keeps_modify hP.clear_break
    | with_reducible exact M.keeps_modify hP.set_return
    | with_reducible exact M.keeps_modify (fun s h => hP.add s _ _ h)
    | with_reducible exact M.keeps_modify (fun s h => hP.remove s _ h)
    | with_reducible exact M.keeps_modify (fun s h => hP.stable s _ rfl rfl rfl rfl h)
    | refine M.keeps_ite ?_ ?_
    | refine M.keeps_bind ?_ (fun _ => ?_)
    | split)

theorem keeps_run_in {env : Env} {P : State → Prop} (hP : Invariant env P)
    {rec : ast_node → M Nat} (hrec : ∀ u, M.keeps P (rec u))
    (u : ast_node) : M.keeps P (run_in env rec u) := by
  unfold run_in
  repeat (first
    | with_reducible exact M.keeps_pure P _
    | with_reducible exact M.keeps_err P _ _
    | with_reducible exact M.keeps_fail P _
    | with_reducible exact M.keeps_get P
    | with_reducible exact hrec _
    | with_reducible exact M.keeps_steady hP (steady_new_object _ _)
    | with_reducible exact M.keeps_steady hP (steady_deref _)
    | with_reducible exact M.keeps_steady hP (steady_get_bool _)
    | with_reducible exact M.keeps_steady hP (steady_get_double _)
    | with_reducible exact M.keeps_steady hP (steady_call _ _ _ _)
    | with_reducible exact M.keeps_steady hP (steady_set_store _ _ _)
    | with_reducible exact M.keeps_steady hP (steady_is_int _ _)
    | with_reducible exact M.keeps_steady hP (steady_str _ _)
    | with_reducible exact M.keeps_steady hP (steady_write _)
    | with_reducible exact M.keeps_steady hP steady_getline
    | with_reducible exact M.keeps_steady hP (steady_child _ _)
    | with_reducible exact M.keeps_steady hP (steady_sub_at _ _)
    | with_reducible exact M.keeps_steady hP (steady_sub_back _)
    | with_reducible exact M.keeps_modify hP.clear_continue
    | with_reducible exact M.keeps_modify hP.clear_break
    | with_reducible exact M.keeps_modify hP.set_return
    | with_reducible exact M.keeps_modify (fun s h => hP.add s _ _ h)
    | with_reducible exact M.keeps_modify (fun s h => hP.remove s _ h)
    | with_reducible exact M.keeps_modify (fun s h => hP.stable s _ rfl rfl rfl rfl h)
    | refine M.keeps_ite ?_ ?_
    | refine M.keeps_bind ?_ (fun _ => ?_)
    | split)

theorem keeps_run_ladder {env : Env} {P : State → Prop} (hP : Invariant env P)
    (u : ast_node) (sub : List Nat) : M.keeps P (run_ladder env u sub) := by
  have hrec : ∀ u : ast_node, M.keeps P (pure 0 : M Nat) := fun _ => M.keeps_pure P _
  unfold run_ladder
  repeat (first
    | with_reducible exact M.keeps_pure P _
    | with_reducible exact M.keeps_err P _ _
    | with_reducible exact M.keeps_fail P _
    | with_reducible exact M.keeps_get P
    | with_reducible exact hrec _
    | with_reducible exact M.keeps_steady hP (steady_new_object _ _)
    | with_reducible exact M.keeps_steady hP (steady_deref _)
    | with_reducible exact M.keeps_steady hP (steady_get_bool _)
    | with_reducible exact M.keeps_steady hP (steady_get_double _)
    | with_reducible exact M.keeps_steady hP (steady_call _ _ _ _)
    | with_reducible exact M.keeps_steady hP (steady_set_store _ _ _)
    | with_reducible exact M.keeps_steady hP (steady_is_int _ _)
    | with_reducible exact M.keeps_steady hP (steady_str _ _)
    | with_reducible exact M.keeps_steady hP (steady_write _)
    | with_reducible exact M.keeps_steady hP steady_getline
    | with_reducible exact M.keeps_steady hP (steady_child _ _)
    | with_reducible exact M.keeps_steady hP (steady_sub_at _ _)
    | with_reducible exact M.keeps_steady hP (steady_sub_back _)
    | with_reducible exact M.keeps_modify hP.clear_continue
    | with_reducible exact M.keeps_modify hP.clear_break
    | with_reducible exact M.keeps_modify hP.set_return
    | with_reducible exact M.keeps_modify (fun s h => hP.add s _ _ h)
    | with_reducible exact M.keeps_modify (fun s h => hP.remove s _ h)
    | with_reducible exact M.keeps_modify (fun s h => hP.stable s _ rfl rfl rfl rfl h)
    | refine M.keeps_ite ?_ ?_
    | refine M.keeps_bind ?_ (fun _ => ?_)
    | split)

theorem keeps_run_num {env : Env} {P : State → Prop} (hP : Invariant env P)
    (u : ast_node) : M.keeps P (run_num env u) := by
  have hrec : ∀ u : ast_node, M.keeps P (pure 0 : M Nat) := fun _ => M.keeps_pure P _
  unfold run_num
  repeat (first
    | with_reducible exact M.keeps_pure P _
    | with_reducible exact M.keeps_err P _ _
    | with_reducible exact M.keeps_fail P _
    | with_reducible exact M.keeps_get P
    | with_reducible exact hrec _
    | with_reducible exact M.keeps_steady hP (steady_new_object _ _)
    | with_reducible exact M.keeps_steady hP (steady_deref _)
    | with_reducible exact M.keeps_steady hP (steady_get_bool _)
    | with_reducible exact M.keeps_steady hP (steady_get_double _)
    | with_reducible exact M.keeps_steady hP (steady_call _ _ _ _)
    | with_reducible exact M.keeps_steady hP (steady_set_store _ _ _)
    | with_reducible exact M.keeps_steady hP (steady_is_int _ _)
    | with_reducible exact M.keeps_steady hP (steady_str _ _)
    | with_reducible exact M.keeps_steady hP (steady_write _)
    | with_reducible exact M.keeps_steady hP steady_getline
    | with_reducible exact M.keeps_steady hP (steady_child _ _)
    | with_reducible exact M.keeps_steady hP (steady_sub_at _ _)
    | with_reducible exact M.keeps_steady hP (steady_sub_back _)
    | with_reducible exact M.keeps_modify hP.clear_continue
    | with_reducible exact M.keeps_modify hP.clear_break
    | with_reducible exact M.keeps_modify hP.set_return
    | with_reducible exact M.keeps_modify (fun s h => hP.add s _ _ h)
    | with_reducible exact M.keeps_modify (fun s h => hP.remove s _ h)
    | with_reducible exact M.keeps_modify (fun s h => hP.stable s _ rfl rfl rfl rfl h)
    | refine M.keeps_ite ?_ ?_
    | refine M.keeps_bind ?_ (fun _ => ?_)
    | split)

theorem keeps_run_str {env : Env} {P : State → Prop} (hP : Invariant env P)
    (u : ast_node) : M.keeps P (run_str env u) := by
  have hrec : ∀ u : ast_node, M.keeps P (pure 0 : M Nat) := fun _ => M.keeps_pure P _
  unfold run_str
  repeat (first
    | with_reducible exact M.keeps_pure P _
    | with_reducible exact M.keeps_err P _ _
    | with_reducible exact M.keeps_fail P _
    | with_reducible exact M.keeps_get P
    | with_reducible exact hrec _
    | with_reducible exact M.keeps_steady hP (steady_new_object _ _)
    | with_reducible exact M.keeps_steady hP (steady_deref _)
    | with_reducible exact M.keeps_steady hP (steady_get_bool _)
    | with_reducible exact M.keeps_steady hP (steady_get_double _)
    | with_reducible exact M.keeps_steady hP (steady_call _ _ _ _)
    | with_reducible exact M.keeps_steady hP (steady_set_store _ _ _)
    | with_reducible exact M.keeps_steady hP (steady_is_int _ _)
    | with_reducible exact M.keeps_steady hP (steady_str _ _)
    | with_reducible exact M.keeps_steady hP (steady_write _)
    | with_reducible exact M.keeps_steady hP steady_getline
    | with_reducible exact M.keeps_steady hP (steady_child _ _)
    | with_reducible exact M.keeps_steady hP (steady_sub_at _ _)
    | with_reducible exact M.keeps_steady hP (steady_sub_back _)
    | with_reducible exact M.keeps_modify hP.clear_continue
    | with_reducible exact M.keeps_modify hP.clear_break
    | with_reducible exact M.keeps_modify hP.set_return
    | with_reducible exact M.keeps_modify (fun s h => hP.add s _ _ h)
    | with_reducible exact M.keeps_modify (fun s h => hP.remove s _ h)
    | with_reducible exact M.keeps_modify (fun s h => hP.stable s _ rfl rfl rfl rfl h)
    | refine M.keeps_ite ?_ ?_
    | refine M.keeps_bind ?_ (fun _ => ?_))

theorem keeps_bind_params {env : Env} {P : State → Prop} (hP : Invariant env P)
    (u : ast_node) (obj : Nat) (sub : List Nat) (k : Nat) :
    ∀ i, M.keeps P (bind_params env u obj sub k i) := by
  have hrec : ∀ u : ast_node, M.keeps P (pure 0 : M Nat) := fun _ => M.keeps_pure P _
  induction k with
  | zero => intro i s a s2 _ h; cases h
  | succ k ih =>
    intro i
    rw [bind_params]
    repeat (first
    | with_reducible exact M.keeps_pure P _
    | with_reducible exact M.keeps_err P _ _
    | with_reducible exact M.keeps_fail P _
    | with_reducible exact M.keeps_get P
    | with_reducible exact hrec _
    | with_reducible exact M.keeps_steady hP (steady_new_object _ _)
    | with_reducible exact M.keeps_steady hP (steady_deref _)
    | with_reducible exact M.keeps_steady hP (steady_get_bool _)
    | with_reducible exact M.keeps_steady hP (steady_get_double _)
    | with_reducible exact M.keeps_steady hP (steady_call _ _ _ _)
    | with_reducible exact M.keeps_steady hP (steady_set_store _ _ _)
    | with_reducible exact M.keeps_steady hP (steady_is_int _ _)
    | with_reducible exact M.keeps_steady hP (steady_str _ _)
    | with_reducible exact M.keeps_steady hP (steady_write _)
    | with_reducible exact M.keeps_steady hP steady_getline
    | with_reducible exact M.keeps_steady hP (steady_child _ _)
    | with_reducible exact M.keeps_steady hP (steady_sub_at _ _)
    | with_reducible exact M.keeps_steady hP (steady_sub_back _)
    | with_reducible exact M.keeps_modify hP.clear_continue
    | with_reducible exact M.keeps_modify hP.clear_break
    | with_reducible exact M.keeps_modify hP.set_return
    | with_reducible exact M.keeps_modify (fun s h => hP.add s _ _ h)
    | with_reducible exact M.keeps_modify (fun s h => hP.remove s _ h)
    | with_reducible exact M.keeps_modify (fun s h => hP.stable s _ rfl rfl rfl rfl h)
    | refine M.keeps_ite ?_ ?_
    | refine M.keeps_bind ?_ (fun _ => ?_)
    | with_reducible exact ih _
    | split)

theorem child_state {u c : ast_node} {i : Nat} {s s1 : State}
    (h : child u i s = .ok c s1) : s1 = s := by
  unfold child at h
  split at h
  · injection h with _ h; exact h.symm
  · cases h

/-- The builtin branch keeps an invariant when it is entered with no flag
live. -/
theorem keeps_run_builtin {env : Env} {P : State → Prop} (hP : Invariant env P)
    {rec : ast_node → M Nat} (hrec : ∀ u, M.keeps P (rec u)) (u : ast_node)
    (s s2 : State) (a : Nat) (hs : P s) (hf : s.flagged = false)
    (h : run_builtin env rec u s = .ok a s2) : P s2 := by
  unfold run_builtin at h
  split at h
  · exact (M.keeps_bind (M.keeps_steady hP (steady_write _)) (fun _ =>
      M.keeps_bind (M.keeps_steady hP (steady_write _)) (fun _ => M.keeps_err P _ _)))
      s a s2 hs h
  · split at h
    · exact keeps_run_dot hP hrec u s a s2 hs h
    · split at h
      · exact keeps_run_in hP hrec u s a s2 hs h
      · split at h
        · rw [bind_ok (modify_apply _ s), new_object_apply] at h
          injection h with _ h
          rw [← h]
          exact hP.stable { s with has_continue := true } _ rfl rfl rfl rfl
            (hP.set_continue s hs hf)
        · split at h
          · rw [bind_ok (modify_apply _ s), new_object_apply] at h
            injection h with _ h
            rw [← h]
            exact hP.stable { s with has_break := true } _ rfl rfl rfl rfl
              (hP.set_break s hs hf)
          · exact (M.keeps_bind (keeps_run_children hrec _) (fun _ =>
              keeps_run_ladder hP u _)) s a s2 hs h

/-- The body of `run` keeps an invariant that the evaluator of subtrees and
the symbol branch keep. -/
theorem keeps_step {env : Env} {P : State → Prop} (hP : Invariant env P)
    {rec : ast_node → M Nat} (hrec : ∀ u, M.keeps P (rec u)) (k : Nat)
    (hsym : ∀ u, M.keeps P (run_symbol env rec k u)) (u : ast_node) :
    M.keeps P (step env rec k u) := by
  intro s a s2 hs h
  unfold step at h
  rw [bind_ok (get_apply s)] at h
  split at h
  · exact M.keeps_steady hP (steady_new_object _ _) s a s2 hs h
  · rename_i hf
    split at h
    · obtain ⟨c, s1, hc, h1⟩ := bind_ok_inv h
      rw [child_state hc, bind_ok (get_apply s)] at h1
      cases heq : env.declare_obj u.val c.val s.heap s.mem with
      | error e =>
        rw [heq] at h1
        cases h1
      | ok r =>
        obtain ⟨hh, mm⟩ := r
        rw [heq] at h1
        simp only at h1
        rw [bind_ok (modify_apply _ s), new_object_apply] at h1
        injection h1 with _ h1
        rw [← h1]
        exact hP.stable { s with heap := hh, mem := mm } _ rfl rfl rfl rfl
          (hP.declare s _ _ _ _ hs heq)
    · split at h
      · exact (M.keeps_bind (keeps_run_group hP hrec _ _ _) (fun _ =>
          M.keeps_steady hP (steady_new_object _ _))) s a s2 hs h
      · split at h
        · have hctl : M.keeps P (if u.val.val = "if" ∨ u.val.val = "elsif" then run_if env rec u
              else if u.val.val = "else" then do
                let _ ← rec (← child u 0)
                new_object env .o_none
              else if u.val.val = "while" then do
                while_loop env rec u k
                new_object env .o_none
              else if u.val.val = "for" then do
                run_for env rec k u
                new_object env .o_none
              else M.err "unsupported control structure" (some u.val.line) : M Nat) := by
            refine M.keeps_ite (keeps_run_if hP hrec u) (M.keeps_ite ?_ (M.keeps_ite ?_
              (M.keeps_ite ?_ (M.keeps_err P _ _))))
            · exact M.keeps_bind (M.keeps_steady hP (steady_child _ _)) (fun _ =>
                M.keeps_bind (hrec _) (fun _ => M.keeps_steady hP (steady_new_object _ _)))
            · exact M.keeps_bind (keeps_while_loop hP hrec u k) (fun _ =>
                M.keeps_steady hP (steady_new_object _ _))
            · exact M.keeps_bind (keeps_run_for hP hrec k u) (fun _ =>
                M.keeps_steady hP (steady_new_object _ _))
          exact hctl s a s2 hs h
        · split at h
          · exact keeps_run_builtin hP hrec u s s2 a hs (by simpa using hf) h
          · split at h
            · exact hsym u s a s2 hs h
            · split at h
              · exact keeps_run_num hP u s a s2 hs h
              · split at h
                · exact keeps_run_str hP u s a s2 hs h
                · exact M.keeps_steady hP (steady_new_object _ _) s a s2 hs h

/-- The symbol branch is the call part `call_body` after the evaluation of
the arguments, when the symbol is bound to a function of matching arity. -/
theorem run_symbol_call (env : Env) (rec : ast_node → M Nat) (k : Nat) (u : ast_node)
    (s : State) (obj : Nat) (f : object)
    (hget : memory.get s.mem u.val.val = some obj) (hobj : s.heap[obj]? = some f)
    (hfn : f.type = .o_fn) (har : f.f_params.length = u.children.length) :
    run_symbol env rec k u s =
      (run_children rec u.children >>= fun sub => call_body env rec k u obj sub) s := by
  unfold run_symbol
  rw [bind_ok (get_apply s)]
  have hhas : memory.has s.mem u.val.val = true := by
    rw [memory.has_eq_get, hget]; rfl
  simp only [hhas, hget, if_true]
  rw [bind_ok (deref_ok hobj)]
  simp only [hfn, har, ne_eq, not_true_eq_false, if_false]
  rfl

/-- The symbol branch keeps an invariant that the evaluator of subtrees and
the call part keep. -/
theorem keeps_run_symbol {env : Env} {P : State → Prop} (hP : Invariant env P)
    {rec : ast_node → M Nat} (hrec : ∀ u, M.keeps P (rec u))
    (k : Nat) (u : ast_node)
    (hcall : ∀ obj sub, M.keeps P (call_body env rec k u obj sub)) :
    M.keeps P (run_symbol env rec k u) := by
  unfold run_symbol
  refine M.keeps_bind (M.keeps_get P) (fun s => ?_)
  refine M.keeps_ite ?_ ?_
  · split
    · exact M.keeps_fail P _
    · refine M.keeps_bind (M.keeps_steady hP (steady_deref _)) (fun f => ?_)
      refine M.keeps_ite (M.keeps_pure P _) (M.keeps_ite (M.keeps_err P _ _) ?_)
      exact M.keeps_bind (keeps_run_children hrec _) (fun sub => hcall _ sub)
  · refine M.keeps_ite ?_ (M.keeps_err P _ _)
    refine M.keeps_ite ?_ (M.keeps_ite ?_ (M.keeps_ite ?_ (M.keeps_ite ?_ ?_)))
    · repeat (first
    | with_reducible exact M.keeps_pure P _
    | with_reducible exact M.keeps_err P _ _
    | with_reducible exact M.keeps_fail P _
    | with_reducible exact M.keeps_get P
    | with_reducible exact hrec _
    | with_reducible exact M.keeps_steady hP (steady_new_object _ _)
    | with_reducible exact M.keeps_steady hP (steady_deref _)
    | with_reducible exact M.keeps_steady hP (steady_get_bool _)
    | with_reducible exact M.keeps_steady hP (steady_get_double _)
    | with_reducible exact M.keeps_steady hP (steady_call _ _ _ _)
    | with_reducible exact M.keeps_steady hP (steady_set_store _ _ _)
    | with_reducible exact M.keeps_steady hP (steady_is_int _ _)
    | with_reducible exact M.keeps_steady hP (steady_str _ _)
    | with_reducible exact M.keeps_steady hP (steady_write _)
    | with_reducible exact M.keeps_steady hP steady_getline
    | with_reducible exact M.keeps_steady hP (steady_child _ _)
    | with_reducible exact M.keeps_steady hP (steady_sub_at _ _)
    | with_reducible exact M.keeps_steady hP (steady_sub_back _)
    | with_reducible exact M.keeps_modify hP.clear_continue
    | with_reducible exact M.keeps_modify hP.clear_break
    | with_reducible exact M.keeps_modify hP.set_return
    | with_reducible exact M.keeps_modify (fun s h => hP.add s _ _ h)
    | with_reducible exact M.keeps_modify (fun s h => hP.remove s _ h)
    | with_reducible exact M.keeps_modify (fun s h => hP.stable s _ rfl rfl rfl rfl h)
    | refine M.keeps_ite ?_ ?_
    | refine M.keeps_bind ?_ (fun _ => ?_))
    · repeat (first
    | with_reducible exact M.keeps_pure P _
    | with_reducible exact M.keeps_err P _ _
    | with_reducible exact M.keeps_fail P _
    | with_reducible exact M.keeps_get P
    | with_reducible exact hrec _
    | with_reducible exact M.keeps_steady hP (steady_new_object _ _)
    | with_reducible exact M.keeps_steady hP (steady_deref _)
    | with_reducible exact M.keeps_steady hP (steady_get_bool _)
    | with_reducible exact M.keeps_steady hP (steady_get_double _)
    | with_reducible exact M.keeps_steady hP (steady_call _ _ _ _)
    | with_reducible exact M.keeps_steady hP (steady_set_store _ _ _)
    | with_reducible exact M.keeps_steady hP (steady_is_int _ _)
    | with_reducible exact M.keeps_steady hP (steady_str _ _)
    | with_reducible exact M.keeps_steady hP (steady_write _)
    | with_reducible exact M.keeps_steady hP steady_getline
    | with_reducible exact M.keeps_steady hP (steady_child _ _)
    | with_reducible exact M.keeps_steady hP (steady_sub_at _ _)
    | with_reducible exact M.keeps_steady hP (steady_sub_back _)
    | with_reducible exact M.keeps_modify hP.clear_continue
    | with_reducible exact M.keeps_modify hP.clear_break
    | with_reducible exact M.keeps_modify hP.set_return
    | with_reducible exact M.keeps_modify (fun s h => hP.add s _ _ h)
    | with_reducible exact M.keeps_modify (fun s h => hP.remove s _ h)
    | with_reducible exact M.keeps_modify (fun s h => hP.stable s _ rfl rfl rfl rfl h)
    | refine M.keeps_ite ?_ ?_
    | refine M.keeps_bind ?_ (fun _ => ?_))
    · repeat (first
    | with_reducible exact M.keeps_pure P _
    | with_reducible exact M.keeps_err P _ _
    | with_reducible exact M.keeps_fail P _
    | with_reducible exact M.keeps_get P
    | with_reducible exact hrec _
    | with_reducible exact M.keeps_steady hP (steady_new_object _ _)
    | with_reducible exact M.keeps_steady hP (steady_deref _)
    | with_reducible exact M.keeps_steady hP (steady_get_bool _)
    | with_reducible exact M.keeps_steady hP (steady_get_double _)
    | with_reducible exact M.keeps_steady hP (steady_call _ _ _ _)
    | with_reducible exact M.keeps_steady hP (steady_set_store _ _ _)
    | with_reducible exact M.keeps_steady hP (steady_is_int _ _)
    | with_reducible exact M.keeps_steady hP (steady_str _ _)
    | with_reducible exact M.keeps_steady hP (steady_write _)
    | with_reducible exact M.keeps_steady hP steady_getline
    | with_reducible exact M.keeps_steady hP (steady_child _ _)
    | with_reducible exact M.keeps_steady hP (steady_sub_at _ _)
    | with_reducible exact M.keeps_steady hP (steady_sub_back _)
    | with_reducible exact M.keeps_modify hP.clear_continue
    | with_reducible exact M.keeps_modify hP.clear_break
    | with_reducible exact M.keeps_modify hP.set_return
    | with_reducible exact M.keeps_modify (fun s h => hP.add s _ _ h)
    | with_reducible exact M.keeps_modify (fun s h => hP.remove s _ h)
    | with_reducible exact M.keeps_modify (fun s h => hP.stable s _ rfl rfl rfl rfl h)
    | refine M.keeps_ite ?_ ?_
    | refine M.keeps_bind ?_ (fun _ => ?_))
    · refine M.keeps_ite (M.keeps_err P _ _) ?_
      intro s0 a s2 hs h
      simp only at h
      cases hr : env.rand s0.heap with
      | error e =>
        rw [hr] at h
        cases h
      | ok r =>
        obtain ⟨hh, aa⟩ := r
        rw [hr] at h
        simp only at h
        injection h with _ h
        rw [← h]
        exact hP.stable s0 _ rfl rfl rfl rfl hs
    · exact M.keeps_steady hP (steady_new_object _ _)

/-! ## The number of frames -/

theorem memory.add_length (m : List Frame) (x : String) (a : Nat) (h : m ≠ []) :
    (memory.add m x a).length = m.length := by
  cases m with
  | nil => exact absurd rfl h
  | cons f fs => rfl

theorem memory.remove_length (m : List Frame) (x : String) :
    (memory.remove m x).length = m.length := by
  cases m with
  | nil => rfl
  | cons f fs => rfl

/-- The number of frames is kept by everything but the push and the pop of a
call. -/
theorem frames_invariant (env : Env)
    (hdecl : ∀ t1 t2 h m h2 m2, m ≠ [] → env.declare_obj t1 t2 h m = .ok (h2, m2) →
      m2.length = m.length)
    (L : Nat) (hL : 0 < L) : Invariant env (frames L) where
  stable := fun s s2 h _ _ _ hs => by unfold frames at *; rw [h]; exact hs
  set_continue := fun s hs _ => hs
  set_break := fun s hs _ => hs
  set_return := fun s hs => hs
  clear_continue := fun s hs => by
    unfold clear_continue
    split
    · exact hs
    · exact hs
  clear_break := fun s hs => hs
  add := fun s x a hs => by
    unfold frames at *
    have hne : s.mem ≠ [] := by
      intro h0
      rw [h0] at hs
      simp at hs
      omega
    show (memory.add s.mem x a).length = L
    rw [memory.add_length s.mem x a hne]
    exact hs
  remove := fun s x hs => by
    unfold frames at *
    show (memory.remove s.mem x).length = L
    rw [memory.remove_length]
    exact hs
  declare := fun s t1 t2 h m hs hd => by
    unfold frames at *
    have hne : s.mem ≠ [] := by
      intro h0
      rw [h0] at hs
      simp at hs
      omega
    show m.length = L
    rw [hdecl t1 t2 s.heap s.mem h m hne hd]
    exact hs

theorem keeps_init_with_frames (env : Env)
    (hdecl : ∀ t1 t2 h m h2 m2, m ≠ [] → env.declare_obj t1 t2 h m = .ok (h2, m2) →
      m2.length = m.length)
    (L : Nat) (hL : 0 < L) {rec : ast_node → M Nat}
    (hrec : ∀ u, M.keeps (frames L) (rec u)) (tree : ast_node) (parent : Nat) :
    M.keeps (frames L) (init_with rec tree parent) := by
  have hP := frames_invariant env hdecl L hL
  unfold init_with
  refine M.keeps_bind (M.keeps_modify (fun s h => h)) (fun _ => ?_)
  repeat (first
    | with_reducible exact M.keeps_pure _ _
    | with_reducible exact M.keeps_err _ _ _
    | with_reducible exact M.keeps_fail _ _
    | with_reducible exact M.keeps_get _
    | with_reducible exact hrec _
    | with_reducible exact M.keeps_steady hP (steady_new_object _ _)
    | with_reducible exact M.keeps_steady hP (steady_deref _)
    | with_reducible exact M.keeps_steady hP (steady_get_bool _)
    | with_reducible exact M.keeps_steady hP (steady_get_double _)
    | with_reducible exact M.keeps_steady hP (steady_call _ _ _ _)
    | with_reducible exact M.keeps_steady hP (steady_set_store _ _ _)
    | with_reducible exact M.keeps_steady hP (steady_is_int _ _)
    | with_reducible exact M.keeps_steady hP (steady_str _ _)
    | with_reducible exact M.keeps_steady hP (steady_write _)
    | with_reducible exact M.keeps_steady hP steady_getline
    | with_reducible exact M.keeps_steady hP (steady_child _ _)
    | with_reducible exact M.keeps_steady hP (steady_sub_at _ _)
    | with_reducible exact M.keeps_steady hP (steady_sub_back _)
    | with_reducible exact M.keeps_modify hP.clear_continue
    | with_reducible exact M.keeps_modify hP.clear_break
    | with_reducible exact M.keeps_modify hP.set_return
    | with_reducible exact M.keeps_modify (fun s h => hP.add s _ _ h)
    | with_reducible exact M.keeps_modify (fun s h => hP.remove s _ h)
    | with_reducible exact M.keeps_modify (fun s h => hP.stable s _ rfl rfl rfl rfl h)
    | refine M.keeps_ite ?_ ?_
    | refine M.keeps_bind ?_ (fun _ => ?_)
    | split)

/-- The call part leaves as many frames as it found: the frame it pushes is
the frame it pops. -/
theorem call_body_frames (env : Env)
    (hdecl : ∀ t1 t2 h m h2 m2, m ≠ [] → env.declare_obj t1 t2 h m = .ok (h2, m2) →
      m2.length = m.length)
    {rec : ast_node → M Nat}
    (hrec : ∀ L, 0 < L → ∀ u, M.keeps (frames L) (rec u)) (L : Nat)
    (k : Nat) (u : ast_node) (obj : Nat) (sub : List Nat) :
    M.keeps (frames L) (call_body env rec k u obj sub) := by
  intro s a s2 hs h
  unfold call_body at h
  rw [bind_ok (modify_apply _ s)] at h
  obtain ⟨_, s1, hb, h1⟩ := bind_ok_inv h
  have f1 : frames (L + 1) s1 :=
    keeps_bind_params (frames_invariant env hdecl (L + 1) (by omega)) u obj sub k 0 _ _ _
      (show frames (L + 1) { s with mem := memory.push s.mem } by
        unfold frames at *
        show (memory.push s.mem).length = L + 1
        unfold memory.push
        rw [List.length_cons, hs]) hb
  obtain ⟨callee, s3, hd, h2⟩ := bind_ok_inv h1
  have f3 : frames (L + 1) s3 := by
    unfold frames at *
    rw [(steady_deref obj s1 callee s3 hd).1]
    exact f1
  cases hbody : callee.f_body with
  | none =>
    rw [hbody] at h2
    cases h2
  | some body =>
    rw [hbody] at h2
    simp only at h2
    rw [bind_ok (get_apply s3), bind_ok (modify_apply _ s3)] at h2
    obtain ⟨ret, s4, hi, h3⟩ := bind_ok_inv h2
    have f4 : frames (L + 1) s4 :=
      keeps_init_with_frames env hdecl (L + 1) (by omega) (hrec (L + 1) (by omega)) body obj
        _ _ _ (show frames (L + 1) { s3 with return_val := none } from f3) hi
    rw [bind_ok (modify_apply _ s4)] at h3
    injection h3 with _ h3
    rw [← h3]
    unfold frames at *
    show (memory.pop s4.mem).length = L
    unfold memory.pop
    rw [List.length_tail, f4]
    rfl

/-- Every evaluation that returns leaves as many frames as it found, on a
scope stack with at least one frame. -/
theorem run_keeps_frames (env : Env)
    (hdecl : ∀ t1 t2 h m h2 m2, m ≠ [] → env.declare_obj t1 t2 h m = .ok (h2, m2) →
      m2.length = m.length) :
    ∀ n L, 0 < L → ∀ u, M.keeps (frames L) (run env n u) := by
  intro n
  induction n with
  | zero => intro L _ u s a s2 _ h; cases h
  | succ n ih =>
    intro L hL u
    exact keeps_step (frames_invariant env hdecl L hL) (ih L hL) n
      (fun v => keeps_run_symbol (frames_invariant env hdecl L hL) (ih L hL) n v
        (fun obj sub => call_body_frames env hdecl ih L n v obj sub)) u

theorem Sample.declare_frames (t1 t2 : token) (h : List object) (m : List Frame)
    (h2 : List object) (m2 : List Frame) (hne : m ≠ [])
    (hd : Sample.env.declare_obj t1 t2 h m = .ok (h2, m2)) : m2.length = m.length := by
  have hd2 : Sample.declare_obj t1 t2 h m = .ok (h2, m2) := hd
  unfold Sample.declare_obj at hd2
  injection hd2 with hd2
  injection hd2 with _ hm
  rw [← hm]
  exact memory.add_length m _ _ hne

/-- C19: when `run` on a node, from a scope stack with at least one frame,
finishes without a fatal error, the scope stack has as many frames as before;
so has it when `init` finishes.  The only push is the one of the call part of
the symbol branch, which pops its frame when the activation over the body has
returned (`call_body_frames`); a declaration is taken to keep the number of
frames. -/
theorem frames_preserved (env : Env)
    (hdecl : ∀ t1 t2 h m h2 m2, m ≠ [] → env.declare_obj t1 t2 h m = .ok (h2, m2) →
      m2.length = m.length)
    (n : Nat) (u : ast_node) (s s2 : State) (a : Nat) (hne : s.mem ≠ [])
    (h : run env n u s = .ok a s2) :
    s2.mem.length = s.mem.length ∧
    (∀ parent b s3, init env n u parent s = .ok b s3 → s3.mem.length = s.mem.length) := by
  have hL : 0 < s.mem.length := List.length_pos.mpr hne
  refine ⟨run_keeps_frames env hdecl n s.mem.length hL u s a s2 rfl h, ?_⟩
  intro parent b s3 hi
  exact keeps_init_with_frames env hdecl s.mem.length hL
    (run_keeps_frames env hdecl n s.mem.length hL) u parent s b s3 rfl hi

set_option maxHeartbeats 1000000 in
/-- Witness of C19: the call `f(5)` of a function of one parameter, from a
scope stack of one frame, returns with one frame. -/
theorem frames_preserved_witness :
    (Sample.run_call.state Sample.state_bound).mem.length = Sample.state_bound.mem.length :=
  (frames_preserved Sample.env Sample.declare_frames 4 Sample.call_f Sample.state_bound
    (Sample.run_call.state Sample.state_bound) Sample.run_call.value (by decide)
    (Res.eq_ok Sample.run_call Sample.state_bound (by decide!))).1

/-! ## The continue and the break flag -/

/-- That the continue and the break flag are not both set is kept by every
step of the evaluator: each is set only in a state without a live flag. -/
theorem one_loop_signal_invariant (env : Env) : Invariant env one_loop_signal where
  stable := fun s s2 _ _ h3 h4 hs => by
    unfold one_loop_signal at *
    rw [h3, h4]
    exact hs
  set_continue := fun s _ hf => by
    unfold State.flagged at hf
    simp only [Bool.or_eq_false_iff] at hf
    intro h
    rw [hf.2] at h
    cases h.2
  set_break := fun s _ hf => by
    unfold State.flagged at hf
    simp only [Bool.or_eq_false_iff] at hf
    intro h
    rw [hf.1.2] at h
    cases h.1
  set_return := fun s hs => hs
  clear_continue := fun s hs => by
    unfold clear_continue
    split
    · intro h
      cases h.1
    · exact hs
  clear_break := fun s _ => by
    intro h
    cases h.2
  add := fun s x a hs => hs
  remove := fun s x hs => hs
  declare := fun s t1 t2 h m hs _ => hs

/-- The call part keeps the two flags apart: it ends with the flags of the
caller. -/
theorem call_body_one_loop_signal (env : Env) (rec : ast_node → M Nat) (k : Nat)
    (u : ast_node) (obj : Nat) (sub : List Nat) :
    M.keeps one_loop_signal (call_body env rec k u obj sub) := by
  intro s a s2 hs h
  unfold call_body at h
  rw [bind_ok (modify_apply _ s)] at h
  obtain ⟨_, s1, hb, h1⟩ := bind_ok_inv h
  have f1 : one_loop_signal s1 :=
    keeps_bind_params (one_loop_signal_invariant env) u obj sub k 0 _ _ _
      (show one_loop_signal { s with mem := memory.push s.mem } from hs) hb
  obtain ⟨callee, s3, hd, h2⟩ := bind_ok_inv h1
  have f3 : one_loop_signal s3 :=
    M.keeps_steady (one_loop_signal_invariant env) (steady_deref obj) s1 callee s3 f1 hd
  cases hbody : callee.f_body with
  | none =>
    rw [hbody] at h2
    cases h2
  | some body =>
    rw [hbody] at h2
    simp only at h2
    rw [bind_ok (get_apply s3), bind_ok (modify_apply _ s3)] at h2
    obtain ⟨ret, s4, hi, h3⟩ := bind_ok_inv h2
    rw [bind_ok (modify_apply _ s4)] at h3
    injection h3 with _ h3
    rw [← h3]
    exact f3

/-- Every evaluation that returns keeps the continue and the break flag
apart. -/
theorem run_keeps_one_loop_signal (env : Env) :
    ∀ n u, M.keeps one_loop_signal (run env n u) := by
  intro n
  induction n with
  | zero => intro u s a s2 _ h; cases h
  | succ n ih =>
    intro u
    exact keeps_step (one_loop_signal_invariant env) ih n
      (fun v => keeps_run_symbol (one_loop_signal_invariant env) ih n v
        (fun obj sub => call_body_one_loop_signal env (run env n) n v obj sub)) u

/-- C13 (as amended): from a state in which the continue and the break flag
are not both set (the state `init` starts from is one), every evaluation of a
node that returns ends in such a state; so does `init` when it returns.  The
return flag is not covered: it is set after the operand of `return` has been
evaluated, whatever flag the operand left. -/
theorem loop_signals_exclusive (env : Env) (n : Nat) (u : ast_node) (s s2 : State) (a : Nat)
    (hs : ¬(s.has_continue = true ∧ s.has_break = true))
    (h : run env n u s = .ok a s2) :
    ¬(s2.has_continue = true ∧ s2.has_break = true) ∧
    (∀ s0 b s3, run env n u (reset s0) = .ok b s3 →
      ¬(s3.has_continue = true ∧ s3.has_break = true)) :=
  ⟨run_keeps_one_loop_signal env n u s a s2 hs h,
    fun s0 b s3 h0 => run_keeps_one_loop_signal env n u (reset s0) b s3
      (fun hh => by cases hh.1) h0⟩

set_option maxHeartbeats 1000000 in
/-- Counterexample to C13: after `return continue`, evaluated from the state
`init` starts from, the return flag and the continue flag are both set. -/
theorem return_continue_both_live :
    (run Sample.env 2 Sample.return_continue (reset (Sample.start .o_none []))).is_ok = true ∧
    ((run Sample.env 2 Sample.return_continue (reset (Sample.start .o_none []))).state
      (Sample.start .o_none [])).has_return = true ∧
    ((run Sample.env 2 Sample.return_continue (reset (Sample.start .o_none []))).state
      (Sample.start .o_none [])).has_continue = true := by
  refine ⟨?_, ?_, ?_⟩ <;> decide!

set_option maxHeartbeats 1000000 in
/-- Witness of C13: after `return continue` the break flag is not set. -/
theorem loop_signals_exclusive_witness :
    ¬(((run Sample.env 2 Sample.return_continue (reset (Sample.start .o_none []))).state
        (Sample.start .o_none [])).has_continue = true ∧
      ((run Sample.env 2 Sample.return_continue (reset (Sample.start .o_none []))).state
        (Sample.start .o_none [])).has_break = true) :=
  (loop_signals_exclusive Sample.env 2 Sample.return_continue
    (reset (Sample.start .o_none []))
    ((run Sample.env 2 Sample.return_continue (reset (Sample.start .o_none []))).state
      (Sample.start .o_none []))
    (run Sample.env 2 Sample.return_continue (reset (Sample.start .o_none []))).value
    (by decide)
    (Res.eq_ok _ (Sample.start .o_none []) (by decide!))).1

/-! ## Loops absorb continue and break -/

theorem M.leads_bind {α β : Type} {P Q : State → Prop} (R : State → Prop) {x : M α}
    {f : α → M β} (h1 : M.leads P x R) (h2 : ∀ a, M.leads R (f a) Q) :
    M.leads P (x >>= f) Q := by
  intro s b s2 hP h
  obtain ⟨a, s1, ha, hb⟩ := bind_ok_inv h
  exact h2 a s1 b s2 (h1 s a s1 hP ha) hb

theorem M.leads_ite {α : Type} {P Q : State → Prop} {c : Prop} [Decidable c] {x y : M α}
    (h1 : M.leads P x Q) (h2 : M.leads P y Q) : M.leads P (if c then x else y) Q := by
  split
  · exact h1
  · exact h2

theorem M.leads_err {α : Type} (P Q : State → Prop) (msg : String) (line : Option Nat) :
    M.leads P (M.err msg line : M α) Q := by
  intro s a s2 _ h
  cases h

theorem M.leads_pure {α : Type} {P Q : State → Prop} (a : α) (h : ∀ s, P s → Q s) :
    M.leads P (pure a : M α) Q := by
  intro s b s2 hP hs
  injection hs with _ hs
  rw [← hs]
  exact h s hP

theorem M.leads_modify {P Q : State → Prop} {f : State → State} (h : ∀ s, P s → Q (f s)) :
    M.leads P (M.modify f) Q := by
  intro s b s2 hP hs
  injection hs with _ hs
  rw [← hs]
  exact h s hP

theorem M.leads_child {β : Type} {P Q : State → Prop} {u : ast_node} {i : Nat}
    {f : ast_node → M β} (h : ∀ c, u.children[i]? = some c → M.leads P (f c) Q) :
    M.leads P (child u i >>= f) Q := by
  intro s b s2 hP hs
  obtain ⟨c, s1, hc, hb⟩ := bind_ok_inv hs
  have e := child_state hc
  unfold child at hc
  split at hc
  · rename_i d hd
    injection hc with hc _
    rw [hc] at hd
    rw [e] at hb
    exact h c hd s b s2 hP hb
  · cases hc

/-- A step that leaves the flags as they are keeps `no_loop_signal`. -/
theorem leads_no_loop_signal {α : Type} {x : M α} (h : M.steady x) :
    M.leads no_loop_signal x no_loop_signal := by
  intro s a s2 hs hx
  obtain ⟨_, _, k3, k4⟩ := h s a s2 hx
  unfold no_loop_signal at *
  rw [k3, k4]
  exact hs

/-- A step that leaves the flags as they are keeps them all unset. -/
theorem leads_unflagged {α : Type} {x : M α} (h : M.steady x) :
    M.leads (fun s => s.flagged = false) x (fun s => s.flagged = false) := by
  intro s a s2 hs hx
  obtain ⟨_, k2, k3, k4⟩ := h s a s2 hx
  have hs1 : s.flagged = false := hs
  show s2.flagged = false
  unfold State.flagged at *
  rw [k2, k3, k4]
  exact hs1

theorem M.steady_bind {α β : Type} {x : M α} {f : α → M β} (h1 : M.steady x)
    (h2 : ∀ a, M.steady (f a)) : M.steady (x >>= f) := by
  intro s b s2 h
  obtain ⟨a, s1, ha, hb⟩ := bind_ok_inv h
  obtain ⟨k1, k2, k3, k4⟩ := h1 s a s1 ha
  obtain ⟨j1, j2, j3, j4⟩ := h2 a s1 b s2 hb
  exact ⟨j1.trans k1, j2.trans k2, j3.trans k3, j4.trans k4⟩

theorem M.steady_err {α : Type} (msg : String) (line : Option Nat) :
    M.steady (M.err msg line : M α) := by
  intro s a s2 h
  cases h

theorem steady_set_bounds (env : Env) (range : ast_node) (sub : List Nat) (a b c : Nat) :
    M.steady (set_bounds env range sub a b c) := by
  unfold set_bounds
  split <;>
  repeat (first
    | with_reducible exact M.steady_err _ _
    | with_reducible exact steady_sub_at _ _
    | with_reducible exact steady_get_double _
    | with_reducible exact steady_set_store _ _ _
    | refine M.steady_bind ?_ (fun _ => ?_))

theorem clear_continue_cleared (s : State) : (clear_continue s).has_continue = false := by
  unfold clear_continue
  split
  · rfl
  · rename_i h
    simpa using h

theorem clear_continue_break (s : State) : (clear_continue s).has_break = s.has_break := by
  unfold clear_continue
  split <;> rfl

/-- The end of a turn of either loop: the continue flag has been cleared; a
set break flag is cleared and the loop ends, otherwise the loop goes on. -/
theorem leads_loop_end {next : M Unit} (h : M.leads no_loop_signal next no_loop_signal) :
    M.leads (fun s => s.has_continue = false)
      (do let s ← M.get; if s.has_break then M.modify clear_break else next : M Unit)
      no_loop_signal := by
  intro s a s2 hC hs
  rw [bind_ok (get_apply s)] at hs
  split at hs
  · injection hs with _ hs
    rw [← hs]
    exact ⟨hC, rfl⟩
  · rename_i hb
    exact h s a s2 ⟨hC, by simpa using hb⟩ hs

/-- The `for` loop ends with neither the continue nor the break flag set,
whatever the body does. -/
theorem for_loop_no_signal (env : Env) (rec : ast_node → M Nat) (u : ast_node)
    (it end_ every : Nat) :
    ∀ k, M.leads no_loop_signal (for_loop env rec u it end_ every k) no_loop_signal := by
  intro k
  induction k with
  | zero => intro s a s2 _ h; cases h
  | succ k ih =>
    rw [for_loop]
    refine M.leads_bind no_loop_signal (leads_no_loop_signal (steady_call _ _ _ _))
      (fun lt => ?_)
    refine M.leads_bind no_loop_signal (leads_no_loop_signal (steady_get_bool _)) (fun b => ?_)
    refine M.leads_ite ?_ (M.leads_pure _ (fun _ h => h))
    refine M.leads_bind no_loop_signal (leads_no_loop_signal (steady_child _ _)) (fun bd => ?_)
    refine M.leads_bind (fun _ => True) (fun _ _ _ _ _ => trivial) (fun _ => ?_)
    refine M.leads_bind (fun s => s.has_continue = false)
      (M.leads_modify (fun s _ => clear_continue_cleared s)) (fun _ => ?_)
    exact leads_loop_end (M.leads_bind no_loop_signal
      (leads_no_loop_signal (steady_call _ _ _ _)) (fun _ => ih))

/-- The `while` loop ends with neither the continue nor the break flag set,
when the evaluation of its condition keeps them unset. -/
theorem while_loop_no_signal (env : Env) (rec : ast_node → M Nat) (u : ast_node)
    (hcond : ∀ c, u.children[0]? = some c → M.leads no_loop_signal (rec c) no_loop_signal) :
    ∀ k, M.leads no_loop_signal (while_loop env rec u k) no_loop_signal := by
  intro k
  induction k with
  | zero => intro s a s2 _ h; cases h
  | succ k ih =>
    rw [while_loop]
    refine M.leads_child (fun c hc => ?_)
    refine M.leads_bind no_loop_signal (hcond c hc) (fun v => ?_)
    refine M.leads_bind no_loop_signal (leads_no_loop_signal (steady_call _ _ _ _))
      (fun tb => ?_)
    refine M.leads_bind no_loop_signal (leads_no_loop_signal (steady_get_bool _)) (fun b => ?_)
    refine M.leads_ite ?_ (M.leads_pure _ (fun _ h => h))
    refine M.leads_bind no_loop_signal (leads_no_loop_signal (steady_child _ _)) (fun bd => ?_)
    refine M.leads_bind (fun _ => True) (fun _ _ _ _ _ => trivial) (fun _ => ?_)
    refine M.leads_bind (fun s => s.has_continue = false)
      (M.leads_modify (fun s _ => clear_continue_cleared s)) (fun _ => ?_)
    exact leads_loop_end ih

/-- A node that raises no signal keeps the continue and the break flag
unset: under the return flag it is not evaluated at all. -/
theorem no_signal_keeps (env : Env) (n : Nat) (c : ast_node) (h : no_signal (run env n) c) :
    M.leads no_loop_signal (run env n c) no_loop_signal := by
  intro s a s2 hs hr
  by_cases hf : s.flagged = true
  · cases n with
    | zero => cases hr
    | succ n =>
      rw [run_flagged env n c s hf] at hr
      exact leads_no_loop_signal (steady_new_object env _) s a s2 hs hr
  · have h2 := h s a s2 (by simpa using hf) hr
    rw [flagged_false_iff] at h2
    exact ⟨h2.2.1, h2.2.2⟩

/-- The arguments of `range` leave no flag set when none of them raises a
signal. -/
theorem run_range_args_unflagged (env : Env) (rec : ast_node → M Nat) (cs : List ast_node)
    (h : ∀ c ∈ cs, no_signal rec c) :
    M.leads (fun s => s.flagged = false) (run_range_args env rec cs)
      (fun s => s.flagged = false) := by
  induction cs with
  | nil => exact M.leads_pure _ (fun _ h => h)
  | cons c cs ih =>
    rw [run_range_args]
    refine M.leads_bind (fun s => s.flagged = false)
      (fun s a s2 hs hr => h c (List.mem_cons_self c cs) s a s2 hs hr) (fun a => ?_)
    refine M.leads_bind (fun s => s.flagged = false) (leads_unflagged (steady_is_int _ _))
      (fun b => ?_)
    refine M.leads_ite (M.leads_err _ _ _ _) ?_
    exact M.leads_bind (fun s => s.flagged = false)
      (ih (fun d hd => h d (List.mem_cons_of_mem c hd)))
      (fun _ => M.leads_pure _ (fun _ h => h))

/-- The `for` branch, entered with no flag set, ends with neither the
continue nor the break flag set, when no argument of `range` raises a
signal. -/
theorem run_for_no_signal (env : Env) (rec : ast_node → M Nat) (k : Nat) (u : ast_node)
    (hargs : ∀ node range c, u.children[0]? = some node → node.children[1]? = some range →
      c ∈ range.children → no_signal rec c) :
    M.leads (fun s => s.flagged = false) (run_for env rec k u) no_loop_signal := by
  unfold run_for
  refine M.leads_ite (M.leads_err _ _ _ _) ?_
  refine M.leads_child (fun node hnode => ?_)
  refine M.leads_ite (M.leads_err _ _ _ _) (M.leads_ite (M.leads_err _ _ _ _) ?_)
  refine M.leads_child (fun lhs _ => ?_)
  refine M.leads_ite (M.leads_err _ _ _ _) ?_
  refine M.leads_bind (fun s => s.flagged = false)
    (fun s a s2 hs hr => by injection hr with _ hr; rw [← hr]; exact hs) (fun s0 => ?_)
  refine M.leads_ite (M.leads_err _ _ _ _) ?_
  refine M.leads_bind (fun s => s.flagged = false)
    (leads_unflagged (steady_new_object _ _)) (fun it => ?_)
  refine M.leads_bind (fun s => s.flagged = false)
    (leads_unflagged (steady_new_object _ _)) (fun start => ?_)
  refine M.leads_bind (fun s => s.flagged = false)
    (leads_unflagged (steady_new_object _ _)) (fun end_ => ?_)
  refine M.leads_bind (fun s => s.flagged = false)
    (leads_unflagged (steady_new_object _ _)) (fun every => ?_)
  refine M.leads_bind (fun s => s.flagged = false) (M.leads_modify (fun s hs => hs))
    (fun _ => ?_)
  refine M.leads_bind (fun s => s.flagged = false)
    (leads_unflagged (steady_set_store _ _ _)) (fun _ => ?_)
  refine M.leads_bind (fun s => s.flagged = false)
    (leads_unflagged (steady_set_store _ _ _)) (fun _ => ?_)
  refine M.leads_bind (fun s => s.flagged = false)
    (leads_unflagged (steady_set_store _ _ _)) (fun _ => ?_)
  refine M.leads_child (fun range hrange => ?_)
  refine M.leads_ite (M.leads_err _ _ _ _) ?_
  refine M.leads_bind (fun s => s.flagged = false)
    (run_range_args_unflagged env rec range.children
      (fun c hc => hargs node range c hnode hrange hc)) (fun sub => ?_)
  refine M.leads_ite (M.leads_err _ _ _ _) ?_
  refine M.leads_bind (fun s => s.flagged = false)
    (leads_unflagged (steady_set_bounds _ _ _ _ _ _)) (fun _ => ?_)
  refine M.leads_bind no_loop_signal ?_ (fun _ => ?_)
  · intro s a s2 hs hr
    have h2 : s2.flagged = false := leads_unflagged (steady_call _ _ _ _) s a s2 hs hr
    rw [flagged_false_iff] at h2
    exact ⟨h2.2.1, h2.2.2⟩
  · refine M.leads_bind no_loop_signal (for_loop_no_signal env rec u _ _ _ k) (fun _ => ?_)
    exact M.leads_modify (fun s hs => hs)

/-- One turn of the `while` loop whose condition is true: after the body the
continue flag is cleared; when the break flag is set it is cleared and the
loop ends, otherwise the loop goes on with the next turn. -/
theorem while_loop_turn (env : Env) (rec : ast_node → M Nat) (k : Nat) (u c b : ast_node)
    (s s1 s2 s3 : State) (v tb r : Nat) (o : object)
    (hc0 : u.children[0]? = some c) (hcond : rec c s = .ok v s1)
    (htb : call env "to_bool" v [] s1 = .ok tb s2)
    (ho : s2.heap[tb]? = some o) (htrue : o.store = .b true)
    (hc1 : u.children[1]? = some b) (hbody : rec b s2 = .ok r s3) :
    while_loop env rec u (k + 1) s =
      if s3.has_break = true then .ok () (clear_break (clear_continue s3))
      else while_loop env rec u k (clear_continue s3) := by
  rw [while_loop, bind_ok (child_ok hc0 s), bind_ok hcond, bind_ok htb,
    bind_ok (get_bool_ok ho htrue)]
  simp only [if_true]
  rw [bind_ok (child_ok hc1 s2), bind_ok hbody, bind_ok (modify_apply _ _),
    bind_ok (get_apply _), clear_continue_break]
  split <;> rfl

/-- One turn of the `for` loop whose test is true: after the body the
continue flag is cleared; when the break flag is set it is cleared and the
loop ends, otherwise the step is added to the loop variable and the loop goes
on with the next turn. -/
theorem for_loop_turn (env : Env) (rec : ast_node → M Nat) (k : Nat) (u b : ast_node)
    (it end_ every : Nat) (s s1 s3 : State) (lt r : Nat) (o : object)
    (hlt : call env "less_than" it [end_] s = .ok lt s1)
    (ho : s1.heap[lt]? = some o) (htrue : o.store = .b true)
    (hc1 : u.children[1]? = some b) (hbody : rec b s1 = .ok r s3) :
    for_loop env rec u it end_ every (k + 1) s =
      if s3.has_break = true then .ok () (clear_break (clear_continue s3))
      else (call env "add_equal" it [every] >>= fun _ =>
        for_loop env rec u it end_ every k) (clear_continue s3) := by
  rw [for_loop, bind_ok hlt, bind_ok (get_bool_ok ho htrue)]
  simp only [if_true]
  rw [bind_ok (child_ok hc1 s1), bind_ok hbody, bind_ok (modify_apply _ _),
    bind_ok (get_apply _), clear_continue_break]
  split <;> rfl

/-- C15: let a `while` or `for` node be evaluated while no flag is set, and
let its condition, or the arguments of its `range`, raise no signal.  When
the evaluation of the node finishes, neither the continue nor the break flag
is set.  In each turn of either loop the continue flag is cleared after the
body; a set break flag is then cleared and the loop ends, otherwise the loop
goes on with its next turn, which for `for` starts with adding the step to
the loop variable. -/
theorem loops_absorb_signals (env : Env) (n : Nat) (u : ast_node) (s s2 : State) (a : Nat)
    (hf : s.flagged = false) (hv : env.vars u.val.val = false)
    (ht : u.val.type ≠ .t_group) (hctl : env.control u.val.val = true)
    (hrun : run env (n + 1) u s = .ok a s2) :
    (u.val.val = "while" → (∀ c, u.children[0]? = some c → no_signal (run env n) c) →
      s2.has_continue = false ∧ s2.has_break = false) ∧
    (u.val.val = "for" →
      (∀ node range c, u.children[0]? = some node → node.children[1]? = some range →
        c ∈ range.children → no_signal (run env n) c) →
      s2.has_continue = false ∧ s2.has_break = false) ∧
    (∀ (rec : ast_node → M Nat) (k : Nat) (c b : ast_node) (t t1 t2 t3 : State)
      (v tb r : Nat) (o : object), u.children[0]? = some c → rec c t = .ok v t1 →
      call env "to_bool" v [] t1 = .ok tb t2 → t2.heap[tb]? = some o → o.store = .b true →
      u.children[1]? = some b → rec b t2 = .ok r t3 →
      while_loop env rec u (k + 1) t =
        if t3.has_break = true then .ok () (clear_break (clear_continue t3))
        else while_loop env rec u k (clear_continue t3)) ∧
    (∀ (rec : ast_node → M Nat) (k : Nat) (b : ast_node) (it end_ every : Nat)
      (t t1 t3 : State) (lt r : Nat) (o : object),
      call env "less_than" it [end_] t = .ok lt t1 → t1.heap[lt]? = some o →
      o.store = .b true → u.children[1]? = some b → rec b t1 = .ok r t3 →
      for_loop env rec u it end_ every (k + 1) t =
        if t3.has_break = true then .ok () (clear_break (clear_continue t3))
        else (call env "add_equal" it [every] >>= fun _ =>
          for_loop env rec u it end_ every k) (clear_continue t3)) := by
  have hN : no_loop_signal s := by
    rw [flagged_false_iff] at hf
    exact ⟨hf.2.1, hf.2.2⟩
  rw [run_succ] at hrun
  unfold step at hrun
  rw [bind_ok (get_apply s)] at hrun
  simp only [hf, hv, ht, hctl, Bool.false_eq_true, if_false, if_true] at hrun
  refine ⟨fun hw hcond => ?_, fun hw hargs => ?_,
    fun rec k c b t t1 t2 t3 v tb r o h1 h2 h3 h4 h5 h6 h7 =>
      while_loop_turn env rec k u c b t t1 t2 t3 v tb r o h1 h2 h3 h4 h5 h6 h7,
    fun rec k b it end_ every t t1 t3 lt r o h1 h2 h3 h4 h5 =>
      for_loop_turn env rec k u b it end_ every t t1 t3 lt r o h1 h2 h3 h4 h5⟩
  · simp only [hw, String.reduceEq, or_self, if_false, if_true] at hrun
    exact M.leads_bind no_loop_signal
      (while_loop_no_signal env (run env n) u
        (fun c hc => no_signal_keeps env n c (hcond c hc)) n)
      (fun _ => leads_no_loop_signal (steady_new_object env _)) s a s2 hN hrun
  · simp only [hw, String.reduceEq, or_self, if_false, if_true] at hrun
    exact M.leads_bind no_loop_signal (run_for_no_signal env (run env n) n u hargs)
      (fun _ => leads_no_loop_signal (steady_new_object env _)) s a s2 hf hrun

set_option maxHeartbeats 1000000 in
/-- Witness of C15: `while 1 { outl "body"; break; outl "after" }` finishes
with neither the continue nor the break flag set. -/
theorem loops_absorb_signals_witness :
    (Sample.run_while_break.state (Sample.start .o_none [])).has_continue = false ∧
    (Sample.run_while_break.state (Sample.start .o_none [])).has_break = false :=
  (loops_absorb_signals Sample.env 4 Sample.while_break (Sample.start .o_none [])
    (Sample.run_while_break.state (Sample.start .o_none [])) Sample.run_while_break.value
    rfl rfl (by decide) rfl
    (Res.eq_ok Sample.run_while_break (Sample.start .o_none []) (by decide!))).1 rfl
    (fun c hc => by
      have hc1 : c = Sample.num "1" := (Option.some.inj hc).symm
      rw [hc1]
      exact no_signal_of_quiet (quiet_num_node Sample.env 4 _ rfl rfl rfl))

/-! ## The binding of parameters -/

theorem getElem?_lt {α : Type} {l : List α} {i : Nat} {a : α} (h : l[i]? = some a) :
    i < l.length := by
  by_contra hge
  rw [List.getElem?_eq_none (by omega)] at h
  cases h

/-- One turn of the loop that binds the parameters: a new object becomes a
copy of the argument; when its type is not the declared one the loop fails,
otherwise the parameter name is bound to it and the loop goes on. -/
theorem bind_params_turn (env : Env)
    (hequal : ∀ (h : List object) (a b : Nat) (y : object),
      h[a]? = some (env.construct .o_none) → h[b]? = some y →
      ∃ x, env.method "equal" h a [b] = .ok (h.set a x, a) ∧ copy_of x y)
    (u : ast_node) (obj : Nat) (sub : List Nat) (k i : Nat) (s : State) (f : object)
    (fp : f_param) (arg : Nat) (y : object)
    (hobj : s.heap[obj]? = some f) (hfp : f.f_params[i]? = some fp)
    (harg : sub[i]? = some arg) (hy : s.heap[arg]? = some y) :
    ∃ x, copy_of x y ∧ bind_params env u obj sub (k + 1) i s =
      if x.type ≠ fp.type then
        (child u i >>= fun c =>
          (M.err "parameter types don't match" (some c.val.line) : M Unit))
          { s with heap := s.heap ++ [x] }
      else bind_params env u obj sub k (i + 1)
        { s with heap := s.heap ++ [x], mem := memory.add s.mem fp.symbol s.heap.length } := by
  obtain ⟨x, hx, hcopy⟩ := hequal (s.heap ++ [env.construct .o_none]) s.heap.length arg y
    (List.getElem?_concat_length _ _)
    (by rw [List.getElem?_append_left (getElem?_lt hy)]; exact hy)
  refine ⟨x, hcopy, ?_⟩
  have hset : (s.heap ++ [env.construct .o_none]).set s.heap.length x = s.heap ++ [x] := by
    simp
  have hcall : call env "equal" s.heap.length [arg]
      { s with heap := s.heap ++ [env.construct .o_none] } =
      .ok s.heap.length { s with heap := s.heap ++ [x] } := by
    unfold call
    simp only [hx, hset]
  have hsub : sub_at sub i { s with heap := s.heap ++ [env.construct .o_none] } =
      .ok arg { s with heap := s.heap ++ [env.construct .o_none] } := by
    unfold sub_at
    rw [harg]
  have hderef : deref s.heap.length { s with heap := s.heap ++ [x] } =
      .ok x { s with heap := s.heap ++ [x] } :=
    deref_ok (List.getElem?_concat_length _ _)
  rw [bind_params, bind_ok (deref_ok hobj)]
  simp only [hfp]
  rw [bind_ok (new_object_apply env .o_none s), bind_ok hsub, bind_ok hcall, bind_ok hderef]
  split
  · rfl
  · rw [bind_ok (modify_apply _ _)]

/-- The loop that binds the parameters, when every argument has the declared
type: each parameter is bound to a new object that is a copy of its
argument; the objects of the caller stay as they are. -/
theorem bind_params_copies (env : Env)
    (hequal : ∀ (h : List object) (a b : Nat) (y : object),
      h[a]? = some (env.construct .o_none) → h[b]? = some y →
      ∃ x, env.method "equal" h a [b] = .ok (h.set a x, a) ∧ copy_of x y)
    (u : ast_node) (obj : Nat) (sub : List Nat) (f : object) (h0 : List object)
    (hobj : h0[obj]? = some f)
    (hargs : ∀ (j : Nat) (fp : f_param), f.f_params[j]? = some fp →
      ∃ arg y, sub[j]? = some arg ∧ h0[arg]? = some y ∧ y.type = fp.type)
    (rest : List f_param) :
    ∀ (done : List f_param) (k : Nat) (s : State) (cs : List object),
      f.f_params = done ++ rest → rest.length < k → s.heap = h0 ++ cs →
      ∃ cs2, bind_params env u obj sub k done.length s =
          .ok () { s with heap := s.heap ++ cs2, mem := bind_frame rest s.heap.length s.mem } ∧
        cs2.length = rest.length ∧
        ∀ (j : Nat) (fp : f_param), rest[j]? = some fp → ∃ arg y x,
          sub[done.length + j]? = some arg ∧
          h0[arg]? = some y ∧ cs2[j]? = some x ∧ copy_of x y ∧ x.type = fp.type := by
  induction rest with
  | nil =>
    intro done k s cs hps hk hheap
    obtain ⟨k, rfl⟩ : ∃ j, k = j + 1 := ⟨k - 1, by simp at hk; omega⟩
    refine ⟨[], ?_, rfl, fun j fp hj => by cases hj⟩
    have hs : s.heap[obj]? = some f := by
      rw [hheap, List.getElem?_append_left (getElem?_lt hobj)]; exact hobj
    have hnone : f.f_params[done.length]? = none := by
      rw [hps, List.append_nil]
      exact List.getElem?_eq_none (Nat.le_refl _)
    rw [bind_params, bind_ok (deref_ok hs)]
    simp only [hnone, List.append_nil, bind_frame]
    rfl
  | cons fp rest ih =>
    intro done k s cs hps hk hheap
    obtain ⟨k, rfl⟩ : ∃ j, k = j + 1 := ⟨k - 1, by simp at hk; omega⟩
    have hs : s.heap[obj]? = some f := by
      rw [hheap, List.getElem?_append_left (getElem?_lt hobj)]; exact hobj
    have hfp : f.f_params[done.length]? = some fp := by
      rw [hps, List.getElem?_append_right (Nat.le_refl _)]
      simp
    obtain ⟨arg, y, harg, hy, hty⟩ := hargs done.length fp hfp
    have hys : s.heap[arg]? = some y := by
      rw [hheap, List.getElem?_append_left (getElem?_lt hy)]; exact hy
    obtain ⟨x, hcopy, hturn⟩ :=
      bind_params_turn env hequal u obj sub k done.length s f fp arg y hs hfp harg hys
    have hxt : x.type = fp.type := hcopy.1.trans hty
    simp only [hxt, ne_eq, not_true_eq_false, if_false] at hturn
    obtain ⟨cs2, hrun, hlen, hcs⟩ := ih (done ++ [fp]) k
      { s with heap := s.heap ++ [x], mem := memory.add s.mem fp.symbol s.heap.length }
      (cs ++ [x]) (by rw [hps]; simp) (by simp at hk; omega)
      (by show s.heap ++ [x] = h0 ++ (cs ++ [x]); rw [hheap, List.append_assoc])
    rw [List.length_append, List.length_singleton] at hrun
    refine ⟨x :: cs2, ?_, by simp [hlen], ?_⟩
    · rw [hturn, hrun]
      simp only [List.length_append, List.length_singleton, List.append_assoc,
        List.singleton_append, bind_frame]
    · intro j fq hj
      cases j with
      | zero =>
        rw [List.getElem?_cons_zero] at hj
        injection hj with hj
        rw [← hj]
        exact ⟨arg, y, x, harg, hy, List.getElem?_cons_zero, hcopy, hxt⟩
      | succ j =>
        rw [List.getElem?_cons_succ] at hj
        obtain ⟨a2, y2, x2, k1, k2, k3, k4, k5⟩ := hcs j fq hj
        refine ⟨a2, y2, x2, ?_, k2, by rw [List.getElem?_cons_succ]; exact k3, k4, k5⟩
        rw [List.length_append, List.length_singleton] at k1
        rw [← k1]
        congr 1
        omega

/-- The loop that binds the parameters, when the argument of some parameter
has not the declared type and those before it have: the loop fails with the
type error at the line of that argument. -/
theorem bind_params_mismatch (env : Env)
    (hequal : ∀ (h : List object) (a b : Nat) (y : object),
      h[a]? = some (env.construct .o_none) → h[b]? = some y →
      ∃ x, env.method "equal" h a [b] = .ok (h.set a x, a) ∧ copy_of x y)
    (u : ast_node) (obj : Nat) (sub : List Nat) (f : object) (h0 : List object)
    (hobj : h0[obj]? = some f) (rest : List f_param) :
    ∀ (done : List f_param) (k : Nat) (s : State) (cs : List object) (i : Nat)
      (c : ast_node) (arg : Nat) (y : object) (fp : f_param),
      f.f_params = done ++ rest → rest.length < k → s.heap = h0 ++ cs →
      rest[i]? = some fp → sub[done.length + i]? = some arg → h0[arg]? = some y →
      y.type ≠ fp.type → u.children[done.length + i]? = some c →
      (∀ (j : Nat) (fq : f_param), j < i → rest[j]? = some fq →
        ∃ a2 y2, sub[done.length + j]? = some a2 ∧ h0[a2]? = some y2 ∧ y2.type = fq.type) →
      ∃ s2, bind_params env u obj sub k done.length s =
        .fail (.err "parameter types don't match" (some c.val.line)) s2 := by
  induction rest with
  | nil => intro done k s cs i c arg y fp _ _ _ hi; cases hi
  | cons fq rest ih =>
    intro done k s cs i c arg y fp hps hk hheap hi harg hy hne hc hbefore
    obtain ⟨k, rfl⟩ : ∃ j, k = j + 1 := ⟨k - 1, by simp at hk; omega⟩
    have hs : s.heap[obj]? = some f := by
      rw [hheap, List.getElem?_append_left (getElem?_lt hobj)]; exact hobj
    have hfq : f.f_params[done.length]? = some fq := by
      rw [hps, List.getElem?_append_right (Nat.le_refl _)]
      simp
    cases i with
    | zero =>
      rw [List.getElem?_cons_zero] at hi
      rw [Nat.add_zero] at harg hc
      injection hi with hi
      rw [hi] at hfq
      have hys : s.heap[arg]? = some y := by
        rw [hheap, List.getElem?_append_left (getElem?_lt hy)]; exact hy
      obtain ⟨x, hcopy, hturn⟩ :=
        bind_params_turn env hequal u obj sub k done.length s f fp arg y hs hfq harg hys
      have hxt : x.type ≠ fp.type := by rw [hcopy.1]; exact hne
      simp only [hxt, ne_eq, not_false_eq_true, if_true] at hturn
      rw [bind_ok (child_ok hc _)] at hturn
      exact ⟨_, hturn⟩
    | succ i =>
      rw [List.getElem?_cons_succ] at hi
      obtain ⟨a2, y2, k1, k2, k3⟩ := hbefore 0 fq (by omega) (List.getElem?_cons_zero)
      have hys : s.heap[a2]? = some y2 := by
        rw [hheap, List.getElem?_append_left (getElem?_lt k2)]; exact k2
      obtain ⟨x, hcopy, hturn⟩ :=
        bind_params_turn env hequal u obj sub k done.length s f fq a2 y2 hs hfq k1 hys
      have hxt : x.type = fq.type := hcopy.1.trans k3
      simp only [hxt, ne_eq, not_true_eq_false, if_false] at hturn
      have hidx : (done ++ [fq]).length + i = done.length + (i + 1) := by
        rw [List.length_append, List.length_singleton]; omega
      obtain ⟨s2, hrun⟩ := ih (done ++ [fq]) k
        { s with heap := s.heap ++ [x], mem := memory.add s.mem fq.symbol s.heap.length }
        (cs ++ [x]) i c arg y fp (by rw [hps]; simp) (by simp at hk; omega)
        (by show s.heap ++ [x] = h0 ++ (cs ++ [x]); rw [hheap, List.append_assoc])
        hi (by rw [hidx]; exact harg) hy hne (by rw [hidx]; exact hc)
        (fun j fr hj hr => by
          obtain ⟨a3, y3, m1, m2, m3⟩ := hbefore (j + 1) fr (by omega)
            (by rw [List.getElem?_cons_succ]; exact hr)
          refine ⟨a3, y3, ?_, m2, m3⟩
          rw [← m1]
          congr 1
          rw [List.length_append, List.length_singleton]; omega)
      rw [List.length_append, List.length_singleton] at hrun
      exact ⟨s2, hturn.trans hrun⟩

/-- A symbol node runs the symbol branch. -/
theorem run_symbol_node (env : Env) (n : Nat) (u : ast_node) (s : State)
    (hf : s.flagged = false) (hv : env.vars u.val.val = false)
    (hctl : env.control u.val.val = false) (ht : u.val.type = .t_symbol) :
    run env (n + 1) u s = run_symbol env (run env n) n u s := by
  rw [run_succ]
  unfold step
  rw [bind_ok (get_apply s)]
  simp only [hf, hv, hctl, ht, Bool.false_eq_true, if_false, if_true, reduceCtorEq]

/-- The call part once the parameters are bound: the activation over the
body, then the return to the caller. -/
theorem call_body_run (env : Env) (rec : ast_node → M Nat) (k : Nat) (u body : ast_node)
    (obj : Nat) (sub : List Nat) (s1 s2 : State) (f : object)
    (hbind : bind_params env u obj sub k 0 { s1 with mem := memory.push s1.mem } = .ok () s2)
    (hobj : s2.heap[obj]? = some f) (hbody : f.f_body = some body) :
    call_body env rec k u obj sub s1 =
      (init_with rec body obj >>= return_to s2) { s2 with return_val := none } := by
  unfold call_body
  rw [bind_ok (modify_apply _ s1), bind_ok hbind, bind_ok (deref_ok hobj)]
  simp only [hbody]
  rw [bind_ok (get_apply s2), bind_ok (modify_apply _ s2)]
  rfl

/-- The call part when the binding of the parameters fails: the failure is
that of the binding, whatever the evaluator of the body. -/
theorem call_body_fail (env : Env) (rec : ast_node → M Nat) (k : Nat) (u : ast_node)
    (obj : Nat) (sub : List Nat) (s1 s2 : State) (e : Failure)
    (hbind : bind_params env u obj sub k 0 { s1 with mem := memory.push s1.mem } =
      .fail e s2) :
    call_body env rec k u obj sub s1 = .fail e s2 := by
  unfold call_body
  rw [bind_ok (modify_apply _ s1), bind_fail hbind]

theorem Sample.equal_fresh (h : List object) (a b : Nat) (y : object)
    (ha : h[a]? = some (Sample.env.construct .o_none)) (hb : h[b]? = some y) :
    ∃ x, Sample.env.method "equal" h a [b] = .ok (h.set a x, a) ∧ copy_of x y := by
  show ∃ x, Sample.method "equal" h a [b] = .ok (h.set a x, a) ∧ copy_of x y
  unfold Sample.method
  rw [ha]
  simp only [String.reduceEq, if_false, if_true, hb]
  by_cases hty : (Sample.env.construct .o_none).type = y.type
  · rw [if_pos hty]
    exact ⟨_, rfl, hty, rfl⟩
  · rw [if_neg hty, if_pos (show (Sample.env.construct .o_none).type = .o_none from rfl)]
    exact ⟨y, rfl, rfl, rfl⟩

/-- C16: a symbol bound to a function with as many parameters as the node has
children, evaluated while no flag is set, first evaluates all arguments, in
the scope of the caller, and then runs the call part.  When every argument
has the type its parameter declares, the call part pushes a frame and binds
each parameter name in it to a new object, a copy of the argument, the
objects of the caller staying as they are; the result of the node is then
the result of `init` over the body of the function in that state, followed by
the return to the caller.  When some argument has not the declared type (and
those before it have), the node fails with the type error at the line of that
argument, whatever the evaluator of the body: the body is not run. -/
theorem call_binds_copies (env : Env) (n : Nat) (u : ast_node) (s s1 : State) (obj : Nat)
    (f : object) (sub : List Nat)
    (hequal : ∀ (h : List object) (a b : Nat) (y : object),
      h[a]? = some (env.construct .o_none) → h[b]? = some y →
      ∃ x, env.method "equal" h a [b] = .ok (h.set a x, a) ∧ copy_of x y)
    (hf : s.flagged = false) (hv : env.vars u.val.val = false)
    (hctl : env.control u.val.val = false) (ht : u.val.type = .t_symbol)
    (hget : memory.get s.mem u.val.val = some obj) (hobj : s.heap[obj]? = some f)
    (hfn : f.type = .o_fn) (har : f.f_params.length = u.children.length)
    (hfuel : f.f_params.length < n)
    (hsub : run_children (run env n) u.children s = .ok sub s1)
    (hobj1 : s1.heap[obj]? = some f) :
    run env (n + 1) u s = call_body env (run env n) n u obj sub s1 ∧
    ((∀ (j : Nat) (fp : f_param), f.f_params[j]? = some fp →
        ∃ arg y, sub[j]? = some arg ∧ s1.heap[arg]? = some y ∧ y.type = fp.type) →
      ∃ cs, cs.length = f.f_params.length ∧
        (∀ (j : Nat) (fp : f_param), f.f_params[j]? = some fp → ∃ arg y x,
          sub[j]? = some arg ∧ s1.heap[arg]? = some y ∧ cs[j]? = some x ∧ copy_of x y ∧
            x.type = fp.type) ∧
        bind_params env u obj sub n 0 { s1 with mem := memory.push s1.mem } =
          .ok () { s1 with
            heap := s1.heap ++ cs
            mem := bind_frame f.f_params s1.heap.length (memory.push s1.mem) } ∧
        ∀ body, f.f_body = some body →
          run env (n + 1) u s =
            (init env n body obj >>= return_to { s1 with
                heap := s1.heap ++ cs
                mem := bind_frame f.f_params s1.heap.length (memory.push s1.mem) })
              { s1 with
                heap := s1.heap ++ cs
                mem := bind_frame f.f_params s1.heap.length (memory.push s1.mem)
                return_val := none }) ∧
    (∀ (i : Nat) (c : ast_node) (arg : Nat) (y : object) (fp : f_param),
      f.f_params[i]? = some fp → sub[i]? = some arg → s1.heap[arg]? = some y →
      y.type ≠ fp.type → u.children[i]? = some c →
      (∀ (j : Nat) (fq : f_param), j < i → f.f_params[j]? = some fq →
        ∃ a2 y2, sub[j]? = some a2 ∧ s1.heap[a2]? = some y2 ∧ y2.type = fq.type) →
      ∃ s2, run env (n + 1) u s =
          .fail (.err "parameter types don't match" (some c.val.line)) s2 ∧
        ∀ rec, call_body env rec n u obj sub s1 =
          .fail (.err "parameter types don't match" (some c.val.line)) s2) := by
  have key : run env (n + 1) u s = call_body env (run env n) n u obj sub s1 := by
    rw [run_symbol_node env n u s hf hv hctl ht,
      run_symbol_call env (run env n) n u s obj f hget hobj hfn har, bind_ok hsub]
  refine ⟨key, fun hargs => ?_, fun i c arg y fp hfp harg hy hne hc hbefore => ?_⟩
  · obtain ⟨cs, hrun, hlen, hcs⟩ :=
      bind_params_copies env hequal u obj sub f s1.heap hobj1 hargs f.f_params [] n
        { s1 with mem := memory.push s1.mem } [] rfl hfuel (List.append_nil _).symm
    refine ⟨cs, hlen, fun j fp hj => ?_, hrun, fun body hbody => ?_⟩
    · obtain ⟨a2, y2, x2, k1, k2, k3, k4, k5⟩ := hcs j fp hj
      refine ⟨a2, y2, x2, ?_, k2, k3, k4, k5⟩
      rw [← k1]
      congr 1
      simp
    · rw [key]
      exact call_body_run env (run env n) n u body obj sub s1 _ f hrun
        (by
          show (s1.heap ++ cs)[obj]? = some f
          rw [List.getElem?_append_left (getElem?_lt hobj1)]
          exact hobj1) hbody
  · obtain ⟨s2, hrun⟩ :=
      bind_params_mismatch env hequal u obj sub f s1.heap hobj1 f.f_params [] n
        { s1 with mem := memory.push s1.mem } [] i c arg y fp rfl hfuel
        (List.append_nil _).symm hfp
        (by rw [List.length_nil, Nat.zero_add]; exact harg) hy hne
        (by rw [List.length_nil, Nat.zero_add]; exact hc)
        (fun j fq hj hfq => by
          obtain ⟨a2, y2, m1, m2, m3⟩ := hbefore j fq hj hfq
          exact ⟨a2, y2, by rw [List.length_nil, Nat.zero_add]; exact m1, m2, m3⟩)
    exact ⟨s2, key.trans (call_body_fail env (run env n) n u obj sub s1 s2 _ hrun),
      fun rec => call_body_fail env rec n u obj sub s1 s2 _ hrun⟩

set_option maxHeartbeats 1000000 in
/-- Witness of C16: the call `f(5)` evaluates `5` in the scope of the caller
and then runs the call part on its value; the call `f(x)` with `x` a string,
where `f` declares a number, fails with the type error. -/
theorem call_binds_copies_witness :
    run Sample.env 4 Sample.call_f Sample.state_bound =
      call_body Sample.env (run Sample.env 3) 3 Sample.call_f 1 [3]
        (Sample.args_f.state Sample.state_bound) ∧
    ∃ s2, run Sample.env 4 Sample.call_fx Sample.state_text =
        .fail (.err "parameter types don't match" (some 1)) s2 ∧
      ∀ rec, call_body Sample.env rec 3 Sample.call_fx 1 [2] Sample.state_text =
        .fail (.err "parameter types don't match" (some 1)) s2 :=
  ⟨(call_binds_copies Sample.env 3 Sample.call_f Sample.state_bound
      (Sample.args_f.state Sample.state_bound) 1
      { type := .o_fn, store := .mono, f_params := [{ type := .o_num, symbol := "a" }],
        f_body := some (Sample.group []), f_return := .o_none } [3]
      Sample.equal_fresh rfl rfl rfl rfl rfl rfl rfl rfl (by decide)
      (Res.eq_ok_of_result Sample.args_f [3] Sample.state_bound (by decide!)) rfl).1,
    (call_binds_copies Sample.env 3 Sample.call_fx Sample.state_text Sample.state_text 1
      { type := .o_fn, store := .mono, f_params := [{ type := .o_num, symbol := "a" }],
        f_body := some (Sample.group []), f_return := .o_none } [2]
      Sample.equal_fresh rfl rfl rfl rfl rfl rfl rfl rfl (by decide) rfl rfl).2.2
      0 (Sample.sym "x") 2 { Sample.construct .o_str with store := .s "a" }
      { type := .o_num, symbol := "a" } rfl rfl rfl (by decide) rfl
      (fun j _ hj => absurd hj (Nat.not_lt_zero j))⟩

/-! ## A `for` loop whose body returns -/

theorem M.bind_assoc {α β γ : Type} (x : M α) (f : α → M β) (g : β → M γ) :
    (x >>= f) >>= g = x >>= fun a => f a >>= g := by
  funext s
  simp only [bind_apply]
  cases x s <;> rfl

theorem M.ite_bind {α β : Type} (c : Prop) [Decidable c] (x y : M α) (g : α → M β) :
    (if c then x else y) >>= g = if c then x >>= g else y >>= g := by
  split <;> rfl

theorem M.pure_bind {α β : Type} (a : α) (g : α → M β) : (pure a : M α) >>= g = g a := rfl

theorem M.bind_pure_unit (x : M Unit) : (x >>= fun _ => (pure () : M Unit)) = x := by
  funext s
  simp only [bind_apply]
  cases x s <;> rfl

/-- The loop is its first `j` turns followed, when it goes on, by the loop
itself. -/
theorem for_loop_turns (env : Env) (rec : ast_node → M Nat) (u : ast_node)
    (it end_ every k : Nat) :
    ∀ (j : Nat), for_loop env rec u it end_ every (j + (k + 1)) =
      (for_turns env rec u it end_ every j >>= fun go =>
        if go then for_loop env rec u it end_ every (k + 1) else pure ()) := by
  intro j
  induction j with
  | zero =>
    rw [Nat.zero_add, for_turns, M.pure_bind]
    rfl
  | succ j ih =>
    rw [show j + 1 + (k + 1) = (j + (k + 1)) + 1 by omega, for_loop, for_turns, ih]
    simp only [M.bind_assoc, M.ite_bind, M.pure_bind, Bool.false_eq_true, if_false,
      M.bind_pure_unit]

theorem bind_congr_apply {α β : Type} {x : M α} {f g : α → M β} {s : State}
    (h : ∀ a s1, x s = .ok a s1 → f a s1 = g a s1) : (x >>= f) s = (x >>= g) s := by
  rw [bind_apply, bind_apply]
  cases hx : x s with
  | ok a s1 => exact h a s1 hx
  | fail e s1 => rfl
  | out_of_fuel => rfl

theorem flagged_of_return (s : State) (h : s.has_return = true) : s.flagged = true := by
  unfold State.flagged
  rw [h]
  rfl

theorem clear_continue_return (s : State) : (clear_continue s).has_return = s.has_return := by
  unfold clear_continue
  split <;> rfl

/-- While the return flag is set, the loop with the body evaluated by `run`
is the loop with the body replaced by `idle`: every run of the body only
builds a vacant object. -/
theorem for_loop_idle (env : Env) (n : Nat) (u : ast_node) (it end_ every : Nat) :
    ∀ (k : Nat) (s : State), s.has_return = true →
      for_loop env (run env (n + 1)) u it end_ every k s =
        for_loop env (idle env) u it end_ every k s := by
  intro k
  induction k with
  | zero => intro s _; rfl
  | succ k ih =>
    intro s hr
    rw [for_loop, for_loop]
    refine bind_congr_apply (fun lt s1 h1 => ?_)
    have hr1 : s1.has_return = true := by
      rw [(steady_call env _ _ _ s lt s1 h1).2.1]; exact hr
    refine bind_congr_apply (fun b s2 h2 => ?_)
    have e2 : s2 = s1 := get_bool_state_eq h2
    cases b with
    | false => rfl
    | true =>
      simp only [if_true]
      refine bind_congr_apply (fun bd s3 h3 => ?_)
      have e3 : s3 = s1 := (child_state h3).trans e2
      have hr3 : s3.has_return = true := by rw [e3]; exact hr1
      have hrun : run env (n + 1) bd s3 =
          .ok s3.heap.length { s3 with heap := s3.heap ++ [env.construct .o_none] } := by
        rw [run_flagged env n bd s3 (flagged_of_return s3 hr3), new_object_apply]
      have hidle : idle env bd s3 =
          .ok s3.heap.length { s3 with heap := s3.heap ++ [env.construct .o_none] } := rfl
      rw [bind_ok hrun, bind_ok hidle, bind_ok (modify_apply _ _), bind_ok (modify_apply _ _),
        bind_ok (get_apply _), bind_ok (get_apply _)]
      split
      · rfl
      · refine bind_congr_apply (fun a s5 h5 => ?_)
        refine ih s5 ?_
        rw [(steady_call env _ _ _ _ a s5 h5).2.1, clear_continue_return]
        exact hr3

/-- The `for` branch in three parts: the setup of the bounds, the loop, and
the removal of the loop variable. -/
theorem run_for_parts (env : Env) (hm : NumModel env) (rec : ast_node → M Nat) (k : Nat)
    (u of_node lhs rhs body : ast_node) (s : State)
    (hch : u.children = [of_node, body]) (hof : of_node.val.val = "of")
    (hoch : of_node.children = [lhs, rhs]) (hsym : lhs.val.type = .t_symbol)
    (hrange : rhs.val.val = "range") (hfree : memory.has s.mem lhs.val.val = false) :
    run_for env rec k u s =
      (range_setup env rec rhs s.heap.length (s.heap.length + 1) (s.heap.length + 2)
          (s.heap.length + 3) >>= fun _ =>
        for_loop env rec u s.heap.length (s.heap.length + 2) (s.heap.length + 3) k >>= fun _ =>
        M.modify (fun s => { s with mem := memory.remove s.mem lhs.val.val }))
        (for_entry env lhs.val.val s) := by
  rw [run_for_setup env hm rec k u of_node lhs rhs body s hch hof hoch hsym hrange hfree]
  unfold range_setup
  simp only [M.bind_assoc, M.ite_bind, M.pure_bind]
  refine bind_congr_apply (fun sub sd _ => ?_)
  split
  · rfl
  · rfl

theorem heap_only_refl (s : State) : heap_only s s := ⟨rfl, rfl, rfl, rfl, rfl, rfl, rfl⟩

theorem heap_only_trans {s s1 s2 : State} (h1 : heap_only s s1) (h2 : heap_only s1 s2) :
    heap_only s s2 :=
  ⟨h2.1.trans h1.1, h2.2.1.trans h1.2.1, h2.2.2.1.trans h1.2.2.1,
    h2.2.2.2.1.trans h1.2.2.2.1, h2.2.2.2.2.1.trans h1.2.2.2.2.1,
    h2.2.2.2.2.2.1.trans h1.2.2.2.2.2.1, h2.2.2.2.2.2.2.trans h1.2.2.2.2.2.2⟩

/-- The loop whose body is idle ends: the loop variable is advanced by the
step until it is no longer less than the end; nothing but the heap changes,
and in the heap only the loop variable and new objects.  The values stay
within `exact_bound`. -/
theorem idle_loop_ends (env : Env) (hm : NumModel env) (u body : ast_node)
    (it end_ every : Nat) (e st : Int) (hb : u.children[1]? = some body) (hst : 1 ≤ st)
    (h1 : it ≠ end_) (h2 : it ≠ every) (helo : -exact_bound ≤ e) (hstb : st ≤ exact_bound)
    (hsum : e + st ≤ exact_bound) :
    ∀ (d : Nat) (v : Int) (s : State), (e - v).toNat ≤ d →
      -exact_bound ≤ v → v ≤ exact_bound →
      has_num s.heap it .o_num v → has_num s.heap end_ .o_num e →
      has_num s.heap every .o_num st → s.has_continue = false → s.has_break = false →
      ∀ k, d + 1 ≤ k → ∃ s1 v1,
        for_loop env (idle env) u it end_ every k s = .ok () s1 ∧ heap_only s s1 ∧
        (∀ p, p < s.heap.length → p ≠ it → s1.heap[p]? = s.heap[p]?) ∧
        e ≤ v1 ∧ has_num s1.heap it .o_num v1 := by
  have test : ∀ (v : Int) (s : State), -exact_bound ≤ v → v ≤ exact_bound →
      has_num s.heap it .o_num v → has_num s.heap end_ .o_num e → ∃ o,
        call env "less_than" it [end_] s = .ok s.heap.length { s with heap := s.heap ++ [o] } ∧
        get_bool s.heap.length { s with heap := s.heap ++ [o] } =
          .ok (decide (v < e)) { s with heap := s.heap ++ [o] } := by
    rintro v s hv1 hv2 ⟨x, hx1, _, hx3⟩ ⟨y, hy1, _, hy3⟩
    obtain ⟨o, ho1, ho2⟩ := hm.less_than_num s.heap _ _ x y v e hx1 hy1 hx3 hy3 hv1 hv2 helo
      (by omega)
    refine ⟨o, ?_, ?_⟩
    · unfold call
      rw [ho1]
    · apply get_bool_ok (o := o)
      · simp
      · rw [ho2]
  have base : ∀ (v : Int) (s : State), e ≤ v → -exact_bound ≤ v → v ≤ exact_bound →
      has_num s.heap it .o_num v →
      has_num s.heap end_ .o_num e → ∀ k, 1 ≤ k → ∃ s1 v1,
        for_loop env (idle env) u it end_ every k s = .ok () s1 ∧ heap_only s s1 ∧
        (∀ p, p < s.heap.length → p ≠ it → s1.heap[p]? = s.heap[p]?) ∧
        e ≤ v1 ∧ has_num s1.heap it .o_num v1 := by
    intro v s hle hv1 hv2 hi he k hk
    obtain ⟨k, rfl⟩ : ∃ k0, k = k0 + 1 := ⟨k - 1, by omega⟩
    obtain ⟨o, hc, hg⟩ := test v s hv1 hv2 hi he
    have hd : decide (v < e) = false := by simp [Int.not_lt.mpr hle]
    rw [hd] at hg
    refine ⟨{ s with heap := s.heap ++ [o] }, v, ?_, heap_only_refl s, ?_, hle,
      has_num_append hi _⟩
    · rw [for_loop, bind_ok hc, bind_ok hg]
      rfl
    · intro p hp _
      exact List.getElem?_append_left hp
  intro d
  induction d with
  | zero =>
    intro v s hd hv1 hv2 hi he _ _ _ k hk
    exact base v s (by omega) hv1 hv2 hi he k hk
  | succ d ih =>
    intro v s hd hv1 hv2 hi he hev hcont hbrk k hk
    by_cases hve : v < e
    · obtain ⟨k, rfl⟩ : ∃ k0, k = k0 + 1 := ⟨k - 1, by omega⟩
      obtain ⟨o, hc, hg⟩ := test v s hv1 hv2 hi he
      have hdec : decide (v < e) = true := by simp [hve]
      rw [hdec] at hg
      obtain ⟨x, hx1, hx2, hx3⟩ := hi
      obtain ⟨z, hz1, hz2, hz3⟩ := hev
      have hxlt : it < s.heap.length := getElem?_lt hx1
      have hzlt : every < s.heap.length := getElem?_lt hz1
      have hx1b : (s.heap ++ [o] ++ [env.construct .o_none])[it]? = some x := by
        rw [List.getElem?_append_left (by simp; omega), List.getElem?_append_left hxlt]
        exact hx1
      have hz1b : (s.heap ++ [o] ++ [env.construct .o_none])[every]? = some z := by
        rw [List.getElem?_append_left (by simp; omega), List.getElem?_append_left hzlt]
        exact hz1
      have hadd : call env "add_equal" it [every]
          { s with heap := s.heap ++ [o] ++ [env.construct .o_none] } =
          .ok it { s with heap := ((s.heap ++ [o] ++ [env.construct .o_none]).set it
            ({ x with store := .d ((v + st : Int) : Rat) } : object)) } := by
        unfold call
        simp only [hm.add_equal_num _ _ _ x z v st hx1b hz1b hx3 hz3 hv1 hv2 (by omega) hstb
          (by omega) (by omega)]
      have hi2 : has_num ((s.heap ++ [o] ++ [env.construct .o_none]).set it
          { x with store := .d ((v + st : Int) : Rat) }) it .o_num ((v + st : Int) : Rat) :=
        has_num_set_self _ hx1b hx2
      obtain ⟨s1, v1, hrun, hho, hpre, hle, hfin⟩ := ih (v + st)
        { s with heap := ((s.heap ++ [o] ++ [env.construct .o_none]).set it
          ({ x with store := .d ((v + st : Int) : Rat) } : object)) }
        (by omega) (by omega) (by omega) hi2
        (has_num_set_ne (has_num_append (has_num_append he _) _) h1 _)
        (has_num_set_ne (has_num_append (has_num_append ⟨z, hz1, hz2, hz3⟩ _) _) h2 _)
        hcont hbrk k (by omega)
      refine ⟨s1, v1, ?_, hho, ?_, hle, hfin⟩
      · have hcc : clear_continue { s with heap := s.heap ++ [o] ++ [env.construct .o_none] } =
            { s with heap := s.heap ++ [o] ++ [env.construct .o_none] } := by
          unfold clear_continue
          simp only [hcont, Bool.false_eq_true, if_false]
        have hidle : idle env body { s with heap := s.heap ++ [o] } =
            .ok (s.heap ++ [o]).length
              { s with heap := s.heap ++ [o] ++ [env.construct .o_none] } := rfl
        rw [for_loop, bind_ok hc, bind_ok hg]
        simp only [if_true]
        rw [bind_ok (child_ok hb _), bind_ok hidle, bind_ok (modify_apply _ _), hcc,
          bind_ok (get_apply _)]
        split
        · rename_i hbb
          exact absurd hbb (by simp [hbrk])
        · rw [bind_ok hadd]
          exact hrun
      · intro p hp hpi
        rw [hpre p (by simp; omega) hpi]
        show ((s.heap ++ [o] ++ [env.construct .o_none]).set it _)[p]? = s.heap[p]?
        rw [List.getElem?_set_ne (Ne.symm hpi), List.getElem?_append_left (by simp; omega),
          List.getElem?_append_left hp]
    · exact base v s (by omega) hv1 hv2
        ⟨_, hi.choose_spec.1, hi.choose_spec.2.1, hi.choose_spec.2.2⟩ he k (by omega)

theorem clear_continue_heap_only (s : State) :
    (clear_continue s).heap = s.heap ∧ (clear_continue s).mem = s.mem ∧
    (clear_continue s).input = s.input ∧ (clear_continue s).output = s.output ∧
    (clear_continue s).return_val = s.return_val := by
  unfold clear_continue
  split <;> exact ⟨rfl, rfl, rfl, rfl, rfl⟩

theorem get_bool_of_view {a : Nat} {s : State} {v : Bool}
    (h : (s.heap[a]?).map (·.store) = some (.b v)) : get_bool a s = .ok v s := by
  cases ho : s.heap[a]? with
  | none => rw [ho] at h; cases h
  | some o =>
    rw [ho] at h
    simp only [Option.map_some', Option.some.injEq] at h
    exact get_bool_ok ho h

/-- C21 (as amended): a node `for x of range(...)` whose setup succeeds, with
step at least one, and whose body, in the turn after `j` turns, ends with the
return flag set and the break flag not set; the loop variable after that
turn, the end, the step, and the sums of the step with the loop variable and
with the end are whole numbers within `exact_bound` (2^53) in magnitude, the
range in which the value model (`NumModel`) is asked to add exactly.  From
that turn on every run of
the body is idle: the loop is the loop with the body replaced by `idle`,
which only builds a vacant object.  With enough fuel the loop ends and the
node yields its vacant object; the loop variable has been advanced to a value
that is not less than the end, and is then removed from the current frame;
the return flag is still set, the return slot is the one the body left and
holds the object the body left; scope, output and input are as the body left
them.  In the returning turn itself, when the body is a group, no child after
the one that left the flag set is evaluated. -/
theorem for_return_idles (env : Env) (hm : NumModel env) (n j : Nat)
    (u of_node lhs rhs body : ast_node) (s s0 t t1 t3 : State) (lt r rv : Nat) (v e st : Int)
    (hf : s.flagged = false) (htext : u.val.val = "for") (hv : env.vars "for" = false)
    (hg : u.val.type ≠ .t_group) (hc : env.control "for" = true)
    (hch : u.children = [of_node, body]) (hof : of_node.val.val = "of")
    (hoch : of_node.children = [lhs, rhs]) (hsym : lhs.val.type = .t_symbol)
    (hrange : rhs.val.val = "range") (hfree : memory.has s.mem lhs.val.val = false)
    (hsetup : range_setup env (run env n) rhs s.heap.length (s.heap.length + 1)
      (s.heap.length + 2) (s.heap.length + 3) (for_entry env lhs.val.val s) = .ok () s0)
    (hturns : for_turns env (run env n) u s.heap.length (s.heap.length + 2)
      (s.heap.length + 3) j s0 = .ok true t)
    (hlt : call env "less_than" s.heap.length [s.heap.length + 2] t = .ok lt t1)
    (htrue : get_bool lt t1 = .ok true t1)
    (hbody : run env n body t1 = .ok r t3)
    (hret : t3.has_return = true) (hnb : t3.has_break = false)
    (hrv : t3.return_val = some rv) (hrvlt : rv < t3.heap.length) (hne : rv ≠ s.heap.length)
    (hit : has_num t3.heap s.heap.length .o_num v)
    (hend : has_num t3.heap (s.heap.length + 2) .o_num e)
    (hevery : has_num t3.heap (s.heap.length + 3) .o_num st) (hst : 1 ≤ st)
    (hvlo : -exact_bound ≤ v) (hvhi : v + st ≤ exact_bound) (helo : -exact_bound ≤ e)
    (hstb : st ≤ exact_bound) (hsum : e + st ≤ exact_bound)
    (hfuel : j + (e - v).toNat + 3 ≤ n) :
    (∀ (m : Nat) (pre post : List ast_node) (r0 : Option ast_node × List Nat) (q : State),
      t1.flagged = false → env.vars body.val.val = false → body.val.type = .t_group →
      body.children = pre ++ post → group_turns (run env m) none [] pre t1 = .ok r0 q →
      q.flagged = true → run env (m + 1) body t1 = new_object env .o_none q) ∧
    (∀ k, for_loop env (run env n) u s.heap.length (s.heap.length + 2) (s.heap.length + 3)
        (k + 1) t =
      (call env "add_equal" s.heap.length [s.heap.length + 3] >>= fun _ =>
        for_loop env (idle env) u s.heap.length (s.heap.length + 2) (s.heap.length + 3) k)
        (clear_continue t3)) ∧
    ∃ (s1 : State) (v1 : Int),
      for_loop env (run env n) u s.heap.length (s.heap.length + 2) (s.heap.length + 3) n s0 =
        .ok () s1 ∧
      run env (n + 1) u s = .ok s1.heap.length
        { s1 with
          mem := memory.remove s1.mem lhs.val.val
          heap := s1.heap ++ [env.construct .o_none] } ∧
      (memory.remove s1.mem lhs.val.val).head?.bind (fun f => f.lookup lhs.val.val) = none ∧
      s1.has_return = true ∧ s1.has_continue = false ∧ s1.has_break = false ∧
      s1.return_val = some rv ∧ s1.heap[rv]? = t3.heap[rv]? ∧
      s1.mem = t3.mem ∧ s1.output = t3.output ∧ s1.input = t3.input ∧
      e ≤ v1 ∧ has_num s1.heap s.heap.length .o_num v1 := by
  obtain ⟨m, rfl⟩ : ∃ m, n = m + 1 := ⟨n - 1, by omega⟩
  have hb : u.children[1]? = some body := by simp [hch]
  obtain ⟨c1, c2, c3, c4, c5⟩ := clear_continue_heap_only t3
  have hcr : (clear_continue t3).has_return = true := by
    rw [clear_continue_return]; exact hret
  have hcb : (clear_continue t3).has_break = false := by
    rw [clear_continue_break]; exact hnb
  -- the returning turn
  have turn : ∀ (rec2 : ast_node → M Nat) k,
      (∀ (a : Nat) (s5 : State), s5.has_return = true →
        for_loop env (run env (m + 1)) u s.heap.length (s.heap.length + 2) (s.heap.length + 3)
          k s5 = for_loop env rec2 u s.heap.length (s.heap.length + 2) (s.heap.length + 3) k s5) →
      for_loop env (run env (m + 1)) u s.heap.length (s.heap.length + 2) (s.heap.length + 3)
        (k + 1) t =
      (call env "add_equal" s.heap.length [s.heap.length + 3] >>= fun _ =>
        for_loop env rec2 u s.heap.length (s.heap.length + 2) (s.heap.length + 3) k)
        (clear_continue t3) := by
    intro rec2 k hcongr
    rw [for_loop, bind_ok hlt, bind_ok htrue]
    simp only [if_true]
    rw [bind_ok (child_ok hb t1), bind_ok hbody, bind_ok (modify_apply _ _),
      bind_ok (get_apply _)]
    split
    · rename_i hbb
      rw [hcb] at hbb
      cases hbb
    · refine bind_congr_apply (fun a s5 h5 => hcongr a s5 ?_)
      rw [(steady_call env _ _ _ _ a s5 h5).2.1]
      exact hcr
  have turn_idle := fun k => turn (idle env) k
    (fun _ s5 h5 => for_loop_idle env m u _ _ _ k s5 h5)
  -- the step after the returning turn
  obtain ⟨x, hx1, hx2, hx3⟩ := hit
  obtain ⟨z, hz1, hz2, hz3⟩ := hevery
  have hadd : call env "add_equal" s.heap.length [s.heap.length + 3] (clear_continue t3) =
      .ok s.heap.length { clear_continue t3 with heap := (t3.heap.set s.heap.length
        ({ x with store := .d ((v + st : Int) : Rat) } : object)) } := by
    unfold call
    rw [c1]
    simp only [hm.add_equal_num _ _ _ x z v st hx1 hz1 hx3 hz3 hvlo (by omega) (by omega) hstb
      (by omega) hvhi]
  have hi2 : has_num (t3.heap.set s.heap.length
      ({ x with store := .d ((v + st : Int) : Rat) } : object)) s.heap.length .o_num
      ((v + st : Int) : Rat) :=
    has_num_set_self _ hx1 hx2
  have hcc : (clear_continue t3).has_continue = false := clear_continue_cleared t3
  obtain ⟨k, hk⟩ : ∃ k, m + 1 = j + (k + 1) := ⟨m - j, by omega⟩
  obtain ⟨s1, v1, hrun, hho, hpre, hle, hfin⟩ :=
    idle_loop_ends env hm u body s.heap.length (s.heap.length + 2) (s.heap.length + 3) e st hb
      hst (by omega) (by omega) helo hstb hsum (e - (v + st)).toNat (v + st)
      { clear_continue t3 with heap := (t3.heap.set s.heap.length
        ({ x with store := .d ((v + st : Int) : Rat) } : object)) }
      (Nat.le_refl _) (by omega) hvhi hi2 (has_num_set_ne hend (by omega) _)
      (has_num_set_ne ⟨z, hz1, hz2, hz3⟩ (by omega) _) hcc hcb k (by omega)
  have hloop : for_loop env (run env (m + 1)) u s.heap.length (s.heap.length + 2)
      (s.heap.length + 3) (m + 1) s0 = .ok () s1 := by
    have hsplit : for_loop env (run env (m + 1)) u s.heap.length (s.heap.length + 2)
        (s.heap.length + 3) (m + 1) s0 =
        for_loop env (run env (m + 1)) u s.heap.length (s.heap.length + 2)
          (s.heap.length + 3) (j + (k + 1)) s0 := by
      rw [← hk]
    rw [hsplit, for_loop_turns env (run env (m + 1)) u _ _ _ k j, bind_ok hturns]
    simp only [if_true]
    rw [turn_idle k, bind_ok hadd]
    exact hrun
  obtain ⟨g1, g2, g3, g4, g5, g6, g7⟩ := hho
  refine ⟨?_, turn_idle, s1, v1, hloop, ?_, memory.remove_unbinds _ _, ?_, ?_, ?_, ?_, ?_, ?_,
    ?_, ?_, hle, hfin⟩
  · intro m2 pre post r0 q hf1 hbv hbt hbc hpre2 hq
    rw [run_group_loop env m2 body t1 hf1 hbv hbt, hbc, bind_apply,
      run_group_append (run env m2) post pre none [] t1, bind_ok hpre2,
      run_group_flagged (run env m2) post r0.1 r0.2 q hq]
  · rw [run_for_node env (m + 1) u s hf htext hv hg hc,
      bind_ok (show run_for env (run env (m + 1)) (m + 1) u s =
        .ok () { s1 with mem := memory.remove s1.mem lhs.val.val } by
        rw [run_for_parts env hm (run env (m + 1)) (m + 1) u of_node lhs rhs body s hch hof
          hoch hsym hrange hfree, bind_ok hsetup, bind_ok hloop]
        rfl)]
    rfl
  · rw [g4]; exact hcr
  · rw [g5]; exact hcc
  · rw [g6]; exact hcb
  · rw [g7]; exact c5.trans hrv
  · rw [hpre rv (by simpa using hrvlt) hne]
    show (t3.heap.set s.heap.length _)[rv]? = t3.heap[rv]?
    rw [List.getElem?_set_ne (Ne.symm hne)]
  · rw [g1]; exact c2
  · rw [g3]; exact c4
  · rw [g2]; exact c3

set_option maxHeartbeats 1000000 in
/-- Counterexample to C21: in `for i of range(3) { return break }` the body
raises the return signal in the first turn; the loop ends right there, with
the loop variable still at 0 and not advanced to the end 3. -/
theorem return_break_ends_loop :
    (run Sample.env 6 Sample.for_ret_break (Sample.start .o_none [])).is_ok = true ∧
    ((run Sample.env 6 Sample.for_ret_break (Sample.start .o_none [])).state
      (Sample.start .o_none [])).has_return = true ∧
    (run Sample.env 6 Sample.for_ret_break (Sample.start .o_none [])).store_at 1 =
      some (.d 0) := by
  refine ⟨?_, ?_, ?_⟩ <;> decide!

set_option maxHeartbeats 4000000 in
/-- Witness of C21: `for i of range(3) { if i == 1 { return i }; outl "x" }`
writes `x` once, in the first turn; the second turn returns; the node ends
with the return flag set, the return slot as the body left it, and the loop
variable advanced to the end. -/
theorem for_return_idles_witness :
    ∃ (s1 : State) (v1 : Int),
      run Sample.env 9 Sample.for_ret (Sample.start .o_num []) = .ok s1.heap.length
        { s1 with
          mem := memory.remove s1.mem "i"
          heap := s1.heap ++ [Sample.env.construct .o_none] } ∧
      s1.has_return = true ∧ s1.return_val = some 19 ∧ s1.output = ["x", endl] ∧
      3 ≤ v1 ∧ has_num s1.heap 1 .o_num v1 := by
  obtain ⟨s1, v1, _, h2, _, h4, _, _, h7, _, _, h10, _, h12, h13⟩ :=
    (for_return_idles Sample.env Sample.num_model 8 1 Sample.for_ret
      (Sample.node "of" .t_builtin 2
        [Sample.sym "i", Sample.node "range" .t_symbol 0 [Sample.num "3"]])
      (Sample.sym "i") (Sample.node "range" .t_symbol 0 [Sample.num "3"]) Sample.ret_body
      (Sample.start .o_num []) (Sample.ret_setup.state (Sample.start .o_num []))
      (Sample.ret_turns.state (Sample.start .o_num []))
      (Sample.ret_test.state (Sample.start .o_num []))
      (Sample.ret_run.state (Sample.start .o_num []))
      Sample.ret_test.value Sample.ret_run.value 19 1 3 1
      rfl rfl rfl (by decide) rfl rfl rfl rfl rfl rfl rfl
      (Res.eq_ok_of_result Sample.ret_setup () (Sample.start .o_num []) (by decide!))
      (Res.eq_ok_of_result Sample.ret_turns true (Sample.start .o_num []) (by decide!))
      (Res.eq_ok Sample.ret_test (Sample.start .o_num []) (by decide!))
      (get_bool_of_view (by decide!))
      (Res.eq_ok Sample.ret_run (Sample.start .o_num []) (by decide!))
      (by decide!) (by decide!) (by decide!) (by decide!) (by decide)
      (has_num_of_views (by decide!)) (has_num_of_views (by decide!))
      (has_num_of_views (by decide!)) (by decide) (by decide) (by decide) (by decide)
      (by decide) (by decide) (by decide)).2.2
  exact ⟨s1, v1, h2, h4, h7, h10.trans (by decide!), h12, h13⟩

/-! ## The sample model with doubles

`Sample.env_double` rounds sums as doubles do.  It satisfies `NumModel`, whose
laws stop at `exact_bound`; beyond the bound its loop variable can stay where
it is. -/

theorem Sample.halvings_spec : ∀ (f n : Nat), n ≤ f → 1 ≤ n →
    2 ^ Sample.halvings f n ≤ n ∧ n < 2 ^ (Sample.halvings f n + 1) := by
  intro f
  induction f with
  | zero => intro n h1 h2; omega
  | succ f ih =>
    intro n h1 h2
    unfold Sample.halvings
    split
    · rename_i h
      obtain ⟨i1, i2⟩ := ih (n / 2) (by omega) (by omega)
      constructor
      · rw [pow_succ]; omega
      · rw [pow_succ]; omega
    · simp; omega

theorem Sample.round_even_whole (z : Int) : Sample.round_even (z : Rat) = z := by
  unfold Sample.round_even
  have hf : (z : Rat).floor = z := by
    simp [Rat.floor]
  rw [hf]
  simp

/-- A whole number of magnitude at most `exact_bound` is a double: rounding
leaves it as it is. -/
theorem Sample.to_double_whole (n : Int) (h1 : -exact_bound ≤ n) (h2 : n ≤ exact_bound) :
    Sample.to_double (n : Rat) = n := by
  unfold exact_bound at h1 h2
  by_cases h0 : n = 0
  · subst h0
    simp [Sample.to_double]
  have hm1 : 1 ≤ n.natAbs := by omega
  have hm2 : n.natAbs ≤ 2 ^ 53 := by
    norm_num
    omega
  obtain ⟨i1, i2⟩ := Sample.halvings_spec n.natAbs n.natAbs (le_refl _) hm1
  generalize hk : Sample.halvings n.natAbs n.natAbs = k at i1 i2
  have hk53 : k ≤ 53 := by
    by_contra hc
    have : 2 ^ 54 ≤ 2 ^ k := Nat.pow_le_pow_right (by norm_num) (by omega)
    omega
  have habs : |(n : Rat)| = (n.natAbs : Rat) := by
    rw [← Int.cast_abs, Int.abs_eq_natAbs n, Int.cast_natCast]
  have hne : (n : Rat) ≠ 0 := by exact_mod_cast h0
  have hone : Sample.halvings 1 1 = 0 := by decide
  unfold Sample.to_double
  simp only [hne, if_false, Rat.num_intCast, Rat.den_intCast, hk, hone, Nat.cast_zero, sub_zero]
  have hle : (2 : Rat) ^ (k : Int) ≤ |(n : Rat)| := by
    rw [habs, zpow_natCast]
    exact_mod_cast i1
  simp only [hle, if_true]
  obtain ⟨z, hz⟩ : ∃ z : Int, (n : Rat) / (2 : Rat) ^ ((k : Int) - 52) = z := by
    by_cases hk52 : k ≤ 52
    · refine ⟨n * 2 ^ (52 - k), ?_⟩
      have : ((k : Int) - 52) = -((52 - k : Nat) : Int) := by omega
      rw [this, zpow_neg, zpow_natCast, div_inv_eq_mul]
      push_cast
      rfl
    · have hk2 : k = 53 := by omega
      subst hk2
      have hm : n.natAbs = 2 ^ 53 := by omega
      have hn : n = 2 ^ 53 ∨ n = -2 ^ 53 := by
        norm_num at hm ⊢
        omega
      rcases hn with hn | hn
      · exact ⟨2 ^ 52, by rw [hn]; norm_num⟩
      · exact ⟨-2 ^ 52, by rw [hn]; norm_num⟩
  rw [hz, Sample.round_even_whole, ← hz]
  have hp : (2 : Rat) ^ ((k : Int) - 52) ≠ 0 := zpow_ne_zero _ (by norm_num)
  field_simp

/-- In the model with doubles `less_than` compares two numbers exactly. -/
theorem Sample.less_than_double (h : List object) (p q : Nat) (x y : object) (a b : Rat)
    (hx : h[p]? = some x) (hy : h[q]? = some y) (hxs : x.store = .d a) (hys : y.store = .d b) :
    Sample.env_double.method "less_than" h p [q] =
      .ok (h ++ [{ Sample.construct .o_bool with store := .b (decide (a < b)) }], h.length) := by
  show Sample.method_double "less_than" h p [q] = _
  unfold Sample.method_double
  rw [if_neg (by decide)]
  unfold Sample.method
  simp [hx, hy, Sample.compare, hxs, hys, Except.map]

/-- In the model with doubles `add_equal` leaves in the receiver the double
nearest to the sum. -/
theorem Sample.add_equal_double (h : List object) (p q : Nat) (x y : object) (a b : Rat)
    (hx : h[p]? = some x) (hy : h[q]? = some y) (hxs : x.store = .d a) (hys : y.store = .d b) :
    Sample.env_double.method "add_equal" h p [q] =
      .ok (h.set p { x with store := .d (Sample.to_double (a + b)) }, p) := by
  have hlt : p < h.length := by
    by_contra hge
    rw [List.getElem?_eq_none (by omega)] at hx
    cases hx
  have hm : Sample.method "add_equal" h p [q] =
      .ok (h.set p { x with store := .d (a + b) }, p) := by
    unfold Sample.method
    simp [hx, hy, Sample.arith, hxs, hys, Except.map]
  show Sample.method_double "add_equal" h p [q] = _
  unfold Sample.method_double
  rw [if_pos (by decide), hm]
  simp [Except.map, Sample.round_at, hlt]

theorem Sample.double_model : NumModel Sample.env_double where
  construct_type := Sample.construct_type
  set_num := by
    intro v h p o ho
    show Sample.set (.d v) h p = _
    unfold Sample.set
    rw [ho]
  equal_copy := by
    intro h a b x y hx hy ht
    show Sample.method_double "equal" h a [b] = _
    unfold Sample.method_double
    rw [if_neg (by decide)]
    exact Sample.equal_law h a b x y hx hy ht
  less_than_num := by
    intro h p q x y a b hx hy hxs hys _ _ _ _
    refine ⟨{ Sample.construct .o_bool with store := .b (decide (a < b)) }, ?_, rfl⟩
    rw [Sample.less_than_double h p q x y a b hx hy hxs hys]
    simp
  add_equal_num := by
    intro h p q x y a b hx hy hxs hys _ _ _ _ h1 h2
    rw [Sample.add_equal_double h p q x y a b hx hy hxs hys, ← Int.cast_add,
      Sample.to_double_whole (a + b) h1 h2]

theorem Res.eq_out {α : Type} (r : Res α) (h1 : r.is_ok = false) (h2 : r.failure = none) :
    r = .out_of_fuel := by
  cases r with
  | ok a s => cases h1
  | fail e s => cases h2
  | out_of_fuel => rfl

theorem range_setup_le (env : Env) {r1 r2 : ast_node → M Nat} (h : ∀ u, M.le (r1 u) (r2 u))
    (range : ast_node) (it start end_ every : Nat) :
    M.le (range_setup env r1 range it start end_ every)
      (range_setup env r2 range it start end_ every) := by
  unfold range_setup
  refine M.bind_le (run_range_args_le env h _) (fun _ => ?_)
  exact M.le_refl _

set_option maxHeartbeats 1000000 in
/-- In the model with doubles the loop of `for_big` never ends: the loop
variable holds 2^53, the step leaves it there (2^53 + 1 is rounded back to
2^53), and the test against 2^53 + 2 stays true. -/
theorem Sample.big_loop_stuck (n : Nat) : ∀ (k : Nat) (t : State), t.flagged = false →
    has_num t.heap 1 .o_num 9007199254740992 → has_num t.heap 3 .o_num 9007199254740994 →
    has_num t.heap 4 .o_num 1 →
    for_loop Sample.env_double (run Sample.env_double n) Sample.for_big 1 3 4 k t =
      .out_of_fuel := by
  intro k
  induction k with
  | zero => intro t _ _ _ _; rfl
  | succ k ih =>
    intro t hf hi he hs
    obtain ⟨x, hx1, hx2, hx3⟩ := hi
    obtain ⟨y, hy1, hy2, hy3⟩ := he
    obtain ⟨z, hz1, hz2, hz3⟩ := hs
    have hlt : call Sample.env_double "less_than" 1 [3] t = .ok t.heap.length
        { t with heap := t.heap ++ [{ Sample.construct .o_bool with store := .b true }] } := by
      unfold call
      rw [Sample.less_than_double t.heap 1 3 x y _ _ hx1 hy1 hx3 hy3]
      rfl
    have hgb : get_bool t.heap.length
        { t with heap := t.heap ++ [{ Sample.construct .o_bool with store := .b true }] } =
        .ok true
          { t with heap := t.heap ++ [{ Sample.construct .o_bool with store := .b true }] } := by
      apply get_bool_ok (o := { Sample.construct .o_bool with store := .b true })
      · simp
      · rfl
    rw [for_loop, bind_ok hlt, bind_ok hgb]
    simp only [if_true]
    rw [bind_ok (child_ok (show Sample.for_big.children[1]? = some (Sample.group []) from rfl) _)]
    cases n with
    | zero => rfl
    | succ m =>
      have hf1 : State.flagged
          { t with heap := t.heap ++ [{ Sample.construct .o_bool with store := .b true }] ++
            [Sample.env_double.construct .o_none] } = false := hf
      rw [bind_ok (show run Sample.env_double (m + 1) (Sample.group []) _ = _ from
        (run_empty_group Sample.env_double m (Sample.group []) _ rfl rfl rfl).trans
          (new_object_apply _ _ _)),
        bind_ok (modify_apply _ _), clear_continue_of_unflagged _ hf1, bind_ok (get_apply _)]
      have hbrk : t.has_break = false := ((flagged_false_iff t).mp hf).2.2
      have hx1b : (t.heap ++ [{ Sample.construct .o_bool with store := .b true }] ++
          [Sample.env_double.construct .o_none])[1]? = some x :=
        getElem?_append_some (getElem?_append_some hx1 _) _
      have hz1b : (t.heap ++ [{ Sample.construct .o_bool with store := .b true }] ++
          [Sample.env_double.construct .o_none])[4]? = some z :=
        getElem?_append_some (getElem?_append_some hz1 _) _
      have hround : Sample.to_double (9007199254740992 + 1) = 9007199254740992 := by decide!
      have hadd : call Sample.env_double "add_equal" 1 [4]
          { t with heap := t.heap ++ [{ Sample.construct .o_bool with store := .b true }] ++
            [Sample.env_double.construct .o_none] } =
          .ok 1 { t with heap := ((t.heap ++
            [{ Sample.construct .o_bool with store := .b true }] ++
            [Sample.env_double.construct .o_none]).set 1
              ({ x with store := .d 9007199254740992 } : object)) } := by
        unfold call
        simp only [Sample.add_equal_double _ 1 4 x z _ _ hx1b hz1b hx3 hz3, hround]
      split
      · rename_i hbb
        exact absurd hbb (by simp [hbrk])
      · rw [bind_ok hadd]
        exact ih _ hf (has_num_set_self _ hx1b hx2)
          (has_num_set_ne (has_num_append (has_num_append ⟨y, hy1, hy2, hy3⟩ _) _) (by decide) _)
          (has_num_set_ne (has_num_append (has_num_append ⟨z, hz1, hz2, hz3⟩ _) _) (by decide) _)

set_option maxHeartbeats 4000000 in
/-- Counterexample to C7: `for i of range(9007199254740992, 9007199254740994)
{ }`, a range from 2^53 to 2^53 + 2 with step 1, in the sample model whose
sums are rounded as doubles are.  The claim has the body run for 2^53 and
2^53 + 1 and the loop end.  The loop variable is still at 2^53 after three
turns, with the loop going on, and the node returns for no amount of fuel. -/
theorem big_range_never_ends :
    (range_values 9007199254740992 9007199254740994 1 =
      [9007199254740992, 9007199254740993]) ∧
    Sample.big_turns.result = some true ∧
    Sample.big_turns.store_at 1 = some (.d 9007199254740992) ∧
    ∀ n, run Sample.env_double n Sample.for_big (Sample.start .o_none []) = .out_of_fuel := by
  refine ⟨by decide!, by decide!, by decide!, fun n => ?_⟩
  cases n with
  | zero => rfl
  | succ n =>
    rw [run_for_node Sample.env_double n Sample.for_big (Sample.start .o_none []) rfl rfl rfl
      (by decide) rfl]
    refine bind_out ?_
    rw [run_for_parts Sample.env_double Sample.double_model (run Sample.env_double n) n
      Sample.for_big
      (Sample.node "of" .t_builtin 2 [Sample.sym "i", Sample.node "range" .t_symbol 0
        [Sample.num "9007199254740992", Sample.num "9007199254740994"]])
      (Sample.sym "i")
      (Sample.node "range" .t_symbol 0
        [Sample.num "9007199254740992", Sample.num "9007199254740994"])
      (Sample.group []) (Sample.start .o_none []) rfl rfl rfl rfl rfl rfl]
    cases n with
    | zero => rfl
    | succ n =>
      have hset : range_setup Sample.env_double (run Sample.env_double (n + 1))
          (Sample.node "range" .t_symbol 0
            [Sample.num "9007199254740992", Sample.num "9007199254740994"]) 1 2 3 4
          (for_entry Sample.env_double "i" (Sample.start .o_none [])) =
          .ok () (Sample.big_setup.state (Sample.start .o_none [])) :=
        M.le_ok (range_setup_le Sample.env_double
          (run_le Sample.env_double 1 (n + 1) (by omega)) _ 1 2 3 4)
          (Res.eq_ok_of_result Sample.big_setup () (Sample.start .o_none []) (by decide!))
      show (range_setup Sample.env_double (run Sample.env_double (n + 1))
          (Sample.node "range" .t_symbol 0
            [Sample.num "9007199254740992", Sample.num "9007199254740994"]) 1 2 3 4 >>= fun _ =>
        for_loop Sample.env_double (run Sample.env_double (n + 1)) Sample.for_big 1 3 4 (n + 1)
          >>= fun _ => M.modify (fun s => { s with mem := memory.remove s.mem "i" }))
        (for_entry Sample.env_double "i" (Sample.start .o_none [])) = .out_of_fuel
      rw [bind_ok hset]
      refine bind_out ?_
      exact Sample.big_loop_stuck (n + 1) (n + 1) _ (by decide!)
        (has_num_of_views (by decide!)) (has_num_of_views (by decide!))
        (has_num_of_views (by decide!))

/-- A symbol bound to an object that is not a function evaluates to that
object. -/
theorem run_symbol_var (env : Env) (rec : ast_node → M Nat) (k : Nat) (u : ast_node)
    (s : State) (p : Nat) (o : object) (hhas : memory.has s.mem u.val.val = true)
    (hget : memory.get s.mem u.val.val = some p) (ho : s.heap[p]? = some o)
    (hnf : o.type ≠ .o_fn) : run_symbol env rec k u s = .ok p s := by
  unfold run_symbol
  rw [bind_ok (get_apply s)]
  simp only [hhas, if_true, hget]
  rw [bind_ok (deref_ok ho)]
  simp only [hnf, ne_eq, not_false_eq_true, if_true]
  rfl

/-- The body `x += i`, run in a state in which `x` and `i` are bound to the
numbers at pointers 2 and 3: the number of `i` is added to that of `x`, and
the group builds its vacant object. -/
theorem Sample.sum_body_run (s1 : State) (w v : Rat) (ox oi : object)
    (hf : s1.flagged = false)
    (hx : memory.has s1.mem "x" = true) (hx2 : memory.get s1.mem "x" = some 2)
    (hi : memory.has s1.mem "i" = true) (hi2 : memory.get s1.mem "i" = some 3)
    (h2 : s1.heap[2]? = some ox) (hxt : ox.type = .o_num) (hxs : ox.store = .d w)
    (h3 : s1.heap[3]? = some oi) (hit : oi.type = .o_num) (his : oi.store = .d v) :
    run Sample.env 3 Sample.sum_body s1 =
      .ok s1.heap.length
        { s1 with heap := (s1.heap.set 2 ({ ox with store := .d (w + v) } : object)) ++
          [Sample.construct .o_none] } := by
  have hsx : run Sample.env 1 (Sample.sym "x") s1 = .ok 2 s1 := by
    rw [run_symbol_node Sample.env 0 (Sample.sym "x") s1 hf rfl rfl rfl]
    exact run_symbol_var Sample.env _ 0 _ s1 2 ox hx hx2 h2 (by rw [hxt]; decide)
  have hsi : run Sample.env 1 (Sample.sym "i") s1 = .ok 3 s1 := by
    rw [run_symbol_node Sample.env 0 (Sample.sym "i") s1 hf rfl rfl rfl]
    exact run_symbol_var Sample.env _ 0 _ s1 3 oi hi hi2 h3 (by rw [hit]; decide)
  have hadd : call Sample.env "add_equal" 2 [3] s1 =
      .ok 2 { s1 with heap := (s1.heap.set 2 ({ ox with store := .d (w + v) } : object)) } := by
    unfold call
    have hm : Sample.env.method "add_equal" s1.heap 2 [3] =
        .ok (s1.heap.set 2 { ox with store := .d (w + v) }, 2) := by
      show Sample.method "add_equal" s1.heap 2 [3] = _
      unfold Sample.method
      simp [h2, h3, Sample.arith, hxs, his, Except.map]
    rw [hm]
  have hop : run Sample.env 2 (Sample.op "+=" [Sample.sym "x", Sample.sym "i"]) s1 =
      .ok 2 { s1 with heap := (s1.heap.set 2 ({ ox with store := .d (w + v) } : object)) } := by
    rw [run_builtin_node Sample.env 1 (Sample.op "+=" [Sample.sym "x", Sample.sym "i"]) s1 hf
      rfl rfl rfl rfl (by decide) (by decide) (by decide) (by decide),
      bind_ok (show run_children (run Sample.env 1)
        (Sample.op "+=" [Sample.sym "x", Sample.sym "i"]).children s1 = .ok [2, 3] s1 from
        run_children_two hsx hsi),
      run_ladder_binary Sample.env _ "add_equal" 2 3 s1 (by decide)]
    exact hadd
  rw [run_group_loop Sample.env 2 Sample.sum_body s1 hf rfl rfl]
  show (run_group (run Sample.env 2) none []
    [Sample.op "+=" [Sample.sym "x", Sample.sym "i"]] >>= fun _ =>
      new_object Sample.env .o_none) s1 = _
  rw [bind_ok (show run_group (run Sample.env 2) none []
      [Sample.op "+=" [Sample.sym "x", Sample.sym "i"]] s1 =
      .ok () { s1 with heap := (s1.heap.set 2 ({ ox with store := .d (w + v) } : object)) } by
    rw [run_group_cons_plain _ none [] _ [] s1 hf (by decide) (by decide), bind_ok hop]
    rfl), new_object_apply]
  simp
  rfl

set_option maxHeartbeats 4000000 in
/-- Witness of C7: `for i of range(3) { x += i }`, run where `x` is a number
holding 0.  The body reads the loop variable and changes `x`; the property
kept is that `x` and `i` stay bound to their objects and that `x` holds
0 + 1 + ... + (i - 1) at the turn for `i`.  The node terminates, its loop runs
the body for 0, 1, 2, in that order, and `x` ends at 3; and `range(3)`,
`range(1, 4)` and `range(0, 10, 2)` stand for the values 0,1,2, then 1,2,3,
then 0,2,4,6,8. -/
theorem for_range_visits_witness :
    (∃ N, ∀ n, N ≤ n → ∃ s0 s1,
      for_loop_visits Sample.env (run Sample.env n) Sample.for_sum 3 5 6 n s0 =
        .ok [some (.d 0), some (.d 1), some (.d 2)] s1 ∧
      (run Sample.env (n + 1) Sample.for_sum Sample.state_bound).is_ok = true ∧
      has_num s1.heap 3 .o_num 3 ∧ has_num s1.heap 2 .o_num 3) ∧
    (run Sample.env 6 Sample.for_sum Sample.state_bound).store_at 2 = some (.d 3) ∧
    (range_bounds [3]).map (fun b => range_values b.1 b.2.1 b.2.2) = some [0, 1, 2] ∧
    (range_bounds [1, 4]).map (fun b => range_values b.1 b.2.1 b.2.2) = some [1, 2, 3] ∧
    (range_bounds [0, 10, 2]).map (fun b => range_values b.1 b.2.1 b.2.2) =
      some [0, 2, 4, 6, 8] := by
  refine ⟨?_, by decide!, by decide, by decide, by decide⟩
  obtain ⟨N, hN⟩ := (for_range_visits Sample.env Sample.num_model Sample.for_sum
    (Sample.node "of" .t_builtin 2 [Sample.sym "i", Sample.node "range" .t_symbol 0 [Sample.num "3"]])
    (Sample.sym "i") (Sample.node "range" .t_symbol 0 [Sample.num "3"]) Sample.sum_body
    Sample.state_bound (Sample.args_sum.state Sample.state_bound) 1 [7] [3]
    0 3 1
    (fun v t => memory.has t.mem "x" = true ∧ memory.get t.mem "x" = some 2 ∧
      memory.has t.mem "i" = true ∧ memory.get t.mem "i" = some 3 ∧
      has_num t.heap 2 .o_num ((v : Rat) * ((v : Rat) - 1) / 2))
    rfl rfl rfl (by decide) rfl rfl rfl rfl rfl rfl rfl
    (Res.eq_ok_of_result Sample.args_sum [7] _ (by decide!))
    (by decide!)
    (has_type_of_view (by decide!))
    (has_num_of_views (by decide!))
    (has_num_of_views (by decide!))
    (has_num_of_views (by decide!))
    (by decide!)
    (by decide)
    rfl (by decide) (by decide) (by decide) (by decide) (by decide) (by decide)
    ⟨by decide!, by decide!, by decide!, by decide!, has_num_of_views (by decide!)⟩
    (by
      rintro v t h2 ⟨j1, j2, j3, j4, o, ho, hot, hos⟩ hfr
      exact ⟨j1, j2, j3, j4, o, hfr 2 o (Or.inl (by decide)) ho, hot, hos⟩)
    (by
      rintro v s1 hf _ _ ⟨oi, hi1, hi2, hi3⟩ h2 h3 ⟨j1, j2, j3, j4, ox, hx1, hx2, hx3⟩
      refine ⟨3, _, _,
        Sample.sum_body_run s1 _ v ox oi hf j1 j2 j3 j4 hx1 hx2 hx3 hi1 hi2 hi3, hf,
        has_num_append (has_num_set_ne ⟨oi, hi1, hi2, hi3⟩ (by decide) _) _,
        has_num_append (has_num_set_ne h2 (by decide) _) _,
        has_num_append (has_num_set_ne h3 (by decide) _) _,
        j1, j2, j3, j4, ?_⟩
      have hsum : (v : Rat) * ((v : Rat) - 1) / 2 + (v : Rat) =
          ((v + 1 : Int) : Rat) * (((v + 1 : Int) : Rat) - 1) / 2 := by
        push_cast
        ring
      rw [← hsum]
      exact has_num_append (has_num_set_self _ hx1 hx2) _)).2
  refine ⟨N, fun n hn => ?_⟩
  obtain ⟨s0, s1, _, _, h3, h4, a1, hle, hor, hfin, _, _, _, _, hx⟩ := hN n hn
  have hv : (range_values 0 3 1).map (fun (v : Int) => some (store_t.d (v : Rat))) =
      [some (.d 0), some (.d 1), some (.d 2)] := by decide!
  rw [hv] at h3
  have ha1 : a1 = 3 := by omega
  subst ha1
  refine ⟨s0, s1, h3, by rw [h4]; rfl, hfin, ?_⟩
  have h33 : ((3 : Int) : Rat) * (((3 : Int) : Rat) - 1) / 2 = 3 := by norm_num
  rw [h33] at hx
  exact hx

end Qi
